import Mathlib

/-!
# n2ajl: UTF-8 iteration, the Node value type, the parser and the serializer

A shallow embedding of `include/n2ajl/UTF.h`, `src/Node.cpp`, `src/Parser.cpp`
and `src/Serializer.cpp`.

Conventions of the embedding:

* a byte buffer is a `List Nat`; a pointer into it is the offset from its start;
  a C string ends at the first `0` of the list, or at the end of the list;
* functions that mutate their receiver return the new receiver next to their
  result;
* `std::abort()` is the outcome `Outcome.abort`; loops run on a step budget
  and report `Outcome.nofuel` when it is used up; reading a vector outside its
  bounds is `Outcome.undefined`;
* `double` is a type parameter `D`; `strtod` and `std::to_string` of the C/C++
  library are parameters of the functions that call them;
* a function that appends to its `std::string& out` returns the text appended;
* `snprintf` into `szError` keeps 255 bytes of the formatted text; its `%d`,
  given a `size_t`, prints the low 32 bits as a signed number (`printD`).
-/

namespace n2ajl

/-! ## Outcomes -/

/-- What running a piece of the program yields. -/
inductive Outcome (α : Type) where
  | ret (a : α)
  | abort
  | undefined
  | nofuel
  deriving Repr, DecidableEq

/-- Sequencing of outcomes. -/
def Outcome.bind {α β : Type} (o : Outcome α) (f : α → Outcome β) : Outcome β :=
  match o with
  | .ret a => f a
  | .abort => .abort
  | .undefined => .undefined
  | .nofuel => .nofuel

/-! ## UTF.h: UTF8Iterator -/

/-- Length of a C string: the number of bytes before the first NUL. -/
def strlen (str : List Nat) : Nat :=
  (str.takeWhile (fun b => b != 0)).length

/-- The class `UTF8Iterator`: `units`, `endp` (the field `end`) and `last_read`
are offsets into `buf`; `last_read = none` is the null pointer. -/
structure UTF8Iterator where
  buf : List Nat
  units : Nat
  endp : Nat
  last_read : Option Nat
  pos : Nat
  n : Nat
  deriving Repr, DecidableEq

namespace UTF8Iterator

/-- The byte `units[i]`. -/
def unit (it : UTF8Iterator) (i : Nat) : Nat :=
  it.buf.getD (it.units + i) 0

/-- The constructor `UTF8Iterator(const utf8_t* str)`. -/
def new (str : List Nat) : UTF8Iterator :=
  let e := strlen str
  let u :=
    if 3 ≤ e ∧ str.getD 0 0 = 0xEF ∧ str.getD 1 0 = 0xBB ∧ str.getD 2 0 = 0xBF then 3 else 0
  { buf := str, units := u, endp := e, last_read := none, pos := 0, n := 0 }

/-- The private `ReadCodepointBytes`: zero if the lead byte is malformed. -/
def ReadCodepointBytes (it : UTF8Iterator) : Nat :=
  let codepoint := it.unit 0
  if codepoint &&& 0x80 ≠ 0 then
    if codepoint >>> 5 = 0b110 then 2
    else if codepoint >>> 4 = 0b1110 then 3
    else if codepoint >>> 3 = 0b11110 then 4
    else 0
  else 1

/-- The statement `if (units != last_read) n = ReadCodepointBytes();`. -/
def refresh (it : UTF8Iterator) : UTF8Iterator :=
  if it.last_read ≠ some it.units then { it with n := it.ReadCodepointBytes } else it

/-- One `case` arm of the switch in `Read`, for the byte `units[i]`:
`none` is `return 0`. -/
def contArm (it : UTF8Iterator) (n i codepoint : Nat) : Option Nat :=
  if it.unit i >>> 6 ≠ 0b10 then none
  else some (codepoint ||| ((it.unit i &&& 0x3F) <<< ((n - (i + 1)) * 6)))

/-- The switch of `Read` with its fall-through: `case 4` runs the arms for
`units[3]`, `units[2]`, `units[1]`; `case 3` the last two; `case 2` the last. -/
def contSwitch (it : UTF8Iterator) (n codepoint : Nat) : Option Nat :=
  match n with
  | 4 => (it.contArm n 3 codepoint).bind fun c =>
         (it.contArm n 2 c).bind fun c => it.contArm n 1 c
  | 3 => (it.contArm n 2 codepoint).bind fun c => it.contArm n 1 c
  | 2 => it.contArm n 1 codepoint
  | _ => none

/-- The mask `~(uint32_t(-1) << (7 - n))` in 32-bit arithmetic. -/
def leadMask (n : Nat) : Nat :=
  0xFFFFFFFF ^^^ ((0xFFFFFFFF <<< (7 - n)) % 2 ^ 32)

/-- The member `Read`: the codepoint read and the iterator afterwards. -/
def Read (it : UTF8Iterator) : Nat × UTF8Iterator :=
  if it.units ≥ it.endp then (0, it)
  else
    let codepoint := it.unit 0
    if codepoint &&& 0x80 ≠ 0 then
      let it1 := it.refresh
      if it1.n = 0 then (0, it1)
      else if it1.units + it1.n > it1.endp then (0, it1)
      else
        let codepoint := codepoint &&& leadMask it1.n
        let codepoint := (codepoint <<< ((it1.n - 1) * 6)) % 2 ^ 32
        match it1.contSwitch it1.n codepoint with
        | none => (0, it1)
        | some codepoint =>
          if codepoint > 0x10FFFF then (0, it1)
          else (codepoint, { it1 with last_read := some it1.units })
    else
      (codepoint, { it with n := 1, last_read := some it.units })

/-- The member `Advance`: success flag and the iterator afterwards. -/
def Advance (it : UTF8Iterator) : Bool × UTF8Iterator :=
  if it.units ≥ it.endp then (false, it)
  else
    let it1 := it.refresh
    if it1.n = 0 then (false, it1)
    else if it1.units + it1.n > it1.endp then (false, it1)
    else (true, { it1 with units := it1.units + it1.n, pos := it1.pos + 1 })

/-- The getter `GetNumBytesLeft`. -/
def GetNumBytesLeft (it : UTF8Iterator) : Nat := it.endp - it.units

/-- The getter `GetPosition`. -/
def GetPosition (it : UTF8Iterator) : Nat := it.pos

/-- The getter `GetCodepointBytes`. -/
def GetCodepointBytes (it : UTF8Iterator) : Nat := it.n

/-- The getter `GetReadPtr`, as an offset into the buffer. -/
def GetReadPtr (it : UTF8Iterator) : Nat := it.units

end UTF8Iterator

/-! ## UTF.h: UTF32ToUTF8 -/

/-- One round of the loop `for (i = 0; i < num - 1; i++)` of `UTF32ToUTF8`:
a store into `char bytes[4]` keeps the low eight bits. -/
def UTF32ToUTF8.round (st : Nat × List Nat) (i : Nat) : Nat × List Nat :=
  (st.1 >>> 6, st.2.set i ((0b10000000 ||| (st.1 &&& 0b111111)) % 256))

/-- The function `UTF32ToUTF8`: the returned count and the array `bytes[4]`
as the function leaves it. -/
def UTF32ToUTF8 (codepoint : Nat) : Nat × List Nat :=
  let bytes := [0, 0, 0, 0]
  if codepoint < 0x80 then (1, bytes.set 0 (codepoint % 256))
  else
    let num :=
      if codepoint ≥ 0x10000 then 4
      else if codepoint ≥ 0x800 then 3
      else if codepoint ≥ 0x80 then 2
      else 1
    let st := (List.range (num - 1)).foldl UTF32ToUTF8.round (codepoint, bytes)
    (num, st.2.set (num - 1) (((0b11110000 <<< (4 - num)) ||| ((0b1111111 >>> num) &&& st.1)) % 256))

/-! ## Node.h, Node.cpp -/

/-- The enumeration `Node::Type`. -/
inductive NodeType where
  | Null
  | Boolean
  | Number
  | String
  | Array
  | Object
  deriving Repr, DecidableEq

/-- The class `Node`: the active member of the union, and for an array the
field `m_eElementType` (which is `Null` in every other node). A string is its
bytes, a `std::map` its entries in ascending key order. -/
inductive Node (D : Type) where
  | null
  | boolean (m_bValue : Bool)
  | number (m_dblValue : D)
  | string (m_szValue : List Nat)
  | array (m_eElementType : NodeType) (m_vElements : List (Node D))
  | object (m_mChildren : List (List Nat × Node D))

/-- The order of `std::string` keys: bytes compared lexicographically. -/
def strLt : List Nat → List Nat → Bool
  | [], [] => false
  | [], _ :: _ => true
  | _ :: _, [] => false
  | a :: as, b :: bs => if a < b then true else if b < a then false else strLt as bs

/-- The statement `m[k] = v` on a `std::map` with string keys. -/
def mapAssign {V : Type} (m : List (List Nat × V)) (k : List Nat) (v : V) : List (List Nat × V) :=
  match m with
  | [] => [(k, v)]
  | (k', v') :: rest =>
    if k = k' then (k, v) :: rest
    else if strLt k k' then (k, v) :: (k', v') :: rest
    else (k', v') :: mapAssign rest k v

namespace Node

variable {D : Type}

/-- The getter `GetType`. -/
def GetType : Node D → NodeType
  | .null => .Null
  | .boolean _ => .Boolean
  | .number _ => .Number
  | .string _ => .String
  | .array _ _ => .Array
  | .object _ => .Object

mutual
/-- The node that `operator=(const Node&)` and the copy constructor leave in
the destination: `Reset` zeroes the whole object, then the type and the active
union member are copied, the vector and the map copying their nodes the same
way. `m_eElementType` is not copied and stays `Null`. -/
def copy : Node D → Node D
  | .null => .null
  | .boolean b => .boolean b
  | .number d => .number d
  | .string s => .string s
  | .array _ es => .array .Null (copyElements es)
  | .object ms => .object (copyChildren ms)
/-- Copy of a `std::vector<Node>`. -/
def copyElements : List (Node D) → List (Node D)
  | [] => []
  | e :: es => copy e :: copyElements es
/-- Copy of a `std::map<utf8string, Node>`. -/
def copyChildren : List (List Nat × Node D) → List (List Nat × Node D)
  | [] => []
  | (k, v) :: ms => (k, copy v) :: copyChildren ms
end

/-- The factory `Node::Object()`. -/
def Object : Node D := .object []

/-- The factory `Node::Array()`. -/
def Array : Node D := .array .Null []

/-- The factory `Node::String()`. -/
def String : Node D := .string []

/-- The member `Set`. -/
def Set (self : Node D) (szLabel : List Nat) (n : Node D) : Outcome (Node D) :=
  match self with
  | .object ms => .ret (.object (mapAssign ms szLabel n.copy))
  | _ => .abort

/-- The member `Length`. -/
def Length (self : Node D) : Outcome Nat :=
  match self with
  | .array _ es => .ret es.length
  | _ => .abort

/-- The member `At`; the node pointed to. -/
def At (self : Node D) (i : Nat) : Outcome (Node D) :=
  match self with
  | .array _ es =>
    match es.get? i with
    | some e => .ret e
    | none => .undefined
  | _ => .abort

/-- The member `Append`. -/
def Append (self : Node D) (n : Node D) : Outcome (Node D) :=
  match self with
  | .array et es =>
    let et := if es.isEmpty then n.GetType else et
    if n.GetType ≠ et then .abort
    else .ret (.array et (es ++ [n.copy]))
  | _ => .abort

end Node

/-! ## Parser.h, Parser.cpp -/

/-- The struct `ParserConfig`. -/
structure ParserConfig where
  m_uMaxDepth : Nat := 16

/-- The struct `Result`. -/
structure Result where
  m_bSuccess : Bool
  m_szMsg : List Nat
  deriving Repr, DecidableEq

/-- The bytes of an ASCII literal of the source. -/
def ascii (s : String) : List Nat := s.toList.map Char.toNat

/-- Decimal digits of `n`, most significant first, in front of `acc`. -/
def decimalAux : Nat → Nat → List Nat → List Nat
  | 0, _, acc => acc
  | fuel + 1, n, acc =>
    if n / 10 = 0 then (48 + n % 10) :: acc
    else decimalAux fuel (n / 10) ((48 + n % 10) :: acc)

/-- The decimal digits of `n`. -/
def decimal (n : Nat) : List Nat := decimalAux (n + 1) n []

/-- The conversion `%d` of a position. The argument is a `size_t` where `%d`
takes an `int`: the low 32 bits are printed as a signed number, so a position
below 2^31 is printed as it is. -/
def printD (v : Nat) : List Nat :=
  if v % 2 ^ 32 < 2 ^ 31 then decimal (v % 2 ^ 32) else 0x2D :: decimal (2 ^ 32 - v % 2 ^ 32)

/-- The call `snprintf(szError, sizeof(szError), ...)` on the formatted text:
`szError` has 256 bytes, so 255 bytes of text are kept. -/
def snprintf (text : List Nat) : List Nat := text.take 255

/-- The conversion of `szError` to `std::string`: the bytes before the first NUL. -/
def cstring (szError : List Nat) : List Nat := szError.takeWhile (fun b => b != 0)

/-- The constant `SIZE_MAX` of a 64-bit `size_t`. -/
def SIZE_MAX : Nat := 2 ^ 64 - 1

/-- The function `IsWhitespace`. -/
def IsWhitespace (ch : Nat) : Bool :=
  ch == 0x20 || ch == 0x09 || ch == 0x0A || ch == 0x0D

/-- The function `IsLiteralTerminator`. -/
def IsLiteralTerminator (ch : Nat) : Bool :=
  ch == 0x2C || ch == 0x5D || ch == 0x7D

/-- What a function of the parser that takes the iterator by reference leaves:
its return value, the iterator, the string it filled and `szError`. -/
structure Scan where
  ok : Bool
  iter : UTF8Iterator
  str : List Nat
  szError : List Nat
  deriving Repr, DecidableEq

/-- The loop `while (h && IsWhitespace(h))` of `SkipWhitespace`. -/
def SkipWhitespace.loop : Nat → Nat → UTF8Iterator → Outcome UTF8Iterator
  | 0, _, _ => .nofuel
  | fuel + 1, h, iter =>
    if h ≠ 0 ∧ IsWhitespace h = true then
      let r := iter.Advance.2.Read
      SkipWhitespace.loop fuel r.1 r.2
    else .ret iter

/-- The function `SkipWhitespace`. -/
def SkipWhitespace (iter : UTF8Iterator) (szError : List Nat) : Outcome Scan :=
  let r := iter.Read
  if r.1 = 0 then
    .ret { ok := false, iter := r.2, str := [], szError := snprintf (ascii "Unexpected end of stream") }
  else
    (SkipWhitespace.loop (r.2.GetNumBytesLeft + 1) r.1 r.2).bind fun iter =>
      .ret { ok := true, iter := iter, str := [], szError := szError }

/-- The bytes `start[0 .. len)` of the source buffer. -/
def span (iter : UTF8Iterator) (start len : Nat) : List Nat :=
  (iter.buf.drop start).take len

/-- The loop `while (ch = iter.Read())` of `GetNextString`. -/
def GetNextString.loop (start : Nat) (szError : List Nat) : Nat → Bool → UTF8Iterator → Outcome Scan
  | 0, _, _ => .nofuel
  | fuel + 1, bEscape, iter =>
    let r := iter.Read
    if r.1 = 0 then .ret { ok := false, iter := r.2, str := [], szError := szError }
    else if r.1 = 0x5C ∧ bEscape = false then
      GetNextString.loop start szError fuel true r.2.Advance.2
    else if r.1 = 0x22 ∧ bEscape = false then
      let a := r.2.Advance
      .ret { ok := a.1, iter := a.2, str := span r.2 start (r.2.GetReadPtr - start), szError := szError }
    else
      GetNextString.loop start szError fuel false r.2.Advance.2

/-- The function `GetNextString`. -/
def GetNextString (iter : UTF8Iterator) (szError : List Nat) : Outcome Scan :=
  (SkipWhitespace iter szError).bind fun w =>
    if w.ok = false then .ret { w with str := [] }
    else
      let r := w.iter.Read
      if r.1 ≠ 0x22 then .ret { ok := false, iter := r.2, str := [], szError := w.szError }
      else
        let iter := r.2.Advance.2
        GetNextString.loop iter.GetReadPtr w.szError (iter.GetNumBytesLeft + 1) false iter

/-- The loop `while (ch = iter.Read())` of `GetNextLiteral`. -/
def GetNextLiteral.loop (start : Nat) (szError : List Nat) : Nat → UTF8Iterator → Outcome Scan
  | 0, _ => .nofuel
  | fuel + 1, iter =>
    let r := iter.Read
    if r.1 = 0 then .ret { ok := false, iter := r.2, str := [], szError := szError }
    else if r.1 ≥ 0x7F then .ret { ok := false, iter := r.2, str := [], szError := szError }
    else if IsLiteralTerminator r.1 = true ∨ IsWhitespace r.1 = true then
      if r.2.GetReadPtr ≠ start then
        .ret { ok := true, iter := r.2, str := span r.2 start (r.2.GetReadPtr - start), szError := szError }
      else .ret { ok := false, iter := r.2, str := [], szError := szError }
    else
      GetNextLiteral.loop start szError fuel r.2.Advance.2

/-- The function `GetNextLiteral`. -/
def GetNextLiteral (iter : UTF8Iterator) (szError : List Nat) : Outcome Scan :=
  (SkipWhitespace iter szError).bind fun w =>
    if w.ok = false then .ret { w with str := [] }
    else
      let r := w.iter.Read
      if r.1 = 0x22 then GetNextString r.2 w.szError
      else GetNextLiteral.loop r.2.GetReadPtr w.szError (r.2.GetNumBytesLeft + 1) r.2

/-- The locals of one call of `GenerateNodes` that its lambdas capture by
reference, the node `n` being built, and the thread-local `szError`. -/
structure Scope (D : Type) where
  iter : UTF8Iterator
  n : Node D
  eType : NodeType
  bLabel : Bool
  bTerminated : Bool
  uScopeStart : Nat
  uLabelEnd : Nat
  uMemberStart : Nat
  ch : Nat
  szCurLabel : List Nat
  szError : List Nat

/-- What a call of `GenerateNodes` leaves: its `Result`, the node `n`, the
iterator and `szError`. -/
structure Generated (D : Type) where
  res : Result
  n : Node D
  iter : UTF8Iterator
  szError : List Nat

/-- The type of `GenerateNodes` once its budget is fixed: iterator, `szError`,
`uCurDepth`, `uMaxDepth`, the node passed as `n`. -/
abbrev Generator (D : Type) :=
  UTF8Iterator → List Nat → Nat → Nat → Node D → Outcome (Generated D)

/-- How one round of the scope loop ends: back to the loop test (`continue`, or
through `AdvanceChar`), `break`, or `goto BuildSpanFail`. -/
inductive Ctl where
  | next
  | brk
  | fail
  deriving Repr, DecidableEq

/-- The message `Malformed object, unexpected '%c' at position %d`. -/
def msgUnexpected (ch pos : Nat) : List Nat :=
  snprintf (ascii "Malformed object, unexpected '" ++ [ch % 256] ++ ascii "' at position " ++ printD pos)

/-- The conversion `(uint64_t)z[i]` of a `char`. -/
def charToU64 (b : Nat) : Nat :=
  if b % 256 < 128 then b % 256 else 2 ^ 64 - 256 + b % 256

/-- The switch on `str.length()` in `BuildSpanLiteral` that packs the literal
into `token`; `none` is its `default` arm. -/
def literalToken (str : List Nat) : Option Nat :=
  let z := fun i => charToU64 (str.getD i 0)
  let low := z 0 ||| (z 1 <<< 8) % 2 ^ 64 ||| (z 2 <<< 16) % 2 ^ 64 ||| (z 3 <<< 24) % 2 ^ 64
  match str.length with
  | 5 => some ((z 4 <<< 32) % 2 ^ 64 ||| low)
  | 4 => some low
  | _ => none

section GenerateNodes

variable {D : Type}

/-- A call `snprintf(szError, ...)`: the scope with the new content of `szError`. -/
def Scope.error (s : Scope D) (text : List Nat) : Scope D :=
  { s with szError := text }

/-- The lambda `AddNode`, called on the node `n` of the scope. -/
def AddNode (s : Scope D) (inner : Node D) : Outcome (Bool × Scope D) :=
  match s.n.GetType with
  | .Object =>
    if s.szCurLabel.isEmpty then
      .ret (false, { s with szError := snprintf (ascii "Internal error, missing label") })
    else
      (s.n.Set s.szCurLabel inner).bind fun n =>
        .ret (true, { s with n := n, szCurLabel := [] })
  | .Array =>
    (s.n.Append inner).bind fun n => .ret (true, { s with n := n })
  | _ =>
    .ret (false, { s with szError := snprintf (ascii "Internal error, bad node type") })

/-- The lambda `StringAdvance`. -/
def StringAdvance (s : Scope D) : Outcome (Bool × Scope D) :=
  let a := s.iter.Advance
  if a.1 = false then .ret (false, { s with iter := a.2 })
  else
    (SkipWhitespace a.2 s.szError).bind fun w =>
      if w.ok = false then .ret (false, { s with iter := w.iter, szError := w.szError })
      else
        let r := w.iter.Read
        .ret (r.1 != 0, { s with iter := r.2, szError := w.szError, ch := r.1 })

/-- The lambda `BuildSpanInner`; `gen` is `GenerateNodes`. -/
def BuildSpanInner (gen : Generator D) (uCurDepth uMaxDepth : Nat) (s : Scope D) :
    Outcome (Bool × Scope D) :=
  let uNextDepth := uCurDepth + 1
  if uNextDepth ≥ uMaxDepth then
    .ret (false, s.error
      (snprintf (ascii "Too many nested spans at position " ++ printD s.iter.GetPosition)))
  else
    (gen s.iter s.szError uNextDepth uMaxDepth .null).bind fun g =>
      let s := { s with iter := g.iter, szError := g.szError }
      if g.res.m_bSuccess = false then .ret (false, s)
      else AddNode s g.n

/-- The lambda `BuildSpanLiteral`; `strtod str` is the value and the number of
characters that `strtod` consumed. -/
def BuildSpanLiteral (strtod : List Nat → D × Nat) (s : Scope D) : Outcome (Bool × Scope D) :=
  let uStartPos := s.iter.GetPosition
  (GetNextLiteral s.iter s.szError).bind fun l =>
    let s := { s with iter := l.iter, szError := l.szError }
    if l.ok = false then
      .ret (false, { s with szError := msgUnexpected s.ch s.iter.GetPosition })
    else if s.ch = 0x22 then AddNode s (.string l.str)
    else if s.ch = 0x74 ∨ s.ch = 0x66 ∨ s.ch = 0x6E then
      match literalToken l.str with
      | none => .ret (false, { s with szError := msgUnexpected s.ch uStartPos })
      | some token =>
        if token = 0x65757274 then AddNode s (.boolean true)
        else if token = 0x65736c6166 then AddNode s (.boolean false)
        else if token = 0x6c6c756e then AddNode s .null
        else .ret (false, { s with szError := msgUnexpected s.ch uStartPos })
    else
      let num := strtod l.str
      if num.2 ≠ l.str.length then
        .ret (false, s.error
          (snprintf (ascii "Failed to parse literal at position " ++ printD uStartPos)))
      else AddNode s (.number num.1)

/-- The lambda `ParseMember`. -/
def ParseMember (gen : Generator D) (strtod : List Nat → D × Nat) (uCurDepth uMaxDepth : Nat)
    (s : Scope D) : Outcome (Bool × Scope D) :=
  (if s.ch = 0x7B ∨ s.ch = 0x5B then BuildSpanInner gen uCurDepth uMaxDepth s
   else BuildSpanLiteral strtod s).bind fun b =>
    if b.1 = false then .ret (false, b.2)
    else
      (SkipWhitespace b.2.iter b.2.szError).bind fun w =>
        if w.ok = false then .ret (false, { b.2 with iter := w.iter, szError := w.szError })
        else
          let r := w.iter.Read
          .ret (true, { b.2 with iter := r.2, szError := w.szError, ch := r.1 })

/-- The lambda `CheckMemberTerminationAndAdvance`. -/
def CheckMemberTerminationAndAdvance (s : Scope D) : Outcome (Bool × Scope D) :=
  if IsLiteralTerminator s.ch = false then
    .ret (false, { s with szError := msgUnexpected s.ch s.iter.GetPosition })
  else
    let s := { s with bLabel := false, uLabelEnd := SIZE_MAX, uMemberStart := SIZE_MAX }
    if s.ch = 0x2C then (StringAdvance s).bind fun a => .ret (true, a.2)
    else .ret (true, s)

/-- The label `AdvanceChar`: `StringAdvance()`, then the loop test. -/
def advanceChar (s : Scope D) : Outcome (Ctl × Scope D) :=
  (StringAdvance s).bind fun a => .ret (Ctl.next, a.2)

/-- The body of the scope loop at the start of the span (`eType` is `Null`):
the switch on the opening character. -/
def scopeStart (s : Scope D) : Outcome (Ctl × Scope D) :=
  if s.ch = 0x7B then
    advanceChar { s with n := (Node.Object : Node D).copy, eType := .Object }
  else if s.ch = 0x5B then
    advanceChar { s with n := (Node.Array : Node D).copy, eType := .Array }
  else
    .ret (.fail, s.error
      (snprintf (ascii "Malformed object, found '" ++ [s.ch % 256] ++ ascii "' at position "
        ++ printD s.iter.GetPosition ++ ascii ", expected start character")))

/-- The body of the scope loop in an object that has no label yet. -/
def scopeLabel (s : Scope D) : Outcome (Ctl × Scope D) :=
  if s.ch = 0x22 then
    let uStartPos := s.iter.GetPosition
    (GetNextLiteral s.iter s.szError).bind fun l =>
      if l.ok = false then
        .ret (.fail, { s with bLabel := true, iter := l.iter, szError := msgUnexpected s.ch uStartPos })
      else if l.str.isEmpty then
        .ret (.fail, { s with bLabel := true, iter := l.iter,
                              szError := snprintf (ascii "Empty identifier at position " ++ printD uStartPos) })
      else
        (SkipWhitespace l.iter l.szError).bind fun w =>
          .ret (if w.ok = false then Ctl.fail else Ctl.next,
            { s with bLabel := true, szCurLabel := l.str, uLabelEnd := l.iter.GetPosition,
                     iter := w.iter, szError := w.szError })
  else
    .ret (.fail, s.error
      (snprintf (ascii "Malformed object, expected '\"' at position " ++ printD s.iter.GetPosition)))

/-- The body of the scope loop in an object that has a label and no `:` yet. -/
def scopeColon (s : Scope D) : Outcome (Ctl × Scope D) :=
  if s.ch = 0x3A then advanceChar { s with uMemberStart := s.iter.GetPosition }
  else
    .ret (.fail, s.error
      (snprintf (ascii "Malformed object, expected ':' at position " ++ printD s.iter.GetPosition)))

/-- The end of the body of the scope loop after a member was parsed: the call
of `CheckMemberTerminationAndAdvance`, then `continue`. -/
def scopeTerminator (s : Scope D) : Outcome (Ctl × Scope D) :=
  (CheckMemberTerminationAndAdvance s).bind fun c =>
    if c.1 = false then .ret (.fail, c.2) else .ret (.next, c.2)

/-- The body of the scope loop in an object at the member that follows `:`. -/
def scopeMember (gen : Generator D) (strtod : List Nat → D × Nat) (uCurDepth uMaxDepth : Nat)
    (s : Scope D) : Outcome (Ctl × Scope D) :=
  (ParseMember gen strtod uCurDepth uMaxDepth s).bind fun m =>
    if m.1 = false then .ret (.fail, m.2) else scopeTerminator m.2

/-- The body of the scope loop in an array. -/
def scopeElement (gen : Generator D) (strtod : List Nat → D × Nat) (uCurDepth uMaxDepth : Nat)
    (s : Scope D) : Outcome (Ctl × Scope D) :=
  (ParseMember gen strtod uCurDepth uMaxDepth s).bind fun m =>
    if m.1 = false then .ret (.fail, m.2)
    else
      (m.2.n.Length).bind fun len =>
      (m.2.n.At 0).bind fun first =>
      (if len = 0 then Outcome.undefined else m.2.n.At (len - 1)).bind fun last =>
        if first.GetType ≠ last.GetType then
          .ret (.fail, m.2.error
            (snprintf (ascii "Malformed array, incorrect type at position " ++ printD m.2.iter.GetPosition)))
        else scopeTerminator m.2

/-- The body of the loop `while (ch = iter.Read())` of `GenerateNodes`, entered
with `ch` non-zero. -/
def scopeBody (gen : Generator D) (strtod : List Nat → D × Nat) (uCurDepth uMaxDepth : Nat)
    (s : Scope D) : Outcome (Ctl × Scope D) :=
  if s.ch ≥ 0x7F then
    .ret (.fail, s.error
      (snprintf (ascii "Unexpected character at position " ++ printD s.iter.GetPosition)))
  else if s.eType = .Null then scopeStart s
  else if (s.ch = 0x7D ∧ s.eType = .Object) ∨ (s.ch = 0x5D ∧ s.eType = .Array) then
    .ret (.brk, { s with iter := s.iter.Advance.2, bTerminated := true })
  else if s.eType = .Object then
    if s.bLabel = false then scopeLabel s
    else if s.uMemberStart = SIZE_MAX then scopeColon s
    else scopeMember gen strtod uCurDepth uMaxDepth s
  else if s.eType = .Array then scopeElement gen strtod uCurDepth uMaxDepth s
  else
    .ret (.fail, s.error (snprintf (ascii "Bad span type")))

/-- The loop `while (ch = iter.Read())` of `GenerateNodes`: `true` when the
loop is left by its test or by `break`, `false` on `goto BuildSpanFail`. -/
def scopeLoop (gen : Generator D) (strtod : List Nat → D × Nat) (uCurDepth uMaxDepth : Nat) :
    Nat → Scope D → Outcome (Bool × Scope D)
  | 0, _ => .nofuel
  | fuel + 1, s =>
    let r := s.iter.Read
    let s := { s with iter := r.2, ch := r.1 }
    if r.1 = 0 then .ret (true, s)
    else
      (scopeBody gen strtod uCurDepth uMaxDepth s).bind fun b =>
        match b.1 with
        | .next => scopeLoop gen strtod uCurDepth uMaxDepth fuel b.2
        | .brk => .ret (true, b.2)
        | .fail => .ret (false, b.2)

/-- The label `BuildSpanFail`. -/
def BuildSpanFail (s : Scope D) : Generated D :=
  { res := { m_bSuccess := false, m_szMsg := cstring s.szError },
    n := (Node.null : Node D).copy, iter := s.iter, szError := s.szError }

/-- The statements of `GenerateNodes` after the loop. -/
def scopeEnd (s : Scope D) : Generated D :=
  if s.eType = .Object ∧ s.uLabelEnd ≠ SIZE_MAX then
    BuildSpanFail (s.error
      (snprintf (ascii "Expected an object member at position " ++ printD s.uLabelEnd)))
  else if s.eType ≠ .Null ∧ s.bTerminated = false then
    let chStart := if s.eType = .Object then 0x7B else if s.eType = .Array then 0x5B else 0x20
    let chEnd := if s.eType = .Object then 0x7D else if s.eType = .Array then 0x5D else 0x20
    BuildSpanFail (s.error
      (snprintf (ascii "Expected a terminating '" ++ [chStart] ++ ascii "' for '" ++ [chEnd]
        ++ ascii "' at position " ++ printD s.uScopeStart)))
  else
    { res := { m_bSuccess := true, m_szMsg := [] }, n := s.n, iter := s.iter, szError := s.szError }

/-- The function `GenerateNodes`. The first argument bounds the depth of the
recursion; the scope loop runs on a budget of one round per byte left, plus one. -/
def GenerateNodes (strtod : List Nat → D × Nat) : Nat → Generator D
  | 0, _, _, _, _, _ => .nofuel
  | fuel + 1, iter, szError, uCurDepth, uMaxDepth, _ =>
    let s : Scope D :=
      { iter := iter, n := (Node.null : Node D).copy, eType := .Null, bLabel := false,
        bTerminated := false, uScopeStart := iter.GetPosition, uLabelEnd := SIZE_MAX,
        uMemberStart := SIZE_MAX, ch := 0, szCurLabel := [], szError := szError }
    (SkipWhitespace s.iter s.szError).bind fun w =>
      let s := { s with iter := w.iter, szError := w.szError }
      if w.ok = false then .ret (BuildSpanFail s)
      else
        (scopeLoop (GenerateNodes strtod fuel) strtod uCurDepth uMaxDepth
            (s.iter.GetNumBytesLeft + 1) s).bind fun l =>
          if l.1 = false then .ret (BuildSpanFail l.2) else .ret (scopeEnd l.2)

/-- The function `Parse`: the `Result` returned, the node `json` and `szError`
afterwards. `szError` is the content of the thread-local buffer at the call. -/
def Parse (strtod : List Nat → D × Nat) (cfg : ParserConfig) (szJson : List Nat) (json : Node D)
    (szError : List Nat) : Outcome (Result × Node D × List Nat) :=
  let iter := UTF8Iterator.new szJson
  (GenerateNodes strtod (cfg.m_uMaxDepth + 1) iter szError 0 cfg.m_uMaxDepth json).bind fun g =>
    if g.res.m_bSuccess = false then .ret (g.res, g.n, g.szError)
    else .ret ({ m_bSuccess := true, m_szMsg := [] }, g.n, g.szError)

end GenerateNodes

/-! ## Specification-side definitions -/

/-- Spec: a continuation byte has the form `10xxxxxx`. -/
def isCont (b : Nat) : Bool := 0x80 ≤ b && b < 0xC0

/-- Spec: the length a lead byte announces, `0` when it is no valid lead. -/
def leadLen (b : Nat) : Nat :=
  if b < 0x80 then 1
  else if 0xC0 ≤ b ∧ b < 0xE0 then 2
  else if 0xE0 ≤ b ∧ b < 0xF0 then 3
  else if 0xF0 ≤ b ∧ b < 0xF8 then 4
  else 0

/-- Spec: the value `Read` is to return for the sequence that starts at offset
`u` of `buf`, the buffer ending at offset `e`. -/
def readSpec (buf : List Nat) (u e : Nat) : Nat :=
  let b0 := buf.getD u 0
  let b1 := buf.getD (u + 1) 0
  let b2 := buf.getD (u + 2) 0
  let b3 := buf.getD (u + 3) 0
  if e ≤ u then 0
  else if leadLen b0 = 0 then 0
  else if e < u + leadLen b0 then 0
  else if leadLen b0 = 1 then b0
  else if leadLen b0 = 2 then
    if isCont b1 = false then 0
    else b0 % 32 * 64 + b1 % 64
  else if leadLen b0 = 3 then
    if isCont b1 = false ∨ isCont b2 = false then 0
    else b0 % 16 * 4096 + b1 % 64 * 64 + b2 % 64
  else
    if isCont b1 = false ∨ isCont b2 = false ∨ isCont b3 = false then 0
    else if b0 % 8 * 262144 + b1 % 64 * 4096 + b2 % 64 * 64 + b3 % 64 > 0x10FFFF then 0
    else b0 % 8 * 262144 + b1 % 64 * 4096 + b2 % 64 * 64 + b3 % 64

/-- The cache of the iterator is sound: `last_read` is not ahead of `units`, and
when it equals `units` then `n` is the length that `ReadCodepointBytes` finds. -/
def UTF8Iterator.CacheOk (it : UTF8Iterator) : Prop :=
  ∀ p, it.last_read = some p → p ≤ it.units ∧ (p = it.units → it.n = it.ReadCodepointBytes)


/-- The iterator states that the public interface produces. -/
inductive UTF8Iterator.Reachable : UTF8Iterator → Prop where
  | new (str : List Nat) : Reachable (UTF8Iterator.new str)
  | Read (it : UTF8Iterator) : Reachable it → Reachable it.Read.2
  | Advance (it : UTF8Iterator) : Reachable it → Reachable it.Advance.2

/-- Spec: the canonical UTF-8 encoding of a codepoint, lead byte first. -/
def utf8Canonical (cp : Nat) : List Nat :=
  if cp < 0x80 then [cp]
  else if cp < 0x800 then [0xC0 + cp / 64, 0x80 + cp % 64]
  else if cp < 0x10000 then [0xE0 + cp / 4096, 0x80 + cp / 64 % 64, 0x80 + cp % 64]
  else [0xF0 + cp / 262144, 0x80 + cp / 4096 % 64, 0x80 + cp / 64 % 64, 0x80 + cp % 64]

/-- Spec: well-formed UTF-8 is the canonical encodings of a list of codepoints,
one after the other. -/
def utf8Encode : List Nat → List Nat
  | [] => []
  | cp :: cps => utf8Canonical cp ++ utf8Encode cps

/-- Spec: the UTF-8 sequence of `n` bytes for the codepoint `cp`, lead byte
first. When `n` is the length of the canonical encoding this is
`utf8Canonical cp`; when it is larger the sequence is overlong. -/
def utf8Seq (n cp : Nat) : List Nat :=
  match n with
  | 1 => [cp]
  | 2 => [0xC0 + cp / 64, 0x80 + cp % 64]
  | 3 => [0xE0 + cp / 4096, 0x80 + cp / 64 % 64, 0x80 + cp % 64]
  | 4 => [0xF0 + cp / 262144, 0x80 + cp / 4096 % 64, 0x80 + cp / 64 % 64, 0x80 + cp % 64]
  | _ => []

/-- Spec: a character of a text together with the way it is encoded, as one
number: the codepoint plus 0x200000 for each byte by which its UTF-8 sequence is
longer than the canonical one, since `Read` decodes overlong sequences as it
does canonical ones. The numbers up to 0x10FFFF are the codepoints in their
canonical encoding. This is the codepoint of the character `s`. -/
def symCode (s : Nat) : Nat := s % 0x200000

/-- Spec: the number of bytes of the sequence of the character `s`. -/
def symLen (s : Nat) : Nat := (utf8Canonical (symCode s)).length + s / 0x200000

/-- Spec: the bytes of the character `s`. -/
def symBytes (s : Nat) : List Nat := utf8Seq (symLen s) (symCode s)

/-- Spec: the character `s` is one that `Read` decodes: a codepoint from 1 to
0x10FFFF in a sequence, canonical or overlong, of at most four bytes. -/
def Sym (s : Nat) : Prop := 1 ≤ symCode s ∧ symCode s ≤ 0x10FFFF ∧ symLen s ≤ 4

instance : DecidablePred Sym := fun s => by unfold Sym; infer_instance

/-- Spec: the bytes of a text of characters, one sequence after the other. -/
def symEncode : List Nat → List Nat
  | [] => []
  | s :: ss => symBytes s ++ symEncode ss

/-- Spec: the three bytes of the UTF-8 byte order mark. -/
def utf8BOM : List Nat := [0xEF, 0xBB, 0xBF]

/-- The stepping `while (iter.Advance())` that the properties of the iterator
are stated for: the number of successful calls, the sum of the values of
`GetCodepointBytes()` after each of them, and the iterator at the failing call. -/
def advanceAll : Nat → UTF8Iterator → Nat → Nat → Outcome (Nat × Nat × UTF8Iterator)
  | 0, _, _, _ => .nofuel
  | fuel + 1, it, count, bytes =>
    let a := it.Advance
    if a.1 = true then advanceAll fuel a.2 (count + 1) (bytes + a.2.GetCodepointBytes)
    else .ret (count, bytes, a.2)

/-- A stand-in for the library's `strtod` in the examples: it reads a run of
decimal digits as a natural number and stops at the first other character. -/
def strtodDigits (str : List Nat) : Nat × Nat :=
  let digits := str.takeWhile (fun b => 48 ≤ b && b ≤ 57)
  (digits.foldl (fun a b => 10 * a + (b - 48)) 0, digits.length)

mutual
/-- Equality test on nodes, for the evaluation of examples. -/
def Node.beq {D : Type} [DecidableEq D] : Node D → Node D → Bool
  | .null, .null => true
  | .boolean a, .boolean b => a == b
  | .number a, .number b => decide (a = b)
  | .string a, .string b => a == b
  | .array s es, .array t fs => s == t && Node.beqElements es fs
  | .object ms, .object ns => Node.beqChildren ms ns
  | _, _ => false
/-- Equality test on vectors of nodes. -/
def Node.beqElements {D : Type} [DecidableEq D] : List (Node D) → List (Node D) → Bool
  | [], [] => true
  | e :: es, f :: fs => Node.beq e f && Node.beqElements es fs
  | _, _ => false
/-- Equality test on maps of nodes. -/
def Node.beqChildren {D : Type} [DecidableEq D] :
    List (List Nat × Node D) → List (List Nat × Node D) → Bool
  | [], [] => true
  | (k, v) :: ms, (l, w) :: ns => k == l && Node.beq v w && Node.beqChildren ms ns
  | _, _ => false
end

/-- Test that an outcome of `Parse` is the return of the given result, node and
`szError`, for the evaluation of examples. -/
def returns {D : Type} [DecidableEq D] (o : Outcome (Result × Node D × List Nat))
    (r : Result) (n : Node D) (szError : List Nat) : Bool :=
  match o with
  | .ret (r', n', e') => decide (r' = r) && Node.beq n' n && decide (e' = szError)
  | _ => false

/-- Every node of the list has the `Type` of the first one. -/
def sameTypes {D : Type} (es : List (Node D)) : Bool :=
  es.all fun e => e.GetType == (es.headD .null).GetType

mutual
/-- Every array node of the tree is homogeneous: each element has the `Type`
of the first element. -/
def Node.homogeneous {D : Type} : Node D → Bool
  | .array _ es => sameTypes es && Node.homogeneousElements es
  | .object ms => Node.homogeneousChildren ms
  | _ => true
/-- Every node of the vector is homogeneous. -/
def Node.homogeneousElements {D : Type} : List (Node D) → Bool
  | [] => true
  | e :: es => Node.homogeneous e && Node.homogeneousElements es
/-- Every node of the map is homogeneous. -/
def Node.homogeneousChildren {D : Type} : List (List Nat × Node D) → Bool
  | [] => true
  | (_, v) :: ms => Node.homogeneous v && Node.homogeneousChildren ms
end

/-- The node is homogeneous and, if it is an array, `m_eElementType` is the
`Type` of each element: the state of the node that `GenerateNodes` builds. -/
def Node.typed {D : Type} (n : Node D) : Prop :=
  n.homogeneous = true ∧
    match n with
    | .array et es => ∀ e ∈ es, e.GetType = et
    | _ => True

/-- A text of the form `<description> at position <N>`, with `N` as `%d` prints
it, as `snprintf` keeps it, the description free of NUL, optionally followed by
`, expected start character`. -/
def Positioned (m : List Nat) : Prop :=
  ∃ (desc : List Nat) (N : Nat) (tail : List Nat), (∀ b ∈ desc, b ≠ 0) ∧
    (tail = [] ∨ tail = ascii ", expected start character") ∧
    m = snprintf (desc ++ ascii " at position " ++ printD N ++ tail)

/-- The contents of `szError` that the failing paths of the parser leave. -/
def ErrorText (szError : List Nat) : Prop :=
  szError = snprintf (ascii "Unexpected end of stream") ∨
    (∃ ch pos, szError = msgUnexpected ch pos) ∨ Positioned szError

/-- What the scope loop maintains between its rounds. -/
def Scope.Inv {D : Type} (s : Scope D) : Prop :=
  s.n.typed ∧ s.eType = s.n.GetType ∧
    (s.eType = .Null ∨ s.eType = .Object ∨ s.eType = .Array) ∧
    (s.bLabel = true → s.szCurLabel ≠ [])

/-- What the scope loop relies on from the calls of `GenerateNodes` it makes. -/
def Generator.Ok {D : Type} (gen : Generator D) : Prop :=
  ∀ iter szError uCurDepth uMaxDepth n g, gen iter szError uCurDepth uMaxDepth n = .ret g →
    (g.res.m_bSuccess = true → g.n.homogeneous = true) ∧
    (g.res.m_bSuccess = false → ErrorText g.szError ∧ g.res.m_szMsg = cstring g.szError)

/-- What `AddNode` needs of the scope: the node is an array, or an object with
a label at hand. -/
def Scope.Open {D : Type} (s : Scope D) : Prop :=
  s.n.typed ∧ (s.n.GetType = .Array ∨ (s.n.GetType = .Object ∧ s.szCurLabel ≠ []))

/-- What a lambda that adds a member leaves: on success the node is still
typed, of the same type, and `eType` is unchanged; on failure `szError` holds
one of the texts. -/
def Scope.Added {D : Type} (s s' : Scope D) (b : Bool) : Prop :=
  (b = true → s'.n.typed ∧ s'.n.GetType = s.n.GetType ∧ s'.eType = s.eType) ∧
    (b = false → ErrorText s'.szError)


/-- What one round of the scope loop leaves, by the way it ends. -/
def Scope.Stepped {D : Type} (s' : Scope D) (ctl : Ctl) : Prop :=
  (ctl = .next → s'.Inv) ∧ (ctl = .brk → s'.n.typed) ∧ (ctl = .fail → ErrorText s'.szError)

/-- The iterator stands in a buffer that starts with the bytes of the
characters `done ++ rest`, each a sequence that `Read` decodes, with `done`
behind the cursor and `rest` ahead; the bytes from the terminating NUL on follow
the end pointer. -/
structure UTF8Iterator.At (it : UTF8Iterator) (done rest : List Nat) : Prop where
  buf : ∃ tail, it.buf = symEncode (done ++ rest) ++ tail ∧ ∀ b ∈ tail, b < 256
  units : it.units = (symEncode done).length
  endp : it.endp = (symEncode (done ++ rest)).length
  pos : it.pos = done.length
  cache : it.CacheOk
  valid : ∀ c ∈ done ++ rest, Sym c

/-- A character that may stand in a literal that is not a string: below 0x7F,
no terminator and no whitespace. -/
def literalChar (c : Nat) : Bool :=
  decide (c < 0x7F) && !IsLiteralTerminator c && !IsWhitespace c

/-- Spec: whether the character that follows the text `p` inside a string
literal is escaped, that is, whether `p` ends in a backslash that is not itself
escaped. -/
def escapedAfter (p : List Nat) : Bool :=
  p.foldl (fun esc c => decide (c = 0x5C) && !esc) false

/-- A JSON text laid out for the parser, as a tree: a number is its double and
its literal, a string and a key are characters, an array item carries the
whitespace after it and the whitespace after its comma, an object member its
key, the whitespace after `:`, the value and the same two runs of whitespace;
`ws` is the whitespace after the opening bracket. -/
inductive Doc (D : Type) where
  | null
  | bool (b : Bool)
  | num (d : D) (t : List Nat)
  | str (s : List Nat)
  | arr (ws : List Nat) (items : List (Doc D × List Nat × List Nat))
  | obj (ws : List Nat) (members : List (List Nat × List Nat × Doc D × List Nat × List Nat))

namespace Doc

variable {D : Type}

mutual
/-- The characters of the text. -/
def text : Doc D → List Nat
  | .null => ascii "null"
  | .bool true => ascii "true"
  | .bool false => ascii "false"
  | .num _ t => t
  | .str s => 0x22 :: s ++ [0x22]
  | .arr ws items => 0x5B :: ws ++ itemsText items ++ [0x5D]
  | .obj ws members => 0x7B :: ws ++ membersText members ++ [0x7D]
/-- The characters of the items of an array, with their commas. -/
def itemsText : List (Doc D × List Nat × List Nat) → List Nat
  | [] => []
  | [(d, w, _)] => text d ++ w
  | (d, w, w') :: item :: items => text d ++ w ++ 0x2C :: w' ++ itemsText (item :: items)
/-- The characters of the members of an object, with their commas. -/
def membersText : List (List Nat × List Nat × Doc D × List Nat × List Nat) → List Nat
  | [] => []
  | [(k, b, d, w, _)] => 0x22 :: k ++ 0x22 :: 0x3A :: b ++ text d ++ w
  | (k, b, d, w, w') :: member :: members =>
    0x22 :: k ++ 0x22 :: 0x3A :: b ++ text d ++ w ++ 0x2C :: w' ++ membersText (member :: members)
end

mutual
/-- The node that the text stands for, as `GenerateNodes` builds it. -/
def node : Doc D → Node D
  | .null => .null
  | .bool b => .boolean b
  | .num d _ => .number d
  | .str s => .string (symEncode s)
  | .arr _ items => .array (itemsType items) (itemsNodes items)
  | .obj _ members => .object (membersNodes [] members)
/-- The `m_eElementType` of the array of the items. -/
def itemsType : List (Doc D × List Nat × List Nat) → NodeType
  | [] => .Null
  | (d, _, _) :: _ => (node d).GetType
/-- The elements of the array of the items. -/
def itemsNodes : List (Doc D × List Nat × List Nat) → List (Node D)
  | [] => []
  | (d, _, _) :: items => (node d).copy :: itemsNodes items
/-- The map of the object after the members are assigned to `acc`, one after
the other in the order of the text. -/
def membersNodes (acc : List (List Nat × Node D)) :
    List (List Nat × List Nat × Doc D × List Nat × List Nat) → List (List Nat × Node D)
  | [] => acc
  | (k, _, d, _, _) :: members =>
    membersNodes (mapAssign acc (symEncode k) (node d).copy) members
end

mutual
/-- The number of nested scopes. -/
def height : Doc D → Nat
  | .arr _ items => itemsHeight items + 1
  | .obj _ members => membersHeight members + 1
  | _ => 0
/-- The largest height of an item. -/
def itemsHeight : List (Doc D × List Nat × List Nat) → Nat
  | [] => 0
  | (d, _, _) :: items => max (height d) (itemsHeight items)
/-- The largest height of a member. -/
def membersHeight : List (List Nat × List Nat × Doc D × List Nat × List Nat) → Nat
  | [] => 0
  | (_, _, d, _, _) :: members => max (height d) (membersHeight members)
end

/-- A run of whitespace. -/
def blank (ws : List Nat) : Prop := ∀ c ∈ ws, IsWhitespace c = true

/-- The codepoints of a string or key that holds no quote and no backslash. -/
def plain (s : List Nat) : Prop := ∀ c ∈ s, c ≠ 0x22 ∧ c ≠ 0x5C

/-- The codepoints of a string or key that the scanner reads back from between
quotes: every quote in it is escaped, and no escape is pending at its end, so
that the closing quote is not escaped. -/
def quotable (s : List Nat) : Prop :=
  escapedAfter s = false ∧ ∀ i < s.length, s.getD i 0 = 0x22 → escapedAfter (s.take i) = true

/-- The literal of a number that `strtod` reads in full as `d`. -/
def numeral (strtod : List Nat → D × Nat) (d : D) (t : List Nat) : Prop :=
  t ≠ [] ∧ (∀ x ∈ t, literalChar x = true) ∧
    t.headD 0 ≠ 0x22 ∧ t.headD 0 ≠ 0x74 ∧ t.headD 0 ≠ 0x66 ∧ t.headD 0 ≠ 0x6E ∧
    t.headD 0 ≠ 0x7B ∧ t.headD 0 ≠ 0x5B ∧ strtod t = (d, t.length)

mutual
/-- The text is one that the parser accepts: its literals are well formed, the
codepoints of its strings and keys are `quotable`, its whitespace is whitespace,
keys are not empty, and the items of an array have the type `ty` of the first. -/
def ok (strtod : List Nat → D × Nat) : Doc D → Prop
  | .null => True
  | .bool _ => True
  | .num d t => numeral strtod d t
  | .str s => quotable (s.map symCode)
  | .arr ws items => blank ws ∧ itemsOk strtod (itemsType items) items
  | .obj ws members => blank ws ∧ membersOk strtod members
/-- The items of an array are well formed and of the type `ty`. -/
def itemsOk (strtod : List Nat → D × Nat) (ty : NodeType) :
    List (Doc D × List Nat × List Nat) → Prop
  | [] => True
  | (d, w, w') :: items =>
    ok strtod d ∧ (node d).GetType = ty ∧ blank w ∧ blank w' ∧ itemsOk strtod ty items
/-- The members of an object are well formed. -/
def membersOk (strtod : List Nat → D × Nat) :
    List (List Nat × List Nat × Doc D × List Nat × List Nat) → Prop
  | [] => True
  | (k, b, d, w, w') :: members =>
    k ≠ [] ∧ quotable (k.map symCode) ∧ blank b ∧ ok strtod d ∧ blank w ∧ blank w' ∧ membersOk strtod members
end

end Doc

/-- A character that ends a literal: a terminator or whitespace. -/
def Doc.closes (c : Nat) : Prop := IsLiteralTerminator c = true ∨ IsWhitespace c = true

/-- The generator `gen` parses the text of `d`, when `d` is an array or an
object, as a scope at depth `cd`: it succeeds with the node of `d`, leaves
`szError` as it was and the iterator behind the text. -/
def Generator.Parses {D : Type} (gen : Generator D) (cd dmax : Nat) (d : Doc D) : Prop :=
  d.height ≠ 0 → cd < dmax ∧
    ∀ (it : UTF8Iterator) (done rest e : List Nat) (n0 : Node D),
      it.At done (d.text ++ rest) → done.length + d.text.length < SIZE_MAX →
      ∃ it', gen it e cd dmax n0
          = .ret { res := { m_bSuccess := true, m_szMsg := [] }, n := d.node, iter := it', szError := e } ∧
        it'.At (done ++ d.text) rest

/-- The `m_eElementType` of an array that `Append` filled with the elements
`es`, all of the type `ty`. -/
def Doc.arrType {D : Type} (ty : NodeType) (es : List (Node D)) : NodeType :=
  if es.isEmpty then .Null else ty

/-- The characters of array items that are each followed by a comma. -/
def Doc.itemsPrefix {D : Type} : List (Doc D × List Nat × List Nat) → List Nat
  | [] => []
  | (d, w, w') :: items => d.text ++ w ++ 0x2C :: w' ++ Doc.itemsPrefix items

/-- The layout of `n + 1` arrays nested in one another, the innermost empty. -/
def Doc.nest {D : Type} : Nat → Doc D
  | 0 => .arr [] []
  | n + 1 => .arr [] [(Doc.nest n, [], [])]

/-- The enum `SerializerConfig::Indentation`. -/
inductive Indentation where
  | FourSpace
  | TwoSpace
  | Tab
  deriving Repr, DecidableEq

/-- The struct `SerializerConfig`. -/
structure SerializerConfig where
  m_eIndentation : Indentation := .FourSpace
  m_bFancy : Bool := false

/-- The function `SerializeBoolean`: the text appended to `out`. -/
def SerializeBoolean (b : Bool) : List Nat :=
  if b then ascii "true" else ascii "false"

/-- The loop `while (!str.empty() && *str.rbegin() == '0') str.pop_back()`. -/
def popZeros (str : List Nat) : List Nat :=
  (str.reverse.dropWhile (fun b => b == 0x30)).reverse

/-- The function `SerializeNumber`: the text appended to `out`; `to_string` is
`std::to_string` on a `double`. -/
def SerializeNumber {D : Type} (to_string : D → List Nat) (x : D) : List Nat :=
  let str := to_string x
  if str.contains 0x2E then
    let str := popZeros str
    if str.length > 1 ∧ str.getLast? = some 0x2E then str.dropLast else str
  else str

/-- The function `Indent`: the text appended to `out`. -/
def Indent (cfg : SerializerConfig) (depth : Nat) : List Nat :=
  match cfg.m_eIndentation with
  | .FourSpace => List.replicate (depth * 4 % 2 ^ 64) 0x20
  | .TwoSpace => List.replicate (depth * 2 % 2 ^ 64) 0x20
  | .Tab => List.replicate depth 0x09

section Serialize

variable {D : Type}

mutual
/-- The function `SerializeNode`: the text appended to `out`; `SerializeObject`
and `SerializeArray` are its last two arms. After the loop over the elements or
members `uCount` is their number. -/
def SerializeNode (to_string : D → List Nat) (cfg : SerializerConfig) : Node D → Nat → List Nat
  | .null, _ => ascii "null"
  | .boolean b, _ => SerializeBoolean b
  | .number x, _ => SerializeNumber to_string x
  | .string s, _ => 0x22 :: s ++ [0x22]
  | .array _ es, depth =>
    let l := SerializeArray.loop to_string cfg es depth es.length true 0
    0x5B :: l.1 ++ (if cfg.m_bFancy = true ∧ l.2 ≠ 0 then 0x0A :: Indent cfg depth else [])
      ++ [0x5D]
  | .object ms, depth =>
    let l := SerializeObject.loop to_string cfg ms depth ms.length 0
    0x7B :: l.1 ++ (if cfg.m_bFancy = true ∧ l.2 ≠ 0 then 0x0A :: Indent cfg depth else [])
      ++ [0x7D]
/-- The loop of `ForEachElement` over the lambda of `SerializeArray`: the text
appended to `out`, and `uCount`. `len` is `n.Length()`. -/
def SerializeArray.loop (to_string : D → List Nat) (cfg : SerializerConfig) :
    List (Node D) → Nat → Nat → Bool → Nat → List Nat × Nat
  | [], _, _, _, uCount => ([], uCount)
  | e :: es, depth, len, bFirst, uCount =>
    let l := SerializeArray.loop to_string cfg es depth len false (uCount + 1)
    ((if bFirst = false ∧ cfg.m_bFancy = true then [0x20] else [])
      ++ (if cfg.m_bFancy = true then [0x0A] else [])
      ++ (if cfg.m_bFancy = true then Indent cfg (depth + 1) else [])
      ++ SerializeNode to_string cfg e (depth + 1)
      ++ (if uCount + 1 ≠ len then [0x2C] else [])
      ++ l.1, l.2)
/-- The loop of `ForEachMember` over the lambda of `SerializeObject`: the text
appended to `out`, and `uCount`. `len` is `n.GetNumMembers()`. The loop hands
the lambda a copy of each member, which serializes as the member does. -/
def SerializeObject.loop (to_string : D → List Nat) (cfg : SerializerConfig) :
    List (List Nat × Node D) → Nat → Nat → Nat → List Nat × Nat
  | [], _, _, uCount => ([], uCount)
  | (szLabel, member) :: ms, depth, len, uCount =>
    let l := SerializeObject.loop to_string cfg ms depth len (uCount + 1)
    ((if cfg.m_bFancy = true then [0x20, 0x0A] else [])
      ++ (if cfg.m_bFancy = true then Indent cfg (depth + 1) else [])
      ++ (0x22 :: szLabel ++ [0x22, 0x3A])
      ++ (if cfg.m_bFancy = true then [0x20] else [])
      ++ SerializeNode to_string cfg member (depth + 1)
      ++ (if uCount + 1 ≠ len then [0x2C] else [])
      ++ l.1, l.2)
end

/-- The function `Serialize`. -/
def Serialize (to_string : D → List Nat) (cfg : SerializerConfig) (json : Node D) : List Nat :=
  SerializeNode to_string cfg json 0

end Serialize

/-! ## The round trip through Serialize and Parse -/

mutual
/-- The number of nested arrays and objects of a tree. -/
def Node.height {D : Type} : Node D → Nat
  | .array _ es => Node.elementsHeight es + 1
  | .object ms => Node.childrenHeight ms + 1
  | _ => 0
/-- The largest height of an element. -/
def Node.elementsHeight {D : Type} : List (Node D) → Nat
  | [] => 0
  | e :: es => max (Node.height e) (Node.elementsHeight es)
/-- The largest height of a member. -/
def Node.childrenHeight {D : Type} : List (List Nat × Node D) → Nat
  | [] => 0
  | (_, v) :: ms => max (Node.height v) (Node.childrenHeight ms)
end

mutual
/-- Spec: structural equality of value trees: the same variant and payload, the
elements of arrays equal in their order, the members of objects equal key by
key. -/
def Node.StructEq {D : Type} : Node D → Node D → Prop
  | .null, .null => True
  | .boolean a, .boolean b => a = b
  | .number a, .number b => a = b
  | .string a, .string b => a = b
  | .array _ es, .array _ fs => Node.StructEqElements es fs
  | .object ms, .object ns => Node.StructEqChildren ms ns
  | _, _ => False
/-- Spec: structural equality of the elements of two arrays. -/
def Node.StructEqElements {D : Type} : List (Node D) → List (Node D) → Prop
  | [], [] => True
  | e :: es, f :: fs => Node.StructEq e f ∧ Node.StructEqElements es fs
  | _, _ => False
/-- Spec: structural equality of the members of two objects. -/
def Node.StructEqChildren {D : Type} :
    List (List Nat × Node D) → List (List Nat × Node D) → Prop
  | [], [] => True
  | (k, v) :: ms, (l, w) :: ns => k = l ∧ Node.StructEq v w ∧ Node.StructEqChildren ms ns
  | _, _ => False
end

/-- A string of bytes that is a run of UTF-8 sequences which `Read` decodes,
canonical or overlong, each to a codepoint from 1 to 0x10FFFF, and among whose
codepoints every `"` is escaped by a backslash and no escape is left pending at
the end: the serializer writes it between quotes as it is and the scanner of the
parser reads it back. -/
def stringText (s : List Nat) : Prop :=
  ∃ cs, s = symEncode cs ∧ Doc.quotable (cs.map symCode) ∧ ∀ c ∈ cs, Sym c

/-- The type of the first element, `Null` when there is none. -/
def Node.headType {D : Type} : List (Node D) → NodeType
  | [] => .Null
  | e :: _ => e.GetType

/-- The keys of a map come in strictly increasing order, as `std::map` keeps them. -/
def sortedKeys {V : Type} (ms : List (List Nat × V)) : Prop :=
  (ms.map Prod.fst).Pairwise (fun a b => strLt a b = true)

mutual
/-- A tree that the round trip preserves: numbers that `strtod` reads back in
full from the literal, free of NUL, that `SerializeNumber` writes, strings and
keys that are `stringText`,
keys that are not empty and in the order of `std::map`, arrays of elements of
one type. -/
def Node.portable {D : Type} (strtod : List Nat → D × Nat) (to_string : D → List Nat) :
    Node D → Prop
  | .null => True
  | .boolean _ => True
  | .number x =>
    Doc.numeral strtod x (SerializeNumber to_string x) ∧
      ∀ c ∈ SerializeNumber to_string x, c ≠ 0
  | .string s => stringText s
  | .array _ es => Node.portableElements strtod to_string (Node.headType es) es
  | .object ms => sortedKeys ms ∧ Node.portableChildren strtod to_string ms
/-- The elements of an array are portable and of the type `ty`. -/
def Node.portableElements {D : Type} (strtod : List Nat → D × Nat) (to_string : D → List Nat)
    (ty : NodeType) : List (Node D) → Prop
  | [] => True
  | e :: es =>
    Node.portable strtod to_string e ∧ e.GetType = ty ∧
      Node.portableElements strtod to_string ty es
/-- The members of an object are portable and have keys that are not empty. -/
def Node.portableChildren {D : Type} (strtod : List Nat → D × Nat) (to_string : D → List Nat) :
    List (List Nat × Node D) → Prop
  | [] => True
  | (k, v) :: ms =>
    k ≠ [] ∧ stringText k ∧ Node.portable strtod to_string v ∧
      Node.portableChildren strtod to_string ms
end

/-- The whitespace that the serializer writes before a closing bracket. -/
def closeIndent (cfg : SerializerConfig) (depth : Nat) : List Nat :=
  if cfg.m_bFancy = true then 0x0A :: Indent cfg depth else []

/-- The whitespace that the serializer writes before a member, and before an
element that is not the first. -/
def memberIndent (cfg : SerializerConfig) (depth : Nat) : List Nat :=
  if cfg.m_bFancy = true then 0x20 :: 0x0A :: Indent cfg (depth + 1) else []

mutual
/-- The layout of the text that `SerializeNode` writes for a tree at a depth;
`dec` gives the characters of a string. -/
def Node.layout {D : Type} (to_string : D → List Nat) (cfg : SerializerConfig)
    (dec : List Nat → List Nat) : Node D → Nat → Doc D
  | .null, _ => .null
  | .boolean b, _ => .bool b
  | .number x, _ => .num x (SerializeNumber to_string x)
  | .string s, _ => .str (dec s)
  | .array _ es, depth =>
    .arr (if es.isEmpty = true then [] else closeIndent cfg (depth + 1))
      (Node.layoutElements to_string cfg dec es depth)
  | .object ms, depth =>
    .obj (if ms.isEmpty = true then [] else memberIndent cfg depth)
      (Node.layoutChildren to_string cfg dec ms depth)
/-- The layout of the elements of an array. -/
def Node.layoutElements {D : Type} (to_string : D → List Nat) (cfg : SerializerConfig)
    (dec : List Nat → List Nat) : List (Node D) → Nat → List (Doc D × List Nat × List Nat)
  | [], _ => []
  | e :: es, depth =>
    (Node.layout to_string cfg dec e (depth + 1),
      (if es.isEmpty = true then closeIndent cfg depth else []), memberIndent cfg depth)
      :: Node.layoutElements to_string cfg dec es depth
/-- The layout of the members of an object. -/
def Node.layoutChildren {D : Type} (to_string : D → List Nat) (cfg : SerializerConfig)
    (dec : List Nat → List Nat) :
    List (List Nat × Node D) → Nat → List (List Nat × List Nat × Doc D × List Nat × List Nat)
  | [], _ => []
  | (k, v) :: ms, depth =>
    (dec k, (if cfg.m_bFancy = true then [0x20] else []), Node.layout to_string cfg dec v (depth + 1),
      (if ms.isEmpty = true then closeIndent cfg depth else []), memberIndent cfg depth)
      :: Node.layoutChildren to_string cfg dec ms depth
end

/-- The function `dec` gives, for every string that is a `stringText`, characters
that it is the bytes of. -/
def Decodes (dec : List Nat → List Nat) : Prop :=
  ∀ s, stringText s →
    s = symEncode (dec s) ∧ Doc.quotable ((dec s).map symCode) ∧ ∀ c ∈ dec s, Sym c

/-- Characters that the iterator reads: the codepoint of none is NUL or above
0x10FFFF. -/
def validText (l : List Nat) : Prop := ∀ c ∈ l, Sym c

/-- A stand-in for `std::to_string` on a `double` in the examples: the decimal
digits of a natural number, then the six decimals that `%f` prints. -/
def to_stringFixed (n : Nat) : List Nat := decimal n ++ ascii ".000000"

/-! ## UTF.h: UTF16Iterator -/

/-- The class `UTF16Iterator`: `units` and `endp` (the field `end`) are offsets
into `buf`, a buffer of 16-bit units that a zero unit terminates. -/
structure UTF16Iterator where
  buf : List Nat
  units : Nat
  endp : Nat
  is_swapped : Bool
  deriving Repr, DecidableEq

namespace UTF16Iterator

/-- The unit `units[i]`. -/
def unit (it : UTF16Iterator) (i : Nat) : Nat :=
  it.buf.getD (it.units + i) 0

/-- The private `endian_swap`, whose result is a `utf16_t`. -/
def endian_swap (i : Nat) : Nat :=
  (((i &&& 0xFF) <<< 8) ||| ((i >>> 8) &&& 0xFF)) % 2 ^ 16

/-- The constructor `UTF16Iterator(const utf16_t* str)`: on a buffer that is not
empty the first unit is read for the byte order and stepped over. -/
def new (str : List Nat) : UTF16Iterator :=
  let e := strlen str
  if 0 < e then
    { buf := str, units := 1, endp := e, is_swapped := decide (str.getD 0 0 = 0xFFFE) }
  else
    { buf := str, units := 0, endp := e, is_swapped := false }

/-- The method `Advance(size_t* advance)`: the codepoint returned, the value left
in `*advance`, and the iterator afterwards. -/
def Advance (it : UTF16Iterator) : Nat × Nat × UTF16Iterator :=
  if it.units ≥ it.endp then (0, 0, it)
  else
    let surrogate := if it.is_swapped then endian_swap (it.unit 0) else it.unit 0
    let codepoint := surrogate
    if codepoint >>> 11 = 0x1B then
      let is_upper := decide (codepoint &&& (1 <<< 10) = 0)
      let codepoint := codepoint &&& 0x3FF
      if is_upper = true ∧ it.units + 1 < it.endp then
        let lower := if it.is_swapped then endian_swap (it.unit 1) else it.unit 1
        if lower >>> 10 = 0x37 then
          let codepoint := ((codepoint <<< 10) ||| (lower &&& 0x3FF) ||| (1 <<< 16)) % 2 ^ 32
          (if codepoint ≤ 0x10FFFF then codepoint else 0, 2, { it with units := it.units + 2 })
        else
          (if codepoint ≤ 0x10FFFF then codepoint else 0, 1, { it with units := it.units + 1 })
      else
        (if codepoint ≤ 0x10FFFF then codepoint else 0, 1, { it with units := it.units + 1 })
    else
      (if codepoint ≤ 0x10FFFF then codepoint else 0, 1, { it with units := it.units + 1 })

/-- Spec: the unit `units[i]` as `Advance` takes it, through `endian_swap` when
`is_swapped` is set. -/
def value (it : UTF16Iterator) (i : Nat) : Nat :=
  if it.is_swapped then endian_swap (it.unit i) else it.unit i

end UTF16Iterator

/-- Spec: a high surrogate is a unit in `D800..DBFF`. -/
def isHighSurrogate (u : Nat) : Prop := 0xD800 ≤ u ∧ u ≤ 0xDBFF

/-- Spec: a low surrogate is a unit in `DC00..DFFF`. -/
def isLowSurrogate (u : Nat) : Prop := 0xDC00 ≤ u ∧ u ≤ 0xDFFF

/-- Spec: the codepoint that a surrogate pair stands for, the 20-bit offset that
the pair carries plus `10000`. -/
def pairCodepoint (h l : Nat) : Nat := 0x10000 + ((h - 0xD800) <<< 10) + (l - 0xDC00)

/-! ## Node.cpp: the accessors -/

namespace Node

variable {D : Type}

/-- The member `GetBool`. -/
def GetBool (self : Node D) : Outcome Bool :=
  match self with
  | .boolean b => .ret b
  | _ => .abort

/-- The member `GetNumber`. -/
def GetNumber (self : Node D) : Outcome D :=
  match self with
  | .number d => .ret d
  | _ => .abort

/-- The member `GetString`. -/
def GetString (self : Node D) : Outcome (List Nat) :=
  match self with
  | .string s => .ret s
  | _ => .abort

/-- The member `Get`, in both overloads: the node pointed to, `none` for the
null pointer. -/
def Get (self : Node D) (szLabel : List Nat) : Outcome (Option (Node D)) :=
  match self with
  | .object ms => .ret ((ms.find? fun m => decide (m.1 = szLabel)).map Prod.snd)
  | _ => .abort

/-- The overload `GetOrDefault(const utf8string&, bool)`. -/
def GetOrDefaultBool (self : Node D) (szLabel : List Nat) (bDefault : Bool) : Outcome Bool :=
  (self.Get szLabel).bind fun n =>
    match n with
    | none => .ret bDefault
    | some n => if n.GetType ≠ .Boolean then .ret bDefault else n.GetBool

/-- The overload `GetOrDefault(const utf8string&, double)`. -/
def GetOrDefaultNumber (self : Node D) (szLabel : List Nat) (dblDefault : D) : Outcome D :=
  (self.Get szLabel).bind fun n =>
    match n with
    | none => .ret dblDefault
    | some n => if n.GetType ≠ .Number then .ret dblDefault else n.GetNumber

/-- The overload `GetOrDefault(const utf8string&, const utf8string&)`: the test
before `GetString` is `n->m_eType != Type::Boolean`. -/
def GetOrDefaultString (self : Node D) (szLabel : List Nat) (szDefault : List Nat) :
    Outcome (List Nat) :=
  (self.Get szLabel).bind fun n =>
    match n with
    | none => .ret szDefault
    | some n => if n.GetType ≠ .Boolean then .ret szDefault else n.GetString

/-- The overload `GetOrDefault(const utf8string&, const utf8_t*)`: as the one
before, the default being the bytes of the C string `szDefault`. -/
def GetOrDefaultCStr (self : Node D) (szLabel : List Nat) (szDefault : List Nat) :
    Outcome (List Nat) :=
  (self.Get szLabel).bind fun n =>
    match n with
    | none => .ret (szDefault.take (strlen szDefault))
    | some n =>
      if n.GetType ≠ .Boolean then .ret (szDefault.take (strlen szDefault)) else n.GetString

/-- The member `ForEachMember` with a callback on `Node&`: the loop variable
`auto it` is a copy of the entry, so what the callback leaves in the node it was
handed is dropped. The callback takes and returns the state of its captures. -/
def ForEachMember {σ : Type} (self : Node D) (callback : σ → List Nat → Node D → σ × Node D)
    (s : σ) : Outcome (σ × Node D) :=
  match self with
  | .object ms => .ret (ms.foldl (fun st m => (callback st m.1 m.2.copy).1) s, .object ms)
  | _ => .abort

/-- The member `ForEachMember` with a callback on `const Node&`. -/
def ForEachMemberConst {σ : Type} (self : Node D) (callback : σ → List Nat → Node D → σ)
    (s : σ) : Outcome σ :=
  match self with
  | .object ms => .ret (ms.foldl (fun st m => callback st m.1 m.2.copy) s)
  | _ => .abort

/-- The member `GetNumMembers`. -/
def GetNumMembers (self : Node D) : Outcome Nat :=
  match self with
  | .object ms => .ret ms.length
  | _ => .abort

/-- The member `Insert`: `i` beyond the size of the vector is undefined. The
vector stores a copy of `n`; there is no test of its type. -/
def Insert (self : Node D) (i : Nat) (n : Node D) : Outcome (Node D) :=
  match self with
  | .array et es =>
    if i ≤ es.length then .ret (.array et (es.take i ++ n.copy :: es.drop i)) else .undefined
  | _ => .abort

/-- The member `Remove`: `i` at or beyond the size of the vector is undefined. -/
def Remove (self : Node D) (i : Nat) : Outcome (Node D) :=
  match self with
  | .array et es =>
    if i < es.length then
      .ret (.array (if (es.eraseIdx i).isEmpty then .Null else et) (es.eraseIdx i))
    else .undefined
  | _ => .abort

/-- The member `GetElementType`. -/
def GetElementType (self : Node D) : Outcome NodeType :=
  match self with
  | .array et _ => .ret et
  | _ => .abort

/-- The loop of `ForEachElement` with a callback on `Node&`: the state of the
captures afterwards, and the elements as the callback left them. -/
def ForEachElement.loop {σ : Type} (callback : σ → Node D → σ × Node D) :
    List (Node D) → σ → σ × List (Node D)
  | [], s => (s, [])
  | e :: es, s =>
    let r := callback s e
    let l := ForEachElement.loop callback es r.1
    (l.1, r.2 :: l.2)

/-- The member `ForEachElement` with a callback on `Node&`. -/
def ForEachElement {σ : Type} (self : Node D) (callback : σ → Node D → σ × Node D) (s : σ) :
    Outcome (σ × Node D) :=
  match self with
  | .array et es =>
    let l := ForEachElement.loop callback es s
    .ret (l.1, .array et l.2)
  | _ => .abort

/-- The member `ForEachElement` with a callback on `const Node&`. -/
def ForEachElementConst {σ : Type} (self : Node D) (callback : σ → Node D → σ) (s : σ) :
    Outcome σ :=
  match self with
  | .array _ es => .ret (es.foldl callback s)
  | _ => .abort

/-- Spec: the array is uniform when, if it has elements, each has the `Type` of the
first and `m_eElementType` is that `Type`; if it has none, `m_eElementType` is
`Null`. -/
def Uniform : Node D → Prop
  | .array et es =>
    (es ≠ [] → (∀ e ∈ es, e.GetType = (es.headD .null).GetType) ∧ et = (es.headD .null).GetType) ∧
      (es = [] → et = .Null)
  | _ => True

end Node


/-! ## Node.cpp: the constructor from a C string -/

namespace Node

variable {D : Type}

/-- The loop `while (iter.Advance())` of the constructor `Node(const utf8_t*)`:
the value of `uByteLength` after it. A round that runs has moved the iterator
on, so the rounds are bounded by the bytes left, plus one for the failing test. -/
def cstrLength : Nat → UTF8Iterator → Nat → Outcome Nat
  | 0, _, _ => .nofuel
  | fuel + 1, iter, uByteLength =>
    let a := iter.Advance
    if a.1 = false then .ret uByteLength
    else
      let r := a.2.Read
      cstrLength fuel r.2.Advance.2 ((uByteLength + r.2.GetCodepointBytes) % 2 ^ 64)

/-- The constructor `Node(const utf8_t* szValue)`: `m_szValue` is resized to
`uByteLength + 1` bytes, `uByteLength` bytes are copied from `szValue` and the
last byte is set to NUL. A copy of more bytes than the buffer holds is
undefined. -/
def ofCStr (szValue : List Nat) : Outcome (Node D) :=
  let iter := UTF8Iterator.new szValue
  (cstrLength (iter.GetNumBytesLeft + 1) iter 0).bind fun uByteLength =>
    if uByteLength ≤ szValue.length then .ret (.string (szValue.take uByteLength ++ [0]))
    else .undefined

end Node

/-! ## Specification-side definitions for termination and locality -/

/-- Spec: the run ends, by a return or by `std::abort`, within the budget of the
model and without undefined behaviour, and a value that is returned satisfies
`P`. -/
def Outcome.Ends {α : Type} (o : Outcome α) (P : α → Prop) : Prop :=
  match o with
  | .ret a => P a
  | .abort => True
  | .undefined => False
  | .nofuel => False

/-- Spec: the node is an array that holds an element. -/
def Node.Filled {D : Type} : Node D → Prop
  | .array _ es => es ≠ []
  | _ => False

namespace UTF8Iterator

/-- Spec: `b` has the end of buffer of `a` and a cursor that is not before the
cursor of `a`. -/
def Reaches (a b : UTF8Iterator) : Prop := b.endp = a.endp ∧ a.units ≤ b.units

/-- Spec: `b` has the end of buffer of `a` and a cursor that is after the cursor
of `a`, which is before the end. -/
def Passes (a b : UTF8Iterator) : Prop := b.endp = a.endp ∧ a.units < b.units ∧ a.units < a.endp

/-- Spec: `b` is `a` over a buffer that goes on where the buffer of `a` ends: the
same cursor, position and cache, an end that is no earlier, and the same bytes
before the end of `a`. -/
def Ext (a b : UTF8Iterator) : Prop :=
  b.units = a.units ∧ b.pos = a.pos ∧ b.n = a.n ∧ b.last_read = a.last_read ∧
    a.endp ≤ b.endp ∧ b.buf.take a.endp = a.buf.take a.endp

end UTF8Iterator

/-- Spec: the scope `s` over the iterator `it`. -/
def Scope.withIter {D : Type} (s : Scope D) (it : UTF8Iterator) : Scope D :=
  { s with iter := it }

/-- Spec: the scan `w` over the iterator `it`. -/
def Scan.withIter (w : Scan) (it : UTF8Iterator) : Scan :=
  { w with iter := it }

/-- Spec: the result `g` of `GenerateNodes` over the iterator `it`. -/
def Generated.withIter {D : Type} (g : Generated D) (it : UTF8Iterator) : Generated D :=
  { g with iter := it }

/-- Spec: over every buffer that goes on where the buffer of `it` ends, the scan
`F` returns `w`, over an iterator that goes on where the iterator of `w` ends. -/
def Scan.Follows (F : UTF8Iterator → Outcome Scan) (it : UTF8Iterator) (w : Scan) : Prop :=
  ∀ it', it.Ext it' → ∃ it1', F it' = .ret (w.withIter it1') ∧ w.iter.Ext it1'

/-- Spec: over every buffer that goes on where the buffer of `s` ends, the step
`F` returns `b` and the scope `s1`, over an iterator that goes on where the
iterator of `s1` ends. -/
def Scope.Follows {D β : Type} (F : Scope D → Outcome (β × Scope D)) (s : Scope D) (b : β)
    (s1 : Scope D) : Prop :=
  ∀ it', s.iter.Ext it' →
    ∃ it1', F (s.withIter it') = .ret (b, s1.withIter it1') ∧ s1.iter.Ext it1'

/-- Spec: over every buffer that goes on where the buffer of `it` ends, the call
`F` of `GenerateNodes` returns `g`, over an iterator that goes on where the
iterator of `g` ends. -/
def Generated.Follows {D : Type} (F : UTF8Iterator → Outcome (Generated D)) (it : UTF8Iterator)
    (g : Generated D) : Prop :=
  ∀ it', it.Ext it' → ∃ it1', F it' = .ret (g.withIter it1') ∧ g.iter.Ext it1'

/-! ## Specification-side definitions for string literals as `Read` decodes them -/

namespace UTF8Iterator

/-- Spec: the iterator after one codepoint is read and passed: `Read`, then
`Advance`. -/
def step (it : UTF8Iterator) : UTF8Iterator := it.Read.2.Advance.2

/-- Spec: the iterator after `k` codepoints are read and passed. -/
def steps : Nat → UTF8Iterator → UTF8Iterator
  | 0, it => it
  | k + 1, it => steps k it.step

/-- Spec: the `k` codepoints that `Read` returns in turn from the iterator on,
each passed by `Advance`. -/
def reads : Nat → UTF8Iterator → List Nat
  | 0, _ => []
  | k + 1, it => it.Read.1 :: reads k it.step

end UTF8Iterator

/-- Spec: the escape state after the text `p`, entered in the state `esc`: a
backslash escapes the next character when it is not itself escaped. -/
def escapedFrom (esc : Bool) (p : List Nat) : Bool :=
  p.foldl (fun esc c => decide (c = 0x5C) && !esc) esc

/-! ## Specification side: the position that a failure message names -/

set_option maxRecDepth 100000 in
theorem byte_lead : ∀ b < 256,
    (if b &&& 0x80 ≠ 0 then
      (if b >>> 5 = 0b110 then 2 else if b >>> 4 = 0b1110 then 3
        else if b >>> 3 = 0b11110 then 4 else 0) else 1) = leadLen b := by
  decide

set_option maxRecDepth 100000 in
theorem byte_hi : ∀ b < 256, (b &&& 0x80 ≠ 0) = (128 ≤ b) := by
  decide

set_option maxRecDepth 100000 in
theorem byte_cont : ∀ b < 256, (b >>> 6 ≠ 0b10) = (isCont b = false) := by
  decide

set_option maxRecDepth 100000 in
theorem byte_mask : ∀ b < 256,
    b &&& UTF8Iterator.leadMask 2 = b % 32 ∧ b &&& UTF8Iterator.leadMask 3 = b % 16 ∧
    b &&& UTF8Iterator.leadMask 4 = b % 8 ∧ b &&& 0x3F = b % 64 := by
  decide

theorem or_low (x c k : Nat) (hc : c < 2 ^ k) : (x * 2 ^ k) ||| c = x * 2 ^ k + c := by
  have := Nat.mul_add_lt_is_or hc x
  rw [Nat.mul_comm] at this
  omega

namespace UTF8Iterator

theorem unit_lt (it : UTF8Iterator) (hb : ∀ b ∈ it.buf, b < 256) (i : Nat) : it.unit i < 256 := by
  unfold unit
  rw [List.getD_eq_getElem?_getD]
  cases h : it.buf[it.units + i]? with
  | none => simp
  | some b => 
    simp only [Option.getD_some]
    exact hb b (List.getElem?_mem h)

theorem assemble2 (x c1 : Nat) (hx : x < 32) (h1 : c1 < 64) :
    ((x <<< 6) % 2 ^ 32) ||| (c1 <<< 0) = x * 64 + c1 := by
  have e := or_low x c1 6 (by omega)
  simp only [Nat.shiftLeft_eq, Nat.reducePow, Nat.mul_one] at e ⊢
  rw [Nat.mod_eq_of_lt (by omega), e]

theorem assemble3 (x c1 c2 : Nat) (hx : x < 16) (h1 : c1 < 64) (h2 : c2 < 64) :
    (((x <<< 12) % 2 ^ 32) ||| (c2 <<< 0)) ||| (c1 <<< 6) = x * 4096 + c1 * 64 + c2 := by
  have e1 := or_low c1 c2 6 (by omega)
  have e2 := or_low x (c1 * 64 + c2) 12 (by omega)
  simp only [Nat.shiftLeft_eq, Nat.reducePow, Nat.mul_one] at e1 e2 ⊢
  rw [Nat.mod_eq_of_lt (by omega), Nat.or_assoc, Nat.or_comm c2, e1, e2]
  omega

theorem assemble4 (x c1 c2 c3 : Nat) (hx : x < 8) (h1 : c1 < 64) (h2 : c2 < 64) (h3 : c3 < 64) :
    ((((x <<< 18) % 2 ^ 32) ||| (c3 <<< 0)) ||| (c2 <<< 6)) ||| (c1 <<< 12)
      = x * 262144 + c1 * 4096 + c2 * 64 + c3 := by
  have e1 := or_low c2 c3 6 (by omega)
  have e2 := or_low c1 (c2 * 64 + c3) 12 (by omega)
  have e3 := or_low x (c1 * 4096 + (c2 * 64 + c3)) 18 (by omega)
  simp only [Nat.shiftLeft_eq, Nat.reducePow, Nat.mul_one] at e1 e2 e3 ⊢
  rw [Nat.mod_eq_of_lt (by omega), Nat.or_assoc (x * 262144), Nat.or_assoc (x * 262144),
    Nat.or_comm (c3 ||| c2 * 64), Nat.or_comm c3, e1, e2, e3]
  omega

theorem contSwitch_two (it : UTF8Iterator) (hb : ∀ b ∈ it.buf, b < 256) :
    it.contSwitch 2 (((it.unit 0 &&& leadMask 2) <<< ((2 - 1) * 6)) % 2 ^ 32)
      = if isCont (it.unit 1) = false then none
        else some (it.unit 0 % 32 * 64 + it.unit 1 % 64) := by
  have h0 := it.unit_lt hb 0
  have h1 := it.unit_lt hb 1
  simp only [contSwitch, contArm, byte_cont _ h1, (byte_mask _ h0).1, (byte_mask _ h1).2.2.2,
    Nat.reduceSub, Nat.reduceAdd, Nat.reduceMul]
  split
  · rfl
  · rw [assemble2 _ _ (by omega) (by omega)]

theorem contSwitch_three (it : UTF8Iterator) (hb : ∀ b ∈ it.buf, b < 256) :
    it.contSwitch 3 (((it.unit 0 &&& leadMask 3) <<< ((3 - 1) * 6)) % 2 ^ 32)
      = if isCont (it.unit 1) = false ∨ isCont (it.unit 2) = false then none
        else some (it.unit 0 % 16 * 4096 + it.unit 1 % 64 * 64 + it.unit 2 % 64) := by
  have h0 := it.unit_lt hb 0
  have h1 := it.unit_lt hb 1
  have h2 := it.unit_lt hb 2
  have e := assemble3 (it.unit 0 % 16) (it.unit 1 % 64) (it.unit 2 % 64)
    (by omega) (by omega) (by omega)
  simp only [contSwitch, contArm, byte_cont _ h1, byte_cont _ h2, (byte_mask _ h0).2.1,
    (byte_mask _ h1).2.2.2, (byte_mask _ h2).2.2.2, Nat.reduceSub, Nat.reduceAdd, Nat.reduceMul]
  cases c2 : isCont (it.unit 2) <;> cases c1 : isCont (it.unit 1) <;>
    simp only [Bool.true_eq_false, if_false, if_true, or_self, or_true, or_false,
      Option.some_bind, Option.none_bind, e]

theorem contSwitch_four (it : UTF8Iterator) (hb : ∀ b ∈ it.buf, b < 256) :
    it.contSwitch 4 (((it.unit 0 &&& leadMask 4) <<< ((4 - 1) * 6)) % 2 ^ 32)
      = if isCont (it.unit 1) = false ∨ isCont (it.unit 2) = false ∨ isCont (it.unit 3) = false
        then none
        else some (it.unit 0 % 8 * 262144 + it.unit 1 % 64 * 4096 + it.unit 2 % 64 * 64
          + it.unit 3 % 64) := by
  have h0 := it.unit_lt hb 0
  have h1 := it.unit_lt hb 1
  have h2 := it.unit_lt hb 2
  have h3 := it.unit_lt hb 3
  have e := assemble4 (it.unit 0 % 8) (it.unit 1 % 64) (it.unit 2 % 64) (it.unit 3 % 64)
    (by omega) (by omega) (by omega) (by omega)
  simp only [contSwitch, contArm, byte_cont _ h1, byte_cont _ h2, byte_cont _ h3,
    (byte_mask _ h0).2.2.1, (byte_mask _ h1).2.2.2, (byte_mask _ h2).2.2.2,
    (byte_mask _ h3).2.2.2, Nat.reduceSub, Nat.reduceAdd, Nat.reduceMul]
  cases c3 : isCont (it.unit 3) <;> cases c2 : isCont (it.unit 2) <;>
    cases c1 : isCont (it.unit 1) <;>
    simp only [Bool.true_eq_false, if_false, if_true, or_self, or_true, or_false,
      Option.some_bind, Option.none_bind, e]


theorem ReadCodepointBytes_eq_leadLen (it : UTF8Iterator) (hb : ∀ b ∈ it.buf, b < 256) :
    it.ReadCodepointBytes = leadLen (it.unit 0) :=
  byte_lead _ (it.unit_lt hb 0)

theorem refresh_n (it : UTF8Iterator) (hc : it.CacheOk) :
    it.refresh.n = it.ReadCodepointBytes := by
  unfold refresh
  split
  · rfl
  · rename_i h
    exact ((hc it.units (not_not.mp h)).2 rfl)

@[simp] theorem refresh_units (it : UTF8Iterator) : it.refresh.units = it.units := by
  unfold refresh; split <;> rfl

@[simp] theorem refresh_endp (it : UTF8Iterator) : it.refresh.endp = it.endp := by
  unfold refresh; split <;> rfl

@[simp] theorem refresh_buf (it : UTF8Iterator) : it.refresh.buf = it.buf := by
  unfold refresh; split <;> rfl

@[simp] theorem refresh_pos (it : UTF8Iterator) : it.refresh.pos = it.pos := by
  unfold refresh; split <;> rfl

@[simp] theorem refresh_last_read (it : UTF8Iterator) : it.refresh.last_read = it.last_read := by
  unfold refresh; split <;> rfl

@[simp] theorem refresh_unit (it : UTF8Iterator) (i : Nat) : it.refresh.unit i = it.unit i := by
  simp [unit]

theorem refresh_contSwitch (it : UTF8Iterator) (n c : Nat) :
    it.refresh.contSwitch n c = it.contSwitch n c := by
  unfold contSwitch contArm
  simp only [refresh_unit]

theorem readSpec_unit (it : UTF8Iterator) :
    readSpec it.buf it.units it.endp =
      if it.endp ≤ it.units then 0
      else if leadLen (it.unit 0) = 0 then 0
      else if it.endp < it.units + leadLen (it.unit 0) then 0
      else if leadLen (it.unit 0) = 1 then it.unit 0
      else if leadLen (it.unit 0) = 2 then
        if isCont (it.unit 1) = false then 0
        else it.unit 0 % 32 * 64 + it.unit 1 % 64
      else if leadLen (it.unit 0) = 3 then
        if isCont (it.unit 1) = false ∨ isCont (it.unit 2) = false then 0
        else it.unit 0 % 16 * 4096 + it.unit 1 % 64 * 64 + it.unit 2 % 64
      else
        if isCont (it.unit 1) = false ∨ isCont (it.unit 2) = false ∨ isCont (it.unit 3) = false
        then 0
        else if it.unit 0 % 8 * 262144 + it.unit 1 % 64 * 4096 + it.unit 2 % 64 * 64
            + it.unit 3 % 64 > 0x10FFFF then 0
        else it.unit 0 % 8 * 262144 + it.unit 1 % 64 * 4096 + it.unit 2 % 64 * 64
            + it.unit 3 % 64 := rfl

theorem Read_fst (it : UTF8Iterator) (hb : ∀ b ∈ it.buf, b < 256) (hc : it.CacheOk) :
    it.Read.1 = readSpec it.buf it.units it.endp := by
  have h0 := it.unit_lt hb 0
  have h1 := it.unit_lt hb 1
  have h2 := it.unit_lt hb 2
  have hn : it.refresh.n = leadLen (it.unit 0) := by
    rw [refresh_n it hc, ReadCodepointBytes_eq_leadLen it hb]
  rw [readSpec_unit]
  unfold Read
  by_cases hend : it.units ≥ it.endp
  · simp [hend]
  · have hend' : ¬ it.endp ≤ it.units := hend
    simp only [hend, hend', if_false, byte_hi _ h0, hn, refresh_units, refresh_endp,
      refresh_contSwitch]
    by_cases hhi : 128 ≤ it.unit 0
    · have hl : leadLen (it.unit 0) = 0 ∨ leadLen (it.unit 0) = 2 ∨ leadLen (it.unit 0) = 3 ∨
          leadLen (it.unit 0) = 4 := by
        unfold leadLen
        split_ifs <;> simp_all
        omega
      rcases hl with hl | hl | hl | hl
      · simp [hl, hhi]
      · simp only [hl, hhi, if_true, contSwitch_two it hb]
        by_cases ht : it.units + 2 > it.endp
        · have : it.endp < it.units + 2 := ht
          simp [ht, this]
        · have : ¬ it.endp < it.units + 2 := ht
          have hv : ¬ it.unit 0 % 32 * 64 + it.unit 1 % 64 > 1114111 := by omega
          cases c1 : isCont (it.unit 1) <;> simp [ht, this, hv]
      · simp only [hl, hhi, if_true, contSwitch_three it hb]
        by_cases ht : it.units + 3 > it.endp
        · have : it.endp < it.units + 3 := ht
          simp [ht, this]
        · have : ¬ it.endp < it.units + 3 := ht
          have hv : ¬ it.unit 0 % 16 * 4096 + it.unit 1 % 64 * 64 + it.unit 2 % 64 > 1114111 := by
            omega
          cases c1 : isCont (it.unit 1) <;> cases c2 : isCont (it.unit 2) <;>
            simp [ht, this, hv]
      · simp only [hl, hhi, if_true, contSwitch_four it hb]
        by_cases ht : it.units + 4 > it.endp
        · have : it.endp < it.units + 4 := ht
          simp [ht, this]
        · have : ¬ it.endp < it.units + 4 := ht
          by_cases hv : it.unit 0 % 8 * 262144 + it.unit 1 % 64 * 4096 + it.unit 2 % 64 * 64
              + it.unit 3 % 64 > 1114111 <;>
          cases c1 : isCont (it.unit 1) <;> cases c2 : isCont (it.unit 2) <;>
            cases c3 : isCont (it.unit 3) <;> simp [ht, this, hv]
    · have hl : leadLen (it.unit 0) = 1 := by
        unfold leadLen; split_ifs <;> simp_all
      have : ¬ it.endp < it.units + 1 := by omega
      simp [hl, hhi, this]

/-- `Read` changes nothing but the cache fields `n` and `last_read`. -/
theorem Read_frame (it : UTF8Iterator) :
    it.Read.2.units = it.units ∧ it.Read.2.pos = it.pos ∧ it.Read.2.buf = it.buf ∧
      it.Read.2.endp = it.endp := by
  unfold Read
  by_cases h1 : it.units ≥ it.endp
  · simp [h1]
  · by_cases h2 : it.unit 0 &&& 0x80 = 0
    · simp [h1, h2]
    · by_cases h3 : it.refresh.n = 0
      · simp [h1, h2, h3]
      · simp only [refresh_units, refresh_endp, gt_iff_lt]
        by_cases h4 : it.endp < it.units + it.refresh.n
        · simp [h1, h2, h3, h4]
        · simp only [h1, h2, h3, h4, if_false, ne_eq, not_false_eq_true, if_true]
          cases it.refresh.contSwitch it.refresh.n
              (((it.unit 0 &&& leadMask it.refresh.n) <<< ((it.refresh.n - 1) * 6)) % 2 ^ 32) with
          | none => simp
          | some c => by_cases h5 : c > 0x10FFFF <;> simp [h5]

end UTF8Iterator

/-! ### The cache of the iterator -/

theorem UTF8Iterator.CacheOk_new (str : List Nat) : (UTF8Iterator.new str).CacheOk := by
  intro p h
  simp [UTF8Iterator.new] at h

theorem UTF8Iterator.CacheOk_Read (it : UTF8Iterator) (hc : it.CacheOk) : it.Read.2.CacheOk := by
  have hr := refresh_n it hc
  unfold Read
  by_cases h1 : it.units ≥ it.endp
  · simpa [h1] using hc
  · by_cases h2 : it.unit 0 &&& 0x80 = 0
    · simp only [h1, h2, if_false, ne_eq, not_true_eq_false]
      intro p hp
      simp only [Option.some.injEq] at hp
      subst hp
      refine ⟨Nat.le_refl _, fun _ => ?_⟩
      show 1 = if it.unit 0 &&& 0x80 ≠ 0 then _ else 1
      rw [if_neg (by simpa using h2)]
    · have hcr : it.refresh.CacheOk := by
        intro p hp
        rw [refresh_last_read] at hp
        refine ⟨by simpa using (hc p hp).1, fun e => ?_⟩
        rw [hr]
        simp [ReadCodepointBytes, unit]
      by_cases h3 : it.refresh.n = 0
      · simpa [h1, h2, h3] using hcr
      · simp only [refresh_units, refresh_endp, gt_iff_lt]
        by_cases h4 : it.endp < it.units + it.refresh.n
        · simpa [h1, h2, h3, h4] using hcr
        · simp only [h1, h2, h3, h4, if_false, ne_eq, not_false_eq_true, if_true]
          cases it.refresh.contSwitch it.refresh.n
              (((it.unit 0 &&& leadMask it.refresh.n) <<< ((it.refresh.n - 1) * 6)) % 2 ^ 32) with
          | none => simpa using hcr
          | some c =>
            by_cases h5 : c > 0x10FFFF
            · simpa [h5] using hcr
            · simp only [h5, if_false]
              intro p hp
              simp only [Option.some.injEq] at hp
              subst hp
              refine ⟨by simp, fun _ => ?_⟩
              simp only [hr]
              simp [ReadCodepointBytes, unit]

theorem UTF8Iterator.CacheOk_Advance (it : UTF8Iterator) (hc : it.CacheOk) :
    it.Advance.2.CacheOk := by
  have hr := refresh_n it hc
  have hcr : it.refresh.CacheOk := by
    intro p hp
    rw [refresh_last_read] at hp
    refine ⟨by simpa using (hc p hp).1, fun e => ?_⟩
    rw [hr]
    simp [ReadCodepointBytes, unit]
  unfold Advance
  by_cases h1 : it.units ≥ it.endp
  · simpa [h1] using hc
  · by_cases h3 : it.refresh.n = 0
    · simpa [h1, h3] using hcr
    · simp only [refresh_units, refresh_endp, gt_iff_lt]
      by_cases h4 : it.endp < it.units + it.refresh.n
      · simpa [h1, h3, h4] using hcr
      · simp only [h1, h3, h4, if_false]
        intro p hp
        simp only [refresh_last_read] at hp
        have := (hc p hp).1
        refine ⟨by simp; omega, fun e => ?_⟩
        simp at e
        omega

theorem UTF8Iterator.Reachable.cacheOk {it : UTF8Iterator} (h : it.Reachable) : it.CacheOk := by
  induction h with
  | new str => exact CacheOk_new str
  | Read it _ ih => exact CacheOk_Read it ih
  | Advance it _ ih => exact CacheOk_Advance it ih

/-! ### Stepping over well-formed UTF-8 -/

theorem utf8Canonical_shape (cp : Nat) (h1 : 1 ≤ cp) (h2 : cp ≤ 0x10FFFF) :
    ∃ b rest, utf8Canonical cp = b :: rest ∧ b < 256 ∧ leadLen b = rest.length + 1 ∧
      b ≠ 0 ∧ ∀ x ∈ rest, x ≠ 0 := by
  unfold utf8Canonical
  split_ifs with c1 c2 c3
  · exact ⟨cp, [], rfl, by omega, by unfold leadLen; simp [c1], by omega, by simp⟩
  · refine ⟨_, _, rfl, by omega, ?_, by omega, by simp⟩
    unfold leadLen
    rw [if_neg (by omega), if_pos (by omega)]
    rfl
  · refine ⟨_, _, rfl, by omega, ?_, by omega, by simp⟩
    unfold leadLen
    rw [if_neg (by omega), if_neg (by omega), if_pos (by omega)]
    rfl
  · refine ⟨_, _, rfl, by omega, ?_, by omega, by simp⟩
    unfold leadLen
    rw [if_neg (by omega), if_neg (by omega), if_neg (by omega), if_pos (by omega)]
    rfl

theorem utf8Encode_ne_zero (cps : List Nat) (h : ∀ cp ∈ cps, 1 ≤ cp ∧ cp ≤ 0x10FFFF) :
    ∀ b ∈ utf8Encode cps, b ≠ 0 := by
  induction cps with
  | nil => simp [utf8Encode]
  | cons cp cps ih =>
    obtain ⟨b, rest, e, _, _, hb, hr⟩ := utf8Canonical_shape cp (h cp (by simp)).1 (h cp (by simp)).2
    intro x hx
    simp only [utf8Encode, e, List.mem_append, List.mem_cons] at hx
    rcases hx with (rfl | hx) | hx
    · exact hb
    · exact hr x hx
    · exact ih (fun c hc => h c (by simp [hc])) x hx

theorem strlen_append (xs tail : List Nat) (hx : ∀ b ∈ xs, b ≠ 0) (ht : tail.headD 0 = 0) :
    strlen (xs ++ tail) = xs.length := by
  unfold strlen
  induction xs with
  | nil =>
    cases tail with
    | nil => rfl
    | cons t ts =>
      simp only [List.headD_cons] at ht
      simp [ht]
  | cons x xs ih =>
    have hx0 : x ≠ 0 := hx x (by simp)
    simp only [List.cons_append, List.takeWhile_cons, bne_iff_ne, ne_eq, hx0, not_false_eq_true,
      if_true, List.length_cons]
    rw [ih (fun b hb => hx b (by simp [hb]))]

theorem getD_append_cons (pre post : List Nat) (b : Nat) :
    (pre ++ b :: post).getD pre.length 0 = b := by
  induction pre with
  | nil => rfl
  | cons p ps ih => simpa using ih

theorem UTF8Iterator.Advance_lead (pre rest post : List Nat) (b e pos n : Nat) (hb : b < 256)
    (hl : leadLen b = rest.length + 1) (he : pre.length + rest.length + 1 ≤ e) :
    (UTF8Iterator.mk (pre ++ b :: rest ++ post) pre.length e none pos n).Advance
      = (true, UTF8Iterator.mk (pre ++ b :: rest ++ post) (pre.length + (rest.length + 1)) e none
          (pos + 1) (rest.length + 1)) := by
  have hu : (UTF8Iterator.mk (pre ++ b :: rest ++ post) pre.length e none pos n).unit 0 = b := by
    show (pre ++ b :: rest ++ post).getD (pre.length + 0) 0 = b
    rw [Nat.add_zero, List.append_assoc, List.cons_append]
    exact getD_append_cons pre (rest ++ post) b
  have hr : (UTF8Iterator.mk (pre ++ b :: rest ++ post) pre.length e none pos n).ReadCodepointBytes
      = rest.length + 1 := by
    have := byte_lead b hb
    rw [hl] at this
    unfold ReadCodepointBytes
    rw [hu]
    exact this
  have hrf : (UTF8Iterator.mk (pre ++ b :: rest ++ post) pre.length e none pos n).refresh
      = UTF8Iterator.mk (pre ++ b :: rest ++ post) pre.length e none pos (rest.length + 1) := by
    unfold refresh
    rw [hr]
    simp
  unfold Advance
  rw [hrf]
  have h1 : ¬ pre.length ≥ e := by omega
  have h2 : ¬ pre.length + (rest.length + 1) > e := by omega
  simp [h1, h2]

theorem advanceAll_encode (cps : List Nat) (h : ∀ cp ∈ cps, 1 ≤ cp ∧ cp ≤ 0x10FFFF) :
    ∀ (pre post : List Nat) (pos n count bytes fuel : Nat), cps.length + 1 ≤ fuel →
      ∃ n', advanceAll fuel
        (UTF8Iterator.mk (pre ++ utf8Encode cps ++ post) pre.length
          (pre.length + (utf8Encode cps).length) none pos n) count bytes
        = .ret (count + cps.length, bytes + (utf8Encode cps).length,
            UTF8Iterator.mk (pre ++ utf8Encode cps ++ post) (pre.length + (utf8Encode cps).length)
              (pre.length + (utf8Encode cps).length) none (pos + cps.length) n') := by
  induction cps with
  | nil =>
    intro pre post pos n count bytes fuel hf
    obtain ⟨f, rfl⟩ : ∃ f, fuel = f + 1 := ⟨fuel - 1, by omega⟩
    refine ⟨n, ?_⟩
    simp [advanceAll, utf8Encode, UTF8Iterator.Advance]
  | cons cp cps ih =>
    intro pre post pos n count bytes fuel hf
    obtain ⟨f, rfl⟩ : ∃ f, fuel = f + 1 := ⟨fuel - 1, by omega⟩
    obtain ⟨b, rest, e, hb, hl, _, _⟩ :=
      utf8Canonical_shape cp (h cp (by simp)).1 (h cp (by simp)).2
    have hstep := UTF8Iterator.Advance_lead pre rest (utf8Encode cps ++ post) b
      (pre.length + (utf8Encode (cp :: cps)).length) pos n hb hl
      (by simp [utf8Encode, e]; omega)
    have hbuf : pre ++ utf8Encode (cp :: cps) ++ post
        = pre ++ b :: rest ++ (utf8Encode cps ++ post) := by
      simp [utf8Encode, e]
    have hbuf2 : pre ++ utf8Encode (cp :: cps) ++ post
        = (pre ++ b :: rest) ++ utf8Encode cps ++ post := by
      simp [utf8Encode, e]
    have hlen : (utf8Encode (cp :: cps)).length = (rest.length + 1) + (utf8Encode cps).length := by
      simp [utf8Encode, e]
      omega
    obtain ⟨n', ih'⟩ := ih (fun c hc => h c (by simp [hc])) (pre ++ b :: rest) post (pos + 1)
      (rest.length + 1) (count + 1) (bytes + (rest.length + 1)) f (by simp at hf; omega)
    refine ⟨n', ?_⟩
    rw [advanceAll]
    simp only [hbuf, hstep, if_true, UTF8Iterator.GetCodepointBytes]
    rw [← hbuf, hbuf2, hlen]
    have e1 : pre.length + (rest.length + 1) = (pre ++ b :: rest).length := by simp
    have e2 : pre.length + (rest.length + 1 + (utf8Encode cps).length)
        = (pre ++ b :: rest).length + (utf8Encode cps).length := by simp; omega
    rw [e1, e2, ih']
    simp
    omega

theorem UTF8Iterator.new_encode (cps : List Nat) (hcp : ∀ cp ∈ cps, 1 ≤ cp ∧ cp ≤ 0x10FFFF)
    (bom : Bool) (tail : List Nat) (ht : tail.headD 0 = 0)
    (hbom : bom = false → ¬ utf8BOM <+: utf8Encode cps) :
    UTF8Iterator.new ((if bom = true then utf8BOM else []) ++ utf8Encode cps ++ tail)
      = UTF8Iterator.mk ((if bom = true then utf8BOM else []) ++ utf8Encode cps ++ tail)
          (if bom = true then utf8BOM else []).length
          ((if bom = true then utf8BOM else []).length + (utf8Encode cps).length) none 0 0 := by
  have hz := utf8Encode_ne_zero cps hcp
  cases bom with
  | true =>
    have hl : strlen (utf8BOM ++ utf8Encode cps ++ tail) = 3 + (utf8Encode cps).length := by
      rw [strlen_append _ _ _ ht]
      · simp [utf8BOM]; omega
      · intro b hb
        simp only [List.mem_append] at hb
        rcases hb with hb | hb
        · simp [utf8BOM] at hb; omega
        · exact hz b hb
    simp only [if_true, UTF8Iterator.new, hl]
    simp [utf8BOM]
  | false =>
    have hl : strlen ([] ++ utf8Encode cps ++ tail) = (utf8Encode cps).length := by
      rw [List.nil_append, strlen_append _ _ hz ht]
    have hno : ¬ (3 ≤ (utf8Encode cps).length ∧ ([] ++ utf8Encode cps ++ tail).getD 0 0 = 0xEF ∧
        ([] ++ utf8Encode cps ++ tail).getD 1 0 = 0xBB ∧
        ([] ++ utf8Encode cps ++ tail).getD 2 0 = 0xBF) := by
      rintro ⟨h3, h0, h1, h2⟩
      apply hbom rfl
      match hb : utf8Encode cps, h3 with
      | a :: b :: c :: rest, _ =>
        rw [hb] at h0 h1 h2
        simp at h0 h1 h2
        subst h0 h1 h2
        exact ⟨rest, rfl⟩
    simp only [Bool.false_eq_true, if_false, UTF8Iterator.new, hl, hno]
    simp

/-- C10: over a buffer that holds the canonical encodings of the codepoints
`cps` (each in 1..0x10FFFF), after a byte order mark when `bom` is set and
otherwise not starting with one, and that ends there or goes on with a NUL,
stepping with `Advance` until it fails makes `cps.length` successful calls, the
values of `GetCodepointBytes()` add up to the byte length of the encodings, and
the iterator stops with `GetPosition()` equal to the number of codepoints and
`GetNumBytesLeft()` equal to 0. -/
theorem C10_advance_counts_codepoints (cps : List Nat)
    (hcp : ∀ cp ∈ cps, 1 ≤ cp ∧ cp ≤ 0x10FFFF) (bom : Bool) (tail : List Nat)
    (ht : tail.headD 0 = 0) (hbom : bom = false → ¬ utf8BOM <+: utf8Encode cps)
    (fuel : Nat) (hf : cps.length + 1 ≤ fuel) :
    ∃ it', advanceAll fuel
        (UTF8Iterator.new ((if bom = true then utf8BOM else []) ++ utf8Encode cps ++ tail)) 0 0
        = .ret (cps.length, (utf8Encode cps).length, it') ∧
      it'.GetPosition = cps.length ∧ it'.GetNumBytesLeft = 0 := by
  rw [UTF8Iterator.new_encode cps hcp bom tail ht hbom]
  obtain ⟨n', h⟩ := advanceAll_encode cps hcp (if bom = true then utf8BOM else []) tail 0 0 0 0
    fuel hf
  simp only [Nat.zero_add] at h
  exact ⟨_, h, rfl, by simp [UTF8Iterator.GetNumBytesLeft]⟩

/-- Witness of C10: the buffer `41` `C3 A9` `E2 82 AC` `00`, the codepoints
U+0041, U+00E9, U+20AC without a byte order mark. -/
theorem C10_advance_counts_codepoints_witness :
    (∀ cp ∈ [0x41, 0xE9, 0x20AC], 1 ≤ cp ∧ cp ≤ 0x10FFFF) ∧ ([0] : List Nat).headD 0 = 0 ∧
    (false = false → ¬ utf8BOM <+: utf8Encode [0x41, 0xE9, 0x20AC]) ∧ 3 + 1 ≤ 4 ∧
    ∃ it', advanceAll 4
        (UTF8Iterator.new ((if false = true then utf8BOM else []) ++ utf8Encode [0x41, 0xE9, 0x20AC]
          ++ [0])) 0 0
        = .ret (3, (utf8Encode [0x41, 0xE9, 0x20AC]).length, it') ∧
      it'.GetPosition = 3 ∧ it'.GetNumBytesLeft = 0 :=
  ⟨by decide, rfl, by decide, by decide,
    C10_advance_counts_codepoints [0x41, 0xE9, 0x20AC] (by decide) false [0] rfl (by decide) 4
      (by decide)⟩

/-! ### Read against its specification -/

/-- C9: on an iterator whose cache is sound, as it is in every state that the
constructor, `Read` and `Advance` produce, over a buffer of bytes, `Read`
returns the value of `readSpec` at the cursor: 0 at the end of the buffer, for a
byte that is no lead of a sequence of one to four bytes, for a sequence cut by
the end of the buffer, for a continuation byte not of the form `10xxxxxx` and
for a value above 0x10FFFF, and otherwise the value assembled from the payload
bits of the lead and continuation bytes; and it leaves the cursor,
`GetPosition()` and `GetNumBytesLeft()` as they were. -/
theorem C9_Read_refines_readSpec (it : UTF8Iterator) (hb : ∀ b ∈ it.buf, b < 256)
    (hc : it.CacheOk) :
    it.Read.1 = readSpec it.buf it.GetReadPtr it.endp ∧
      it.Read.2.GetReadPtr = it.GetReadPtr ∧ it.Read.2.GetPosition = it.GetPosition ∧
      it.Read.2.GetNumBytesLeft = it.GetNumBytesLeft := by
  obtain ⟨h1, h2, _, h4⟩ := UTF8Iterator.Read_frame it
  exact ⟨UTF8Iterator.Read_fst it hb hc, h1, h2, by simp [UTF8Iterator.GetNumBytesLeft, h1, h4]⟩

/-- Witness of C9: the iterator that the constructor builds over `C3 A9`. -/
theorem C9_Read_refines_readSpec_witness :
    (∀ b ∈ (UTF8Iterator.new [0xC3, 0xA9]).buf, b < 256) ∧ (UTF8Iterator.new [0xC3, 0xA9]).CacheOk ∧
    (UTF8Iterator.new [0xC3, 0xA9]).Read.1 = readSpec (UTF8Iterator.new [0xC3, 0xA9]).buf
        (UTF8Iterator.new [0xC3, 0xA9]).GetReadPtr (UTF8Iterator.new [0xC3, 0xA9]).endp ∧
      (UTF8Iterator.new [0xC3, 0xA9]).Read.2.GetReadPtr = (UTF8Iterator.new [0xC3, 0xA9]).GetReadPtr ∧
      (UTF8Iterator.new [0xC3, 0xA9]).Read.2.GetPosition = (UTF8Iterator.new [0xC3, 0xA9]).GetPosition ∧
      (UTF8Iterator.new [0xC3, 0xA9]).Read.2.GetNumBytesLeft
        = (UTF8Iterator.new [0xC3, 0xA9]).GetNumBytesLeft :=
  ⟨by decide, UTF8Iterator.CacheOk_new _,
    C9_Read_refines_readSpec (UTF8Iterator.new [0xC3, 0xA9]) (by decide)
      (UTF8Iterator.CacheOk_new _)⟩

/-! ### UTF32ToUTF8 -/

/-- C8: for the codepoint U+00E9 `UTF32ToUTF8` returns 2 and leaves `A9 C3` in
`bytes`, the continuation byte first and the lead byte last, where the
canonical encoding is `C3 A9`; a `UTF8Iterator` over the bytes written reads 0,
and over the canonical bytes it reads 0xE9 with `GetCodepointBytes()` = 2. -/
theorem C8_UTF32ToUTF8_writes_lead_byte_last :
    UTF32ToUTF8 0xE9 = (2, [0xA9, 0xC3, 0, 0]) ∧ utf8Canonical 0xE9 = [0xC3, 0xA9] ∧
    (UTF8Iterator.new ((UTF32ToUTF8 0xE9).2.take (UTF32ToUTF8 0xE9).1)).Read.1 = 0 ∧
    (UTF8Iterator.new (utf8Canonical 0xE9)).Read.1 = 0xE9 ∧
    (UTF8Iterator.new (utf8Canonical 0xE9)).Read.2.GetCodepointBytes = 2 := by
  decide

/-! ### Outcomes -/

@[simp] theorem Outcome.ret_bind {α β : Type} (a : α) (f : α → Outcome β) :
    (Outcome.ret a).bind f = f a := rfl

@[simp] theorem Outcome.abort_bind {α β : Type} (f : α → Outcome β) :
    (Outcome.abort : Outcome α).bind f = .abort := rfl

@[simp] theorem Outcome.undefined_bind {α β : Type} (f : α → Outcome β) :
    (Outcome.undefined : Outcome α).bind f = .undefined := rfl

@[simp] theorem Outcome.nofuel_bind {α β : Type} (f : α → Outcome β) :
    (Outcome.nofuel : Outcome α).bind f = .nofuel := rfl

theorem Outcome.bind_eq_ret {α β : Type} {o : Outcome α} {f : α → Outcome β} {b : β} :
    o.bind f = .ret b ↔ ∃ a, o = .ret a ∧ f a = .ret b := by
  cases o <;> simp [Outcome.bind]

/-! ### Evaluation of examples -/

mutual
theorem Node.eq_of_beq {D : Type} [DecidableEq D] :
    ∀ (a b : Node D), Node.beq a b = true → a = b
  | .null, .null, _ => rfl
  | .boolean a, .boolean b, h => by simp [Node.beq] at h; rw [h]
  | .number a, .number b, h => by simp [Node.beq] at h; rw [h]
  | .string a, .string b, h => by simp [Node.beq] at h; rw [h]
  | .array s es, .array t fs, h => by
    simp only [Node.beq, Bool.and_eq_true, beq_iff_eq] at h
    rw [h.1, Node.eq_of_beqElements es fs h.2]
  | .object ms, .object ns, h => by
    simp only [Node.beq] at h
    rw [Node.eq_of_beqChildren ms ns h]
  | .null, .boolean _, h | .null, .number _, h | .null, .string _, h | .null, .array _ _, h
  | .null, .object _, h => by simp [Node.beq] at h
  | .boolean _, .null, h | .boolean _, .number _, h | .boolean _, .string _, h
  | .boolean _, .array _ _, h | .boolean _, .object _, h => by simp [Node.beq] at h
  | .number _, .null, h | .number _, .boolean _, h | .number _, .string _, h
  | .number _, .array _ _, h | .number _, .object _, h => by simp [Node.beq] at h
  | .string _, .null, h | .string _, .boolean _, h | .string _, .number _, h
  | .string _, .array _ _, h | .string _, .object _, h => by simp [Node.beq] at h
  | .array _ _, .null, h | .array _ _, .boolean _, h | .array _ _, .number _, h
  | .array _ _, .string _, h | .array _ _, .object _, h => by simp [Node.beq] at h
  | .object _, .null, h | .object _, .boolean _, h | .object _, .number _, h
  | .object _, .string _, h | .object _, .array _ _, h => by simp [Node.beq] at h
theorem Node.eq_of_beqElements {D : Type} [DecidableEq D] :
    ∀ (es fs : List (Node D)), Node.beqElements es fs = true → es = fs
  | [], [], _ => rfl
  | e :: es, f :: fs, h => by
    simp only [Node.beqElements, Bool.and_eq_true] at h
    rw [Node.eq_of_beq e f h.1, Node.eq_of_beqElements es fs h.2]
  | [], _ :: _, h | _ :: _, [], h => by simp [Node.beqElements] at h
theorem Node.eq_of_beqChildren {D : Type} [DecidableEq D] :
    ∀ (ms ns : List (List Nat × Node D)), Node.beqChildren ms ns = true → ms = ns
  | [], [], _ => rfl
  | (k, v) :: ms, (l, w) :: ns, h => by
    simp only [Node.beqChildren, Bool.and_eq_true, beq_iff_eq] at h
    rw [h.1.1, Node.eq_of_beq v w h.1.2, Node.eq_of_beqChildren ms ns h.2]
  | [], _ :: _, h | _ :: _, [], h => by simp [Node.beqChildren] at h
end

theorem eq_of_returns {D : Type} [DecidableEq D] {o : Outcome (Result × Node D × List Nat)}
    {r : Result} {n : Node D} {e : List Nat} (h : returns o r n e = true) : o = .ret (r, n, e) := by
  unfold returns at h
  match o, h with
  | .ret (r', n', e'), h =>
    simp only [Bool.and_eq_true, decide_eq_true_eq] at h
    rw [h.1.1, Node.eq_of_beq _ _ h.1.2, h.2]

/-! ### A failed parse leaves `json` empty -/

theorem GenerateNodes_fail_null {D : Type} (strtod : List Nat → D × Nat) (fuel : Nat)
    (iter : UTF8Iterator) (szError : List Nat) (uCurDepth uMaxDepth : Nat) (n : Node D)
    (g : Generated D) (h : GenerateNodes strtod fuel iter szError uCurDepth uMaxDepth n = .ret g)
    (hf : g.res.m_bSuccess = false) : g.n = .null := by
  cases fuel with
  | zero => simp [GenerateNodes] at h
  | succ fuel =>
    simp only [GenerateNodes, Outcome.bind_eq_ret] at h
    obtain ⟨w, _, h⟩ := h
    split at h
    · simp only [Outcome.ret.injEq] at h
      subst h
      rfl
    · rw [Outcome.bind_eq_ret] at h
      obtain ⟨l, _, h⟩ := h
      split at h
      · simp only [Outcome.ret.injEq] at h
        subst h
        rfl
      · simp only [Outcome.ret.injEq] at h
        subst h
        unfold scopeEnd at hf ⊢
        split
        · rfl
        · split
          · rfl
          · rename_i h1 h2
            simp [h1, h2] at hf

/-- C2: whenever `Parse` returns a `Result` with `m_bSuccess = false`, the node
`json` it leaves is the `Null` node, whatever `json`, `szError` and the
configuration were at the call. -/
theorem C2_failed_parse_resets_json {D : Type} (strtod : List Nat → D × Nat) (cfg : ParserConfig)
    (szJson : List Nat) (json : Node D) (szError : List Nat) (r : Result) (n : Node D)
    (e : List Nat) (h : Parse strtod cfg szJson json szError = .ret (r, n, e))
    (hf : r.m_bSuccess = false) : n = Node.null ∧ n.GetType = NodeType.Null := by
  simp only [Parse, Outcome.bind_eq_ret] at h
  obtain ⟨g, hg, h⟩ := h
  split at h
  · rename_i hgf
    simp only [Outcome.ret.injEq, Prod.mk.injEq] at h
    have := GenerateNodes_fail_null strtod _ _ _ _ _ _ g hg hgf
    rw [← h.2.1, this]
    exact ⟨rfl, rfl⟩
  · simp only [Outcome.ret.injEq, Prod.mk.injEq] at h
    rw [← h.1] at hf
    simp at hf

/-- Witness of C2: the input `{"a":[1,2` with `json` holding a string; the
parse fails inside the nested array, after the member `a` was begun. -/
theorem C2_failed_parse_resets_json_witness :
    Parse strtodDigits {} (ascii "\x7b\"a\":[1,2") (Node.string (ascii "old")) []
      = .ret ({ m_bSuccess := false, m_szMsg := ascii "Malformed object, unexpected '2' at position 9" },
          Node.null, ascii "Malformed object, unexpected '2' at position 9") ∧
    ({ m_bSuccess := false, m_szMsg := ascii "Malformed object, unexpected '2' at position 9" }
      : Result).m_bSuccess = false ∧
    ((Node.null : Node Nat) = Node.null ∧ (Node.null : Node Nat).GetType = NodeType.Null) :=
  ⟨eq_of_returns (by decide!), rfl,
    C2_failed_parse_resets_json strtodDigits {} (ascii "\x7b\"a\":[1,2") (Node.string (ascii "old")) []
      { m_bSuccess := false, m_szMsg := ascii "Malformed object, unexpected '2' at position 9" }
      Node.null (ascii "Malformed object, unexpected '2' at position 9")
      (eq_of_returns (by decide!)) rfl⟩

/-! ### Nodes: types and homogeneity under copy, Set and Append -/

theorem Node.copy_GetType {D : Type} (n : Node D) : n.copy.GetType = n.GetType := by
  cases n <;> simp [Node.copy, Node.GetType]

theorem Node.copyElements_eq_map {D : Type} (es : List (Node D)) :
    Node.copyElements es = es.map Node.copy := by
  induction es with
  | nil => rfl
  | cons e es ih => simp [Node.copyElements, ih]

theorem sameTypes_copyElements {D : Type} (es : List (Node D)) :
    sameTypes (Node.copyElements es) = sameTypes es := by
  rw [Node.copyElements_eq_map]
  unfold sameTypes
  cases es with
  | nil => rfl
  | cons e es =>
    simp only [List.map_cons, List.headD_cons, List.all_cons, List.all_map, Node.copy_GetType,
      Function.comp_def]

mutual
theorem Node.homogeneous_copy {D : Type} :
    ∀ (n : Node D), n.homogeneous = true → n.copy.homogeneous = true
  | .null, _ => rfl
  | .boolean _, _ => rfl
  | .number _, _ => rfl
  | .string _, _ => rfl
  | .array _ es, h => by
    simp only [Node.homogeneous, Bool.and_eq_true] at h
    simp only [Node.copy, Node.homogeneous, Bool.and_eq_true, sameTypes_copyElements]
    exact ⟨h.1, Node.homogeneousElements_copy es h.2⟩
  | .object ms, h => by
    simp only [Node.homogeneous] at h
    simp only [Node.copy, Node.homogeneous]
    exact Node.homogeneousChildren_copy ms h
theorem Node.homogeneousElements_copy {D : Type} :
    ∀ (es : List (Node D)), Node.homogeneousElements es = true →
      Node.homogeneousElements (Node.copyElements es) = true
  | [], _ => rfl
  | e :: es, h => by
    simp only [Node.homogeneousElements, Bool.and_eq_true] at h
    simp only [Node.copyElements, Node.homogeneousElements, Bool.and_eq_true]
    exact ⟨Node.homogeneous_copy e h.1, Node.homogeneousElements_copy es h.2⟩
theorem Node.homogeneousChildren_copy {D : Type} :
    ∀ (ms : List (List Nat × Node D)), Node.homogeneousChildren ms = true →
      Node.homogeneousChildren (Node.copyChildren ms) = true
  | [], _ => rfl
  | (_, v) :: ms, h => by
    simp only [Node.homogeneousChildren, Bool.and_eq_true] at h
    simp only [Node.copyChildren, Node.homogeneousChildren, Bool.and_eq_true]
    exact ⟨Node.homogeneous_copy v h.1, Node.homogeneousChildren_copy ms h.2⟩
end

theorem Node.homogeneousElements_append {D : Type} (es : List (Node D)) (x : Node D)
    (h : Node.homogeneousElements es = true) (hx : x.homogeneous = true) :
    Node.homogeneousElements (es ++ [x]) = true := by
  induction es with
  | nil => simp [Node.homogeneousElements, hx]
  | cons e es ih =>
    simp only [Node.homogeneousElements, Bool.and_eq_true] at h
    simp only [List.cons_append, Node.homogeneousElements, Bool.and_eq_true]
    exact ⟨h.1, ih h.2⟩

theorem Node.homogeneousChildren_mapAssign {D : Type} (ms : List (List Nat × Node D))
    (k : List Nat) (x : Node D) (h : Node.homogeneousChildren ms = true)
    (hx : x.homogeneous = true) : Node.homogeneousChildren (mapAssign ms k x) = true := by
  induction ms with
  | nil => simp [mapAssign, Node.homogeneousChildren, hx]
  | cons m ms ih =>
    obtain ⟨k', v'⟩ := m
    simp only [Node.homogeneousChildren, Bool.and_eq_true] at h
    unfold mapAssign
    split
    · simp [Node.homogeneousChildren, hx, h.2]
    · split
      · simp [Node.homogeneousChildren, hx, h.1, h.2]
      · simp [Node.homogeneousChildren, h.1, ih h.2]

theorem sameTypes_of_forall {D : Type} (es : List (Node D)) (t : NodeType)
    (h : ∀ e ∈ es, e.GetType = t) : sameTypes es = true := by
  unfold sameTypes
  cases es with
  | nil => rfl
  | cons e es =>
    simp only [List.headD_cons, List.all_eq_true, beq_iff_eq]
    intro x hx
    rw [h x hx, h e (by simp)]

theorem Node.typed_Append {D : Type} (self x n' : Node D) (hs : self.typed)
    (hx : x.homogeneous = true) (h : self.Append x = .ret n') :
    n'.typed ∧ n'.GetType = self.GetType := by
  cases self with
  | array et es =>
    simp only [Node.Append] at h
    by_cases hty : x.GetType ≠ (if es.isEmpty = true then x.GetType else et)
    · rw [if_pos hty] at h
      exact absurd h (by simp)
    · rw [if_neg hty] at h
      simp only [Outcome.ret.injEq] at h
      subst h
      have hall : ∀ e ∈ es ++ [x.copy], e.GetType = (if es.isEmpty = true then x.GetType else et) := by
        intro e he
        simp only [List.mem_append, List.mem_singleton] at he
        rcases he with he | he
        · have hne : es.isEmpty = false := by
            cases es with
            | nil => simp at he
            | cons _ _ => rfl
          simp only [hne, Bool.false_eq_true, if_false]
          exact hs.2 e he
        · rw [he, Node.copy_GetType]
          simpa using hty
      refine ⟨⟨?_, hall⟩, rfl⟩
      simp only [Node.homogeneous, Bool.and_eq_true]
      refine ⟨sameTypes_of_forall _ _ hall, Node.homogeneousElements_append es _ ?_
        (Node.homogeneous_copy x hx)⟩
      have := hs.1
      simp only [Node.homogeneous, Bool.and_eq_true] at this
      exact this.2
  | null => simp [Node.Append] at h
  | boolean _ => simp [Node.Append] at h
  | number _ => simp [Node.Append] at h
  | string _ => simp [Node.Append] at h
  | object _ => simp [Node.Append] at h

theorem Node.typed_Set {D : Type} (self x n' : Node D) (k : List Nat) (hs : self.typed)
    (hx : x.homogeneous = true) (h : self.Set k x = .ret n') :
    n'.typed ∧ n'.GetType = self.GetType := by
  cases self with
  | object ms =>
    simp only [Node.Set, Outcome.ret.injEq] at h
    subst h
    refine ⟨⟨?_, trivial⟩, rfl⟩
    have := hs.1
    simp only [Node.homogeneous] at this ⊢
    exact Node.homogeneousChildren_mapAssign ms k _ this (Node.homogeneous_copy x hx)
  | null => simp [Node.Set] at h
  | boolean _ => simp [Node.Set] at h
  | number _ => simp [Node.Set] at h
  | string _ => simp [Node.Set] at h
  | array _ _ => simp [Node.Set] at h

/-! ### The texts of `szError` -/

theorem Positioned.intro (desc : List Nat) (N : Nat) (h : ∀ b ∈ desc, b ≠ 0) :
    Positioned (snprintf (desc ++ ascii " at position " ++ printD N)) :=
  ⟨desc, N, [], h, Or.inl rfl, by simp⟩

theorem ErrorText.positioned (desc : List Nat) (N : Nat) (h : ∀ b ∈ desc, b ≠ 0) :
    ErrorText (snprintf (desc ++ ascii " at position " ++ printD N)) :=
  Or.inr (Or.inr (Positioned.intro desc N h))

theorem ErrorText.unexpected (ch pos : Nat) : ErrorText (msgUnexpected ch pos) :=
  Or.inr (Or.inl ⟨ch, pos, rfl⟩)

/-! ### The lambdas of GenerateNodes keep the scope invariant -/

section Invariant

variable {D : Type}

theorem SkipWhitespace_fail (iter : UTF8Iterator) (szError : List Nat) (w : Scan)
    (h : SkipWhitespace iter szError = .ret w) (hf : w.ok = false) :
    w.szError = snprintf (ascii "Unexpected end of stream") := by
  simp only [SkipWhitespace] at h
  split at h
  · simp only [Outcome.ret.injEq] at h
    rw [← h]
  · rw [Outcome.bind_eq_ret] at h
    obtain ⟨_, _, h⟩ := h
    simp only [Outcome.ret.injEq] at h
    rw [← h] at hf
    simp at hf

theorem StringAdvance_frame (s s' : Scope D) (b : Bool) (h : StringAdvance s = .ret (b, s')) :
    s'.n = s.n ∧ s'.eType = s.eType ∧ s'.bLabel = s.bLabel ∧ s'.szCurLabel = s.szCurLabel := by
  simp only [StringAdvance] at h
  split at h
  · simp only [Outcome.ret.injEq, Prod.mk.injEq] at h
    rw [← h.2]
    exact ⟨rfl, rfl, rfl, rfl⟩
  · rw [Outcome.bind_eq_ret] at h
    obtain ⟨w, _, h⟩ := h
    split at h
    · simp only [Outcome.ret.injEq, Prod.mk.injEq] at h
      rw [← h.2]
      exact ⟨rfl, rfl, rfl, rfl⟩
    · simp only [Outcome.ret.injEq, Prod.mk.injEq] at h
      rw [← h.2]
      exact ⟨rfl, rfl, rfl, rfl⟩

theorem AddNode_spec (s s' : Scope D) (inner : Node D) (b : Bool)
    (h : AddNode s inner = .ret (b, s')) (ho : s.Open) (hi : inner.homogeneous = true) :
    s.Added s' b := by
  obtain ⟨ht, hty⟩ := ho
  simp only [AddNode] at h
  rcases hty with hty | ⟨hty, hl⟩
  · simp only [hty] at h
    rw [Outcome.bind_eq_ret] at h
    obtain ⟨n', hn, h⟩ := h
    simp only [Outcome.ret.injEq, Prod.mk.injEq] at h
    obtain ⟨h1, h2⟩ := Node.typed_Append _ _ _ ht hi hn
    rw [← h.1, ← h.2]
    exact ⟨fun _ => ⟨h1, h2, rfl⟩, fun hb => by simp at hb⟩
  · have hl' : s.szCurLabel.isEmpty = false := by
      cases hs : s.szCurLabel with
      | nil => exact absurd hs hl
      | cons _ _ => rfl
    simp only [hty, hl', Bool.false_eq_true, if_false] at h
    rw [Outcome.bind_eq_ret] at h
    obtain ⟨n', hn, h⟩ := h
    simp only [Outcome.ret.injEq, Prod.mk.injEq] at h
    obtain ⟨h1, h2⟩ := Node.typed_Set _ _ _ _ ht hi hn
    rw [← h.1, ← h.2]
    exact ⟨fun _ => ⟨h1, h2, rfl⟩, fun hb => by simp at hb⟩

end Invariant
section Invariant2
variable {D : Type}

theorem BuildSpanInner_spec (gen : Generator D) (hgen : gen.Ok) (uCurDepth uMaxDepth : Nat)
    (s s' : Scope D) (b : Bool) (h : BuildSpanInner gen uCurDepth uMaxDepth s = .ret (b, s'))
    (ho : s.Open) : s.Added s' b := by
  simp only [BuildSpanInner] at h
  split at h
  · simp only [Outcome.ret.injEq, Prod.mk.injEq] at h
    rw [← h.1, ← h.2]
    refine ⟨fun hb => by simp at hb, fun _ => ?_⟩
    exact ErrorText.positioned (ascii "Too many nested spans") _ (by decide)
  · rw [Outcome.bind_eq_ret] at h
    obtain ⟨g, hg, h⟩ := h
    obtain ⟨hg1, hg2⟩ := hgen _ _ _ _ _ _ hg
    split at h
    · rename_i hf
      simp only [Outcome.ret.injEq, Prod.mk.injEq] at h
      rw [← h.1, ← h.2]
      exact ⟨fun hb => by simp at hb, fun _ => (hg2 hf).1⟩
    · rename_i hf
      have hf' : g.res.m_bSuccess = true := by simpa using hf
      have := AddNode_spec _ s' g.n b h ⟨ho.1, ho.2⟩ (hg1 hf')
      exact ⟨fun hb => this.1 hb, fun hb => this.2 hb⟩

theorem BuildSpanLiteral_spec (strtod : List Nat → D × Nat) (s s' : Scope D) (b : Bool)
    (h : BuildSpanLiteral strtod s = .ret (b, s')) (ho : s.Open) : s.Added s' b := by
  simp only [BuildSpanLiteral] at h
  rw [Outcome.bind_eq_ret] at h
  obtain ⟨l, _, h⟩ := h
  have hadd : ∀ inner : Node D, inner.homogeneous = true →
      AddNode { s with iter := l.iter, szError := l.szError } inner = .ret (b, s') →
      s.Added s' b := by
    intro inner hi ha
    have := AddNode_spec _ s' inner b ha ⟨ho.1, ho.2⟩ hi
    exact ⟨fun hb => this.1 hb, fun hb => this.2 hb⟩
  have hfail : ∀ ch pos, (false, ({ s with iter := l.iter, szError := l.szError } : Scope D).error
      (msgUnexpected ch pos)) = (b, s') → s.Added s' b := by
    intro ch pos he
    simp only [Prod.mk.injEq] at he
    rw [← he.1, ← he.2]
    exact ⟨fun hb => by simp at hb, fun _ => ErrorText.unexpected _ _⟩
  split at h
  · simp only [Outcome.ret.injEq] at h
    exact hfail _ _ h
  · split at h
    · exact hadd (Node.string l.str) rfl h
    · split at h
      · split at h
        · simp only [Outcome.ret.injEq] at h
          exact hfail _ _ h
        · split at h
          · exact hadd (Node.boolean true) rfl h
          · split at h
            · exact hadd (Node.boolean false) rfl h
            · split at h
              · exact hadd Node.null rfl h
              · simp only [Outcome.ret.injEq] at h
                exact hfail _ _ h
      · split at h
        · simp only [Outcome.ret.injEq, Prod.mk.injEq] at h
          rw [← h.1, ← h.2]
          refine ⟨fun hb => by simp at hb, fun _ => ?_⟩
          exact ErrorText.positioned (ascii "Failed to parse literal") _ (by decide)
        · exact hadd (Node.number (strtod l.str).1) rfl h

theorem ParseMember_spec (gen : Generator D) (hgen : gen.Ok) (strtod : List Nat → D × Nat)
    (uCurDepth uMaxDepth : Nat) (s s' : Scope D) (b : Bool)
    (h : ParseMember gen strtod uCurDepth uMaxDepth s = .ret (b, s')) (ho : s.Open) :
    s.Added s' b := by
  simp only [ParseMember] at h
  rw [Outcome.bind_eq_ret] at h
  obtain ⟨⟨b1, s1⟩, h1, h⟩ := h
  have hs1 : s.Added s1 b1 := by
    split at h1
    · exact BuildSpanInner_spec gen hgen _ _ _ _ _ h1 ho
    · exact BuildSpanLiteral_spec strtod _ _ _ h1 ho
  split at h
  · rename_i hb1
    simp only [Outcome.ret.injEq, Prod.mk.injEq] at h
    rw [← h.1, ← h.2]
    exact ⟨fun hb => by simp at hb, fun _ => hs1.2 hb1⟩
  · rename_i hb1
    have hb1' : b1 = true := by simpa using hb1
    rw [Outcome.bind_eq_ret] at h
    obtain ⟨w, hw, h⟩ := h
    split at h
    · rename_i hwf
      simp only [Outcome.ret.injEq, Prod.mk.injEq] at h
      rw [← h.1, ← h.2]
      refine ⟨fun hb => by simp at hb, fun _ => ?_⟩
      exact Or.inl (SkipWhitespace_fail _ _ _ hw hwf)
    · simp only [Outcome.ret.injEq, Prod.mk.injEq] at h
      rw [← h.1, ← h.2]
      exact ⟨fun _ => hs1.1 hb1', fun hb => by simp at hb⟩

theorem CheckMemberTerminationAndAdvance_spec (s s' : Scope D) (b : Bool)
    (h : CheckMemberTerminationAndAdvance s = .ret (b, s')) :
    (b = true → s'.n = s.n ∧ s'.eType = s.eType ∧ s'.bLabel = false) ∧
      (b = false → ErrorText s'.szError) := by
  simp only [CheckMemberTerminationAndAdvance] at h
  split at h
  · simp only [Outcome.ret.injEq, Prod.mk.injEq] at h
    rw [← h.1, ← h.2]
    exact ⟨fun hb => by simp at hb, fun _ => ErrorText.unexpected _ _⟩
  · split at h
    · rw [Outcome.bind_eq_ret] at h
      obtain ⟨⟨b1, s1⟩, h1, h⟩ := h
      simp only [Outcome.ret.injEq, Prod.mk.injEq] at h
      obtain ⟨f1, f2, f3, _⟩ := StringAdvance_frame _ _ _ h1
      rw [← h.1, ← h.2]
      exact ⟨fun _ => ⟨f1, f2, f3⟩, fun hb => by simp at hb⟩
    · simp only [Outcome.ret.injEq, Prod.mk.injEq] at h
      rw [← h.1, ← h.2]
      exact ⟨fun _ => ⟨rfl, rfl, rfl⟩, fun hb => by simp at hb⟩

end Invariant2
section Invariant3
variable {D : Type}

theorem advanceChar_spec (s s' : Scope D) (ctl : Ctl) (h : advanceChar s = .ret (ctl, s')) :
    ctl = .next ∧ s'.n = s.n ∧ s'.eType = s.eType ∧ s'.bLabel = s.bLabel ∧
      s'.szCurLabel = s.szCurLabel := by
  simp only [advanceChar] at h
  rw [Outcome.bind_eq_ret] at h
  obtain ⟨⟨b1, s1⟩, h1, h⟩ := h
  simp only [Outcome.ret.injEq, Prod.mk.injEq] at h
  rw [← h.1, ← h.2]
  exact ⟨rfl, StringAdvance_frame _ _ _ h1⟩

theorem Scope.Stepped.fail (s' : Scope D) (h : ErrorText s'.szError) : s'.Stepped .fail :=
  ⟨fun hc => by simp at hc, fun hc => by simp at hc, fun _ => h⟩

theorem Scope.Stepped.next (s' : Scope D) (h : s'.Inv) : s'.Stepped .next :=
  ⟨fun _ => h, fun hc => by simp at hc, fun hc => by simp at hc⟩

theorem scopeStart_spec (s s' : Scope D) (ctl : Ctl) (h : scopeStart s = .ret (ctl, s'))
    (hinv : s.Inv) (hch : s.ch ≠ 0) (h7f : ¬ s.ch ≥ 0x7F) : s'.Stepped ctl := by
  obtain ⟨hty, het, hset, hlab⟩ := hinv
  simp only [scopeStart] at h
  split at h
  · obtain ⟨e0, e1, e2, e3, e4⟩ := advanceChar_spec _ _ _ h
    rw [e0]
    refine Scope.Stepped.next _ ⟨?_, ?_, ?_, ?_⟩
    · rw [e1]; exact ⟨rfl, trivial⟩
    · rw [e1, e2]; rfl
    · rw [e2]; exact Or.inr (Or.inl rfl)
    · rw [e3, e4]; exact hlab
  · split at h
    · obtain ⟨e0, e1, e2, e3, e4⟩ := advanceChar_spec _ _ _ h
      rw [e0]
      refine Scope.Stepped.next _ ⟨?_, ?_, ?_, ?_⟩
      · rw [e1]
        exact ⟨rfl, fun e he => absurd he (List.not_mem_nil e)⟩
      · rw [e1, e2]; rfl
      · rw [e2]; exact Or.inr (Or.inr rfl)
      · rw [e3, e4]; exact hlab
    · simp only [Outcome.ret.injEq, Prod.mk.injEq] at h
      rw [← h.1, ← h.2]
      refine Scope.Stepped.fail _ (Or.inr (Or.inr ⟨ascii "Malformed object, found '" ++
        [s.ch % 256] ++ ascii "'", s.iter.GetPosition, ascii ", expected start character",
        ?_, Or.inr rfl, ?_⟩))
      · intro b hb
        simp only [List.mem_append, List.mem_singleton] at hb
        rcases hb with (hb | hb) | hb
        · exact (by decide : ∀ b ∈ ascii "Malformed object, found '", b ≠ 0) b hb
        · rw [hb]; omega
        · exact (by decide : ∀ b ∈ ascii "'", b ≠ 0) b hb
      · have e : ascii "' at position " = ascii "'" ++ ascii " at position " := by decide
        show snprintf _ = snprintf _
        rw [e]
        simp only [List.append_assoc]

theorem scopeLabel_spec (s s' : Scope D) (ctl : Ctl) (h : scopeLabel s = .ret (ctl, s'))
    (hinv : s.Inv) : s'.Stepped ctl := by
  obtain ⟨hty, het, hset, hlab⟩ := hinv
  simp only [scopeLabel] at h
  split at h
  · rw [Outcome.bind_eq_ret] at h
    obtain ⟨l, _, h⟩ := h
    split at h
    · simp only [Outcome.ret.injEq, Prod.mk.injEq] at h
      rw [← h.1, ← h.2]
      exact Scope.Stepped.fail _ (ErrorText.unexpected _ _)
    · split at h
      · simp only [Outcome.ret.injEq, Prod.mk.injEq] at h
        rw [← h.1, ← h.2]
        exact Scope.Stepped.fail _
          (ErrorText.positioned (ascii "Empty identifier") _ (by decide))
      · rename_i hne
        rw [Outcome.bind_eq_ret] at h
        obtain ⟨w, hw, h⟩ := h
        simp only [Outcome.ret.injEq, Prod.mk.injEq] at h
        rw [← h.1, ← h.2]
        split
        · rename_i hwf
          exact Scope.Stepped.fail _ (Or.inl (SkipWhitespace_fail _ _ _ hw hwf))
        · refine Scope.Stepped.next _ ⟨hty, het, hset, fun _ => ?_⟩
          intro hnil
          apply hne
          have hnil' : l.str = [] := hnil
          rw [hnil']
          rfl
  · simp only [Outcome.ret.injEq, Prod.mk.injEq] at h
    rw [← h.1, ← h.2]
    exact Scope.Stepped.fail _
      (ErrorText.positioned (ascii "Malformed object, expected '\"'") _ (by decide))

theorem scopeColon_spec (s s' : Scope D) (ctl : Ctl) (h : scopeColon s = .ret (ctl, s'))
    (hinv : s.Inv) : s'.Stepped ctl := by
  obtain ⟨hty, het, hset, hlab⟩ := hinv
  simp only [scopeColon] at h
  split at h
  · obtain ⟨e0, e1, e2, e3, e4⟩ := advanceChar_spec _ _ _ h
    rw [e0]
    refine Scope.Stepped.next _ ⟨?_, ?_, ?_, ?_⟩
    · rw [e1]; exact hty
    · rw [e1, e2]; exact het
    · rw [e2]; exact hset
    · rw [e3, e4]; exact hlab
  · simp only [Outcome.ret.injEq, Prod.mk.injEq] at h
    rw [← h.1, ← h.2]
    exact Scope.Stepped.fail _
      (ErrorText.positioned (ascii "Malformed object, expected ':'") _ (by decide))

theorem scopeTerminator_spec (s m s' : Scope D) (ctl : Ctl) (hinv : s.Inv)
    (hm : s.Added m true) (h : scopeTerminator m = .ret (ctl, s')) : s'.Stepped ctl := by
  obtain ⟨hm1, hm2, hm3⟩ := hm.1 rfl
  simp only [scopeTerminator] at h
  rw [Outcome.bind_eq_ret] at h
  obtain ⟨⟨bc, c⟩, hc, h⟩ := h
  obtain ⟨hc1, hc2⟩ := CheckMemberTerminationAndAdvance_spec _ _ _ hc
  split at h
  · rename_i hbc
    simp only [Outcome.ret.injEq, Prod.mk.injEq] at h
    rw [← h.1, ← h.2]
    exact Scope.Stepped.fail _ (hc2 hbc)
  · rename_i hbc
    have hbc' : bc = true := by simpa using hbc
    simp only [Outcome.ret.injEq, Prod.mk.injEq] at h
    rw [← h.1, ← h.2]
    obtain ⟨e1, e2, e3⟩ := hc1 hbc'
    refine Scope.Stepped.next _ ⟨?_, ?_, ?_, ?_⟩
    · show c.n.typed
      rw [e1]; exact hm1
    · show c.eType = c.n.GetType
      rw [e1, e2, hm2, hm3]; exact hinv.2.1
    · show c.eType = _ ∨ _
      rw [e2, hm3]; exact hinv.2.2.1
    · intro hb
      have hb' : c.bLabel = true := hb
      rw [e3] at hb'; simp at hb'

theorem scopeMember_spec (gen : Generator D) (hgen : gen.Ok) (strtod : List Nat → D × Nat)
    (uCurDepth uMaxDepth : Nat) (s s' : Scope D) (ctl : Ctl)
    (h : scopeMember gen strtod uCurDepth uMaxDepth s = .ret (ctl, s')) (hinv : s.Inv)
    (ho : s.Open) : s'.Stepped ctl := by
  simp only [scopeMember] at h
  rw [Outcome.bind_eq_ret] at h
  obtain ⟨⟨bm, m⟩, hm, h⟩ := h
  have hadd := ParseMember_spec gen hgen strtod _ _ _ _ _ hm ho
  split at h
  · rename_i hbm
    simp only [Outcome.ret.injEq, Prod.mk.injEq] at h
    rw [← h.1, ← h.2]
    exact Scope.Stepped.fail _ (hadd.2 hbm)
  · rename_i hbm
    have hbm' : bm = true := by simpa using hbm
    subst hbm'
    exact scopeTerminator_spec s m s' ctl hinv hadd h

theorem scopeElement_spec (gen : Generator D) (hgen : gen.Ok) (strtod : List Nat → D × Nat)
    (uCurDepth uMaxDepth : Nat) (s s' : Scope D) (ctl : Ctl)
    (h : scopeElement gen strtod uCurDepth uMaxDepth s = .ret (ctl, s')) (hinv : s.Inv)
    (ho : s.Open) : s'.Stepped ctl := by
  simp only [scopeElement] at h
  rw [Outcome.bind_eq_ret] at h
  obtain ⟨⟨bm, m⟩, hm, h⟩ := h
  have hadd := ParseMember_spec gen hgen strtod _ _ _ _ _ hm ho
  split at h
  · rename_i hbm
    simp only [Outcome.ret.injEq, Prod.mk.injEq] at h
    rw [← h.1, ← h.2]
    exact Scope.Stepped.fail _ (hadd.2 hbm)
  · rename_i hbm
    have hbm' : bm = true := by simpa using hbm
    subst hbm'
    rw [Outcome.bind_eq_ret] at h
    obtain ⟨len, _, h⟩ := h
    rw [Outcome.bind_eq_ret] at h
    obtain ⟨first, _, h⟩ := h
    rw [Outcome.bind_eq_ret] at h
    obtain ⟨last, _, h⟩ := h
    split at h
    · simp only [Outcome.ret.injEq, Prod.mk.injEq] at h
      rw [← h.1, ← h.2]
      exact Scope.Stepped.fail _
        (ErrorText.positioned (ascii "Malformed array, incorrect type") _ (by decide))
    · exact scopeTerminator_spec s m s' ctl hinv hadd h

theorem scopeBody_spec (gen : Generator D) (hgen : gen.Ok) (strtod : List Nat → D × Nat)
    (uCurDepth uMaxDepth : Nat) (s s' : Scope D) (ctl : Ctl)
    (h : scopeBody gen strtod uCurDepth uMaxDepth s = .ret (ctl, s')) (hinv : s.Inv)
    (hch : s.ch ≠ 0) : s'.Stepped ctl := by
  have hinv' := hinv
  obtain ⟨hty, het, hset, hlab⟩ := hinv
  simp only [scopeBody] at h
  split at h
  · simp only [Outcome.ret.injEq, Prod.mk.injEq] at h
    rw [← h.1, ← h.2]
    exact Scope.Stepped.fail _ (ErrorText.positioned (ascii "Unexpected character") _ (by decide))
  · rename_i h7f
    split at h
    · exact scopeStart_spec s s' ctl h hinv' hch h7f
    · split at h
      · simp only [Outcome.ret.injEq, Prod.mk.injEq] at h
        rw [← h.1, ← h.2]
        exact ⟨fun hc => by simp at hc, fun _ => hty, fun hc => by simp at hc⟩
      · split at h
        · rename_i hobj
          split at h
          · exact scopeLabel_spec s s' ctl h hinv'
          · rename_i hbl
            have hbl' : s.bLabel = true := by simpa using hbl
            split at h
            · exact scopeColon_spec s s' ctl h hinv'
            · exact scopeMember_spec gen hgen strtod _ _ s s' ctl h hinv'
                ⟨hty, Or.inr ⟨by rw [← het, hobj], hlab hbl'⟩⟩
        · split at h
          · rename_i harr
            exact scopeElement_spec gen hgen strtod _ _ s s' ctl h hinv'
              ⟨hty, Or.inl (by rw [← het, harr])⟩
          · rename_i h1 h2 h3 h4
            rcases hset with e | e | e
            · exact absurd e h1
            · exact absurd e h3
            · exact absurd e h4

end Invariant3
section Invariant4
variable {D : Type}

theorem scopeLoop_spec (gen : Generator D) (hgen : gen.Ok) (strtod : List Nat → D × Nat)
    (uCurDepth uMaxDepth : Nat) (fuel : Nat) :
    ∀ (s s' : Scope D) (b : Bool),
      scopeLoop gen strtod uCurDepth uMaxDepth fuel s = .ret (b, s') → s.Inv →
      (b = true → s'.n.typed) ∧ (b = false → ErrorText s'.szError) := by
  induction fuel with
  | zero => intro s s' b h; simp [scopeLoop] at h
  | succ fuel ih =>
    intro s s' b h hinv
    simp only [scopeLoop] at h
    split at h
    · simp only [Outcome.ret.injEq, Prod.mk.injEq] at h
      rw [← h.1, ← h.2]
      exact ⟨fun _ => hinv.1, fun hb => by simp at hb⟩
    · rename_i hch
      rw [Outcome.bind_eq_ret] at h
      obtain ⟨⟨ctl, s1⟩, hb, h⟩ := h
      have hst := scopeBody_spec gen hgen strtod _ _ _ _ _ hb
        (show Scope.Inv { s with iter := s.iter.Read.2, ch := s.iter.Read.1 } from hinv) hch
      cases ctl with
      | next => exact ih _ _ _ h (hst.1 rfl)
      | brk =>
        simp only [Outcome.ret.injEq, Prod.mk.injEq] at h
        rw [← h.1, ← h.2]
        exact ⟨fun _ => hst.2.1 rfl, fun hb => by simp at hb⟩
      | fail =>
        simp only [Outcome.ret.injEq, Prod.mk.injEq] at h
        rw [← h.1, ← h.2]
        exact ⟨fun hb => by simp at hb, fun _ => hst.2.2 rfl⟩

theorem scopeEnd_spec (s : Scope D) (ht : s.n.typed) :
    ((scopeEnd s).res.m_bSuccess = true → (scopeEnd s).n.homogeneous = true) ∧
    ((scopeEnd s).res.m_bSuccess = false → ErrorText (scopeEnd s).szError ∧
      (scopeEnd s).res.m_szMsg = cstring (scopeEnd s).szError) := by
  unfold scopeEnd
  split
  · refine ⟨fun hb => by simp [BuildSpanFail] at hb, fun _ => ⟨?_, rfl⟩⟩
    exact ErrorText.positioned (ascii "Expected an object member") _ (by decide)
  · split
    · refine ⟨fun hb => by simp [BuildSpanFail] at hb, fun _ => ⟨?_, rfl⟩⟩
      refine Or.inr (Or.inr ⟨ascii "Expected a terminating '" ++
        [if s.eType = .Object then 0x7B else if s.eType = .Array then 0x5B else 0x20] ++
        ascii "' for '" ++
        [if s.eType = .Object then 0x7D else if s.eType = .Array then 0x5D else 0x20] ++ ascii "'",
        s.uScopeStart, [], ?_, Or.inl rfl, ?_⟩)
      · intro b hb
        simp only [List.mem_append, List.mem_singleton] at hb
        rcases hb with (((hb | hb) | hb) | hb) | hb
        · exact (by decide : ∀ b ∈ ascii "Expected a terminating '", b ≠ 0) b hb
        · rw [hb]; split_ifs <;> decide
        · exact (by decide : ∀ b ∈ ascii "' for '", b ≠ 0) b hb
        · rw [hb]; split_ifs <;> decide
        · exact (by decide : ∀ b ∈ ascii "'", b ≠ 0) b hb
      · have e : ascii "' at position " = ascii "'" ++ ascii " at position " := by decide
        show snprintf _ = snprintf _
        rw [e]
        simp only [List.append_assoc, List.append_nil]
    · exact ⟨fun _ => ht.1, fun hb => by simp at hb⟩

theorem GenerateNodes_ok (strtod : List Nat → D × Nat) (fuel : Nat) :
    Generator.Ok (GenerateNodes strtod fuel) := by
  induction fuel with
  | zero => intro iter szError c d n g h; simp [GenerateNodes] at h
  | succ fuel ih =>
    intro iter szError c d n g h
    simp only [GenerateNodes] at h
    rw [Outcome.bind_eq_ret] at h
    obtain ⟨w, hw, h⟩ := h
    split at h
    · rename_i hwf
      simp only [Outcome.ret.injEq] at h
      rw [← h]
      refine ⟨fun hb => by simp [BuildSpanFail] at hb, fun _ => ⟨?_, rfl⟩⟩
      exact Or.inl (SkipWhitespace_fail _ _ _ hw hwf)
    · rw [Outcome.bind_eq_ret] at h
      obtain ⟨⟨b, s'⟩, hl, h⟩ := h
      have hsp := scopeLoop_spec (GenerateNodes strtod fuel) ih strtod _ _ _ _ _ _ hl
        ⟨⟨rfl, trivial⟩, rfl, Or.inl rfl, fun hb => by simp at hb⟩
      split at h
      · rename_i hbf
        simp only [Outcome.ret.injEq] at h
        rw [← h]
        exact ⟨fun hb => by simp [BuildSpanFail] at hb, fun _ => ⟨hsp.2 hbf, rfl⟩⟩
      · rename_i hbf
        simp only [Outcome.ret.injEq] at h
        rw [← h]
        exact scopeEnd_spec s' (hsp.1 (by simpa using hbf))

end Invariant4

/-- C6: whenever `Parse` succeeds, every array node of the tree it leaves in
`json` is homogeneous: each element has the `Type` of the first element. -/
theorem C6_parsed_arrays_homogeneous {D : Type} (strtod : List Nat → D × Nat)
    (cfg : ParserConfig) (szJson : List Nat) (json : Node D) (szError : List Nat) (r : Result)
    (n : Node D) (e : List Nat) (h : Parse strtod cfg szJson json szError = .ret (r, n, e))
    (hs : r.m_bSuccess = true) : n.homogeneous = true := by
  simp only [Parse, Outcome.bind_eq_ret] at h
  obtain ⟨g, hg, h⟩ := h
  have hok := GenerateNodes_ok strtod _ _ _ _ _ _ g hg
  split at h
  · simp only [Outcome.ret.injEq, Prod.mk.injEq] at h
    rename_i hgf
    rw [← h.1, hgf] at hs
    simp at hs
  · rename_i hgf
    simp only [Outcome.ret.injEq, Prod.mk.injEq] at h
    rw [← h.2.1]
    exact hok.1 (by simpa using hgf)

/-- Witness of C6: the input `{"a":[[1,2],[3]],"b":["x","y"]}`. -/
theorem C6_parsed_arrays_homogeneous_witness :
    Parse strtodDigits {} (ascii "\x7b\"a\":[[1,2],[3]],\"b\":[\"x\",\"y\"]\x7d") Node.null []
      = .ret ({ m_bSuccess := true, m_szMsg := [] },
          .object [(ascii "a", .array .Null [.array .Null [.number 1, .number 2],
              .array .Null [.number 3]]),
            (ascii "b", .array .Null [.string (ascii "x"), .string (ascii "y")])], []) ∧
    ({ m_bSuccess := true, m_szMsg := [] } : Result).m_bSuccess = true ∧
    (Node.object [(ascii "a", .array .Null [.array .Null [.number 1, .number 2],
              .array .Null [.number 3]]),
            (ascii "b", .array .Null [.string (ascii "x"), .string (ascii "y")])]
      : Node Nat).homogeneous = true :=
  ⟨eq_of_returns (by decide!), rfl,
    C6_parsed_arrays_homogeneous strtodDigits {}
      (ascii "\x7b\"a\":[[1,2],[3]],\"b\":[\"x\",\"y\"]\x7d") Node.null []
      { m_bSuccess := true, m_szMsg := [] }
      (.object [(ascii "a", .array .Null [.array .Null [.number 1, .number 2],
              .array .Null [.number 3]]),
            (ascii "b", .array .Null [.string (ascii "x"), .string (ascii "y")])]) []
      (eq_of_returns (by decide!)) rfl⟩

/-! ### The form of the failure message -/

theorem snprintf_ne_zero (t : List Nat) (h : ∀ b ∈ t, b ≠ 0) : ∀ b ∈ snprintf t, b ≠ 0 :=
  fun b hb => h b (List.mem_of_mem_take hb)

theorem utf8Encode_append (a b : List Nat) : utf8Encode (a ++ b) = utf8Encode a ++ utf8Encode b := by
  induction a with
  | nil => rfl
  | cons c a ih => simp [utf8Encode, ih]

theorem utf8Canonical_lt (c : Nat) (h : c ≤ 0x10FFFF) : ∀ b ∈ utf8Canonical c, b < 256 := by
  intro b hb
  unfold utf8Canonical at hb
  split_ifs at hb <;> simp at hb <;> omega

theorem utf8Encode_lt (cs : List Nat) (h : ∀ c ∈ cs, 1 ≤ c ∧ c ≤ 0x10FFFF) :
    ∀ b ∈ utf8Encode cs, b < 256 := by
  induction cs with
  | nil => simp [utf8Encode]
  | cons c cs ih =>
    intro b hb
    simp only [utf8Encode, List.mem_append] at hb
    rcases hb with hb | hb
    · exact utf8Canonical_lt c (h c (by simp)).2 b hb
    · exact ih (fun c hc => h c (by simp [hc])) b hb

theorem getD_append_add (X L : List Nat) (k : Nat) :
    (X ++ L).getD (X.length + k) 0 = L.getD k 0 := by
  induction X with
  | nil => simp
  | cons x X ih =>
    have : (x :: X).length + k = (X.length + k) + 1 := by simp; omega
    rw [this]
    simpa using ih

theorem readSpec_at (X L : List Nat) (e : Nat) :
    readSpec (X ++ L) X.length e =
      if e ≤ X.length then 0
      else if leadLen (L.getD 0 0) = 0 then 0
      else if e < X.length + leadLen (L.getD 0 0) then 0
      else if leadLen (L.getD 0 0) = 1 then L.getD 0 0
      else if leadLen (L.getD 0 0) = 2 then
        if isCont (L.getD 1 0) = false then 0
        else L.getD 0 0 % 32 * 64 + L.getD 1 0 % 64
      else if leadLen (L.getD 0 0) = 3 then
        if isCont (L.getD 1 0) = false ∨ isCont (L.getD 2 0) = false then 0
        else L.getD 0 0 % 16 * 4096 + L.getD 1 0 % 64 * 64 + L.getD 2 0 % 64
      else
        if isCont (L.getD 1 0) = false ∨ isCont (L.getD 2 0) = false ∨ isCont (L.getD 3 0) = false
        then 0
        else if L.getD 0 0 % 8 * 262144 + L.getD 1 0 % 64 * 4096 + L.getD 2 0 % 64 * 64
            + L.getD 3 0 % 64 > 0x10FFFF then 0
        else L.getD 0 0 % 8 * 262144 + L.getD 1 0 % 64 * 4096 + L.getD 2 0 % 64 * 64
            + L.getD 3 0 % 64 := by
  have g0 := getD_append_add X L 0
  have g1 := getD_append_add X L 1
  have g2 := getD_append_add X L 2
  have g3 := getD_append_add X L 3
  simp only [Nat.add_zero] at g0
  unfold readSpec
  simp only [g0, g1, g2, g3]

theorem readSpec_canonical (X Y : List Nat) (c e : Nat) (h1 : 1 ≤ c) (h2 : c ≤ 0x10FFFF)
    (he : X.length + (utf8Canonical c).length ≤ e) :
    readSpec (X ++ (utf8Canonical c ++ Y)) X.length e = c := by
  rw [readSpec_at]
  by_cases c1 : c < 0x80
  · have hc : utf8Canonical c = [c] := by simp [utf8Canonical, c1]
    rw [hc] at he ⊢
    simp only [List.length_singleton] at he
    have l : leadLen c = 1 := by unfold leadLen; simp [c1]
    simp only [List.singleton_append, List.getD_cons_zero, l]
    have e1 : ¬ e ≤ X.length := by omega
    have e2 : ¬ e < X.length + 1 := by omega
    simp [e1, e2]
  · by_cases c2 : c < 0x800
    · have hc : utf8Canonical c = [0xC0 + c / 64, 0x80 + c % 64] := by
        simp [utf8Canonical, c1, c2]
      rw [hc] at he ⊢
      simp only [List.length_cons, List.length_nil] at he
      have l : leadLen (0xC0 + c / 64) = 2 := by
        unfold leadLen; rw [if_neg (by omega), if_pos (by omega)]
      have k : isCont (0x80 + c % 64) = true := by unfold isCont; simp; omega
      simp only [List.cons_append, List.getD_cons_zero, List.getD_cons_succ, l, k]
      have e1 : ¬ e ≤ X.length := by omega
      have e2 : ¬ e < X.length + 2 := by omega
      simp [e1, e2]
      omega
    · by_cases c3 : c < 0x10000
      · have hc : utf8Canonical c = [0xE0 + c / 4096, 0x80 + c / 64 % 64, 0x80 + c % 64] := by
          simp [utf8Canonical, c1, c2, c3]
        rw [hc] at he ⊢
        simp only [List.length_cons, List.length_nil] at he
        have l : leadLen (0xE0 + c / 4096) = 3 := by
          unfold leadLen; rw [if_neg (by omega), if_neg (by omega), if_pos (by omega)]
        have k1 : isCont (0x80 + c / 64 % 64) = true := by unfold isCont; simp; omega
        have k2 : isCont (0x80 + c % 64) = true := by unfold isCont; simp; omega
        simp only [List.cons_append, List.getD_cons_zero, List.getD_cons_succ, l, k1, k2]
        have e1 : ¬ e ≤ X.length := by omega
        have e2 : ¬ e < X.length + 3 := by omega
        simp [e1, e2]
        omega
      · have hc : utf8Canonical c = [0xF0 + c / 262144, 0x80 + c / 4096 % 64,
            0x80 + c / 64 % 64, 0x80 + c % 64] := by
          simp [utf8Canonical, c1, c2, c3]
        rw [hc] at he ⊢
        simp only [List.length_cons, List.length_nil] at he
        have l : leadLen (0xF0 + c / 262144) = 4 := by
          unfold leadLen
          rw [if_neg (by omega), if_neg (by omega), if_neg (by omega), if_pos (by omega)]
        have k1 : isCont (0x80 + c / 4096 % 64) = true := by unfold isCont; simp; omega
        have k2 : isCont (0x80 + c / 64 % 64) = true := by unfold isCont; simp; omega
        have k3 : isCont (0x80 + c % 64) = true := by unfold isCont; simp; omega
        simp only [List.cons_append, List.getD_cons_zero, List.getD_cons_succ, l, k1, k2, k3]
        have e1 : ¬ e ≤ X.length := by omega
        have e2 : ¬ e < X.length + 4 := by omega
        simp [e1, e2]
        split <;> omega

theorem utf8Canonical_length (c : Nat) :
    (utf8Canonical c).length
      = if c < 0x80 then 1 else if c < 0x800 then 2 else if c < 0x10000 then 3 else 4 := by
  unfold utf8Canonical
  split_ifs <;> rfl

theorem utf8Seq_canonical (c : Nat) : utf8Seq (utf8Canonical c).length c = utf8Canonical c := by
  unfold utf8Canonical
  split_ifs <;> rfl

theorem symCode_of_lt {c : Nat} (h : c < 0x200000) : symCode c = c := Nat.mod_eq_of_lt h

theorem symLen_of_lt {c : Nat} (h : c < 0x200000) : symLen c = (utf8Canonical c).length := by
  unfold symLen
  rw [symCode_of_lt h, Nat.div_eq_of_lt h, Nat.add_zero]

theorem symBytes_of_lt {c : Nat} (h : c < 0x200000) : symBytes c = utf8Canonical c := by
  unfold symBytes
  rw [symLen_of_lt h, symCode_of_lt h, utf8Seq_canonical]

theorem Sym.of_valid {c : Nat} (h : 1 ≤ c ∧ c ≤ 0x10FFFF) : Sym c := by
  have hl : c < 0x200000 := by omega
  refine ⟨by rw [symCode_of_lt hl]; exact h.1, by rw [symCode_of_lt hl]; exact h.2, ?_⟩
  rw [symLen_of_lt hl, utf8Canonical_length]
  split_ifs <;> omega

theorem map_symCode_of_lt (l : List Nat) (h : ∀ c ∈ l, c < 0x200000) : l.map symCode = l := by
  induction l with
  | nil => rfl
  | cons c l ih =>
    simp only [List.map_cons]
    rw [symCode_of_lt (h c (by simp)), ih (fun x hx => h x (by simp [hx]))]

theorem symEncode_of_valid (l : List Nat) (h : ∀ c ∈ l, c < 0x200000) :
    symEncode l = utf8Encode l := by
  induction l with
  | nil => rfl
  | cons c l ih =>
    simp only [symEncode, utf8Encode]
    rw [symBytes_of_lt (h c (by simp)), ih (fun x hx => h x (by simp [hx]))]

/-- The sequence of a character: its length and the range of its codepoint. -/
theorem Sym.cases {s : Nat} (h : Sym s) :
    (symLen s = 1 ∧ symCode s < 0x80) ∨ (symLen s = 2 ∧ symCode s < 0x800) ∨
      (symLen s = 3 ∧ symCode s < 0x10000) ∨ symLen s = 4 := by
  obtain ⟨h1, h2, h3⟩ := h
  have hl := utf8Canonical_length (symCode s)
  unfold symLen at h3 ⊢
  split_ifs at hl with c1 c2 c3 <;> omega

theorem symBytes_shape (s : Nat) (h : Sym s) :
    ∃ b rest, symBytes s = b :: rest ∧ b < 256 ∧ leadLen b = rest.length + 1 ∧
      b ≠ 0 ∧ (∀ x ∈ rest, x ≠ 0) ∧ ∀ x ∈ rest, x < 256 := by
  have h1 := h.1
  have h2 := h.2.1
  unfold symBytes
  rcases h.cases with ⟨l, c⟩ | ⟨l, c⟩ | ⟨l, c⟩ | l <;> rw [l] <;> simp only [utf8Seq]
  · exact ⟨_, [], rfl, by omega, by unfold leadLen; simp [c], by omega, by simp, by simp⟩
  · refine ⟨_, _, rfl, by omega, ?_, by omega, by simp, by simp; omega⟩
    unfold leadLen
    rw [if_neg (by omega), if_pos (by omega)]
    rfl
  · refine ⟨_, _, rfl, by omega, ?_, by omega, by simp, by simp; omega⟩
    unfold leadLen
    rw [if_neg (by omega), if_neg (by omega), if_pos (by omega)]
    rfl
  · refine ⟨_, _, rfl, by omega, ?_, by omega, by simp, by simp; omega⟩
    unfold leadLen
    rw [if_neg (by omega), if_neg (by omega), if_neg (by omega), if_pos (by omega)]
    rfl

theorem symEncode_ne_zero (cps : List Nat) (h : ∀ cp ∈ cps, Sym cp) :
    ∀ b ∈ symEncode cps, b ≠ 0 := by
  induction cps with
  | nil => simp [symEncode]
  | cons cp cps ih =>
    obtain ⟨b, rest, e, _, _, hb, hr, _⟩ := symBytes_shape cp (h cp (by simp))
    intro x hx
    simp only [symEncode, e, List.mem_append, List.mem_cons] at hx
    rcases hx with (rfl | hx) | hx
    · exact hb
    · exact hr x hx
    · exact ih (fun c hc => h c (by simp [hc])) x hx

theorem symEncode_append (a b : List Nat) : symEncode (a ++ b) = symEncode a ++ symEncode b := by
  induction a with
  | nil => rfl
  | cons c a ih => simp [symEncode, ih]

theorem symBytes_lt (c : Nat) (h : Sym c) : ∀ b ∈ symBytes c, b < 256 := by
  obtain ⟨b, rest, e, hb, _, _, _, hr⟩ := symBytes_shape c h
  intro x hx
  rw [e] at hx
  rcases List.mem_cons.1 hx with rfl | hx
  · exact hb
  · exact hr x hx

theorem symEncode_lt (cs : List Nat) (h : ∀ c ∈ cs, Sym c) :
    ∀ b ∈ symEncode cs, b < 256 := by
  induction cs with
  | nil => simp [symEncode]
  | cons c cs ih =>
    intro b hb
    simp only [symEncode, List.mem_append] at hb
    rcases hb with hb | hb
    · exact symBytes_lt c (h c (by simp)) b hb
    · exact ih (fun c hc => h c (by simp [hc])) b hb

theorem readSpec_sym (X Y : List Nat) (s e : Nat) (hs : Sym s)
    (he : X.length + (symBytes s).length ≤ e) :
    readSpec (X ++ (symBytes s ++ Y)) X.length e = symCode s := by
  have h1 := hs.1
  have h2 := hs.2.1
  rw [readSpec_at]
  unfold symBytes at he ⊢
  rcases hs.cases with ⟨l, c1⟩ | ⟨l, c2⟩ | ⟨l, c3⟩ | l <;> rw [l] at he ⊢ <;>
    simp only [utf8Seq] at he ⊢
  · simp only [List.length_singleton] at he
    have l : leadLen (symCode s) = 1 := by unfold leadLen; simp [c1]
    simp only [List.singleton_append, List.getD_cons_zero, l]
    have e1 : ¬ e ≤ X.length := by omega
    have e2 : ¬ e < X.length + 1 := by omega
    simp [e1, e2]
  · simp only [List.length_cons, List.length_nil] at he
    have l : leadLen (0xC0 + symCode s / 64) = 2 := by
      unfold leadLen; rw [if_neg (by omega), if_pos (by omega)]
    have k : isCont (0x80 + symCode s % 64) = true := by unfold isCont; simp; omega
    simp only [List.cons_append, List.getD_cons_zero, List.getD_cons_succ, l, k]
    have e1 : ¬ e ≤ X.length := by omega
    have e2 : ¬ e < X.length + 2 := by omega
    simp [e1, e2]
    omega
  · simp only [List.length_cons, List.length_nil] at he
    have l : leadLen (0xE0 + symCode s / 4096) = 3 := by
      unfold leadLen; rw [if_neg (by omega), if_neg (by omega), if_pos (by omega)]
    have k1 : isCont (0x80 + symCode s / 64 % 64) = true := by unfold isCont; simp; omega
    have k2 : isCont (0x80 + symCode s % 64) = true := by unfold isCont; simp; omega
    simp only [List.cons_append, List.getD_cons_zero, List.getD_cons_succ, l, k1, k2]
    have e1 : ¬ e ≤ X.length := by omega
    have e2 : ¬ e < X.length + 3 := by omega
    simp [e1, e2]
    omega
  · simp only [List.length_cons, List.length_nil] at he
    have l : leadLen (0xF0 + symCode s / 262144) = 4 := by
      unfold leadLen
      rw [if_neg (by omega), if_neg (by omega), if_neg (by omega), if_pos (by omega)]
    have k1 : isCont (0x80 + symCode s / 4096 % 64) = true := by unfold isCont; simp; omega
    have k2 : isCont (0x80 + symCode s / 64 % 64) = true := by unfold isCont; simp; omega
    have k3 : isCont (0x80 + symCode s % 64) = true := by unfold isCont; simp; omega
    simp only [List.cons_append, List.getD_cons_zero, List.getD_cons_succ, l, k1, k2, k3]
    have e1 : ¬ e ≤ X.length := by omega
    have e2 : ¬ e < X.length + 4 := by omega
    simp [e1, e2]
    split <;> omega

namespace UTF8Iterator

theorem At.bytes {it : UTF8Iterator} {done rest : List Nat} (h : it.At done rest) :
    ∀ b ∈ it.buf, b < 256 := by
  obtain ⟨tail, hb, ht⟩ := h.buf
  rw [hb]
  intro b hm
  rcases List.mem_append.1 hm with hm | hm
  · exact symEncode_lt _ h.valid b hm
  · exact ht b hm

theorem At.read_sym {it : UTF8Iterator} {done rest : List Nat} {c : Nat}
    (h : it.At done (c :: rest)) : it.Read.1 = symCode c ∧ it.Read.2.At done (c :: rest) := by
  obtain ⟨f1, f2, f3, f4⟩ := Read_frame it
  refine ⟨?_, ⟨by rw [f3]; exact h.buf, by rw [f1]; exact h.units, by rw [f4]; exact h.endp,
    by rw [f2]; exact h.pos, CacheOk_Read it h.cache, h.valid⟩⟩
  obtain ⟨tail, hbuf, -⟩ := h.buf
  rw [Read_fst it h.bytes h.cache, hbuf, h.units, h.endp, symEncode_append]
  have hv := h.valid c (by simp)
  have hsh : symEncode done ++ symEncode (c :: rest) ++ tail
      = symEncode done ++ (symBytes c ++ (symEncode rest ++ tail)) := by
    simp only [symEncode, List.append_assoc]
  rw [hsh]
  apply readSpec_sym _ _ _ _ hv
  simp only [symEncode_append, symEncode, List.length_append]
  omega

theorem At.read_cons {it : UTF8Iterator} {done rest : List Nat} {c : Nat}
    (h : it.At done (c :: rest)) (hc : c < 0x200000) :
    it.Read.1 = c ∧ it.Read.2.At done (c :: rest) := by
  have := h.read_sym
  rw [symCode_of_lt hc] at this
  exact this

theorem At.read_nil {it : UTF8Iterator} {done : List Nat} (h : it.At done []) :
    it.Read = (0, it) := by
  have : it.units ≥ it.endp := by
    rw [h.units, h.endp, List.append_nil]
  unfold Read
  rw [if_pos this]

theorem At.advance_cons {it : UTF8Iterator} {done rest : List Nat} {c : Nat}
    (h : it.At done (c :: rest)) : it.Advance.1 = true ∧ it.Advance.2.At (done ++ [c]) rest := by
  have hv := h.valid c (by simp)
  obtain ⟨b, rs, e, hb, hl, _, _⟩ := symBytes_shape c hv
  obtain ⟨tail, htl, htb⟩ := h.buf
  have hbuf : it.buf = symEncode done ++ (b :: (rs ++ symEncode rest ++ tail)) := by
    rw [htl, symEncode_append]
    simp [symEncode, e]
  have hu : it.unit 0 = b := by
    unfold unit
    rw [hbuf, h.units]
    have := getD_append_add (symEncode done) (b :: (rs ++ symEncode rest ++ tail)) 0
    simpa using this
  have hn : it.refresh.n = rs.length + 1 := by
    rw [refresh_n it h.cache]
    have := byte_lead b hb
    rw [hl] at this
    unfold ReadCodepointBytes
    rw [hu]
    exact this
  have hlen : (symEncode (done ++ c :: rest)).length
      = (symEncode done).length + (rs.length + 1) + (symEncode rest).length := by
    simp [symEncode_append, symEncode, e]
    omega
  have h1 : ¬ it.units ≥ it.endp := by
    rw [h.units, h.endp, hlen]
    omega
  have h3 : ¬ it.refresh.n = 0 := by rw [hn]; omega
  have h4 : ¬ it.refresh.units + it.refresh.n > it.refresh.endp := by
    rw [refresh_units, refresh_endp, hn, h.units, h.endp, hlen]
    omega
  have hc := CacheOk_Advance it h.cache
  have ha : it.Advance = (true, UTF8Iterator.mk it.refresh.buf (it.refresh.units + it.refresh.n)
      it.refresh.endp it.refresh.last_read (it.refresh.pos + 1) it.refresh.n) := by
    unfold Advance
    rw [if_neg h1]
    simp only [h3, h4, if_false]
  rw [ha] at hc ⊢
  refine ⟨rfl, ⟨?_, ?_, ?_, ?_, hc, ?_⟩⟩
  · refine ⟨tail, ?_, htb⟩
    show it.refresh.buf = _
    rw [refresh_buf, htl]
    simp
  · show it.refresh.units + it.refresh.n = _
    rw [refresh_units, hn, h.units]
    simp [symEncode_append, symEncode, e]
  · show it.refresh.endp = _
    rw [refresh_endp, h.endp]
    simp
  · show it.refresh.pos + 1 = _
    rw [refresh_pos, h.pos]
    simp
  · intro x hx
    exact h.valid x (by simpa using hx)

end UTF8Iterator

/-! ### The scanners over a buffer of encoded codepoints -/

theorem utf8Canonical_length_pos (c : Nat) : 1 ≤ (utf8Canonical c).length := by
  unfold utf8Canonical
  split_ifs <;> simp

theorem length_le_utf8Encode (cs : List Nat) : cs.length ≤ (utf8Encode cs).length := by
  induction cs with
  | nil => simp [utf8Encode]
  | cons c cs ih =>
    have := utf8Canonical_length_pos c
    simp only [utf8Encode, List.length_cons, List.length_append]
    omega

theorem utf8Encode_ascii (cs : List Nat) (h : ∀ c ∈ cs, c < 0x80) : utf8Encode cs = cs := by
  induction cs with
  | nil => rfl
  | cons c cs ih =>
    have hc : c < 0x80 := h c (by simp)
    simp only [utf8Encode, utf8Canonical, hc, if_true, List.singleton_append]
    rw [ih (fun x hx => h x (by simp [hx]))]

theorem length_le_symEncode (cs : List Nat) (h : ∀ c ∈ cs, Sym c) :
    cs.length ≤ (symEncode cs).length := by
  induction cs with
  | nil => simp [symEncode]
  | cons c cs ih =>
    obtain ⟨b, rs, e, _⟩ := symBytes_shape c (h c (by simp))
    have := ih (fun x hx => h x (by simp [hx]))
    simp only [symEncode, e, List.length_cons, List.length_append]
    omega

theorem symEncode_ascii (cs : List Nat) (h : ∀ c ∈ cs, c < 0x80) : symEncode cs = cs := by
  rw [symEncode_of_valid cs (fun c hc => by have := h c hc; omega)]
  exact utf8Encode_ascii cs h

theorem UTF8Iterator.At.bytesLeft {it : UTF8Iterator} {done rest : List Nat}
    (h : it.At done rest) : rest.length ≤ it.GetNumBytesLeft := by
  unfold UTF8Iterator.GetNumBytesLeft
  rw [h.endp, h.units, symEncode_append, List.length_append]
  have := length_le_symEncode rest (fun c hc => h.valid c (by simp [hc]))
  omega

theorem UTF8Iterator.At.read_code {it : UTF8Iterator} {done rest : List Nat}
    (h : it.At done rest) : it.Read.1 = symCode (rest.headD 0) ∧ it.Read.2.At done rest := by
  cases rest with
  | nil => rw [h.read_nil]; exact ⟨rfl, h⟩
  | cons c rest => exact h.read_sym

theorem UTF8Iterator.At.read {it : UTF8Iterator} {done rest : List Nat} (h : it.At done rest)
    (hc : rest.headD 0 < 0x200000) : it.Read.1 = rest.headD 0 ∧ it.Read.2.At done rest := by
  have := h.read_code
  rw [symCode_of_lt hc] at this
  exact this

theorem Sym.code_ne_zero {c : Nat} (h : Sym c) : symCode c ≠ 0 := by
  have := h.1
  omega

theorem Sym.ne_zero {c : Nat} (h : Sym c) : c ≠ 0 := by
  intro h0
  have := h.1
  rw [h0] at this
  simp [symCode] at this

theorem IsWhitespace_lt {c : Nat} (h : IsWhitespace c = true) : c < 0x80 := by
  simp only [IsWhitespace, Bool.or_eq_true, beq_iff_eq] at h
  omega

theorem IsLiteralTerminator_lt {c : Nat} (h : IsLiteralTerminator c = true) : c < 0x80 := by
  simp only [IsLiteralTerminator, Bool.or_eq_true, beq_iff_eq] at h
  omega

theorem headD_blank_lt (ws rest : List Nat) (hws : ∀ c ∈ ws, IsWhitespace c = true)
    (hlt : rest.headD 0 < 0x200000) : (ws ++ rest).headD 0 < 0x200000 := by
  cases ws with
  | nil => simpa using hlt
  | cons w ws =>
    have := IsWhitespace_lt (hws w (by simp))
    simp only [List.cons_append, List.headD_cons]
    omega

theorem SkipWhitespace_loop_at (rest : List Nat) (hr : IsWhitespace (rest.headD 0) = false)
    (hlt : rest.headD 0 < 0x200000) :
    ∀ (ws done : List Nat) (it : UTF8Iterator) (fuel : Nat),
      (∀ c ∈ ws, IsWhitespace c = true) → it.At done (ws ++ rest) → ws.length + 1 ≤ fuel →
      ∃ it', SkipWhitespace.loop fuel ((ws ++ rest).headD 0) it = .ret it' ∧
        it'.At (done ++ ws) rest := by
  intro ws
  induction ws with
  | nil =>
    intro done it fuel _ h hf
    obtain ⟨f, rfl⟩ : ∃ f, fuel = f + 1 := ⟨fuel - 1, by omega⟩
    refine ⟨it, ?_, by simpa using h⟩
    simp only [List.nil_append, SkipWhitespace.loop, hr]
    simp
  | cons w ws ih =>
    intro done it fuel hws h hf
    obtain ⟨f, rfl⟩ : ∃ f, fuel = f + 1 := ⟨fuel - 1, by omega⟩
    have hw : IsWhitespace w = true := hws w (by simp)
    have hw0 : w ≠ 0 := (h.valid w (by simp)).ne_zero
    have ha := (h.advance_cons).2
    have hrd := ha.read (headD_blank_lt ws rest (fun c hc => hws c (by simp [hc])) hlt)
    obtain ⟨it', hl, hat⟩ := ih (done ++ [w]) it.Advance.2.Read.2 f
      (fun c hc => hws c (by simp [hc])) hrd.2 (by simp at hf; omega)
    refine ⟨it', ?_, by simpa using hat⟩
    simp only [List.cons_append, List.headD_cons, SkipWhitespace.loop, hw0, hw, ne_eq,
      not_false_eq_true, and_self, if_true]
    rw [hrd.1]
    exact hl

theorem SkipWhitespace_at (ws rest done : List Nat) (it : UTF8Iterator) (e : List Nat)
    (hws : ∀ c ∈ ws, IsWhitespace c = true) (hr : IsWhitespace (rest.headD 0) = false)
    (hlt : rest.headD 0 < 0x200000)
    (hne : ws ++ rest ≠ []) (h : it.At done (ws ++ rest)) :
    ∃ it', SkipWhitespace it e = .ret { ok := true, iter := it', str := [], szError := e } ∧
      it'.At (done ++ ws) rest := by
  have hrd := h.read (headD_blank_lt ws rest hws hlt)
  have h0 : it.Read.1 ≠ 0 := by
    rw [hrd.1]
    cases hl : ws ++ rest with
    | nil => exact absurd hl hne
    | cons c cs =>
      have := (h.valid c (by rw [hl]; simp)).ne_zero
      simpa only [List.headD_cons] using this
  obtain ⟨it', hl, hat⟩ := SkipWhitespace_loop_at rest hr hlt ws done it.Read.2
    (it.Read.2.GetNumBytesLeft + 1) hws hrd.2 (by
      have := hrd.2.bytesLeft
      simp only [List.length_append] at this
      omega)
  refine ⟨it', ?_, hat⟩
  simp only [SkipWhitespace, h0, if_false]
  rw [hrd.1, hl]
  rfl

theorem span_at {it : UTF8Iterator} {A B C T : List Nat}
    (h : it.buf = symEncode (A ++ B ++ C) ++ T) :
    span it (symEncode A).length ((symEncode (A ++ B)).length - (symEncode A).length)
      = symEncode B := by
  unfold span
  rw [h]
  simp only [symEncode_append, List.append_assoc, List.length_append, Nat.add_sub_cancel_left,
    List.drop_left, List.take_left]

theorem escapedAfter_snoc (p : List Nat) (c : Nat) :
    escapedAfter (p ++ [c]) = (decide (c = 0x5C) && !escapedAfter p) := by
  simp [escapedAfter, List.foldl_append]

/-- The loop of `GetNextString` from inside a literal: it runs to the first
character read as a quote that no backslash escapes. -/
theorem GetNextString_loop_escapes (start : Nat) (e rest : List Nat) :
    ∀ (s₂ s₁ done : List Nat) (it : UTF8Iterator) (fuel : Nat),
      (∀ i < s₂.length, (s₂.map symCode).getD i 0 = 0x22 →
        escapedAfter (s₁.map symCode ++ (s₂.map symCode).take i) = true) →
      escapedAfter (s₁.map symCode ++ s₂.map symCode) = false →
      it.At (done ++ s₁) (s₂ ++ 0x22 :: rest) →
      start = (symEncode done).length → s₂.length + 1 ≤ fuel →
      ∃ it', GetNextString.loop start e fuel (escapedAfter (s₁.map symCode)) it
          = .ret { ok := true, iter := it', str := symEncode (s₁ ++ s₂), szError := e } ∧
        it'.At (done ++ s₁ ++ s₂ ++ [0x22]) rest := by
  intro s₂
  induction s₂ with
  | nil =>
    intro s₁ done it fuel _ hend h hs hf
    obtain ⟨f, rfl⟩ : ∃ f, fuel = f + 1 := ⟨fuel - 1, by omega⟩
    simp only [List.nil_append] at h
    simp only [List.map_nil, List.append_nil] at hend
    obtain ⟨r1, r2⟩ := h.read_cons (by decide)
    obtain ⟨a1, a2⟩ := r2.advance_cons
    refine ⟨it.Read.2.Advance.2, ?_, by simpa using a2⟩
    simp only [GetNextString.loop, r1, hend]
    simp only [Nat.reduceEqDiff, if_false, and_true, if_true, false_and, a1]
    unfold UTF8Iterator.GetReadPtr
    obtain ⟨tail, htl, -⟩ := r2.buf
    rw [r2.units, hs, List.append_nil,
      span_at (A := done) (B := s₁) (C := 0x22 :: rest) (T := tail) htl]
  | cons c s₂ ih =>
    intro s₁ done it fuel hq hend h hs hf
    obtain ⟨f, rfl⟩ : ∃ f, fuel = f + 1 := ⟨fuel - 1, by omega⟩
    simp only [List.cons_append] at h
    obtain ⟨r1, r2⟩ := h.read_sym
    obtain ⟨a1, a2⟩ := r2.advance_cons
    have hc0 : symCode c ≠ 0 := (h.valid c (by simp)).code_ne_zero
    have hq0 := hq 0 (by simp)
    simp only [List.map_cons, List.getD_cons_zero, List.take_zero, List.append_nil] at hq0
    have hstep := escapedAfter_snoc (s₁.map symCode) (symCode c)
    obtain ⟨it', hl, hat⟩ := ih (s₁ ++ [c]) done it.Read.2.Advance.2 f
      (fun i hi hg => by
        have := hq (i + 1) (by simp; omega) (by simpa using hg)
        simpa using this)
      (by simpa using hend) (by simpa using a2) hs (by simp at hf; omega)
    refine ⟨it', ?_, by simpa using hat⟩
    simp only [List.append_assoc, List.singleton_append, List.map_append, List.map_cons,
      List.map_nil] at hl
    simp only [GetNextString.loop, r1, hc0, if_false]
    by_cases h5 : symCode c = 0x5C
    · by_cases hesc : escapedAfter (s₁.map symCode) = false
      · rw [if_pos ⟨h5, hesc⟩]
        rw [hstep, hesc] at hl
        simpa [h5] using hl
      · have hesc' : escapedAfter (s₁.map symCode) = true := by simpa using hesc
        rw [if_neg (fun hc => hesc hc.2), if_neg (fun hc => absurd hc.1 (by omega))]
        rw [hstep, hesc'] at hl
        simpa [h5] using hl
    · rw [if_neg (fun hc => h5 hc.1)]
      have hn : ¬ (symCode c = 0x22 ∧ escapedAfter (s₁.map symCode) = false) := by
        rintro ⟨h2, hesc⟩
        rw [hq0 h2] at hesc
        exact absurd hesc (by simp)
      rw [if_neg hn]
      rw [hstep] at hl
      simpa [h5] using hl

theorem Doc.quotable_of_plain (s : List Nat) (h : Doc.plain s) : Doc.quotable s := by
  have key : ∀ (l : List Nat), (∀ c ∈ l, c ≠ 0x5C) → escapedAfter l = false := by
    intro l
    induction l using List.reverseRecOn with
    | nil => intro _; rfl
    | append_singleton l c ih =>
      intro hl
      rw [escapedAfter_snoc]
      have : c ≠ 0x5C := hl c (by simp)
      simp [this]
  refine ⟨key s (fun c hc => (h c hc).2), fun i hi hq => ?_⟩
  exfalso
  have hm : s.getD i 0 ∈ s := by
    rw [List.getD_eq_getElem _ _ hi]
    exact List.getElem_mem _
  exact (h _ hm).1 hq

theorem GetNextLiteral_string_at (s rest done : List Nat) (it : UTF8Iterator) (e : List Nat)
    (hs : Doc.quotable (s.map symCode)) (h : it.At done (0x22 :: s ++ 0x22 :: rest)) :
    ∃ it', GetNextLiteral it e
        = .ret { ok := true, iter := it', str := symEncode s, szError := e } ∧
      it'.At (done ++ 0x22 :: s ++ [0x22]) rest := by
  have hq : IsWhitespace ((0x22 :: s ++ 0x22 :: rest).headD 0) = false := rfl
  have hq2 : (0x22 :: s ++ 0x22 :: rest).headD 0 < 0x200000 := by
    simp only [List.cons_append, List.headD_cons]; decide
  obtain ⟨w, hw, hwa⟩ := SkipWhitespace_at [] (0x22 :: s ++ 0x22 :: rest) done it e (by simp) hq
    hq2 (by simp) (by simpa using h)
  simp only [List.append_nil] at hwa
  obtain ⟨r1, r2⟩ := hwa.read_cons (by decide)
  obtain ⟨w2, hw2, hwa2⟩ := SkipWhitespace_at [] (0x22 :: s ++ 0x22 :: rest) done w.Read.2 e
    (by simp) hq hq2 (by simp) (by simpa using r2)
  simp only [List.append_nil] at hwa2
  obtain ⟨r3, r4⟩ := hwa2.read_cons (by decide)
  obtain ⟨a1, a2⟩ := r4.advance_cons
  obtain ⟨it', hl, hat⟩ := GetNextString_loop_escapes (w2.Read.2.Advance.2.GetReadPtr) e rest s []
    (done ++ [0x22]) w2.Read.2.Advance.2 (w2.Read.2.Advance.2.GetNumBytesLeft + 1)
    (by simpa using hs.2) (by simpa using hs.1)
    (by simpa using a2) (by unfold UTF8Iterator.GetReadPtr; rw [a2.units]) (by
      have := a2.bytesLeft
      simp at this
      omega)
  refine ⟨it', ?_, by simpa using hat⟩
  simp only [GetNextLiteral, hw, Outcome.ret_bind, r1]
  simp only [GetNextString, hw2, Outcome.ret_bind, r3]
  simpa [escapedAfter] using hl

theorem GetNextLiteral_loop_at (start : Nat) (e rest : List Nat) (c : Nat)
    (hc : IsLiteralTerminator c = true ∨ IsWhitespace c = true) (hc7 : c < 0x7F) :
    ∀ (t₂ t₁ done : List Nat) (it : UTF8Iterator) (fuel : Nat),
      (∀ x ∈ t₂, literalChar x = true) → it.At (done ++ t₁) (t₂ ++ c :: rest) →
      start = (symEncode done).length → t₁ ++ t₂ ≠ [] → t₂.length + 1 ≤ fuel →
      ∃ it', GetNextLiteral.loop start e fuel it
          = .ret { ok := true, iter := it', str := symEncode (t₁ ++ t₂), szError := e } ∧
        it'.At (done ++ t₁ ++ t₂) (c :: rest) := by
  intro t₂
  induction t₂ with
  | nil =>
    intro t₁ done it fuel _ h hs hne hf
    obtain ⟨f, rfl⟩ : ∃ f, fuel = f + 1 := ⟨fuel - 1, by omega⟩
    simp only [List.nil_append] at h
    simp only [List.append_nil] at hne
    obtain ⟨r1, r2⟩ := h.read_cons (by omega)
    have hc0 : c ≠ 0 := (h.valid c (by simp)).ne_zero
    have hlen : (symEncode (done ++ t₁)).length ≠ (symEncode done).length := by
      have := length_le_symEncode t₁ (fun x hx => h.valid x (by simp [hx]))
      have : t₁.length ≠ 0 := by simpa using hne
      rw [symEncode_append, List.length_append]
      omega
    refine ⟨it.Read.2, ?_, by simpa using r2⟩
    simp only [GetNextLiteral.loop, r1, hc0, if_false, hc, if_true, UTF8Iterator.GetReadPtr,
      r2.units, hs, ne_eq, hlen, not_false_eq_true, List.append_nil]
    obtain ⟨tail, htl, -⟩ := r2.buf
    rw [if_neg (by omega), span_at (A := done) (B := t₁) (C := c :: rest) (T := tail) htl]
  | cons x t₂ ih =>
    intro t₁ done it fuel hx h hs _ hf
    obtain ⟨f, rfl⟩ : ∃ f, fuel = f + 1 := ⟨fuel - 1, by omega⟩
    simp only [List.cons_append] at h
    have hx1 := hx x (by simp)
    simp only [literalChar, Bool.and_eq_true, decide_eq_true_eq, Bool.not_eq_true'] at hx1
    obtain ⟨r1, r2⟩ := h.read_cons (by omega)
    obtain ⟨a1, a2⟩ := r2.advance_cons
    have hx0 : x ≠ 0 := (h.valid x (by simp)).ne_zero
    obtain ⟨it', hl, hat⟩ := ih (t₁ ++ [x]) done it.Read.2.Advance.2 f
      (fun y hy => hx y (by simp [hy])) (by simpa using a2) hs (by simp) (by simp at hf; omega)
    refine ⟨it', ?_, by simpa using hat⟩
    simp only [GetNextLiteral.loop, r1, hx0, if_false, hx1.1.2, hx1.2, Bool.false_eq_true,
      or_self]
    rw [if_neg (by omega), hl]
    simp

theorem GetNextLiteral_token_at (t rest done : List Nat) (c : Nat) (it : UTF8Iterator)
    (e : List Nat) (ht : ∀ x ∈ t, literalChar x = true) (hne : t ≠ [])
    (hq : t.headD 0 ≠ 0x22) (hc : IsLiteralTerminator c = true ∨ IsWhitespace c = true)
    (hc7 : c < 0x7F) (h : it.At done (t ++ c :: rest)) :
    ∃ it', GetNextLiteral it e
        = .ret { ok := true, iter := it', str := symEncode t, szError := e } ∧
      it'.At (done ++ t) (c :: rest) := by
  obtain ⟨x, t', rfl⟩ : ∃ x t', t = x :: t' := by
    cases t with
    | nil => exact absurd rfl hne
    | cons x t' => exact ⟨x, t', rfl⟩
  have hx1 := ht x (by simp)
  simp only [literalChar, Bool.and_eq_true, decide_eq_true_eq, Bool.not_eq_true'] at hx1
  obtain ⟨w, hw, hwa⟩ := SkipWhitespace_at [] (x :: t' ++ c :: rest) done it e (by simp)
    (by simpa using hx1.2) (by simp only [List.cons_append, List.headD_cons]; omega) (by simp)
    (by simpa using h)
  simp only [List.append_nil, List.cons_append] at hwa
  obtain ⟨r1, r2⟩ := hwa.read_cons (by omega)
  obtain ⟨it', hl, hat⟩ := GetNextLiteral_loop_at (w.Read.2.GetReadPtr) e rest c hc hc7
    (x :: t') [] done w.Read.2 (w.Read.2.GetNumBytesLeft + 1) ht (by simpa using r2)
    (by unfold UTF8Iterator.GetReadPtr; rw [r2.units]) (by simp) (by
      have := r2.bytesLeft
      simp at this
      simp
      omega)
  refine ⟨it', ?_, by simpa using hat⟩
  simp only [GetNextLiteral, hw, Outcome.ret_bind, r1]
  have hx22 : x ≠ 0x22 := by simpa using hq
  simp only [hx22, if_false]
  simpa using hl

/-! ### The lambdas of GenerateNodes on a well-formed text -/

section Steps

variable {D : Type}

theorem StringAdvance_at (s : Scope D) (done ws rest : List Nat) (c r : Nat)
    (hws : Doc.blank ws) (hr : IsWhitespace r = false) (hr7 : r < 0x200000)
    (h : s.iter.At done (c :: ws ++ r :: rest)) :
    ∃ it', StringAdvance s = .ret (true, { s with iter := it', ch := r }) ∧
      it'.At (done ++ c :: ws) (r :: rest) := by
  simp only [List.cons_append] at h
  obtain ⟨a1, a2⟩ := h.advance_cons
  obtain ⟨w, hw, hwa⟩ := SkipWhitespace_at ws (r :: rest) (done ++ [c]) s.iter.Advance.2 s.szError
    hws (by simpa using hr) (by simpa using hr7) (by simp) a2
  obtain ⟨r1, r2⟩ := hwa.read_cons hr7
  have hr0 : r ≠ 0 := (h.valid r (by simp)).ne_zero
  refine ⟨w.Read.2, ?_, by simpa using r2⟩
  simp only [StringAdvance, a1, Bool.true_eq_false, if_false, hw, Outcome.ret_bind, r1]
  simp [hr0]

@[simp] theorem Node.GetType_null : (Node.null : Node D).GetType = .Null := rfl
@[simp] theorem Node.GetType_boolean (b : Bool) : (Node.boolean b : Node D).GetType = .Boolean := rfl
@[simp] theorem Node.GetType_number (d : D) : (Node.number d).GetType = .Number := rfl
@[simp] theorem Node.GetType_string (x : List Nat) : (Node.string x : Node D).GetType = .String := rfl
@[simp] theorem Node.GetType_array (et : NodeType) (es : List (Node D)) :
    (Node.array et es).GetType = .Array := rfl
@[simp] theorem Node.GetType_object (ms : List (List Nat × Node D)) :
    (Node.object ms).GetType = .Object := rfl

theorem AddNode_array (s : Scope D) (inner : Node D) (et : NodeType) (es : List (Node D))
    (hn : s.n = .array et es) (ht : es ≠ [] → inner.GetType = et) :
    AddNode s inner = .ret (true,
      { s with n := .array (if es.isEmpty = true then inner.GetType else et) (es ++ [inner.copy]) }) := by
  have hty : ¬ inner.GetType ≠ (if es.isEmpty = true then inner.GetType else et) := by
    cases es with
    | nil => simp
    | cons e es => simpa using ht (by simp)
  simp only [AddNode, hn, Node.GetType_array, Node.Append, hty, if_false, Outcome.ret_bind]

theorem AddNode_array_abort (s : Scope D) (inner : Node D) (et : NodeType) (es : List (Node D))
    (hn : s.n = .array et es) (hne : es ≠ []) (ht : inner.GetType ≠ et) :
    AddNode s inner = .abort := by
  have hty : inner.GetType ≠ (if es.isEmpty = true then inner.GetType else et) := by
    cases es with
    | nil => exact absurd rfl hne
    | cons e es => simpa using ht
  simp only [AddNode, hn, Node.GetType_array, Node.Append]
  rw [if_pos hty]
  rfl

theorem AddNode_object (s : Scope D) (inner : Node D) (ms : List (List Nat × Node D))
    (hn : s.n = .object ms) (hl : s.szCurLabel ≠ []) :
    AddNode s inner = .ret (true,
      { s with n := .object (mapAssign ms s.szCurLabel inner.copy), szCurLabel := [] }) := by
  have hl' : s.szCurLabel.isEmpty = false := by
    cases hs : s.szCurLabel with
    | nil => exact absurd hs hl
    | cons _ _ => rfl
  simp only [AddNode, hn, Node.GetType_object, hl', Bool.false_eq_true, if_false, Node.Set,
    Outcome.ret_bind]

end Steps
section Steps2

variable {D : Type}

theorem Doc.closes_lt {c : Nat} (h : Doc.closes c) : c < 0x7F := by
  unfold Doc.closes IsLiteralTerminator IsWhitespace at h
  simp only [Bool.or_eq_true, beq_iff_eq] at h
  omega

theorem literalChar_lt {x : Nat} (h : literalChar x = true) : x < 0x80 := by
  simp only [literalChar, Bool.and_eq_true, decide_eq_true_eq] at h
  omega

theorem GetNextLiteral_word (s : Scope D) (t done after : List Nat) (c : Nat)
    (ht : ∀ x ∈ t, literalChar x = true) (hne : t ≠ [])
    (hq : t.headD 0 ≠ 0x22) (hcl : Doc.closes c) (h : s.iter.At done (t ++ c :: after)) :
    ∃ itA, itA.At (done ++ t) (c :: after) ∧
      GetNextLiteral s.iter s.szError
        = .ret { ok := true, iter := itA, str := t, szError := s.szError } := by
  obtain ⟨itA, hl, hat⟩ := GetNextLiteral_token_at t after done c s.iter s.szError ht hne hq hcl
    (Doc.closes_lt hcl) h
  rw [symEncode_ascii t (fun x hx => literalChar_lt (ht x hx))] at hl
  exact ⟨itA, hat, hl⟩

theorem literalToken_null : literalToken [0x6E, 0x75, 0x6C, 0x6C] = some 0x6c6c756e := by decide
theorem literalToken_true : literalToken [0x74, 0x72, 0x75, 0x65] = some 0x65757274 := by decide
theorem literalToken_false : literalToken [0x66, 0x61, 0x6C, 0x73, 0x65] = some 0x65736c6166 := by
  decide
theorem BuildSpanLiteral_null (strtod : List Nat → D × Nat) (s : Scope D) (itA : UTF8Iterator)
    (hch : s.ch = 0x6E)
    (hl : GetNextLiteral s.iter s.szError
      = .ret { ok := true, iter := itA, str := [0x6E, 0x75, 0x6C, 0x6C], szError := s.szError }) :
    BuildSpanLiteral strtod s = AddNode { s with iter := itA } .null := by
  have h22 : ¬ s.ch = 0x22 := by omega
  have htfn : s.ch = 0x74 ∨ s.ch = 0x66 ∨ s.ch = 0x6E := by omega
  simp only [BuildSpanLiteral, hl, Outcome.ret_bind]
  rw [if_neg (by simp), if_neg h22, if_pos htfn]
  simp only [literalToken_null]
  rw [if_neg (show ¬ (1819047278 : Nat) = 1702195828 by omega),
    if_neg (show ¬ (1819047278 : Nat) = 435728179558 by omega), if_pos trivial]

theorem BuildSpanLiteral_true (strtod : List Nat → D × Nat) (s : Scope D) (itA : UTF8Iterator)
    (hch : s.ch = 0x74)
    (hl : GetNextLiteral s.iter s.szError
      = .ret { ok := true, iter := itA, str := [0x74, 0x72, 0x75, 0x65], szError := s.szError }) :
    BuildSpanLiteral strtod s = AddNode { s with iter := itA } (.boolean true) := by
  have h22 : ¬ s.ch = 0x22 := by omega
  have htfn : s.ch = 0x74 ∨ s.ch = 0x66 ∨ s.ch = 0x6E := by omega
  simp only [BuildSpanLiteral, hl, Outcome.ret_bind]
  rw [if_neg (by simp), if_neg h22, if_pos htfn]
  simp only [literalToken_true]
  rw [if_pos trivial]

theorem BuildSpanLiteral_false (strtod : List Nat → D × Nat) (s : Scope D) (itA : UTF8Iterator)
    (hch : s.ch = 0x66)
    (hl : GetNextLiteral s.iter s.szError
      = .ret { ok := true, iter := itA, str := [0x66, 0x61, 0x6C, 0x73, 0x65], szError := s.szError }) :
    BuildSpanLiteral strtod s = AddNode { s with iter := itA } (.boolean false) := by
  have h22 : ¬ s.ch = 0x22 := by omega
  have htfn : s.ch = 0x74 ∨ s.ch = 0x66 ∨ s.ch = 0x6E := by omega
  simp only [BuildSpanLiteral, hl, Outcome.ret_bind]
  rw [if_neg (by simp), if_neg h22, if_pos htfn]
  simp only [literalToken_false]
  rw [if_neg (show ¬ (435728179558 : Nat) = 1702195828 by omega), if_pos trivial]

/-- The value at the cursor is read and handed to `AddNode`. -/
theorem value_at (gen : Generator D) (strtod : List Nat → D × Nat) (cd dmax : Nat) (d : Doc D)
    (hok : d.ok strtod) (hgen : gen.Parses (cd + 1) dmax d) (s : Scope D)
    (done after : List Nat) (c : Nat) (hcl : Doc.closes c)
    (h : s.iter.At done (d.text ++ c :: after)) (hch : s.ch = d.text.headD 0)
    (hlen : done.length + d.text.length < SIZE_MAX) :
    ∃ itA, itA.At (done ++ d.text) (c :: after) ∧
      (if s.ch = 0x7B ∨ s.ch = 0x5B then BuildSpanInner gen cd dmax s
        else BuildSpanLiteral strtod s) = AddNode { s with iter := itA } d.node := by
  cases d with
  | null =>
    have e : (Doc.null : Doc D).text = [0x6E, 0x75, 0x6C, 0x6C] := rfl
    rw [e] at h hch ⊢
    obtain ⟨itA, hat, hl⟩ := GetNextLiteral_word s _ done after c (by decide) (by decide)
      (by decide) hcl h
    have hch' : s.ch = 0x6E := hch
    refine ⟨itA, hat, ?_⟩
    rw [if_neg (by omega)]
    exact BuildSpanLiteral_null strtod s itA hch' hl
  | bool b =>
    cases b with
    | true =>
      have e : (Doc.bool true : Doc D).text = [0x74, 0x72, 0x75, 0x65] := rfl
      rw [e] at h hch ⊢
      obtain ⟨itA, hat, hl⟩ := GetNextLiteral_word s _ done after c (by decide) (by decide)
        (by decide) hcl h
      have hch' : s.ch = 0x74 := hch
      refine ⟨itA, hat, ?_⟩
      rw [if_neg (by omega)]
      exact BuildSpanLiteral_true strtod s itA hch' hl
    | false =>
      have e : (Doc.bool false : Doc D).text = [0x66, 0x61, 0x6C, 0x73, 0x65] := rfl
      rw [e] at h hch ⊢
      obtain ⟨itA, hat, hl⟩ := GetNextLiteral_word s _ done after c (by decide) (by decide)
        (by decide) hcl h
      have hch' : s.ch = 0x66 := hch
      refine ⟨itA, hat, ?_⟩
      rw [if_neg (by omega)]
      exact BuildSpanLiteral_false strtod s itA hch' hl
  | num x t =>
    obtain ⟨hne, hlit, h22, h74, h66, h6E, h7B, h5B, hst⟩ := hok
    simp only [Doc.text] at h hch ⊢
    obtain ⟨itA, hat, hl⟩ := GetNextLiteral_word s _ done after c hlit hne h22 hcl h
    refine ⟨itA, hat, ?_⟩
    rw [← hch] at h22 h74 h66 h6E h7B h5B
    simp [BuildSpanLiteral, hl, h22, h74, h66, h6E, h7B, h5B, hst, Doc.node]
  | str x =>
    have hp : Doc.quotable (x.map symCode) := hok
    simp only [Doc.text, List.cons_append, List.append_assoc, List.singleton_append] at h hch ⊢
    obtain ⟨itA, hl, hat⟩ := GetNextLiteral_string_at x (c :: after) done s.iter s.szError hp h
    refine ⟨itA, by simpa using hat, ?_⟩
    have hch' : s.ch = 0x22 := hch
    simp [BuildSpanLiteral, hl, hch', Doc.node]
  | arr ws items =>
    obtain ⟨hd, hg⟩ := hgen (by simp [Doc.height])
    obtain ⟨itA, hg, hat⟩ := hg s.iter done (c :: after) s.szError .null h hlen
    refine ⟨itA, hat, ?_⟩
    have hch' : s.ch = 0x5B := by simpa [Doc.text] using hch
    have hd' : ¬ cd + 1 ≥ dmax := by omega
    simp [BuildSpanInner, hch', hd', hg]
  | obj ws members =>
    obtain ⟨hd, hg⟩ := hgen (by simp [Doc.height])
    obtain ⟨itA, hg, hat⟩ := hg s.iter done (c :: after) s.szError .null h hlen
    refine ⟨itA, hat, ?_⟩
    have hch' : s.ch = 0x7B := by simpa [Doc.text] using hch
    have hd' : ¬ cd + 1 ≥ dmax := by omega
    simp [BuildSpanInner, hch', hd', hg]

end Steps2
section Steps3

variable {D : Type}

theorem IsLiteralTerminator_not_ws {c : Nat} (h : IsLiteralTerminator c = true) :
    IsWhitespace c = false := by
  unfold IsLiteralTerminator at h
  simp only [Bool.or_eq_true, beq_iff_eq] at h
  rcases h with (h | h) | h <;> subst h <;> decide

theorem Doc.text_head (strtod : List Nat → D × Nat) (d : Doc D) (hok : d.ok strtod) :
    ∃ r tl, d.text = r :: tl ∧ IsWhitespace r = false ∧ IsLiteralTerminator r = false ∧
      r < 0x7F := by
  cases d with
  | null => exact ⟨0x6E, [0x75, 0x6C, 0x6C], rfl, by decide, by decide, by decide⟩
  | bool b =>
    cases b with
    | true => exact ⟨0x74, [0x72, 0x75, 0x65], rfl, by decide, by decide, by decide⟩
    | false => exact ⟨0x66, [0x61, 0x6C, 0x73, 0x65], rfl, by decide, by decide, by decide⟩
  | num x t =>
    obtain ⟨hne, hlit, -⟩ := hok
    cases t with
    | nil => exact absurd rfl hne
    | cons r tl =>
      have := hlit r (by simp)
      simp only [literalChar, Bool.and_eq_true, decide_eq_true_eq, Bool.not_eq_true'] at this
      exact ⟨r, tl, rfl, this.2, this.1.2, this.1.1⟩
  | str x => exact ⟨0x22, x ++ [0x22], by simp [Doc.text], by decide, by decide, by decide⟩
  | arr ws items =>
    exact ⟨0x5B, ws ++ Doc.itemsText items ++ [0x5D], by simp [Doc.text], by decide, by decide,
      by decide⟩
  | obj ws members =>
    exact ⟨0x7B, ws ++ Doc.membersText members ++ [0x7D], by simp [Doc.text], by decide,
      by decide, by decide⟩

theorem Doc.closes_head (w rest : List Nat) (c : Nat) (hw : Doc.blank w)
    (hc : IsLiteralTerminator c = true) :
    ∃ c' after, w ++ c :: rest = c' :: after ∧ Doc.closes c' := by
  cases w with
  | nil => exact ⟨c, rest, rfl, Or.inl hc⟩
  | cons x w => exact ⟨x, w ++ c :: rest, rfl, Or.inr (hw x (by simp))⟩

/-- The lambda `ParseMember` at a value that `AddNode` accepts: the value is
added, the whitespace after it skipped and the next character read. -/
theorem ParseMember_at (gen : Generator D) (strtod : List Nat → D × Nat) (cd dmax : Nat)
    (d : Doc D) (hok : d.ok strtod) (hgen : gen.Parses (cd + 1) dmax d) (s : Scope D)
    (done w rest : List Nat) (c : Nat) (hw : Doc.blank w) (hc : IsLiteralTerminator c = true)
    (h : s.iter.At done (d.text ++ w ++ c :: rest)) (hch : s.ch = d.text.headD 0)
    (hlen : done.length + d.text.length < SIZE_MAX) (N : Node D) (L : List Nat)
    (hadd : ∀ it, AddNode { s with iter := it } d.node
      = .ret (true, { s with iter := it, n := N, szCurLabel := L })) :
    ∃ it', it'.At (done ++ d.text ++ w) (c :: rest) ∧
      ParseMember gen strtod cd dmax s
        = .ret (true, { s with iter := it', n := N, szCurLabel := L, ch := c }) := by
  obtain ⟨c', after, e, hcl⟩ := Doc.closes_head w rest c hw hc
  rw [List.append_assoc, e] at h
  obtain ⟨itA, hat, hv⟩ := value_at gen strtod cd dmax d hok hgen s done after c' hcl h hch hlen
  rw [← e] at hat
  obtain ⟨itW, hsk, hatW⟩ := SkipWhitespace_at w (c :: rest) (done ++ d.text) itA s.szError hw
    (by simpa using IsLiteralTerminator_not_ws hc)
    (by have := IsLiteralTerminator_lt hc; simp only [List.headD_cons]; omega) (by simp) hat
  obtain ⟨r1, r2⟩ := hatW.read_cons (by have := IsLiteralTerminator_lt hc; omega)
  refine ⟨itW.Read.2, r2, ?_⟩
  unfold ParseMember
  rw [hv, hadd itA]
  simp only [Outcome.ret_bind, Bool.true_eq_false, if_false, hsk, r1]

/-- The lambda `ParseMember` at a value on which `AddNode` aborts. -/
theorem ParseMember_abort (gen : Generator D) (strtod : List Nat → D × Nat) (cd dmax : Nat)
    (d : Doc D) (hok : d.ok strtod) (hgen : gen.Parses (cd + 1) dmax d) (s : Scope D)
    (done rest : List Nat) (c : Nat) (hc : Doc.closes c)
    (h : s.iter.At done (d.text ++ c :: rest)) (hch : s.ch = d.text.headD 0)
    (hlen : done.length + d.text.length < SIZE_MAX)
    (hadd : ∀ it, AddNode { s with iter := it } d.node = .abort) :
    ParseMember gen strtod cd dmax s = .abort := by
  obtain ⟨itA, -, hv⟩ := value_at gen strtod cd dmax d hok hgen s done rest c hc h hch hlen
  unfold ParseMember
  rw [hv, hadd itA]
  rfl

end Steps3
section Loop

variable {D : Type}

theorem scopeLoop_step (gen : Generator D) (strtod : List Nat → D × Nat) (cd dmax fuel : Nat)
    (s : Scope D) (done rest : List Nat) (r : Nat) (h : s.iter.At done (r :: rest))
    (hr7 : r < 0x200000) :
    s.iter.Read.2.At done (r :: rest) ∧
    scopeLoop gen strtod cd dmax (fuel + 1) s
      = (scopeBody gen strtod cd dmax { s with iter := s.iter.Read.2, ch := r }).bind fun b =>
          match b.1 with
          | .next => scopeLoop gen strtod cd dmax fuel b.2
          | .brk => .ret (true, b.2)
          | .fail => .ret (false, b.2) := by
  obtain ⟨r1, r2⟩ := h.read_cons hr7
  have hr0 : r ≠ 0 := (h.valid r (by simp)).ne_zero
  refine ⟨r2, ?_⟩
  simp only [scopeLoop, r1, hr0, if_false]

theorem scopeBody_start (gen : Generator D) (strtod : List Nat → D × Nat) (cd dmax : Nat)
    (s : Scope D) (hch : s.ch < 0x7F) (he : s.eType = .Null) :
    scopeBody gen strtod cd dmax s = scopeStart s := by
  unfold scopeBody
  rw [if_neg (by omega), if_pos he]

theorem scopeBody_array_close (gen : Generator D) (strtod : List Nat → D × Nat) (cd dmax : Nat)
    (s : Scope D) (hch : s.ch = 0x5D) (he : s.eType = .Array) :
    scopeBody gen strtod cd dmax s
      = .ret (.brk, { s with iter := s.iter.Advance.2, bTerminated := true }) := by
  unfold scopeBody
  rw [if_neg (by omega), if_neg (by simp [he]), if_pos (Or.inr ⟨hch, he⟩)]

theorem scopeBody_object_close (gen : Generator D) (strtod : List Nat → D × Nat) (cd dmax : Nat)
    (s : Scope D) (hch : s.ch = 0x7D) (he : s.eType = .Object) :
    scopeBody gen strtod cd dmax s
      = .ret (.brk, { s with iter := s.iter.Advance.2, bTerminated := true }) := by
  unfold scopeBody
  rw [if_neg (by omega), if_neg (by simp [he]), if_pos (Or.inl ⟨hch, he⟩)]

theorem scopeBody_element (gen : Generator D) (strtod : List Nat → D × Nat) (cd dmax : Nat)
    (s : Scope D) (hch : s.ch < 0x7F) (h5D : s.ch ≠ 0x5D) (he : s.eType = .Array) :
    scopeBody gen strtod cd dmax s = scopeElement gen strtod cd dmax s := by
  unfold scopeBody
  rw [if_neg (by omega), if_neg (by simp [he]), if_neg (by simp [he, h5D]),
    if_neg (by simp [he]), if_pos he]

theorem scopeBody_label (gen : Generator D) (strtod : List Nat → D × Nat) (cd dmax : Nat)
    (s : Scope D) (hch : s.ch < 0x7F) (h7D : s.ch ≠ 0x7D) (he : s.eType = .Object)
    (hb : s.bLabel = false) :
    scopeBody gen strtod cd dmax s = scopeLabel s := by
  unfold scopeBody
  rw [if_neg (by omega), if_neg (by simp [he]), if_neg (by simp [he, h7D]), if_pos he, if_pos hb]

theorem scopeBody_colon (gen : Generator D) (strtod : List Nat → D × Nat) (cd dmax : Nat)
    (s : Scope D) (hch : s.ch < 0x7F) (h7D : s.ch ≠ 0x7D) (he : s.eType = .Object)
    (hb : s.bLabel = true) (hm : s.uMemberStart = SIZE_MAX) :
    scopeBody gen strtod cd dmax s = scopeColon s := by
  unfold scopeBody
  rw [if_neg (by omega), if_neg (by simp [he]), if_neg (by simp [he, h7D]), if_pos he,
    if_neg (by simp [hb]), if_pos hm]

theorem scopeBody_member (gen : Generator D) (strtod : List Nat → D × Nat) (cd dmax : Nat)
    (s : Scope D) (hch : s.ch < 0x7F) (h7D : s.ch ≠ 0x7D) (he : s.eType = .Object)
    (hb : s.bLabel = true) (hm : s.uMemberStart ≠ SIZE_MAX) :
    scopeBody gen strtod cd dmax s = scopeMember gen strtod cd dmax s := by
  unfold scopeBody
  rw [if_neg (by omega), if_neg (by simp [he]), if_neg (by simp [he, h7D]), if_pos he,
    if_neg (by simp [hb]), if_neg hm]

theorem scopeTerminator_comma (s : Scope D) (done ws rest : List Nat) (r : Nat)
    (hch : s.ch = 0x2C) (hws : Doc.blank ws) (hr : IsWhitespace r = false)
    (hr7 : r < 0x200000) (h : s.iter.At done (0x2C :: ws ++ r :: rest)) :
    ∃ it', it'.At (done ++ 0x2C :: ws) (r :: rest) ∧
      scopeTerminator s = .ret (.next,
        { s with bLabel := false, uLabelEnd := SIZE_MAX, uMemberStart := SIZE_MAX, iter := it', ch := r }) := by
  have ht : ¬ IsLiteralTerminator s.ch = false := by rw [hch]; decide
  obtain ⟨it', ha, hat⟩ := StringAdvance_at
    { s with bLabel := false, uLabelEnd := SIZE_MAX, uMemberStart := SIZE_MAX } done ws rest 0x2C r
    hws hr hr7 h
  simp only [hch] at ha
  refine ⟨it', hat, ?_⟩
  unfold scopeTerminator CheckMemberTerminationAndAdvance
  rw [if_neg ht]
  simp only [hch, if_true, ha, Outcome.ret_bind, Bool.true_eq_false, if_false]

theorem scopeTerminator_close (s : Scope D) (ht : IsLiteralTerminator s.ch = true)
    (hch : s.ch ≠ 0x2C) :
    scopeTerminator s = .ret (.next,
      { s with bLabel := false, uLabelEnd := SIZE_MAX, uMemberStart := SIZE_MAX }) := by
  unfold scopeTerminator CheckMemberTerminationAndAdvance
  rw [if_neg (by simp [ht])]
  simp only [hch, if_false, Outcome.ret_bind, Bool.true_eq_false]

end Loop
section Items

variable {D : Type}

theorem scopeElement_check (m : Scope D) (et : NodeType) (es : List (Node D)) (x : Node D)
    (hn : m.n = .array et (es ++ [x])) (hes : ∀ e ∈ es, e.GetType = x.GetType) :
    ((m.n.Length).bind fun len =>
      (m.n.At 0).bind fun first =>
      (if len = 0 then Outcome.undefined else m.n.At (len - 1)).bind fun last =>
        if first.GetType ≠ last.GetType then
          .ret (.fail, m.error
            (snprintf (ascii "Malformed array, incorrect type at position " ++ printD m.iter.GetPosition)))
        else scopeTerminator m) = scopeTerminator m := by
  rw [hn]
  have hlast : (es ++ [x]).get? ((es ++ [x]).length - 1) = some x := by
    simp [List.get?_eq_getElem?]
  cases es with
  | nil => simp [Node.Length, Node.At]
  | cons e es =>
    have he := hes e (by simp)
    simp only [Node.Length, Node.At, Outcome.ret_bind, hlast]
    simp [he]

theorem Doc.arrType_append (ty : NodeType) (es : List (Node D)) (x : Node D) :
    Doc.arrType ty (es ++ [x]) = ty := by
  cases es <;> rfl

/-- One round of the scope loop of an array at an item of the element type. -/
theorem element_round (gen : Generator D) (strtod : List Nat → D × Nat) (cd dmax : Nat)
    (ty : NodeType) (d : Doc D) (hok : d.ok strtod) (hty : d.node.GetType = ty)
    (hgen : gen.Parses (cd + 1) dmax d) (s : Scope D) (done w rest : List Nat) (c : Nat)
    (es : List (Node D)) (hw : Doc.blank w) (hc : IsLiteralTerminator c = true)
    (h : s.iter.At done (d.text ++ w ++ c :: rest))
    (hlen : done.length + d.text.length < SIZE_MAX)
    (he : s.eType = .Array) (hn : s.n = .array (Doc.arrType ty es) es)
    (hes : ∀ e ∈ es, e.GetType = ty) :
    ∃ it', it'.At (done ++ d.text ++ w) (c :: rest) ∧
      scopeBody gen strtod cd dmax { s with iter := s.iter.Read.2, ch := d.text.headD 0 }
        = scopeTerminator
            { s with iter := it', ch := c, n := .array (Doc.arrType ty (es ++ [d.node.copy])) (es ++ [d.node.copy]) } := by
  obtain ⟨r, tl, htx, hrw, hrt, hr7⟩ := Doc.text_head strtod d hok
  have hrd : s.iter.Read.2.At done (d.text ++ w ++ c :: rest) := h.read_code.2
  have hr5 : r ≠ 0x5D := by
    intro e
    rw [e] at hrt
    exact absurd hrt (by decide)
  have hadd : ∀ it, AddNode { s with iter := it, ch := d.text.headD 0 } d.node
      = .ret (true,
          { s with iter := it, ch := d.text.headD 0, n := .array (Doc.arrType ty (es ++ [d.node.copy])) (es ++ [d.node.copy]) }) := by
    intro it
    rw [AddNode_array { s with iter := it, ch := d.text.headD 0 } d.node (Doc.arrType ty es) es hn]
    · rw [Doc.arrType_append]
      cases es with
      | nil => simp [hty]
      | cons e es => simp [Doc.arrType]
    · intro hne
      cases es with
      | nil => exact absurd rfl hne
      | cons e es => simp [Doc.arrType, hty]
  obtain ⟨it', hat, hpm⟩ := ParseMember_at gen strtod cd dmax d hok hgen
    { s with iter := s.iter.Read.2, ch := d.text.headD 0 } done w rest c hw hc hrd rfl hlen _ _ hadd
  refine ⟨it', hat, ?_⟩
  dsimp only at hpm
  rw [scopeBody_element gen strtod cd dmax { s with iter := s.iter.Read.2, ch := d.text.headD 0 }
    (by simp [htx]; omega) (by simpa [htx] using hr5) he]
  unfold scopeElement
  rw [hpm]
  simp only [Outcome.ret_bind, Bool.true_eq_false, if_false]
  exact scopeElement_check
    { s with iter := it', ch := c, n := .array (Doc.arrType ty (es ++ [d.node.copy])) (es ++ [d.node.copy]) }
    _ es d.node.copy rfl (fun e hm => by rw [hes e hm, Node.copy_GetType, hty])

end Items
section ItemsLoop

variable {D : Type}

theorem Doc.itemsText_head (strtod : List Nat → D × Nat) (ty : NodeType)
    (item : Doc D × List Nat × List Nat) (tl : List (Doc D × List Nat × List Nat))
    (hok : Doc.itemsOk strtod ty (item :: tl)) :
    ∃ r t, Doc.itemsText (item :: tl) = r :: t ∧ IsWhitespace r = false ∧ r < 0x7F := by
  obtain ⟨d, w, w'⟩ := item
  obtain ⟨r, t, htx, hrw, -, hr7⟩ := Doc.text_head strtod d hok.1
  cases tl with
  | nil => exact ⟨r, t ++ w, by simp [Doc.itemsText, htx], hrw, hr7⟩
  | cons i tl =>
    exact ⟨r, t ++ w ++ 0x2C :: w' ++ Doc.itemsText (i :: tl),
      by simp only [Doc.itemsText, htx, List.cons_append], hrw, hr7⟩

/-- The scope loop of an array from an item on: the items are appended and the
loop is left at the closing bracket. -/
theorem items_loop (gen : Generator D) (strtod : List Nat → D × Nat) (cd dmax : Nat)
    (ty : NodeType) (rest : List Nat) :
    ∀ (items : List (Doc D × List Nat × List Nat)) (s : Scope D) (done : List Nat)
      (es : List (Node D)) (fuel : Nat),
      Doc.itemsOk strtod ty items → (∀ i ∈ items, gen.Parses (cd + 1) dmax i.1) →
      s.iter.At done (Doc.itemsText items ++ 0x5D :: rest) →
      done.length + (Doc.itemsText items).length < SIZE_MAX →
      s.eType = .Array → s.n = .array (Doc.arrType ty es) es → (∀ e ∈ es, e.GetType = ty) →
      items.length + 1 ≤ fuel →
      ∃ s', scopeLoop gen strtod cd dmax fuel s = .ret (true, s') ∧
        s'.iter.At (done ++ Doc.itemsText items ++ [0x5D]) rest ∧
        s'.n = .array (Doc.arrType ty (es ++ Doc.itemsNodes items)) (es ++ Doc.itemsNodes items) ∧
        s'.eType = .Array ∧ s'.bTerminated = true ∧ s'.szError = s.szError := by
  intro items
  induction items with
  | nil =>
    intro s done es fuel _ _ h _ he hn _ hf
    obtain ⟨f, rfl⟩ : ∃ f, fuel = f + 1 := ⟨fuel - 1, by omega⟩
    simp only [Doc.itemsText, List.nil_append] at h
    obtain ⟨h1, hl⟩ := scopeLoop_step gen strtod cd dmax f s done rest 0x5D h (by omega)
    rw [hl, scopeBody_array_close gen strtod cd dmax { s with iter := s.iter.Read.2, ch := 0x5D } rfl he]
    refine ⟨_, rfl, ?_, ?_, he, rfl, rfl⟩
    · simpa [Doc.itemsText] using h1.advance_cons.2
    · simpa [Doc.itemsNodes] using hn
  | cons item tl ih =>
    intro s done es fuel hok hgen h hlen he hn hes hf
    obtain ⟨f, rfl⟩ : ∃ f, fuel = f + 1 := ⟨fuel - 1, by omega⟩
    obtain ⟨d, w, w'⟩ := item
    obtain ⟨hokd, htyd, hw, hw', hoktl⟩ := hok
    obtain ⟨r, t, htx, -, -, hr7⟩ := Doc.text_head strtod d hokd
    have hr7' : d.text.headD 0 < 0x200000 := by rw [htx]; simp only [List.headD_cons]; omega
    have hes' : ∀ e ∈ es ++ [d.node.copy], e.GetType = ty := by
      intro e hm
      rcases List.mem_append.1 hm with hm | hm
      · exact hes e hm
      · rw [List.mem_singleton.1 hm, Node.copy_GetType, htyd]
    have hgd := hgen (d, w, w') (by simp)
    have hgtl : ∀ i ∈ tl, gen.Parses (cd + 1) dmax i.1 := fun i hi => hgen i (by simp [hi])
    cases tl with
    | nil =>
      simp only [Doc.itemsText] at h hlen
      obtain ⟨it', hat, hb⟩ := element_round gen strtod cd dmax ty d hokd htyd hgd s done w rest
        0x5D es hw (by decide) h (by simp only [List.length_append] at hlen; omega) he hn hes
      have hh : s.iter.At done (d.text.headD 0 :: (t ++ w ++ 0x5D :: rest)) := by
        simpa [htx] using h
      obtain ⟨-, hl⟩ := scopeLoop_step gen strtod cd dmax f s done _ _ hh hr7'
      have key : ∀ S : Scope D, S.iter = it' → S.eType = .Array →
          S.n = .array (Doc.arrType ty (es ++ [d.node.copy])) (es ++ [d.node.copy]) →
          S.szError = s.szError →
          ∃ s', scopeLoop gen strtod cd dmax f S = .ret (true, s') ∧
            s'.iter.At (done ++ Doc.itemsText [(d, w, w')] ++ [0x5D]) rest ∧
            s'.n = .array (Doc.arrType ty (es ++ Doc.itemsNodes [(d, w, w')]))
              (es ++ Doc.itemsNodes [(d, w, w')]) ∧
            s'.eType = .Array ∧ s'.bTerminated = true ∧ s'.szError = s.szError := by
        intro S hi hE hN hZ
        obtain ⟨s', hs', hat', hn', he', hb', hz'⟩ := ih S (done ++ d.text ++ w)
          (es ++ [d.node.copy]) f trivial hgtl (by rw [hi]; simpa [Doc.itemsText] using hat)
          (by simpa [Doc.itemsText, List.length_append] using hlen) hE hN hes'
          (by simp at hf ⊢; omega)
        refine ⟨s', hs', ?_, ?_, he', hb', hz'.trans hZ⟩
        · simpa [Doc.itemsText] using hat'
        · simpa [Doc.itemsNodes] using hn'
      rw [hl, hb, scopeTerminator_close
        { s with iter := it', ch := 0x5D, n := .array (Doc.arrType ty (es ++ [d.node.copy])) (es ++ [d.node.copy]) }
        (show IsLiteralTerminator 0x5D = true by decide) (show (0x5D : Nat) ≠ 0x2C by decide)]
      simp only [Outcome.ret_bind]
      exact key _ rfl he rfl rfl
    | cons item2 tl2 =>
      obtain ⟨r2, t2, htx2, hr2, hr27⟩ := Doc.itemsText_head strtod ty item2 tl2 hoktl
      simp only [Doc.itemsText, List.append_assoc, List.cons_append] at h hlen
      rw [← List.append_assoc] at h
      obtain ⟨it', hat, hb⟩ := element_round gen strtod cd dmax ty d hokd htyd hgd s done w _
        0x2C es hw (by decide) h (by simp only [List.length_append] at hlen; omega) he hn hes
      have hh : s.iter.At done (d.text.headD 0 ::
          (t ++ w ++ 0x2C :: (w' ++ (Doc.itemsText (item2 :: tl2) ++ 0x5D :: rest)))) := by
        simpa [htx] using h
      obtain ⟨-, hl⟩ := scopeLoop_step gen strtod cd dmax f s done _ _ hh hr7'
      rw [htx2] at hat
      obtain ⟨it2, hat2, hterm⟩ := scopeTerminator_comma
        { s with iter := it', ch := 0x2C, n := .array (Doc.arrType ty (es ++ [d.node.copy])) (es ++ [d.node.copy]) }
        (done ++ d.text ++ w) w' (t2 ++ 0x5D :: rest) r2 rfl hw' hr2 (by omega)
        (by simpa using hat)
      have key : ∀ S : Scope D, S.iter = it2 → S.eType = .Array →
          S.n = .array (Doc.arrType ty (es ++ [d.node.copy])) (es ++ [d.node.copy]) →
          S.szError = s.szError →
          ∃ s', scopeLoop gen strtod cd dmax f S = .ret (true, s') ∧
            s'.iter.At (done ++ Doc.itemsText ((d, w, w') :: item2 :: tl2) ++ [0x5D]) rest ∧
            s'.n = .array (Doc.arrType ty (es ++ Doc.itemsNodes ((d, w, w') :: item2 :: tl2)))
              (es ++ Doc.itemsNodes ((d, w, w') :: item2 :: tl2)) ∧
            s'.eType = .Array ∧ s'.bTerminated = true ∧ s'.szError = s.szError := by
        intro S hi hE hN hZ
        obtain ⟨s', hs', hat', hn', he', hb', hz'⟩ := ih S (done ++ d.text ++ w ++ 0x2C :: w')
          (es ++ [d.node.copy]) f hoktl hgtl (by rw [hi]; simpa [htx2] using hat2)
          (by simp only [List.length_append, List.length_cons] at hlen ⊢; omega) hE hN hes'
          (by simp at hf ⊢; omega)
        refine ⟨s', hs', ?_, ?_, he', hb', hz'.trans hZ⟩
        · simpa [Doc.itemsText] using hat'
        · simpa [Doc.itemsNodes] using hn'
      rw [hl, hb, hterm]
      simp only [Outcome.ret_bind]
      exact key _ rfl he rfl rfl

end ItemsLoop
section Rounds

variable {D : Type}

theorem symEncode_ne_nil {k : List Nat} (hk : k ≠ []) (hv : ∀ c ∈ k, Sym c) :
    symEncode k ≠ [] := by
  intro e
  have := length_le_symEncode k hv
  rw [e] at this
  cases k with
  | nil => exact hk rfl
  | cons c k => simp at this

/-- The round of the scope loop of an object that reads the label of a member. -/
theorem label_round (gen : Generator D) (strtod : List Nat → D × Nat) (cd dmax f : Nat)
    (s : Scope D) (done k rest : List Nat) (hk : k ≠ []) (hp : Doc.quotable (k.map symCode))
    (h : s.iter.At done (0x22 :: k ++ 0x22 :: 0x3A :: rest))
    (he : s.eType = .Object) (hb : s.bLabel = false) :
    ∃ S : Scope D, scopeLoop gen strtod cd dmax (f + 1) s = scopeLoop gen strtod cd dmax f S ∧
      S.iter.At (done ++ 0x22 :: k ++ [0x22]) (0x3A :: rest) ∧ S.eType = .Object ∧
      S.bLabel = true ∧ S.szCurLabel = symEncode k ∧ S.n = s.n ∧
      S.uMemberStart = s.uMemberStart ∧ S.szError = s.szError := by
  have hkv : ∀ c ∈ k, Sym c := fun c hc => h.valid c (by simp [hc])
  obtain ⟨h1, hl⟩ := scopeLoop_step gen strtod cd dmax f s done _ _ h (by omega)
  obtain ⟨itL, hg, hatL⟩ := GetNextLiteral_string_at k (0x3A :: rest) done s.iter.Read.2 s.szError
    hp h1
  obtain ⟨itW, hsk, hatW⟩ := SkipWhitespace_at [] (0x3A :: rest) (done ++ 0x22 :: k ++ [0x22]) itL
    s.szError (by simp) (show IsWhitespace 0x3A = false by decide)
    (show (0x3A : Nat) < 0x200000 by decide) (by simp) (by simpa using hatL)
  have hne : (symEncode k).isEmpty = false := by
    cases hu : symEncode k with
    | nil => exact absurd hu (symEncode_ne_nil hk (fun c hc => hkv c hc))
    | cons _ _ => rfl
  rw [hl, scopeBody_label gen strtod cd dmax { s with iter := s.iter.Read.2, ch := 0x22 }
    (show (0x22 : Nat) < 0x7F by omega) (show (0x22 : Nat) ≠ 0x7D by omega) he hb]
  unfold scopeLabel
  simp only [if_true, hg, Outcome.ret_bind, Bool.true_eq_false, if_false, hne, hsk]
  exact ⟨_, rfl, by simpa using hatW, he, rfl, rfl, rfl, rfl, rfl⟩

/-- The round of the scope loop of an object that reads the colon of a member. -/
theorem colon_round (gen : Generator D) (strtod : List Nat → D × Nat) (cd dmax f : Nat)
    (s : Scope D) (done b rest : List Nat) (r : Nat) (hw : Doc.blank b)
    (hr : IsWhitespace r = false) (hr7 : r < 0x200000)
    (h : s.iter.At done (0x3A :: b ++ r :: rest))
    (he : s.eType = .Object) (hb : s.bLabel = true) (hm : s.uMemberStart = SIZE_MAX) :
    ∃ S : Scope D, scopeLoop gen strtod cd dmax (f + 1) s = scopeLoop gen strtod cd dmax f S ∧
      S.iter.At (done ++ 0x3A :: b) (r :: rest) ∧ S.eType = .Object ∧
      S.bLabel = true ∧ S.szCurLabel = s.szCurLabel ∧ S.n = s.n ∧
      S.uMemberStart = done.length ∧ S.szError = s.szError := by
  obtain ⟨h1, hl⟩ := scopeLoop_step gen strtod cd dmax f s done _ _ h (by omega)
  obtain ⟨itC, ha, hatC⟩ := StringAdvance_at
    { s with iter := s.iter.Read.2, ch := 0x3A, uMemberStart := s.iter.Read.2.GetPosition }
    done b rest 0x3A r hw hr hr7 h1
  rw [hl, scopeBody_colon gen strtod cd dmax { s with iter := s.iter.Read.2, ch := 0x3A }
    (show (0x3A : Nat) < 0x7F by omega) (show (0x3A : Nat) ≠ 0x7D by omega) he hb hm]
  unfold scopeColon advanceChar
  simp only [if_true, ha, Outcome.ret_bind]
  exact ⟨_, rfl, hatC, he, hb, rfl, rfl, h1.pos, rfl⟩

/-- The round of the scope loop of an object that reads the value of a member. -/
theorem member_round (gen : Generator D) (strtod : List Nat → D × Nat) (cd dmax f : Nat)
    (d : Doc D) (hok : d.ok strtod) (hgen : gen.Parses (cd + 1) dmax d) (s : Scope D)
    (done w rest : List Nat) (c : Nat) (acc : List (List Nat × Node D))
    (hw : Doc.blank w) (hc : IsLiteralTerminator c = true)
    (h : s.iter.At done (d.text ++ w ++ c :: rest))
    (hlen : done.length + d.text.length < SIZE_MAX)
    (he : s.eType = .Object) (hb : s.bLabel = true) (hm : s.uMemberStart ≠ SIZE_MAX)
    (hn : s.n = .object acc) (hl : s.szCurLabel ≠ []) :
    ∃ S : Scope D, scopeLoop gen strtod cd dmax (f + 1) s
        = (scopeTerminator S).bind (fun b =>
            match b.1 with
            | .next => scopeLoop gen strtod cd dmax f b.2
            | .brk => .ret (true, b.2)
            | .fail => .ret (false, b.2)) ∧
      S.iter.At (done ++ d.text ++ w) (c :: rest) ∧ S.ch = c ∧ S.eType = .Object ∧
      S.n = .object (mapAssign acc s.szCurLabel d.node.copy) ∧ S.szError = s.szError := by
  obtain ⟨r, tl, htx, hrw, hrt, hr7⟩ := Doc.text_head strtod d hok
  have hh : s.iter.At done (d.text.headD 0 :: (tl ++ w ++ c :: rest)) := by
    simpa [htx] using h
  obtain ⟨-, hstep⟩ := scopeLoop_step gen strtod cd dmax f s done _ _ hh
    (by rw [htx]; simp only [List.headD_cons]; omega)
  have hr7D : r ≠ 0x7D := by
    intro e
    rw [e] at hrt
    exact absurd hrt (by decide)
  have hadd : ∀ it, AddNode { s with iter := it, ch := d.text.headD 0 } d.node
      = .ret (true,
          { s with iter := it, ch := d.text.headD 0, n := .object (mapAssign acc s.szCurLabel d.node.copy), szCurLabel := [] }) :=
    fun it => AddNode_object { s with iter := it, ch := d.text.headD 0 } d.node acc hn hl
  obtain ⟨it', hat, hpm⟩ := ParseMember_at gen strtod cd dmax d hok hgen
    { s with iter := s.iter.Read.2, ch := d.text.headD 0 } done w rest c hw hc h.read_code.2 rfl hlen
    _ _ hadd
  dsimp only at hpm
  rw [hstep, scopeBody_member gen strtod cd dmax
    { s with iter := s.iter.Read.2, ch := d.text.headD 0 }
    (by simp [htx]; omega) (by simpa [htx] using hr7D) he hb hm]
  unfold scopeMember
  rw [hpm]
  simp only [Outcome.ret_bind, Bool.true_eq_false, if_false]
  exact ⟨_, rfl, hat, rfl, he, rfl, rfl⟩

theorem comma_step (S : Scope D) (done ws rest : List Nat) (r : Nat)
    (hch : S.ch = 0x2C) (hws : Doc.blank ws) (hr : IsWhitespace r = false)
    (hr7 : r < 0x200000) (h : S.iter.At done (0x2C :: ws ++ r :: rest)) :
    ∃ S' : Scope D, scopeTerminator S = .ret (.next, S') ∧
      S'.iter.At (done ++ 0x2C :: ws) (r :: rest) ∧ S'.eType = S.eType ∧ S'.n = S.n ∧
      S'.bLabel = false ∧ S'.uLabelEnd = SIZE_MAX ∧ S'.uMemberStart = SIZE_MAX ∧
      S'.szError = S.szError := by
  obtain ⟨it', hat, ht⟩ := scopeTerminator_comma S done ws rest r hch hws hr hr7 h
  exact ⟨_, ht, hat, rfl, rfl, rfl, rfl, rfl, rfl⟩

theorem close_step (S : Scope D) (ht : IsLiteralTerminator S.ch = true) (hch : S.ch ≠ 0x2C) :
    ∃ S' : Scope D, scopeTerminator S = .ret (.next, S') ∧
      S'.iter = S.iter ∧ S'.eType = S.eType ∧ S'.n = S.n ∧
      S'.bLabel = false ∧ S'.uLabelEnd = SIZE_MAX ∧ S'.uMemberStart = SIZE_MAX ∧
      S'.szError = S.szError :=
  ⟨_, scopeTerminator_close S ht hch, rfl, rfl, rfl, rfl, rfl, rfl, rfl⟩

end Rounds
section MembersLoop

variable {D : Type}

/-- The three rounds of the scope loop of an object at a member, up to the
check of the character after it. -/
theorem member_rounds (gen : Generator D) (strtod : List Nat → D × Nat) (cd dmax f : Nat)
    (d : Doc D) (hok : d.ok strtod) (hgen : gen.Parses (cd + 1) dmax d) (s : Scope D)
    (done k b w rest : List Nat) (c : Nat) (acc : List (List Nat × Node D))
    (hk : k ≠ []) (hp : Doc.quotable (k.map symCode)) (hb : Doc.blank b)
    (hw : Doc.blank w) (hc : IsLiteralTerminator c = true)
    (h : s.iter.At done (0x22 :: k ++ 0x22 :: 0x3A :: b ++ d.text ++ w ++ c :: rest))
    (hlen : done.length + (0x22 :: k ++ 0x22 :: 0x3A :: b ++ d.text).length < SIZE_MAX)
    (he : s.eType = .Object) (hbl : s.bLabel = false) (hm : s.uMemberStart = SIZE_MAX)
    (hn : s.n = .object acc) :
    ∃ S : Scope D, scopeLoop gen strtod cd dmax (f + 3) s
        = (scopeTerminator S).bind (fun b =>
            match b.1 with
            | .next => scopeLoop gen strtod cd dmax f b.2
            | .brk => .ret (true, b.2)
            | .fail => .ret (false, b.2)) ∧
      S.iter.At (done ++ 0x22 :: k ++ 0x22 :: 0x3A :: b ++ d.text ++ w) (c :: rest) ∧ S.ch = c ∧
      S.eType = .Object ∧ S.n = .object (mapAssign acc (symEncode k) d.node.copy) ∧
      S.szError = s.szError := by
  obtain ⟨r, tl, htx, hrw, -, hr7⟩ := Doc.text_head strtod d hok
  have hkv : ∀ c ∈ k, Sym c := fun c hc => h.valid c (by simp [hc])
  simp only [List.length_append, List.length_cons] at hlen
  obtain ⟨S1, e1, hat1, he1, hb1, hl1, hn1, hm1, hz1⟩ := label_round gen strtod cd dmax (f + 2) s
    done k (b ++ d.text ++ w ++ c :: rest) hk hp (by simpa using h) he hbl
  obtain ⟨S2, e2, hat2, he2, hb2, hl2, hn2, hm2, hz2⟩ := colon_round gen strtod cd dmax (f + 1) S1
    (done ++ 0x22 :: k ++ [0x22]) b (tl ++ w ++ c :: rest) r hb hrw (by omega)
    (by simpa [htx] using hat1) he1 hb1 (hm1.trans hm)
  obtain ⟨S3, e3, hat3, hc3, he3, hn3, hz3⟩ := member_round gen strtod cd dmax f d hok hgen S2
    (done ++ 0x22 :: k ++ [0x22] ++ 0x3A :: b) w rest c acc hw hc (by simpa [htx] using hat2)
    (by simp only [List.length_append, List.length_cons, List.length_nil]; omega) he2 hb2
    (by rw [hm2]; simp only [List.length_append, List.length_cons, List.length_nil]; omega)
    (by rw [hn2, hn1, hn]) (by rw [hl2, hl1]; exact symEncode_ne_nil hk hkv)
  refine ⟨S3, ?_, by simpa using hat3, hc3, he3, ?_, ?_⟩
  · exact (e1.trans e2).trans e3
  · rw [hn3, hl2, hl1]
  · rw [hz3, hz2, hz1]

/-- The scope loop of an object from a member on: the members are assigned and
the loop is left at the closing brace. -/
theorem members_loop (gen : Generator D) (strtod : List Nat → D × Nat) (cd dmax : Nat)
    (rest : List Nat) :
    ∀ (members : List (List Nat × List Nat × Doc D × List Nat × List Nat)) (s : Scope D)
      (done : List Nat) (acc : List (List Nat × Node D)) (fuel : Nat),
      Doc.membersOk strtod members → (∀ m ∈ members, gen.Parses (cd + 1) dmax m.2.2.1) →
      s.iter.At done (Doc.membersText members ++ 0x7D :: rest) →
      done.length + (Doc.membersText members).length < SIZE_MAX →
      s.eType = .Object → s.n = .object acc → s.bLabel = false → s.uMemberStart = SIZE_MAX →
      s.uLabelEnd = SIZE_MAX → 3 * members.length + 1 ≤ fuel →
      ∃ s', scopeLoop gen strtod cd dmax fuel s = .ret (true, s') ∧
        s'.iter.At (done ++ Doc.membersText members ++ [0x7D]) rest ∧
        s'.n = .object (Doc.membersNodes acc members) ∧
        s'.eType = .Object ∧ s'.bTerminated = true ∧ s'.uLabelEnd = SIZE_MAX ∧
        s'.szError = s.szError := by
  intro members
  induction members with
  | nil =>
    intro s done acc fuel _ _ h _ he hn _ _ hu hf
    obtain ⟨f, rfl⟩ : ∃ f, fuel = f + 1 := ⟨fuel - 1, by omega⟩
    simp only [Doc.membersText, List.nil_append] at h
    obtain ⟨h1, hl⟩ := scopeLoop_step gen strtod cd dmax f s done rest 0x7D h (by omega)
    rw [hl, scopeBody_object_close gen strtod cd dmax { s with iter := s.iter.Read.2, ch := 0x7D }
      rfl he]
    refine ⟨_, rfl, ?_, ?_, he, rfl, hu, rfl⟩
    · simpa [Doc.membersText] using h1.advance_cons.2
    · simpa [Doc.membersNodes] using hn
  | cons member tl ih =>
    intro s done acc fuel hok hgen h hlen he hn hbl hm hu hf
    obtain ⟨f, rfl⟩ : ∃ f, fuel = f + 3 := ⟨fuel - 3, by simp at hf; omega⟩
    obtain ⟨k, b, d, w, w'⟩ := member
    obtain ⟨hk, hp, hb, hokd, hw, hw', hoktl⟩ := hok
    have hgd := hgen (k, b, d, w, w') (by simp)
    have hgtl : ∀ m ∈ tl, gen.Parses (cd + 1) dmax m.2.2.1 := fun i hi => hgen i (by simp [hi])
    cases tl with
    | nil =>
      simp only [Doc.membersText] at h hlen
      obtain ⟨S, e, hat, hc, hE, hN, hZ⟩ := member_rounds gen strtod cd dmax f d hokd hgd s
        done k b w rest 0x7D acc hk hp hb hw (by decide) (by simpa using h)
        (by simp only [List.length_append, List.length_cons] at hlen ⊢; omega) he hbl hm hn
      obtain ⟨S', et, hi', hE', hN', hB', hU', hM', hZ'⟩ := close_step S (by rw [hc]; decide)
        (by rw [hc]; decide)
      obtain ⟨s', hs', hat', hn', he', hb', hu', hz'⟩ := ih S'
        (done ++ 0x22 :: k ++ 0x22 :: 0x3A :: b ++ d.text ++ w)
        (mapAssign acc (symEncode k) d.node.copy) f trivial hgtl
        (by rw [hi']; simpa [Doc.membersText] using hat)
        (by simp only [Doc.membersText, List.length_append, List.length_cons, List.length_nil] at hlen ⊢; omega)
        (hE'.trans hE) (hN'.trans hN) hB' hM' hU' (by simp at hf ⊢; omega)
      refine ⟨s', ?_, ?_, ?_, he', hb', hu', ?_⟩
      · rw [e, et]
        simpa only [Outcome.ret_bind] using hs'
      · simpa [Doc.membersText] using hat'
      · simpa [Doc.membersNodes] using hn'
      · rw [hz', hZ', hZ]
    | cons member2 tl2 =>
      obtain ⟨k2, b2, d2, w2, w2'⟩ := member2
      have htx2 : ∃ t2, Doc.membersText ((k2, b2, d2, w2, w2') :: tl2) = 0x22 :: t2 := by
        cases tl2 with
        | nil => exact ⟨_, by simp only [Doc.membersText, List.cons_append]; rfl⟩
        | cons m3 tl3 => exact ⟨_, by simp only [Doc.membersText, List.cons_append]; rfl⟩
      obtain ⟨t2, htx2⟩ := htx2
      simp only [Doc.membersText] at h hlen
      obtain ⟨S, e, hat, hc, hE, hN, hZ⟩ := member_rounds gen strtod cd dmax f d hokd hgd s
        done k b w (w' ++ Doc.membersText ((k2, b2, d2, w2, w2') :: tl2) ++ 0x7D :: rest) 0x2C acc hk
        hp hb hw (by decide) (by simpa using h)
        (by simp only [List.length_append, List.length_cons] at hlen ⊢; omega) he hbl hm hn
      obtain ⟨S', et, hat', hE', hN', hB', hU', hM', hZ'⟩ := comma_step S
        (done ++ 0x22 :: k ++ 0x22 :: 0x3A :: b ++ d.text ++ w) w' (t2 ++ 0x7D :: rest) 0x22
        hc hw' (by decide) (by decide) (by simpa [htx2] using hat)
      obtain ⟨s', hs', hat'', hn', he', hb', hu', hz'⟩ := ih S'
        (done ++ 0x22 :: k ++ 0x22 :: 0x3A :: b ++ d.text ++ w ++ 0x2C :: w')
        (mapAssign acc (symEncode k) d.node.copy) f hoktl hgtl
        (by simpa [htx2] using hat')
        (by simp only [List.length_append, List.length_cons, List.length_nil] at hlen ⊢; omega)
        (hE'.trans hE) (hN'.trans hN) hB' hM' hU' (by simp at hf ⊢; omega)
      refine ⟨s', ?_, ?_, ?_, he', hb', hu', ?_⟩
      · rw [e, et]
        simpa only [Outcome.ret_bind] using hs'
      · simpa [Doc.membersText] using hat''
      · simpa [Doc.membersNodes] using hn'
      · rw [hz', hZ', hZ]

end MembersLoop
section Scopes

variable {D : Type}

theorem Doc.text_length_pos (strtod : List Nat → D × Nat) (d : Doc D) (hok : d.ok strtod) :
    1 ≤ d.text.length := by
  obtain ⟨r, tl, htx, -⟩ := Doc.text_head strtod d hok
  simp [htx]

theorem Doc.itemsText_length (strtod : List Nat → D × Nat) (ty : NodeType) :
    ∀ items : List (Doc D × List Nat × List Nat), Doc.itemsOk strtod ty items →
      items.length ≤ (Doc.itemsText items).length := by
  intro items
  induction items with
  | nil => intro _; simp
  | cons item tl ih =>
    intro hok
    obtain ⟨d, w, w'⟩ := item
    have hd := Doc.text_length_pos strtod d hok.1
    have htl := ih hok.2.2.2.2
    cases tl with
    | nil => simp only [Doc.itemsText, List.length_append, List.length_cons, List.length_nil]; omega
    | cons i tl =>
      simp only [Doc.itemsText, List.length_append, List.length_cons] at htl ⊢
      omega

theorem Doc.membersText_length (strtod : List Nat → D × Nat) :
    ∀ members : List (List Nat × List Nat × Doc D × List Nat × List Nat),
      Doc.membersOk strtod members → 3 * members.length ≤ (Doc.membersText members).length := by
  intro members
  induction members with
  | nil => intro _; simp
  | cons member tl ih =>
    intro hok
    obtain ⟨k, b, d, w, w'⟩ := member
    have htl := ih hok.2.2.2.2.2.2
    cases tl with
    | nil => simp only [Doc.membersText, List.length_append, List.length_cons, List.length_nil]; omega
    | cons i tl =>
      simp only [Doc.membersText, List.length_append, List.length_cons] at htl ⊢
      omega

theorem Doc.itemsText_close (strtod : List Nat → D × Nat) (ty : NodeType)
    (items : List (Doc D × List Nat × List Nat)) (hok : Doc.itemsOk strtod ty items)
    (rest : List Nat) :
    ∃ r t, Doc.itemsText items ++ 0x5D :: rest = r :: t ∧ IsWhitespace r = false ∧
      r < 0x7F := by
  cases items with
  | nil => exact ⟨0x5D, rest, rfl, by decide, by decide⟩
  | cons item tl =>
    obtain ⟨r, t, e, hr, hr7⟩ := Doc.itemsText_head strtod ty item tl hok
    exact ⟨r, t ++ 0x5D :: rest, by rw [e]; rfl, hr, hr7⟩

theorem Doc.membersText_close
    (members : List (List Nat × List Nat × Doc D × List Nat × List Nat)) (rest : List Nat) :
    ∃ r t, Doc.membersText members ++ 0x7D :: rest = r :: t ∧ IsWhitespace r = false ∧
      r < 0x7F := by
  cases members with
  | nil => exact ⟨0x7D, rest, rfl, by decide, by decide⟩
  | cons member tl =>
    obtain ⟨k, b, d, w, w'⟩ := member
    cases tl with
    | nil =>
      exact ⟨0x22, _, by simp only [Doc.membersText, List.cons_append]; rfl, by decide, by decide⟩
    | cons m tl =>
      exact ⟨0x22, _, by simp only [Doc.membersText, List.cons_append]; rfl, by decide, by decide⟩

theorem Doc.arrType_itemsNodes (items : List (Doc D × List Nat × List Nat)) :
    Doc.arrType (Doc.itemsType items) (Doc.itemsNodes items) = Doc.itemsType items := by
  cases items with
  | nil => rfl
  | cons item tl =>
    obtain ⟨d, w, w'⟩ := item
    simp [Doc.itemsNodes, Doc.arrType]

/-- The statements of `GenerateNodes` before and after the scope loop. -/
theorem GenerateNodes_frame (strtod : List Nat → D × Nat) (fuel cd dmax : Nat)
    (it : UTF8Iterator) (done ws0 rest e : List Nat) (n0 : Node D) (hws0 : Doc.blank ws0)
    (hr : IsWhitespace (rest.headD 0) = false) (hr7 : rest.headD 0 < 0x200000) (hne : rest ≠ [])
    (h : it.At done (ws0 ++ rest)) :
    ∃ s0 : Scope D, s0.iter.At (done ++ ws0) rest ∧ s0.eType = .Null ∧ s0.bLabel = false ∧
      s0.uLabelEnd = SIZE_MAX ∧ s0.uMemberStart = SIZE_MAX ∧ s0.szError = e ∧
      GenerateNodes strtod (fuel + 1) it e cd dmax n0
        = (scopeLoop (GenerateNodes strtod fuel) strtod cd dmax (s0.iter.GetNumBytesLeft + 1) s0).bind
            fun l => if l.1 = false then .ret (BuildSpanFail l.2) else .ret (scopeEnd l.2) := by
  obtain ⟨itW, hsk, hatW⟩ := SkipWhitespace_at ws0 rest done it e hws0 hr hr7 (by simp [hne]) h
  refine ⟨{ iter := itW, n := (Node.null : Node D).copy, eType := .Null, bLabel := false, bTerminated := false, uScopeStart := it.GetPosition, uLabelEnd := SIZE_MAX, uMemberStart := SIZE_MAX, ch := 0, szCurLabel := [], szError := e },
    hatW, rfl, rfl, rfl, rfl, rfl, ?_⟩
  simp only [GenerateNodes, hsk, Outcome.ret_bind, Bool.true_eq_false, if_false]

/-- The first round of the scope loop at the opening bracket of an array. -/
theorem open_array (gen : Generator D) (strtod : List Nat → D × Nat) (cd dmax f : Nat)
    (s : Scope D) (done ws rest : List Nat) (r : Nat) (hws : Doc.blank ws)
    (hr : IsWhitespace r = false) (hr7 : r < 0x200000)
    (h : s.iter.At done (0x5B :: ws ++ r :: rest)) (he : s.eType = .Null) :
    ∃ S : Scope D, scopeLoop gen strtod cd dmax (f + 1) s = scopeLoop gen strtod cd dmax f S ∧
      S.iter.At (done ++ 0x5B :: ws) (r :: rest) ∧ S.eType = .Array ∧
      S.n = .array .Null [] ∧ S.szError = s.szError := by
  obtain ⟨h1, hl⟩ := scopeLoop_step gen strtod cd dmax f s done _ _ h (by omega)
  obtain ⟨itS, hadv, hatS⟩ := StringAdvance_at
    { s with iter := s.iter.Read.2, ch := 0x5B, n := (Node.Array : Node D).copy, eType := .Array }
    done ws rest 0x5B r hws hr hr7 h1
  rw [hl, scopeBody_start gen strtod cd dmax { s with iter := s.iter.Read.2, ch := 0x5B }
    (show (0x5B : Nat) < 0x7F by omega) he]
  unfold scopeStart advanceChar
  rw [if_neg (show ¬ (0x5B : Nat) = 0x7B by omega), if_pos rfl, hadv]
  exact ⟨_, rfl, hatS, rfl, rfl, rfl⟩

/-- The first round of the scope loop at the opening brace of an object. -/
theorem open_object (gen : Generator D) (strtod : List Nat → D × Nat) (cd dmax f : Nat)
    (s : Scope D) (done ws rest : List Nat) (r : Nat) (hws : Doc.blank ws)
    (hr : IsWhitespace r = false) (hr7 : r < 0x200000)
    (h : s.iter.At done (0x7B :: ws ++ r :: rest)) (he : s.eType = .Null) :
    ∃ S : Scope D, scopeLoop gen strtod cd dmax (f + 1) s = scopeLoop gen strtod cd dmax f S ∧
      S.iter.At (done ++ 0x7B :: ws) (r :: rest) ∧ S.eType = .Object ∧
      S.n = .object [] ∧ S.bLabel = s.bLabel ∧ S.uLabelEnd = s.uLabelEnd ∧
      S.uMemberStart = s.uMemberStart ∧ S.szError = s.szError := by
  obtain ⟨h1, hl⟩ := scopeLoop_step gen strtod cd dmax f s done _ _ h (by omega)
  obtain ⟨itS, hadv, hatS⟩ := StringAdvance_at
    { s with iter := s.iter.Read.2, ch := 0x7B, n := (Node.Object : Node D).copy, eType := .Object }
    done ws rest 0x7B r hws hr hr7 h1
  rw [hl, scopeBody_start gen strtod cd dmax { s with iter := s.iter.Read.2, ch := 0x7B }
    (show (0x7B : Nat) < 0x7F by omega) he]
  unfold scopeStart advanceChar
  rw [if_pos rfl, hadv]
  exact ⟨_, rfl, hatS, rfl, rfl, rfl, rfl, rfl, rfl⟩

theorem scopeEnd_closed (s : Scope D) (hb : s.bTerminated = true)
    (hu : s.eType = .Object → s.uLabelEnd = SIZE_MAX) :
    scopeEnd s
      = { res := { m_bSuccess := true, m_szMsg := [] }, n := s.n, iter := s.iter, szError := s.szError } := by
  unfold scopeEnd
  rw [if_neg (fun hc => hc.2 (hu hc.1)), if_neg (by simp [hb])]

/-- The function `GenerateNodes` on the text of an array whose items the
generator of the nested scopes parses. -/
theorem GenerateNodes_arr (strtod : List Nat → D × Nat) (fuel cd dmax : Nat)
    (ws : List Nat) (items : List (Doc D × List Nat × List Nat))
    (hok : (Doc.arr ws items).ok strtod)
    (hgen : ∀ i ∈ items, (GenerateNodes strtod fuel).Parses (cd + 1) dmax i.1)
    (it : UTF8Iterator) (done ws0 rest e : List Nat) (n0 : Node D) (hws0 : Doc.blank ws0)
    (h : it.At done (ws0 ++ (Doc.arr ws items).text ++ rest))
    (hlen : done.length + ws0.length + (Doc.arr ws items).text.length < SIZE_MAX) :
    ∃ it', GenerateNodes strtod (fuel + 1) it e cd dmax n0
        = .ret { res := { m_bSuccess := true, m_szMsg := [] }, n := (Doc.arr ws items).node, iter := it', szError := e } ∧
      it'.At (done ++ ws0 ++ (Doc.arr ws items).text) rest := by
  obtain ⟨hws, hoki⟩ := hok
  obtain ⟨r, t, hrt, hr, hr7⟩ := Doc.itemsText_close strtod _ items hoki rest
  have htx : (Doc.arr ws items).text ++ rest = 0x5B :: ws ++ r :: t := by
    simp only [Doc.text, List.append_assoc, List.cons_append, List.singleton_append, List.nil_append, hrt]
  have hil := Doc.itemsText_length strtod _ items hoki
  rw [List.append_assoc, htx] at h
  obtain ⟨s0, hat0, he0, -, hu0, -, hz0, hg⟩ := GenerateNodes_frame strtod fuel cd dmax it done ws0
    (0x5B :: ws ++ r :: t) e n0 hws0 (show IsWhitespace 0x5B = false by decide) (by simp) (by simp) h
  have hfuel := hat0.bytesLeft
  simp only [List.length_append, List.length_cons, ← hrt] at hfuel
  obtain ⟨f, hf⟩ : ∃ f, s0.iter.GetNumBytesLeft = f + 1 := ⟨s0.iter.GetNumBytesLeft - 1, by omega⟩
  obtain ⟨S, e1, hat1, he1, hn1, hz1⟩ := open_array (GenerateNodes strtod fuel) strtod cd dmax
    (f + 1) s0 (done ++ ws0) ws t r hws hr (by omega) hat0 he0
  rw [← hrt] at hat1
  simp only [Doc.text, List.length_append, List.length_cons, List.length_nil] at hlen
  obtain ⟨s', hs', hat', hn', he', hb', hz'⟩ := items_loop (GenerateNodes strtod fuel) strtod cd
    dmax (Doc.itemsType items) rest items S (done ++ ws0 ++ 0x5B :: ws) [] (f + 1) hoki hgen
    hat1 (by simp only [List.length_append, List.length_cons]; omega)
    he1 hn1 (by simp) (by omega)
  refine ⟨s'.iter, ?_, by simpa [Doc.text] using hat'⟩
  rw [hg, hf, e1, hs']
  simp only [Outcome.ret_bind, Bool.true_eq_false, if_false]
  rw [scopeEnd_closed s' hb' (by simp [he']), hn', hz', hz1, hz0]
  simp [Doc.node, Doc.arrType_itemsNodes]

/-- The function `GenerateNodes` on the text of an object whose members the
generator of the nested scopes parses. -/
theorem GenerateNodes_obj (strtod : List Nat → D × Nat) (fuel cd dmax : Nat)
    (ws : List Nat) (members : List (List Nat × List Nat × Doc D × List Nat × List Nat))
    (hok : (Doc.obj ws members).ok strtod)
    (hgen : ∀ m ∈ members, (GenerateNodes strtod fuel).Parses (cd + 1) dmax m.2.2.1)
    (it : UTF8Iterator) (done ws0 rest e : List Nat) (n0 : Node D) (hws0 : Doc.blank ws0)
    (h : it.At done (ws0 ++ (Doc.obj ws members).text ++ rest))
    (hlen : done.length + ws0.length + (Doc.obj ws members).text.length < SIZE_MAX) :
    ∃ it', GenerateNodes strtod (fuel + 1) it e cd dmax n0
        = .ret { res := { m_bSuccess := true, m_szMsg := [] }, n := (Doc.obj ws members).node, iter := it', szError := e } ∧
      it'.At (done ++ ws0 ++ (Doc.obj ws members).text) rest := by
  obtain ⟨hws, hokm⟩ := hok
  obtain ⟨r, t, hrt, hr, hr7⟩ := Doc.membersText_close members rest
  have htx : (Doc.obj ws members).text ++ rest = 0x7B :: ws ++ r :: t := by
    simp only [Doc.text, List.append_assoc, List.cons_append, List.singleton_append, List.nil_append, hrt]
  have hil := Doc.membersText_length strtod members hokm
  rw [List.append_assoc, htx] at h
  obtain ⟨s0, hat0, he0, hb0, hu0, hm0, hz0, hg⟩ := GenerateNodes_frame strtod fuel cd dmax it done
    ws0 (0x7B :: ws ++ r :: t) e n0 hws0 (show IsWhitespace 0x7B = false by decide) (by simp) (by simp) h
  have hfuel := hat0.bytesLeft
  simp only [List.length_append, List.length_cons, ← hrt] at hfuel
  obtain ⟨f, hf⟩ : ∃ f, s0.iter.GetNumBytesLeft = f + 1 := ⟨s0.iter.GetNumBytesLeft - 1, by omega⟩
  obtain ⟨S, e1, hat1, he1, hn1, hb1, hu1, hm1, hz1⟩ := open_object (GenerateNodes strtod fuel)
    strtod cd dmax (f + 1) s0 (done ++ ws0) ws t r hws hr (by omega) hat0 he0
  rw [← hrt] at hat1
  simp only [Doc.text, List.length_append, List.length_cons, List.length_nil] at hlen
  obtain ⟨s', hs', hat', hn', he', hb', hu', hz'⟩ := members_loop (GenerateNodes strtod fuel)
    strtod cd dmax rest members S (done ++ ws0 ++ 0x7B :: ws) [] (f + 1) hokm hgen
    hat1 (by simp only [List.length_append, List.length_cons]; omega)
    he1 hn1 (hb1.trans hb0) (hm1.trans hm0) (hu1.trans hu0) (by omega)
  refine ⟨s'.iter, ?_, by simpa [Doc.text] using hat'⟩
  rw [hg, hf, e1, hs']
  simp only [Outcome.ret_bind, Bool.true_eq_false, if_false]
  rw [scopeEnd_closed s' hb' (fun _ => hu'), hn', hz', hz1, hz0]
  simp [Doc.node]

theorem Doc.itemsHeight_le (items : List (Doc D × List Nat × List Nat)) :
    ∀ i ∈ items, i.1.height ≤ Doc.itemsHeight items := by
  induction items with
  | nil => intro i hi; cases hi
  | cons item tl ih =>
    obtain ⟨d, w, w'⟩ := item
    intro i hi
    rcases List.mem_cons.1 hi with rfl | hi
    · simp only [Doc.itemsHeight]; omega
    · have := ih i hi
      simp only [Doc.itemsHeight]; omega

theorem Doc.membersHeight_le (members : List (List Nat × List Nat × Doc D × List Nat × List Nat)) :
    ∀ m ∈ members, m.2.2.1.height ≤ Doc.membersHeight members := by
  induction members with
  | nil => intro i hi; cases hi
  | cons member tl ih =>
    obtain ⟨k, b, d, w, w'⟩ := member
    intro i hi
    rcases List.mem_cons.1 hi with rfl | hi
    · simp only [Doc.membersHeight]; omega
    · have := ih i hi
      simp only [Doc.membersHeight]; omega

theorem Doc.itemsOk_mem (strtod : List Nat → D × Nat) (ty : NodeType) :
    ∀ items : List (Doc D × List Nat × List Nat), Doc.itemsOk strtod ty items →
      ∀ i ∈ items, i.1.ok strtod := by
  intro items
  induction items with
  | nil => intro _ i hi; cases hi
  | cons item tl ih =>
    obtain ⟨d, w, w'⟩ := item
    intro hok i hi
    rcases List.mem_cons.1 hi with rfl | hi
    · exact hok.1
    · exact ih hok.2.2.2.2 i hi

theorem Doc.membersOk_mem (strtod : List Nat → D × Nat) :
    ∀ members : List (List Nat × List Nat × Doc D × List Nat × List Nat),
      Doc.membersOk strtod members → ∀ m ∈ members, m.2.2.1.ok strtod := by
  intro members
  induction members with
  | nil => intro _ i hi; cases hi
  | cons member tl ih =>
    obtain ⟨k, b, d, w, w'⟩ := member
    intro hok i hi
    rcases List.mem_cons.1 hi with rfl | hi
    · exact hok.2.2.2.1
    · exact ih hok.2.2.2.2.2.2 i hi

/-- The function `GenerateNodes` parses the text of an array or object that is
well formed, no higher than the budget of the recursion and within the depth
limit: it succeeds with the node of the text and leaves `szError` as it was. -/
theorem GenerateNodes_doc (strtod : List Nat → D × Nat) (dmax : Nat) :
    ∀ (fuel cd : Nat) (d : Doc D), d.ok strtod → d.height ≠ 0 → d.height ≤ fuel →
      cd + d.height ≤ dmax →
      ∀ (it : UTF8Iterator) (done ws0 rest e : List Nat) (n0 : Node D), Doc.blank ws0 →
        it.At done (ws0 ++ d.text ++ rest) →
        done.length + ws0.length + d.text.length < SIZE_MAX →
        ∃ it', GenerateNodes strtod fuel it e cd dmax n0
            = .ret { res := { m_bSuccess := true, m_szMsg := [] }, n := d.node, iter := it', szError := e } ∧
          it'.At (done ++ ws0 ++ d.text) rest := by
  intro fuel
  induction fuel with
  | zero => intro cd d _ h0 h1; omega
  | succ fuel ih =>
    intro cd d hok h0 hf hd it done ws0 rest e n0 hws0 h hlen
    have hchild : ∀ c : Doc D, c.ok strtod → c.height + 1 ≤ d.height →
        (GenerateNodes strtod fuel).Parses (cd + 1) dmax c := by
      intro c hokc hc hc0
      refine ⟨by omega, ?_⟩
      intro it done rest e n0 hat hl
      have := ih (cd + 1) c hokc hc0 (by omega) (by omega) it done [] rest e n0
        (by intro x hx; cases hx) (by simpa using hat) (by simpa using hl)
      simpa using this
    cases d with
    | null => exact absurd rfl h0
    | bool b => exact absurd rfl h0
    | num x t => exact absurd rfl h0
    | str x => exact absurd rfl h0
    | arr ws items =>
      refine GenerateNodes_arr strtod fuel cd dmax ws items hok ?_ it done ws0 rest e n0 hws0 h hlen
      intro i hi
      refine hchild i.1 (Doc.itemsOk_mem strtod _ items hok.2 i hi) ?_
      have := Doc.itemsHeight_le items i hi
      simp only [Doc.height]; omega
    | obj ws members =>
      refine GenerateNodes_obj strtod fuel cd dmax ws members hok ?_ it done ws0 rest e n0 hws0 h
        hlen
      intro m hm
      refine hchild m.2.2.1 (Doc.membersOk_mem strtod members hok.2 m hm) ?_
      have := Doc.membersHeight_le members m hm
      simp only [Doc.height]; omega

end Scopes
section ParseDoc

variable {D : Type}

theorem utf8BOM_not_prefix (c : Nat) (t : List Nat) (hc : c < 0x80) :
    ¬ utf8BOM <+: symEncode (c :: t) := by
  have e : symEncode (c :: t) = c :: symEncode t := by
    simp [symEncode, symBytes_of_lt (show c < 0x200000 by omega), utf8Canonical, hc]
  rw [e]
  rintro ⟨x, hx⟩
  simp only [utf8BOM, List.cons_append, List.cons.injEq] at hx
  omega

theorem UTF8Iterator.new_bytes (bs tail : List Nat) (hz : ∀ b ∈ bs, b ≠ 0)
    (ht : tail.headD 0 = 0) (hbom : ¬ utf8BOM <+: bs) :
    UTF8Iterator.new (bs ++ tail) = UTF8Iterator.mk (bs ++ tail) 0 bs.length none 0 0 := by
  have hl : strlen (bs ++ tail) = bs.length := strlen_append _ _ hz ht
  have hno : ¬ (3 ≤ bs.length ∧ (bs ++ tail).getD 0 0 = 0xEF ∧
      (bs ++ tail).getD 1 0 = 0xBB ∧ (bs ++ tail).getD 2 0 = 0xBF) := by
    rintro ⟨h3, h0, h1, h2⟩
    apply hbom
    match bs, h3 with
    | a :: b :: c :: rest, _ =>
      simp at h0 h1 h2
      subst h0 h1 h2
      exact ⟨rest, rfl⟩
  simp only [UTF8Iterator.new, hl, hno]
  simp

theorem UTF8Iterator.At.new (cps tail : List Nat) (hv : ∀ c ∈ cps, Sym c)
    (ht : tail.headD 0 = 0) (htb : ∀ b ∈ tail, b < 256) (hbom : ¬ utf8BOM <+: symEncode cps) :
    (UTF8Iterator.new (symEncode cps ++ tail)).At [] cps := by
  have := UTF8Iterator.new_bytes (symEncode cps) tail (symEncode_ne_zero cps hv) ht hbom
  refine ⟨⟨tail, by rw [this]; rfl, htb⟩, by rw [this]; rfl, by rw [this]; rfl, by rw [this]; rfl,
    UTF8Iterator.CacheOk_new _, by simpa using hv⟩

/-- The function `Parse` on a text that is whitespace, then a well-formed array
or object no higher than the depth limit, then anything: it succeeds with the
node of the text. -/
theorem Parse_doc (strtod : List Nat → D × Nat) (cfg : ParserConfig) (d : Doc D)
    (ws0 rest tail e : List Nat) (json : Node D) (hok : d.ok strtod) (h0 : d.height ≠ 0)
    (hd : d.height ≤ cfg.m_uMaxDepth) (hws0 : Doc.blank ws0)
    (hv : ∀ c ∈ ws0 ++ d.text ++ rest, Sym c)
    (ht : tail.headD 0 = 0) (htb : ∀ b ∈ tail, b < 256)
    (hlen : ws0.length + d.text.length < SIZE_MAX) :
    Parse strtod cfg (symEncode (ws0 ++ d.text ++ rest) ++ tail) json e
      = .ret ({ m_bSuccess := true, m_szMsg := [] }, d.node, e) := by
  obtain ⟨r, tl, htx, hrw, -, hr7⟩ := Doc.text_head strtod d hok
  have hbom : ¬ utf8BOM <+: symEncode (ws0 ++ d.text ++ rest) := by
    cases ws0 with
    | nil =>
      rw [htx]
      exact utf8BOM_not_prefix r _ (by omega)
    | cons x ws =>
      have hx := hws0 x (by simp)
      have : x < 0x80 := by
        unfold IsWhitespace at hx
        simp only [Bool.or_eq_true, beq_iff_eq] at hx
        omega
      exact utf8BOM_not_prefix x _ this
  have hat := UTF8Iterator.At.new (ws0 ++ d.text ++ rest) tail hv ht htb hbom
  obtain ⟨it', hg, -⟩ := GenerateNodes_doc strtod cfg.m_uMaxDepth (cfg.m_uMaxDepth + 1) 0 d hok h0
    (by omega) (by omega) _ [] ws0 rest e json hws0 hat (by simpa using hlen)
  simp only [Parse, hg, Outcome.ret_bind, Bool.true_eq_false, if_false]

end ParseDoc
section Examples

variable {D : Type}

/-- C4: `Parse` with the default configuration on the text
`{"a":1,"b":[1,2,3]}`, for any conversion `strtod` that reads the literals `1`,
`2`, `3` in full as the doubles `one`, `two`, `three`, succeeds and leaves in
`json` an object of exactly two members, `a` the number `one` and `b` an array
of the three numbers `one`, `two`, `three` in that order. -/
theorem C4_parse_object_example (strtod : List Nat → D × Nat) (one two three : D)
    (h1 : strtod (ascii "1") = (one, 1)) (h2 : strtod (ascii "2") = (two, 1))
    (h3 : strtod (ascii "3") = (three, 1)) (tail e : List Nat) (json : Node D)
    (ht : tail.headD 0 = 0) (htb : ∀ b ∈ tail, b < 256) :
    Parse strtod {} (ascii "\x7b\"a\":1,\"b\":[1,2,3]\x7d" ++ tail) json e
      = .ret ({ m_bSuccess := true, m_szMsg := [] },
          .object [(ascii "a", .number one),
            (ascii "b", .array .Null [.number one, .number two, .number three])], e) := by
  have a1 : ascii "1" = [0x31] := by decide
  have a2 : ascii "2" = [0x32] := by decide
  have a3 : ascii "3" = [0x33] := by decide
  rw [a1] at h1
  rw [a2] at h2
  rw [a3] at h3
  have n1 : Doc.numeral strtod one [0x31] :=
    ⟨by decide, by decide, by decide, by decide, by decide, by decide, by decide, by decide, h1⟩
  have n2 : Doc.numeral strtod two [0x32] :=
    ⟨by decide, by decide, by decide, by decide, by decide, by decide, by decide, by decide, h2⟩
  have n3 : Doc.numeral strtod three [0x33] :=
    ⟨by decide, by decide, by decide, by decide, by decide, by decide, by decide, by decide, h3⟩
  have hb : Doc.blank [] := fun c hc => by cases hc
  have key := Parse_doc strtod {}
    (Doc.obj [] [([0x61], [], .num one [0x31], [], []),
      ([0x62], [], .arr [] [(.num one [0x31], [], []), (.num two [0x32], [], []),
        (.num three [0x33], [], [])], [], [])])
    [] [] tail e json
    ⟨hb, by decide, Doc.quotable_of_plain _ (by simp [Doc.plain, symCode]), hb, n1, hb, hb,
      by decide, Doc.quotable_of_plain _ (by simp [Doc.plain, symCode]), hb,
      ⟨hb, n1, rfl, hb, hb, n2, rfl, hb, hb, n3, rfl, hb, hb, trivial⟩, hb, hb, trivial⟩
    (by simp [Doc.height]) (by simp [Doc.height, Doc.membersHeight, Doc.itemsHeight])
    hb (by simp only [Doc.text, Doc.membersText, Doc.itemsText]; decide) ht htb
    (by simp [Doc.text, Doc.membersText, Doc.itemsText, SIZE_MAX])
  have htxt : ascii "\x7b\"a\":1,\"b\":[1,2,3]\x7d"
      = [0x7B, 0x22, 0x61, 0x22, 0x3A, 0x31, 0x2C, 0x22, 0x62, 0x22, 0x3A, 0x5B, 0x31, 0x2C, 0x32,
        0x2C, 0x33, 0x5D, 0x7D] := by decide
  have hka : ascii "a" = [0x61] := by decide
  have hkb : ascii "b" = [0x62] := by decide
  rw [htxt, hka, hkb]
  simpa [Doc.text, Doc.membersText, Doc.itemsText, Doc.node, Doc.membersNodes, Doc.itemsNodes,
    Doc.itemsType, symEncode, utf8Canonical, mapAssign, strLt, Node.copy, Node.copyElements]
    using key

end Examples
/-- Witness of C4: the stand-in `strtodDigits` for `strtod`, the buffer ended by
one NUL byte, `szError` empty and `json` a Null node at the call. -/
theorem C4_parse_object_example_witness :
    strtodDigits (ascii "1") = (1, 1) ∧ strtodDigits (ascii "2") = (2, 1) ∧
    strtodDigits (ascii "3") = (3, 1) ∧ ([0] : List Nat).headD 0 = 0 ∧
    (∀ b ∈ ([0] : List Nat), b < 256) ∧
    Parse strtodDigits {} (ascii "\x7b\"a\":1,\"b\":[1,2,3]\x7d" ++ [0]) (.null : Node Nat) []
      = .ret ({ m_bSuccess := true, m_szMsg := [] },
          .object [(ascii "a", .number 1),
            (ascii "b", .array .Null [.number 1, .number 2, .number 3])], []) :=
  ⟨by decide, by decide, by decide, rfl, by decide,
    C4_parse_object_example strtodDigits 1 2 3 (by decide) (by decide) (by decide) [0] [] .null rfl
      (by decide)⟩
section Abort

variable {D : Type}

/-- The scope loop of an array aborts at an item of another type than the
elements before it. -/
theorem items_abort (gen : Generator D) (strtod : List Nat → D × Nat) (cd dmax : Nat)
    (ty : NodeType) (bad : Doc D) (hokb : bad.ok strtod) (hgb : gen.Parses (cd + 1) dmax bad)
    (hty : bad.node.GetType ≠ ty) (c : Nat) (after : List Nat) (hc : Doc.closes c) :
    ∀ (pre : List (Doc D × List Nat × List Nat)) (s : Scope D) (done : List Nat)
      (es : List (Node D)) (fuel : Nat),
      Doc.itemsOk strtod ty pre → (∀ i ∈ pre, gen.Parses (cd + 1) dmax i.1) →
      es ++ Doc.itemsNodes pre ≠ [] →
      s.iter.At done (Doc.itemsPrefix pre ++ bad.text ++ c :: after) →
      done.length + (Doc.itemsPrefix pre ++ bad.text).length < SIZE_MAX →
      s.eType = .Array → s.n = .array (Doc.arrType ty es) es → (∀ e ∈ es, e.GetType = ty) →
      pre.length + 1 ≤ fuel →
      scopeLoop gen strtod cd dmax fuel s = .abort := by
  obtain ⟨rb, tb, htb, hrb, hrtb, hr7b⟩ := Doc.text_head strtod bad hokb
  intro pre
  induction pre with
  | nil =>
    intro s done es fuel _ _ hne h hlen he hn hes hf
    obtain ⟨f, rfl⟩ : ∃ f, fuel = f + 1 := ⟨fuel - 1, by omega⟩
    simp only [Doc.itemsPrefix, List.nil_append, Doc.itemsNodes, List.append_nil] at h hlen hne
    have hh : s.iter.At done (bad.text.headD 0 :: (tb ++ c :: after)) := by
      simpa [htb] using h
    obtain ⟨h1, hl⟩ := scopeLoop_step gen strtod cd dmax f s done _ _ hh
      (by rw [htb]; simp only [List.headD_cons]; omega)
    have hr5 : rb ≠ 0x5D := by
      intro e
      rw [e] at hrtb
      exact absurd hrtb (by decide)
    have hat : (Doc.arrType ty es) = ty := by
      cases es with
      | nil => exact absurd rfl hne
      | cons x es => rfl
    have hadd : ∀ it, AddNode { s with iter := it, ch := bad.text.headD 0 } bad.node = .abort :=
      fun it => AddNode_array_abort { s with iter := it, ch := bad.text.headD 0 } bad.node
        (Doc.arrType ty es) es hn hne (by rw [hat]; exact hty)
    have hpm := ParseMember_abort gen strtod cd dmax bad hokb hgb
      { s with iter := s.iter.Read.2, ch := bad.text.headD 0 } done after c hc h.read_code.2 rfl hlen hadd
    rw [hl, scopeBody_element gen strtod cd dmax
      { s with iter := s.iter.Read.2, ch := bad.text.headD 0 }
      (by simp [htb]; omega) (by simpa [htb] using hr5) he]
    unfold scopeElement
    rw [hpm]
    rfl
  | cons item tl ih =>
    intro s done es fuel hok hgen _ h hlen he hn hes hf
    obtain ⟨f, rfl⟩ : ∃ f, fuel = f + 1 := ⟨fuel - 1, by omega⟩
    obtain ⟨d, w, w'⟩ := item
    obtain ⟨hokd, htyd, hw, hw', hoktl⟩ := hok
    obtain ⟨r, t, htx, -, -, hr7⟩ := Doc.text_head strtod d hokd
    have hr7' : d.text.headD 0 < 0x200000 := by rw [htx]; simp only [List.headD_cons]; omega
    have hes' : ∀ e ∈ es ++ [d.node.copy], e.GetType = ty := by
      intro e hm
      rcases List.mem_append.1 hm with hm | hm
      · exact hes e hm
      · rw [List.mem_singleton.1 hm, Node.copy_GetType, htyd]
    have hgd := hgen (d, w, w') (by simp)
    have hgtl : ∀ i ∈ tl, gen.Parses (cd + 1) dmax i.1 := fun i hi => hgen i (by simp [hi])
    obtain ⟨r2, t2, htx2, hr2, hr27⟩ : ∃ r2 t2,
        Doc.itemsPrefix tl ++ bad.text ++ c :: after = r2 :: t2 ∧
        IsWhitespace r2 = false ∧ r2 < 0x7F := by
      cases tl with
      | nil => exact ⟨rb, tb ++ c :: after, by simp [Doc.itemsPrefix, htb], hrb, hr7b⟩
      | cons i2 tl2 =>
        obtain ⟨d2, w2, w2'⟩ := i2
        obtain ⟨r2, t2, e2, hr2, -, hr27⟩ := Doc.text_head strtod d2 hoktl.1
        exact ⟨r2, _, by simp only [Doc.itemsPrefix, e2, List.cons_append]; rfl, hr2, hr27⟩
    simp only [Doc.itemsPrefix, List.append_assoc, List.cons_append, List.length_append,
      List.length_cons] at h hlen
    rw [← List.append_assoc] at h
    obtain ⟨it', hat, hb⟩ := element_round gen strtod cd dmax ty d hokd htyd hgd s done w _
      0x2C es hw (by decide) h (by omega) he hn hes
    have hh : s.iter.At done (d.text.headD 0 ::
        (t ++ w ++ 0x2C :: (w' ++ (Doc.itemsPrefix tl ++ (bad.text ++ c :: after))))) := by
      simpa [htx] using h
    obtain ⟨-, hl⟩ := scopeLoop_step gen strtod cd dmax f s done _ _ hh hr7'
    have htx2' : Doc.itemsPrefix tl ++ (bad.text ++ c :: after) = r2 :: t2 := by
      simpa using htx2
    rw [htx2'] at hat
    obtain ⟨it2, hat2, hterm⟩ := scopeTerminator_comma
      { s with iter := it', ch := 0x2C, n := .array (Doc.arrType ty (es ++ [d.node.copy])) (es ++ [d.node.copy]) }
      (done ++ d.text ++ w) w' t2 r2 rfl hw' hr2 (by omega) hat
    have key : ∀ S : Scope D, S.iter = it2 → S.eType = .Array →
        S.n = .array (Doc.arrType ty (es ++ [d.node.copy])) (es ++ [d.node.copy]) →
        scopeLoop gen strtod cd dmax f S = .abort := by
      intro S hi hE hN
      exact ih S (done ++ d.text ++ w ++ 0x2C :: w') (es ++ [d.node.copy]) f hoktl hgtl (by simp)
        (by rw [hi, htx2]; simpa using hat2)
        (by simp only [List.length_append, List.length_cons]; omega) hE hN hes'
        (by simp at hf ⊢; omega)
    rw [hl, hb, hterm]
    simp only [Outcome.ret_bind]
    exact key _ rfl he rfl

end Abort
section AbortTop

variable {D : Type}

theorem GenerateNodes_parses (strtod : List Nat → D × Nat) (dmax fuel cd : Nat) (c : Doc D)
    (hok : c.ok strtod) (hf : c.height ≤ fuel) (hd : cd + c.height ≤ dmax) :
    (GenerateNodes strtod fuel).Parses cd dmax c := by
  intro hc0
  refine ⟨by omega, ?_⟩
  intro it done rest e n0 hat hl
  have := GenerateNodes_doc strtod dmax fuel cd c hok hc0 hf hd it done [] rest e n0
    (by intro x hx; cases hx) (by simpa using hat) (by simpa using hl)
  simpa using this

theorem Doc.itemsPrefix_length (strtod : List Nat → D × Nat) (ty : NodeType) :
    ∀ items : List (Doc D × List Nat × List Nat), Doc.itemsOk strtod ty items →
      items.length ≤ (Doc.itemsPrefix items).length := by
  intro items
  induction items with
  | nil => intro _; simp
  | cons item tl ih =>
    intro hok
    obtain ⟨d, w, w'⟩ := item
    have htl := ih hok.2.2.2.2
    simp only [Doc.itemsPrefix, List.length_append, List.length_cons]
    omega

/-- C1: `Parse` on the text of an array whose items `first :: pre` are well
formed and of one type and whose next item `bad` is well formed and of another
type does not return: `Node::Append`, called by `AddNode` for `bad`, reaches
`std::abort` before the check that would report `Malformed array, incorrect type`.
The items are no higher than the depth limit allows and a character that ends a
literal follows `bad`. -/
theorem C1_mixed_array_aborts (strtod : List Nat → D × Nat) (cfg : ParserConfig)
    (ws0 ws : List Nat) (first : Doc D × List Nat × List Nat)
    (pre : List (Doc D × List Nat × List Nat)) (bad : Doc D) (c : Nat)
    (after tail e : List Nat) (json : Node D) (hws0 : Doc.blank ws0) (hws : Doc.blank ws)
    (hpre : Doc.itemsOk strtod first.1.node.GetType (first :: pre))
    (hbad : bad.ok strtod) (hty : bad.node.GetType ≠ first.1.node.GetType)
    (hh : ∀ i ∈ first :: pre, i.1.height < cfg.m_uMaxDepth) (hhb : bad.height < cfg.m_uMaxDepth)
    (hc : Doc.closes c)
    (hv : ∀ x ∈ ws0 ++ 0x5B :: ws ++ Doc.itemsPrefix (first :: pre) ++ bad.text ++ c :: after,
      1 ≤ x ∧ x ≤ 0x10FFFF)
    (ht : tail.headD 0 = 0) (htb : ∀ b ∈ tail, b < 256)
    (hlen : (ws0 ++ 0x5B :: ws ++ Doc.itemsPrefix (first :: pre) ++ bad.text).length < SIZE_MAX) :
    Parse strtod cfg
      (utf8Encode (ws0 ++ 0x5B :: ws ++ Doc.itemsPrefix (first :: pre) ++ bad.text ++ c :: after)
        ++ tail) json e = .abort := by
  obtain ⟨d, w, w'⟩ := first
  obtain ⟨r, t, htx, hr, -, hr7⟩ := Doc.text_head strtod d hpre.1
  rw [← symEncode_of_valid _ (fun x hx => by have := hv x hx; omega)]
  have hbom : ¬ utf8BOM <+:
      symEncode (ws0 ++ 0x5B :: ws ++ Doc.itemsPrefix ((d, w, w') :: pre) ++ bad.text ++ c :: after) := by
    cases ws0 with
    | nil => exact utf8BOM_not_prefix 0x5B _ (by omega)
    | cons x ws1 =>
      have hx := hws0 x (by simp)
      have : x < 0x80 := by
        unfold IsWhitespace at hx
        simp only [Bool.or_eq_true, beq_iff_eq] at hx
        omega
      exact utf8BOM_not_prefix x _ this
  have hat := UTF8Iterator.At.new _ tail (fun x hx => Sym.of_valid (hv x hx)) ht htb hbom
  have hsh : ws0 ++ 0x5B :: ws ++ Doc.itemsPrefix ((d, w, w') :: pre) ++ bad.text ++ c :: after
      = ws0 ++ (0x5B :: ws ++ r :: (t ++ w ++ 0x2C :: w' ++ Doc.itemsPrefix pre ++ bad.text ++ c :: after)) := by
    simp [Doc.itemsPrefix, htx]
  have hil := Doc.itemsPrefix_length strtod _ _ hpre
  simp only [List.length_append, List.length_cons] at hlen
  rw [hsh] at hat
  obtain ⟨s0, hat0, he0, -, -, -, -, hg⟩ := GenerateNodes_frame strtod cfg.m_uMaxDepth 0
    cfg.m_uMaxDepth _ [] ws0
    (0x5B :: ws ++ r :: (t ++ w ++ 0x2C :: w' ++ Doc.itemsPrefix pre ++ bad.text ++ c :: after))
    e json hws0 (show IsWhitespace 0x5B = false by decide) (by simp) (by simp) hat
  have hfuel := hat0.bytesLeft
  obtain ⟨f, hf⟩ : ∃ f, s0.iter.GetNumBytesLeft = f + 1 := ⟨s0.iter.GetNumBytesLeft - 1, by
    simp only [List.length_append, List.length_cons] at hfuel; omega⟩
  obtain ⟨S, e1, hat1, he1, hn1, -⟩ := open_array (GenerateNodes strtod cfg.m_uMaxDepth) strtod 0
    cfg.m_uMaxDepth (f + 1) s0 ([] ++ ws0) ws _ r hws hr (by omega) hat0 he0
  have hab := items_abort (GenerateNodes strtod cfg.m_uMaxDepth) strtod 0 cfg.m_uMaxDepth
    d.node.GetType bad hbad
    (GenerateNodes_parses strtod _ _ _ bad hbad (by omega) (by omega)) hty c after hc
    ((d, w, w') :: pre) S ([] ++ ws0 ++ 0x5B :: ws) [] (f + 1) hpre
    (fun i hi => GenerateNodes_parses strtod _ _ _ i.1 (Doc.itemsOk_mem strtod _ _ hpre i hi)
      (by have := hh i hi; omega) (by have := hh i hi; omega))
    (by simp [Doc.itemsNodes]) (by simpa [Doc.itemsPrefix, htx] using hat1)
    (by simp only [List.length_append, List.length_cons, List.length_nil]; omega)
    he1 hn1 (by simp)
    (by
      simp only [List.length_append, List.length_cons, Doc.itemsPrefix, htx] at hfuel hil ⊢
      omega)
  rw [hsh]
  simp only [Parse, hg, hf, e1, hab]
  rfl

end AbortTop
/-- Witness of C1: the text `[1,"x"]` ended by one NUL byte, with the stand-in
`strtodDigits` for `strtod` and the default configuration. -/
theorem C1_mixed_array_aborts_witness :
    Doc.blank [] ∧
    Doc.itemsOk strtodDigits (Doc.num 1 [0x31]).node.GetType [(Doc.num 1 [0x31], [], [])] ∧
    (Doc.str [0x78] : Doc Nat).ok strtodDigits ∧
    (Doc.str [0x78] : Doc Nat).node.GetType ≠ (Doc.num 1 [0x31]).node.GetType ∧
    (∀ i ∈ [((Doc.num 1 [0x31] : Doc Nat), ([] : List Nat), ([] : List Nat))],
      i.1.height < ({} : ParserConfig).m_uMaxDepth) ∧
    (Doc.str [0x78] : Doc Nat).height < ({} : ParserConfig).m_uMaxDepth ∧ Doc.closes 0x5D ∧
    utf8Encode ([] ++ 0x5B :: [] ++ Doc.itemsPrefix [((Doc.num 1 [0x31] : Doc Nat), [], [])]
        ++ (Doc.str [0x78] : Doc Nat).text ++ 0x5D :: []) ++ [0] = ascii "[1,\"x\"]" ++ [0] ∧
    Parse strtodDigits {}
      (utf8Encode ([] ++ 0x5B :: [] ++ Doc.itemsPrefix [(Doc.num 1 [0x31], [], [])]
        ++ (Doc.str [0x78] : Doc Nat).text ++ 0x5D :: []) ++ [0]) (.null : Node Nat) []
      = .abort :=
  have hb : Doc.blank [] := fun c hc => by cases hc
  have hn : Doc.itemsOk strtodDigits (Doc.num 1 [0x31]).node.GetType
      [(Doc.num 1 [0x31], [], [])] :=
    ⟨⟨by decide, by decide, by decide, by decide, by decide, by decide, by decide, by decide,
      by decide⟩, rfl, hb, hb, trivial⟩
  have hs : (Doc.str [0x78] : Doc Nat).ok strtodDigits :=
    Doc.quotable_of_plain _ (by simp [Doc.plain, symCode])
  ⟨hb, hn, hs, by simp [Doc.node], by simp [Doc.height], by simp [Doc.height], Or.inl (by decide),
    by simp [Doc.itemsPrefix, Doc.text, utf8Encode, utf8Canonical]; decide,
    C1_mixed_array_aborts strtodDigits {} [] [] (Doc.num 1 [0x31], [], []) [] (Doc.str [0x78]) 0x5D
      [] [0] [] .null hb hb hn hs (by simp [Doc.node]) (by simp [Doc.height])
      (by simp [Doc.height]) (Or.inl (by decide))
      (by simp [Doc.itemsPrefix, Doc.text]) rfl (by decide)
      (by simp [Doc.itemsPrefix, Doc.text, SIZE_MAX])⟩
section TooDeep

variable {D : Type}

end TooDeep
section Nesting

variable {D : Type}

theorem Doc.nest_type (m : Nat) : (Doc.nest m : Doc D).node.GetType = .Array := by
  cases m <;> simp [Doc.nest, Doc.node]

end Nesting
section NestingBound

variable {D : Type}

end NestingBound
/-! ### The round trip: the layout of the serialized text -/

section Layout

variable {D : Type}

theorem Indent_blank (cfg : SerializerConfig) (depth : Nat) : Doc.blank (Indent cfg depth) := by
  intro c hc
  unfold Indent at hc
  split at hc <;> rw [List.eq_of_mem_replicate hc] <;> decide

theorem closeIndent_blank (cfg : SerializerConfig) (depth : Nat) :
    Doc.blank (closeIndent cfg depth) := by
  intro c hc
  unfold closeIndent at hc
  split at hc
  · rcases List.mem_cons.1 hc with rfl | hc
    · decide
    · exact Indent_blank cfg depth c hc
  · cases hc

theorem memberIndent_blank (cfg : SerializerConfig) (depth : Nat) :
    Doc.blank (memberIndent cfg depth) := by
  intro c hc
  unfold memberIndent at hc
  split at hc
  · rcases List.mem_cons.1 hc with rfl | hc
    · decide
    · rcases List.mem_cons.1 hc with rfl | hc
      · decide
      · exact Indent_blank cfg (depth + 1) c hc
  · cases hc

theorem Doc.blank_nil : Doc.blank [] := fun c hc => by cases hc

theorem Doc.blank_ite (p : Prop) [Decidable p] (a b : List Nat) (ha : Doc.blank a)
    (hb : Doc.blank b) : Doc.blank (if p then a else b) := by
  split
  · exact ha
  · exact hb

theorem Doc.blank_space : Doc.blank [0x20] := by
  intro c hc
  rw [List.mem_singleton.1 hc]
  decide

theorem Doc.blank_range {ws : List Nat} (h : Doc.blank ws) : ∀ c ∈ ws, 1 ≤ c ∧ c < 0x80 := by
  intro c hc
  have := h c hc
  unfold IsWhitespace at this
  simp only [Bool.or_eq_true, beq_iff_eq] at this
  omega

theorem symEncode_blank {ws : List Nat} (h : Doc.blank ws) : symEncode ws = ws :=
  symEncode_ascii ws (fun c hc => (Doc.blank_range h c hc).2)

theorem Node.layout_type (to_string : D → List Nat) (cfg : SerializerConfig)
    (dec : List Nat → List Nat) (v : Node D) (depth : Nat) :
    (Node.layout to_string cfg dec v depth).node.GetType = v.GetType := by
  cases v <;> simp [Node.layout, Doc.node]

mutual
theorem Node.layout_height (to_string : D → List Nat) (cfg : SerializerConfig)
    (dec : List Nat → List Nat) :
    ∀ (v : Node D) (depth : Nat), (Node.layout to_string cfg dec v depth).height = v.height
  | .null, _ => rfl
  | .boolean _, _ => rfl
  | .number _, _ => rfl
  | .string _, _ => rfl
  | .array _ es, depth => by
    simp only [Node.layout, Doc.height, Node.height, Node.layoutElements_height to_string cfg dec es depth]
  | .object ms, depth => by
    simp only [Node.layout, Doc.height, Node.height, Node.layoutChildren_height to_string cfg dec ms depth]
theorem Node.layoutElements_height (to_string : D → List Nat) (cfg : SerializerConfig)
    (dec : List Nat → List Nat) :
    ∀ (es : List (Node D)) (depth : Nat),
      Doc.itemsHeight (Node.layoutElements to_string cfg dec es depth) = Node.elementsHeight es
  | [], _ => rfl
  | e :: es, depth => by
    simp only [Node.layoutElements, Doc.itemsHeight, Node.elementsHeight,
      Node.layout_height to_string cfg dec e (depth + 1),
      Node.layoutElements_height to_string cfg dec es depth]
theorem Node.layoutChildren_height (to_string : D → List Nat) (cfg : SerializerConfig)
    (dec : List Nat → List Nat) :
    ∀ (ms : List (List Nat × Node D)) (depth : Nat),
      Doc.membersHeight (Node.layoutChildren to_string cfg dec ms depth) = Node.childrenHeight ms
  | [], _ => rfl
  | (k, v) :: ms, depth => by
    simp only [Node.layoutChildren, Doc.membersHeight, Node.childrenHeight,
      Node.layout_height to_string cfg dec v (depth + 1),
      Node.layoutChildren_height to_string cfg dec ms depth]
end

mutual
theorem Node.copy_copy : ∀ (v : Node D), v.copy.copy = v.copy
  | .null => rfl
  | .boolean _ => rfl
  | .number _ => rfl
  | .string _ => rfl
  | .array _ es => by simp only [Node.copy, Node.copyElements_copy es]
  | .object ms => by simp only [Node.copy, Node.copyChildren_copy ms]
theorem Node.copyElements_copy :
    ∀ (es : List (Node D)), Node.copyElements (Node.copyElements es) = Node.copyElements es
  | [] => rfl
  | e :: es => by simp only [Node.copyElements, Node.copy_copy e, Node.copyElements_copy es]
theorem Node.copyChildren_copy :
    ∀ (ms : List (List Nat × Node D)),
      Node.copyChildren (Node.copyChildren ms) = Node.copyChildren ms
  | [] => rfl
  | (k, v) :: ms => by simp only [Node.copyChildren, Node.copy_copy v, Node.copyChildren_copy ms]
end

mutual
theorem Node.StructEq_of_copy : ∀ (a b : Node D), a.copy = b.copy → Node.StructEq a b
  | .null, .null, _ => trivial
  | .boolean a, .boolean b, h => by simpa [Node.copy, Node.StructEq] using h
  | .number a, .number b, h => by simpa [Node.copy, Node.StructEq] using h
  | .string a, .string b, h => by simpa [Node.copy, Node.StructEq] using h
  | .array s es, .array t fs, h => by
    simp only [Node.copy, Node.array.injEq, true_and] at h
    simp only [Node.StructEq]
    exact Node.StructEqElements_of_copy es fs h
  | .object ms, .object ns, h => by
    simp only [Node.copy, Node.object.injEq] at h
    simp only [Node.StructEq]
    exact Node.StructEqChildren_of_copy ms ns h
  | .null, .boolean _, h | .null, .number _, h | .null, .string _, h | .null, .array _ _, h
  | .null, .object _, h => by simp [Node.copy] at h
  | .boolean _, .null, h | .boolean _, .number _, h | .boolean _, .string _, h
  | .boolean _, .array _ _, h | .boolean _, .object _, h => by simp [Node.copy] at h
  | .number _, .null, h | .number _, .boolean _, h | .number _, .string _, h
  | .number _, .array _ _, h | .number _, .object _, h => by simp [Node.copy] at h
  | .string _, .null, h | .string _, .boolean _, h | .string _, .number _, h
  | .string _, .array _ _, h | .string _, .object _, h => by simp [Node.copy] at h
  | .array _ _, .null, h | .array _ _, .boolean _, h | .array _ _, .number _, h
  | .array _ _, .string _, h | .array _ _, .object _, h => by simp [Node.copy] at h
  | .object _, .null, h | .object _, .boolean _, h | .object _, .number _, h
  | .object _, .string _, h | .object _, .array _ _, h => by simp [Node.copy] at h
theorem Node.StructEqElements_of_copy :
    ∀ (es fs : List (Node D)), Node.copyElements es = Node.copyElements fs →
      Node.StructEqElements es fs
  | [], [], _ => trivial
  | e :: es, f :: fs, h => by
    simp only [Node.copyElements, List.cons.injEq] at h
    exact ⟨Node.StructEq_of_copy e f h.1, Node.StructEqElements_of_copy es fs h.2⟩
  | [], _ :: _, h | _ :: _, [], h => by simp [Node.copyElements] at h
theorem Node.StructEqChildren_of_copy :
    ∀ (ms ns : List (List Nat × Node D)), Node.copyChildren ms = Node.copyChildren ns →
      Node.StructEqChildren ms ns
  | [], [], _ => trivial
  | (k, v) :: ms, (l, w) :: ns, h => by
    simp only [Node.copyChildren, List.cons.injEq, Prod.mk.injEq] at h
    exact ⟨h.1.1, Node.StructEq_of_copy v w h.1.2, Node.StructEqChildren_of_copy ms ns h.2⟩
  | [], _ :: _, h | _ :: _, [], h => by simp [Node.copyChildren] at h
end

end Layout
section MapOrder

variable {D : Type}

theorem strLt_irrefl : ∀ a : List Nat, strLt a a = false
  | [] => rfl
  | x :: a => by simp [strLt, strLt_irrefl a]

theorem strLt_asymm : ∀ a b : List Nat, strLt a b = true → strLt b a = false
  | [], [], h => by simp [strLt] at h
  | [], _ :: _, _ => rfl
  | _ :: _, [], h => by simp [strLt] at h
  | x :: a, y :: b, h => by
    simp only [strLt] at h ⊢
    by_cases h1 : x < y
    · rw [if_neg (by omega), if_pos h1]
    · rw [if_neg h1] at h
      by_cases h2 : y < x
      · simp [h2] at h
      · rw [if_neg h2] at h
        rw [if_neg h2, if_neg h1]
        exact strLt_asymm a b h

theorem mapAssign_append {V : Type} (acc : List (List Nat × V)) (k : List Nat) (v : V)
    (h : ∀ p ∈ acc, strLt p.1 k = true) : mapAssign acc k v = acc ++ [(k, v)] := by
  induction acc with
  | nil => rfl
  | cons p acc ih =>
    obtain ⟨k', v'⟩ := p
    have hp : strLt k' k = true := h (k', v') (by simp)
    have hne : ¬ k = k' := by
      intro e
      rw [e, strLt_irrefl] at hp
      cases hp
    have hlt : strLt k k' = false := strLt_asymm k' k hp
    simp only [mapAssign, hne, hlt, if_false, List.cons_append, Bool.false_eq_true]
    rw [ih (fun q hq => h q (by simp [hq]))]

end MapOrder
section LayoutNode

variable {D : Type}

theorem Node.membersNodes_layout (strtod : List Nat → D × Nat) (to_string : D → List Nat)
    (cfg : SerializerConfig) (dec : List Nat → List Nat) (hdec : Decodes dec) (depth : Nat) :
    ∀ (ms : List (List Nat × Node D)) (acc : List (List Nat × Node D)),
      Node.portableChildren strtod to_string ms → sortedKeys ms →
      (∀ p ∈ acc, ∀ q ∈ ms, strLt p.1 q.1 = true) →
      Doc.membersNodes acc (Node.layoutChildren to_string cfg dec ms depth)
        = acc ++ ms.map (fun q => (q.1, (Node.layout to_string cfg dec q.2 (depth + 1)).node.copy)) := by
  intro ms
  induction ms with
  | nil => intro acc _ _ _; simp [Node.layoutChildren, Doc.membersNodes]
  | cons m ms ih =>
    obtain ⟨k, v⟩ := m
    intro acc hp hs hacc
    obtain ⟨-, hk, -, hpms⟩ := hp
    have hk' := (hdec k hk).1
    unfold sortedKeys at hs
    simp only [List.map_cons, List.pairwise_cons] at hs
    simp only [Node.layoutChildren, Doc.membersNodes, ← hk', List.map_cons]
    rw [mapAssign_append acc k _ (fun p hp => hacc p hp (k, v) (by simp)),
      ih _ hpms hs.2]
    · simp
    · intro p hp q hq
      rcases List.mem_append.1 hp with hp | hp
      · exact hacc p hp q (by simp [hq])
      · rw [List.mem_singleton.1 hp]
        exact hs.1 q.1 (List.mem_map_of_mem _ hq)

mutual
theorem Node.layout_copy (strtod : List Nat → D × Nat) (to_string : D → List Nat)
    (cfg : SerializerConfig) (dec : List Nat → List Nat) (hdec : Decodes dec) :
    ∀ (v : Node D) (depth : Nat), v.portable strtod to_string →
      (Node.layout to_string cfg dec v depth).node.copy = v.copy
  | .null, _, _ => rfl
  | .boolean _, _, _ => rfl
  | .number _, _, _ => rfl
  | .string s, _, h => by
    have := (hdec s h).1
    simp only [Node.layout, Doc.node, Node.copy, ← this]
  | .array _ es, depth, h => by
    simp only [Node.layout, Doc.node, Node.copy,
      Node.layoutElements_copy strtod to_string cfg dec hdec _ es depth h]
  | .object ms, depth, h => by
    simp only [Node.layout, Doc.node, Node.copy]
    rw [Node.membersNodes_layout strtod to_string cfg dec hdec depth ms [] h.2 h.1
      (by intro p hp; cases hp), List.nil_append,
      Node.layoutChildren_copy strtod to_string cfg dec hdec ms depth h.2]
theorem Node.layoutElements_copy (strtod : List Nat → D × Nat) (to_string : D → List Nat)
    (cfg : SerializerConfig) (dec : List Nat → List Nat) (hdec : Decodes dec) (ty : NodeType) :
    ∀ (es : List (Node D)) (depth : Nat), Node.portableElements strtod to_string ty es →
      Node.copyElements (Doc.itemsNodes (Node.layoutElements to_string cfg dec es depth))
        = Node.copyElements es
  | [], _, _ => rfl
  | e :: es, depth, h => by
    simp only [Node.layoutElements, Doc.itemsNodes, Node.copyElements, Node.copy_copy,
      Node.layout_copy strtod to_string cfg dec hdec e (depth + 1) h.1,
      Node.layoutElements_copy strtod to_string cfg dec hdec ty es depth h.2.2]
theorem Node.layoutChildren_copy (strtod : List Nat → D × Nat) (to_string : D → List Nat)
    (cfg : SerializerConfig) (dec : List Nat → List Nat) (hdec : Decodes dec) :
    ∀ (ms : List (List Nat × Node D)) (depth : Nat), Node.portableChildren strtod to_string ms →
      Node.copyChildren
          (ms.map (fun q => (q.1, (Node.layout to_string cfg dec q.2 (depth + 1)).node.copy)))
        = Node.copyChildren ms
  | [], _, _ => rfl
  | (k, v) :: ms, depth, h => by
    simp only [List.map_cons, Node.copyChildren, Node.copy_copy,
      Node.layout_copy strtod to_string cfg dec hdec v (depth + 1) h.2.2.1,
      Node.layoutChildren_copy strtod to_string cfg dec hdec ms depth h.2.2.2]
end

end LayoutNode
section LayoutOk

variable {D : Type}

theorem Node.layoutElements_type (to_string : D → List Nat) (cfg : SerializerConfig)
    (dec : List Nat → List Nat) (es : List (Node D)) (depth : Nat) :
    Doc.itemsType (Node.layoutElements to_string cfg dec es depth) = Node.headType es := by
  cases es with
  | nil => rfl
  | cons e es => simp [Node.layoutElements, Doc.itemsType, Node.headType, Node.layout_type]

mutual
theorem Node.layout_ok (strtod : List Nat → D × Nat) (to_string : D → List Nat)
    (cfg : SerializerConfig) (dec : List Nat → List Nat) (hdec : Decodes dec) :
    ∀ (v : Node D) (depth : Nat), v.portable strtod to_string →
      (Node.layout to_string cfg dec v depth).ok strtod
  | .null, _, _ => trivial
  | .boolean _, _, _ => trivial
  | .number _, _, h => h.1
  | .string s, _, h => (hdec s h).2.1
  | .array _ es, depth, h => by
    simp only [Node.layout, Doc.ok, Node.layoutElements_type]
    exact ⟨Doc.blank_ite _ _ _ Doc.blank_nil (closeIndent_blank cfg _),
      Node.layoutElements_ok strtod to_string cfg dec hdec _ es depth h⟩
  | .object ms, depth, h => by
    simp only [Node.layout, Doc.ok]
    exact ⟨Doc.blank_ite _ _ _ Doc.blank_nil (memberIndent_blank cfg _),
      Node.layoutChildren_ok strtod to_string cfg dec hdec ms depth h.2⟩
theorem Node.layoutElements_ok (strtod : List Nat → D × Nat) (to_string : D → List Nat)
    (cfg : SerializerConfig) (dec : List Nat → List Nat) (hdec : Decodes dec) (ty : NodeType) :
    ∀ (es : List (Node D)) (depth : Nat), Node.portableElements strtod to_string ty es →
      Doc.itemsOk strtod ty (Node.layoutElements to_string cfg dec es depth)
  | [], _, _ => trivial
  | e :: es, depth, h => by
    simp only [Node.layoutElements, Doc.itemsOk, Node.layout_type]
    exact ⟨Node.layout_ok strtod to_string cfg dec hdec e (depth + 1) h.1, h.2.1,
      Doc.blank_ite _ _ _ (closeIndent_blank cfg _) Doc.blank_nil, memberIndent_blank cfg _,
      Node.layoutElements_ok strtod to_string cfg dec hdec ty es depth h.2.2⟩
theorem Node.layoutChildren_ok (strtod : List Nat → D × Nat) (to_string : D → List Nat)
    (cfg : SerializerConfig) (dec : List Nat → List Nat) (hdec : Decodes dec) :
    ∀ (ms : List (List Nat × Node D)) (depth : Nat), Node.portableChildren strtod to_string ms →
      Doc.membersOk strtod (Node.layoutChildren to_string cfg dec ms depth)
  | [], _, _ => trivial
  | (k, v) :: ms, depth, h => by
    simp only [Node.layoutChildren, Doc.membersOk]
    have hk := hdec k h.2.1
    refine ⟨?_, hk.2.1, Doc.blank_ite _ _ _ Doc.blank_space Doc.blank_nil,
      Node.layout_ok strtod to_string cfg dec hdec v (depth + 1) h.2.2.1,
      Doc.blank_ite _ _ _ (closeIndent_blank cfg _) Doc.blank_nil, memberIndent_blank cfg _,
      Node.layoutChildren_ok strtod to_string cfg dec hdec ms depth h.2.2.2⟩
    intro e
    rw [e] at hk
    exact h.1 hk.1
end

theorem validText_nil : validText [] := fun c hc => by cases hc

theorem validText_cons {x : Nat} {l : List Nat} (hx : 1 ≤ x ∧ x ≤ 0x10FFFF) (hl : validText l) :
    validText (x :: l) := by
  intro c hc
  rcases List.mem_cons.1 hc with rfl | hc
  · exact Sym.of_valid hx
  · exact hl c hc

theorem validText_append {a b : List Nat} (ha : validText a) (hb : validText b) :
    validText (a ++ b) := by
  intro c hc
  rcases List.mem_append.1 hc with hc | hc
  · exact ha c hc
  · exact hb c hc

theorem validText_blank {ws : List Nat} (h : Doc.blank ws) : validText ws := by
  intro c hc
  have := Doc.blank_range h c hc
  exact Sym.of_valid (by omega)

mutual
theorem Node.layout_valid (strtod : List Nat → D × Nat) (to_string : D → List Nat)
    (cfg : SerializerConfig) (dec : List Nat → List Nat) (hdec : Decodes dec) :
    ∀ (v : Node D) (depth : Nat), v.portable strtod to_string →
      validText (Node.layout to_string cfg dec v depth).text
  | .null, _, _ => by
    show validText [0x6E, 0x75, 0x6C, 0x6C]
    unfold validText; decide
  | .boolean true, _, _ => by
    show validText [0x74, 0x72, 0x75, 0x65]
    unfold validText; decide
  | .boolean false, _, _ => by
    show validText [0x66, 0x61, 0x6C, 0x73, 0x65]
    unfold validText; decide
  | .number x, _, h => by
    intro c hc
    simp only [Node.layout, Doc.text] at hc
    have h0 := h.2 c hc
    have := literalChar_lt (h.1.2.1 c hc)
    exact Sym.of_valid (by omega)
  | .string s, _, h => by
    simp only [Node.layout, Doc.text]
    exact validText_append (validText_cons (by omega) (hdec s h).2.2)
      (validText_cons (by omega) validText_nil)
  | .array _ es, depth, h => by
    simp only [Node.layout, Doc.text]
    exact validText_append (validText_append (validText_cons (by omega)
      (validText_blank (Doc.blank_ite _ _ _ Doc.blank_nil (closeIndent_blank cfg _))))
      (Node.layoutElements_valid strtod to_string cfg dec hdec _ es depth h))
      (validText_cons (by omega) validText_nil)
  | .object ms, depth, h => by
    simp only [Node.layout, Doc.text]
    exact validText_append (validText_append (validText_cons (by omega)
      (validText_blank (Doc.blank_ite _ _ _ Doc.blank_nil (memberIndent_blank cfg _))))
      (Node.layoutChildren_valid strtod to_string cfg dec hdec ms depth h.2))
      (validText_cons (by omega) validText_nil)
theorem Node.layoutElements_valid (strtod : List Nat → D × Nat) (to_string : D → List Nat)
    (cfg : SerializerConfig) (dec : List Nat → List Nat) (hdec : Decodes dec) (ty : NodeType) :
    ∀ (es : List (Node D)) (depth : Nat), Node.portableElements strtod to_string ty es →
      validText (Doc.itemsText (Node.layoutElements to_string cfg dec es depth))
  | [], _, _ => validText_nil
  | e :: es, depth, h => by
    have hd := Node.layout_valid strtod to_string cfg dec hdec e (depth + 1) h.1
    have ih := Node.layoutElements_valid strtod to_string cfg dec hdec ty es depth h.2.2
    have hw : validText (if es.isEmpty = true then closeIndent cfg depth else []) :=
      validText_blank (Doc.blank_ite _ _ _ (closeIndent_blank cfg _) Doc.blank_nil)
    cases es with
    | nil =>
      simp only [Node.layoutElements, Doc.itemsText]
      exact validText_append hd hw
    | cons e2 es =>
      simp only [Node.layoutElements, Doc.itemsText] at ih ⊢
      exact validText_append (validText_append (validText_append hd hw)
        (validText_cons (by omega) (validText_blank (memberIndent_blank cfg _)))) ih
theorem Node.layoutChildren_valid (strtod : List Nat → D × Nat) (to_string : D → List Nat)
    (cfg : SerializerConfig) (dec : List Nat → List Nat) (hdec : Decodes dec) :
    ∀ (ms : List (List Nat × Node D)) (depth : Nat), Node.portableChildren strtod to_string ms →
      validText (Doc.membersText (Node.layoutChildren to_string cfg dec ms depth))
  | [], _, _ => validText_nil
  | (k, v) :: ms, depth, h => by
    have hd := Node.layout_valid strtod to_string cfg dec hdec v (depth + 1) h.2.2.1
    have ih := Node.layoutChildren_valid strtod to_string cfg dec hdec ms depth h.2.2.2
    have hw : validText (if ms.isEmpty = true then closeIndent cfg depth else []) :=
      validText_blank (Doc.blank_ite _ _ _ (closeIndent_blank cfg _) Doc.blank_nil)
    have hb : validText (if cfg.m_bFancy = true then [0x20] else []) :=
      validText_blank (Doc.blank_ite _ _ _ Doc.blank_space Doc.blank_nil)
    have hk := (hdec k h.2.1).2.2
    have hm : validText (0x22 :: dec k ++ 0x22 :: 0x3A :: (if cfg.m_bFancy = true then [0x20] else [])
        ++ (Node.layout to_string cfg dec v (depth + 1)).text
        ++ (if ms.isEmpty = true then closeIndent cfg depth else [])) :=
      validText_append (validText_append (validText_append (validText_cons (by omega) hk)
        (validText_cons (by omega) (validText_cons (by omega) hb))) hd) hw
    cases ms with
    | nil =>
      simp only [Node.layoutChildren, Doc.membersText]
      exact hm
    | cons m2 ms =>
      simp only [Node.layoutChildren, Doc.membersText] at ih ⊢
      exact validText_append (validText_append hm
        (validText_cons (by omega) (validText_blank (memberIndent_blank cfg _)))) ih
end

end LayoutOk
section LayoutText

variable {D : Type}

theorem symEncode_cons_ascii (c : Nat) (l : List Nat) (hc : c < 0x80) :
    symEncode (c :: l) = c :: symEncode l := by
  simp [symEncode, symBytes_of_lt (show c < 0x200000 by omega), utf8Canonical, hc]

theorem SerializeArray_loop_count (to_string : D → List Nat) (cfg : SerializerConfig)
    (depth len : Nat) :
    ∀ (es : List (Node D)) (bFirst : Bool) (uCount : Nat),
      (SerializeArray.loop to_string cfg es depth len bFirst uCount).2 = uCount + es.length := by
  intro es
  induction es with
  | nil => intro _ _; simp [SerializeArray.loop]
  | cons e es ih =>
    intro bFirst uCount
    simp only [SerializeArray.loop, ih, List.length_cons]
    omega

theorem SerializeObject_loop_count (to_string : D → List Nat) (cfg : SerializerConfig)
    (depth len : Nat) :
    ∀ (ms : List (List Nat × Node D)) (uCount : Nat),
      (SerializeObject.loop to_string cfg ms depth len uCount).2 = uCount + ms.length := by
  intro ms
  induction ms with
  | nil => intro _; simp [SerializeObject.loop]
  | cons m ms ih =>
    obtain ⟨k, v⟩ := m
    intro uCount
    simp only [SerializeObject.loop, ih, List.length_cons]
    omega

theorem closeIndent_eq (cfg : SerializerConfig) (depth : Nat) :
    (if cfg.m_bFancy = true then [0x0A] else []) ++ (if cfg.m_bFancy = true then Indent cfg depth else [])
      = closeIndent cfg depth := by
  unfold closeIndent
  split <;> rfl

theorem memberIndent_eq (cfg : SerializerConfig) (depth : Nat) :
    (if cfg.m_bFancy = true then [0x20, 0x0A] else [])
        ++ (if cfg.m_bFancy = true then Indent cfg (depth + 1) else [])
      = memberIndent cfg depth := by
  unfold memberIndent
  split <;> rfl

theorem memberIndent_eq_close (cfg : SerializerConfig) (depth : Nat) :
    (if false = false ∧ cfg.m_bFancy = true then [0x20] else []) ++ closeIndent cfg (depth + 1)
      = memberIndent cfg depth := by
  unfold memberIndent closeIndent
  cases cfg.m_bFancy <;> simp

mutual
theorem Node.serialize_layout (strtod : List Nat → D × Nat) (to_string : D → List Nat)
    (cfg : SerializerConfig) (dec : List Nat → List Nat) (hdec : Decodes dec) :
    ∀ (v : Node D) (depth : Nat), v.portable strtod to_string →
      symEncode (Node.layout to_string cfg dec v depth).text = SerializeNode to_string cfg v depth
  | .null, _, _ => by
    show symEncode [0x6E, 0x75, 0x6C, 0x6C] = [0x6E, 0x75, 0x6C, 0x6C]
    decide
  | .boolean true, _, _ => by
    show symEncode [0x74, 0x72, 0x75, 0x65] = [0x74, 0x72, 0x75, 0x65]
    decide
  | .boolean false, _, _ => by
    show symEncode [0x66, 0x61, 0x6C, 0x73, 0x65] = [0x66, 0x61, 0x6C, 0x73, 0x65]
    decide
  | .number x, _, h => by
    simp only [Node.layout, Doc.text, SerializeNode]
    exact symEncode_ascii _ (fun c hc => literalChar_lt (h.1.2.1 c hc))
  | .string s, _, h => by
    simp only [Node.layout, Doc.text, SerializeNode, symEncode_append]
    rw [symEncode_cons_ascii _ _ (by omega), ← (hdec s h).1]
    rfl
  | .array _ es, depth, h => by
    cases es with
    | nil =>
      simp only [Node.layout, Doc.text, SerializeNode, SerializeArray.loop, Node.layoutElements,
        Doc.itemsText]
      simp
      decide
    | cons e es =>
      have key := Node.serialize_layoutElements strtod to_string cfg dec hdec _ (e :: es) depth
        (e :: es).length true 0 h (by simp) (by simp)
      have hc := SerializeArray_loop_count to_string cfg depth (e :: es).length (e :: es) true 0
      have hb : symEncode (closeIndent cfg (depth + 1)) = closeIndent cfg (depth + 1) :=
        symEncode_blank (closeIndent_blank cfg _)
      simp only [Bool.true_eq_false, false_and, if_false, List.nil_append] at key
      simp only [Node.layout, Doc.text, SerializeNode, symEncode_append, List.isEmpty_cons,
        Bool.false_eq_true, if_false, hc]
      rw [symEncode_cons_ascii _ _ (by omega), hb, List.cons_append, List.append_assoc, ← key]
      unfold closeIndent
      simp
      decide
  | .object ms, depth, h => by
    cases ms with
    | nil =>
      simp only [Node.layout, Doc.text, SerializeNode, SerializeObject.loop, Node.layoutChildren,
        Doc.membersText]
      simp
      decide
    | cons m ms =>
      have key := Node.serialize_layoutChildren strtod to_string cfg dec hdec (m :: ms) depth
        (m :: ms).length 0 h.2 (by simp) (by simp)
      have hc := SerializeObject_loop_count to_string cfg depth (m :: ms).length (m :: ms) 0
      have hb : symEncode (memberIndent cfg depth) = memberIndent cfg depth :=
        symEncode_blank (memberIndent_blank cfg _)
      simp only [Node.layout, Doc.text, SerializeNode, symEncode_append, List.isEmpty_cons,
        Bool.false_eq_true, if_false, hc]
      rw [symEncode_cons_ascii _ _ (by omega), hb, List.cons_append, List.append_assoc, ← key]
      unfold closeIndent
      simp
      decide
theorem Node.serialize_layoutElements (strtod : List Nat → D × Nat) (to_string : D → List Nat)
    (cfg : SerializerConfig) (dec : List Nat → List Nat) (hdec : Decodes dec) (ty : NodeType) :
    ∀ (es : List (Node D)) (depth len : Nat) (bFirst : Bool) (uCount : Nat),
      Node.portableElements strtod to_string ty es → es ≠ [] → uCount + es.length = len →
      (SerializeArray.loop to_string cfg es depth len bFirst uCount).1 ++ closeIndent cfg depth
        = (if bFirst = false ∧ cfg.m_bFancy = true then [0x20] else [])
            ++ closeIndent cfg (depth + 1)
            ++ symEncode (Doc.itemsText (Node.layoutElements to_string cfg dec es depth))
  | [], _, _, _, _, _, hne, _ => absurd rfl hne
  | e :: es, depth, len, bFirst, uCount, h, _, hl => by
    have hd := Node.serialize_layout strtod to_string cfg dec hdec e (depth + 1) h.1
    cases es with
    | nil =>
      have hlen : ¬ uCount + 1 ≠ len := by simp at hl; omega
      simp only [SerializeArray.loop, Node.layoutElements, Doc.itemsText, List.isEmpty_nil,
        if_true, symEncode_append, hd, hlen, if_false, List.append_nil,
        symEncode_blank (closeIndent_blank cfg depth), List.append_assoc, closeIndent_eq]
    | cons e2 es =>
      have ih := Node.serialize_layoutElements strtod to_string cfg dec hdec ty (e2 :: es) depth
        len false (uCount + 1) h.2.2 (by simp) (by simp at hl ⊢; omega)
      have hlen : uCount + 1 ≠ len := by simp at hl; omega
      rw [memberIndent_eq_close] at ih
      simp only [SerializeArray.loop, List.append_assoc] at ih ⊢
      simp only [Node.layoutElements, Doc.itemsText, List.isEmpty_cons, Bool.false_eq_true,
        if_false, symEncode_append, hd, hlen, if_true, List.append_nil, ne_eq, not_false_eq_true,
        symEncode_cons_ascii 0x2C _ (by omega : (0x2C : Nat) < 0x80),
        symEncode_blank (memberIndent_blank cfg depth), List.append_assoc]
      rw [ih]
      simp only [Node.layoutElements, List.append_assoc, List.singleton_append, List.cons_append,
        List.nil_append]
      rw [← List.append_assoc _ _ (SerializeNode _ _ _ _ ++ _), closeIndent_eq]
theorem Node.serialize_layoutChildren (strtod : List Nat → D × Nat) (to_string : D → List Nat)
    (cfg : SerializerConfig) (dec : List Nat → List Nat) (hdec : Decodes dec) :
    ∀ (ms : List (List Nat × Node D)) (depth len uCount : Nat),
      Node.portableChildren strtod to_string ms → ms ≠ [] → uCount + ms.length = len →
      (SerializeObject.loop to_string cfg ms depth len uCount).1 ++ closeIndent cfg depth
        = memberIndent cfg depth
            ++ symEncode (Doc.membersText (Node.layoutChildren to_string cfg dec ms depth))
  | [], _, _, _, _, hne, _ => absurd rfl hne
  | (k, v) :: ms, depth, len, uCount, h, _, hl => by
    have hd := Node.serialize_layout strtod to_string cfg dec hdec v (depth + 1) h.2.2.1
    have hk := (hdec k h.2.1).1
    have hsp : symEncode (if cfg.m_bFancy = true then [0x20] else [])
        = (if cfg.m_bFancy = true then [0x20] else []) :=
      symEncode_blank (Doc.blank_ite _ _ _ Doc.blank_space Doc.blank_nil)
    cases ms with
    | nil =>
      have hlen : ¬ uCount + 1 ≠ len := by simp at hl; omega
      simp only [SerializeObject.loop, Node.layoutChildren, Doc.membersText, List.isEmpty_nil,
        if_true, symEncode_append, hd, hlen, if_false, List.append_nil,
        symEncode_blank (closeIndent_blank cfg depth), List.append_assoc,
        symEncode_cons_ascii 0x22 _ (by omega : (0x22 : Nat) < 0x80),
        symEncode_cons_ascii 0x3A _ (by omega : (0x3A : Nat) < 0x80), hsp, ← hk,
        List.cons_append, List.nil_append]
      rw [← List.append_assoc _ _ (0x22 :: _), memberIndent_eq]
    | cons m2 ms =>
      have ih := Node.serialize_layoutChildren strtod to_string cfg dec hdec (m2 :: ms) depth
        len (uCount + 1) h.2.2.2 (by simp) (by simp at hl ⊢; omega)
      have hlen : uCount + 1 ≠ len := by simp at hl; omega
      simp only [SerializeObject.loop, List.append_assoc, List.cons_append, List.nil_append,
        ne_eq] at ih ⊢
      simp only [Node.layoutChildren, Doc.membersText, List.isEmpty_cons, Bool.false_eq_true,
        if_false, symEncode_append, hd, hlen, if_true, List.append_nil, ne_eq, not_false_eq_true,
        symEncode_cons_ascii 0x2C _ (by omega : (0x2C : Nat) < 0x80),
        symEncode_cons_ascii 0x22 _ (by omega : (0x22 : Nat) < 0x80),
        symEncode_cons_ascii 0x3A _ (by omega : (0x3A : Nat) < 0x80), hsp, ← hk,
        symEncode_blank (memberIndent_blank cfg depth), List.append_assoc, List.cons_append,
        List.nil_append]
      rw [ih]
      simp only [Node.layoutChildren, List.append_assoc, List.singleton_append, List.cons_append,
        List.nil_append]
      rw [← List.append_assoc _ _ (0x22 :: _), memberIndent_eq]
end

end LayoutText
section SerializeCopy

variable {D : Type}

theorem Node.copyElements_length : ∀ es : List (Node D), (Node.copyElements es).length = es.length
  | [] => rfl
  | e :: es => by simp [Node.copyElements, Node.copyElements_length es]

theorem Node.copyChildren_length :
    ∀ ms : List (List Nat × Node D), (Node.copyChildren ms).length = ms.length
  | [] => rfl
  | (k, v) :: ms => by simp [Node.copyChildren, Node.copyChildren_length ms]

mutual
/-- The copy of a node that `ForEachMember` hands to the lambda serializes as the
node does: the serializer does not read `m_eElementType`. -/
theorem SerializeNode_copy (to_string : D → List Nat) (cfg : SerializerConfig) :
    ∀ (v : Node D) (depth : Nat),
      SerializeNode to_string cfg v.copy depth = SerializeNode to_string cfg v depth
  | .null, _ => rfl
  | .boolean _, _ => rfl
  | .number _, _ => rfl
  | .string _, _ => rfl
  | .array _ es, depth => by
    simp only [Node.copy, SerializeNode, Node.copyElements_length,
      SerializeArray_loop_copy to_string cfg es depth]
  | .object ms, depth => by
    simp only [Node.copy, SerializeNode, Node.copyChildren_length,
      SerializeObject_loop_copy to_string cfg ms depth]
theorem SerializeArray_loop_copy (to_string : D → List Nat) (cfg : SerializerConfig) :
    ∀ (es : List (Node D)) (depth len : Nat) (bFirst : Bool) (uCount : Nat),
      SerializeArray.loop to_string cfg (Node.copyElements es) depth len bFirst uCount
        = SerializeArray.loop to_string cfg es depth len bFirst uCount
  | [], _, _, _, _ => rfl
  | e :: es, depth, len, bFirst, uCount => by
    simp only [Node.copyElements, SerializeArray.loop, SerializeNode_copy to_string cfg e,
      SerializeArray_loop_copy to_string cfg es]
theorem SerializeObject_loop_copy (to_string : D → List Nat) (cfg : SerializerConfig) :
    ∀ (ms : List (List Nat × Node D)) (depth len uCount : Nat),
      SerializeObject.loop to_string cfg (Node.copyChildren ms) depth len uCount
        = SerializeObject.loop to_string cfg ms depth len uCount
  | [], _, _, _ => rfl
  | (k, v) :: ms, depth, len, uCount => by
    simp only [Node.copyChildren, SerializeObject.loop, SerializeNode_copy to_string cfg v,
      SerializeObject_loop_copy to_string cfg ms]
end

end SerializeCopy
section RoundTrip

variable {D : Type}

/-- C3, amended: for every value tree `v` that is an Array or an Object, no
higher than `m_uMaxDepth`, and portable, and for every `SerializerConfig`,
`Parse` on the NUL-terminated `Serialize(cfg, v)`, shorter than `SIZE_MAX`,
succeeds and leaves in `json` a node structurally equal to `v`. Portable means:
every string and key is a run of UTF-8 sequences that `Read` decodes, canonical
or overlong, each to a codepoint from 1 to 0x10FFFF, and among these codepoints
every `"` is escaped by a backslash and no escape is left pending at the end;
keys are not empty and the members come in the order of `std::map`; the
elements of each array have the type of the first; the text that
`SerializeNumber` writes for each number is not empty, holds only characters
from 0x01 to 0x7E that are no whitespace and none of `,` `]` `}`, starts with
none of `"` `t` `f` `n` `{` `[`, and `strtod` reads all of it as that number. -/
theorem C3_round_trip (strtod : List Nat → D × Nat) (to_string : D → List Nat)
    (cfg : SerializerConfig) (pcfg : ParserConfig) (v : Node D)
    (hv : v.portable strtod to_string) (htop : v.GetType = .Object ∨ v.GetType = .Array)
    (hd : v.height ≤ pcfg.m_uMaxDepth) (hlen : (Serialize to_string cfg v).length < SIZE_MAX)
    (tail e : List Nat) (json : Node D) (ht : tail.headD 0 = 0) (htb : ∀ b ∈ tail, b < 256) :
    ∃ n, Parse strtod pcfg (Serialize to_string cfg v ++ tail) json e
        = .ret ({ m_bSuccess := true, m_szMsg := [] }, n, e) ∧ Node.StructEq n v := by
  classical
  obtain ⟨dec, hdec⟩ : ∃ dec : List Nat → List Nat, Decodes dec :=
    ⟨fun s => if h : stringText s then Classical.choose h else [], fun s hs => by
      simp only [dif_pos hs]
      exact Classical.choose_spec hs⟩
  have htxt := Node.serialize_layout strtod to_string cfg dec hdec v 0 hv
  have hh := Node.layout_height to_string cfg dec v 0
  have h0 : v.height ≠ 0 := by
    cases v <;> simp [Node.GetType] at htop <;> simp [Node.height]
  have key := Parse_doc strtod pcfg (Node.layout to_string cfg dec v 0) [] [] tail e json
    (Node.layout_ok strtod to_string cfg dec hdec v 0 hv) (by rw [hh]; exact h0)
    (by rw [hh]; exact hd) Doc.blank_nil
    (by simpa using Node.layout_valid strtod to_string cfg dec hdec v 0 hv) ht htb (by
      have := length_le_symEncode (Node.layout to_string cfg dec v 0).text
        (Node.layout_valid strtod to_string cfg dec hdec v 0 hv)
      rw [htxt] at this
      unfold Serialize at hlen
      simp only [List.length_nil, Nat.zero_add]
      omega)
  simp only [List.nil_append, List.append_nil, htxt] at key
  exact ⟨_, key, Node.StructEq_of_copy _ _ (Node.layout_copy strtod to_string cfg dec hdec v 0 hv)⟩

/-- C3: trees on which the round trip fails, one for each condition of the
amended statement, with the stand-ins `strtodDigits` and `to_stringFixed` unless
another `to_string` is named. The Boolean `true` alone serializes to `true`, and
`Parse` accepts an array or an object only. The array `[[]]` is higher than
`m_uMaxDepth = 1`. In an array of one string: the string `a"b` has a quote that
is not escaped; the string `a\` leaves an escape pending, so that the closing
quote is escaped; the string `a`, NUL, `b` cuts the text at the NUL; the byte
`FF` is no UTF-8 sequence; the bytes `C0 A2` are an overlong sequence that the
iterator reads as a quote. The object with the empty key is rejected. In an
array of one number: when `to_string` writes `nan` the literal starts with `n`;
when it writes `1x`, `strtod` does not read all of it; when it writes `1,2` the
literal holds a terminator and two numbers are read; when it writes nothing the
array is read as empty; when it writes `2` for the number 1, another number is
read. The array of a number and a Boolean makes `Append` abort. -/
theorem C3_round_trip_fails :
    (Serialize to_stringFixed {} (Node.boolean true) = ascii "true" ∧
      Parse strtodDigits {} (Serialize to_stringFixed {} (Node.boolean true) ++ [0]) Node.null []
        = .ret ({ m_bSuccess := false,
                  m_szMsg := ascii "Malformed object, found 't' at position 0, expected start character" },
            Node.null, ascii "Malformed object, found 't' at position 0, expected start character")) ∧
    (Serialize to_stringFixed {} (.array .Array [.array .Null []] : Node Nat) = ascii "[[]]" ∧
      Parse strtodDigits { m_uMaxDepth := 1 }
          (Serialize to_stringFixed {} (.array .Array [.array .Null []] : Node Nat) ++ [0])
          Node.null []
        = .ret ({ m_bSuccess := false, m_szMsg := ascii "Too many nested spans at position 1" },
            Node.null, ascii "Too many nested spans at position 1")) ∧
    (Serialize to_stringFixed {} (.array .String [.string (ascii "a\"b")] : Node Nat)
        = ascii "[\"a\"b\"]" ∧
      Parse strtodDigits {}
          (Serialize to_stringFixed {} (.array .String [.string (ascii "a\"b")] : Node Nat) ++ [0])
          Node.null []
        = .ret ({ m_bSuccess := false,
                  m_szMsg := ascii "Malformed object, unexpected 'b' at position 4" },
            Node.null, ascii "Malformed object, unexpected 'b' at position 4")) ∧
    (Serialize to_stringFixed {} (.array .String [.string (ascii "a\\")] : Node Nat)
        = ascii "[\"a\\\"]" ∧
      Parse strtodDigits {}
          (Serialize to_stringFixed {} (.array .String [.string (ascii "a\\")] : Node Nat) ++ [0])
          Node.null []
        = .ret ({ m_bSuccess := false,
                  m_szMsg := ascii "Malformed object, unexpected '\"' at position 6" },
            Node.null, ascii "Malformed object, unexpected '\"' at position 6")) ∧
    (Parse strtodDigits {}
          (Serialize to_stringFixed {} (.array .String [.string [0x61, 0, 0x62]] : Node Nat) ++ [0])
          Node.null []
        = .ret ({ m_bSuccess := false,
                  m_szMsg := ascii "Malformed object, unexpected '\"' at position 3" },
            Node.null, ascii "Malformed object, unexpected '\"' at position 3")) ∧
    (Parse strtodDigits {}
          (Serialize to_stringFixed {} (.array .String [.string [0xFF]] : Node Nat) ++ [0])
          Node.null []
        = .ret ({ m_bSuccess := false,
                  m_szMsg := ascii "Malformed object, unexpected '\"' at position 2" },
            Node.null, ascii "Malformed object, unexpected '\"' at position 2")) ∧
    (Parse strtodDigits {}
          (Serialize to_stringFixed {} (.array .String [.string [0xC0, 0xA2]] : Node Nat) ++ [0])
          Node.null []
        = .ret ({ m_bSuccess := false,
                  m_szMsg := ascii "Malformed object, unexpected '\"' at position 3" },
            Node.null, ascii "Malformed object, unexpected '\"' at position 3")) ∧
    (Serialize to_stringFixed {} (.object [([], .number 1)] : Node Nat) = ascii "\x7b\"\":1\x7d" ∧
      Parse strtodDigits {}
          (Serialize to_stringFixed {} (.object [([], .number 1)] : Node Nat) ++ [0]) Node.null []
        = .ret ({ m_bSuccess := false, m_szMsg := ascii "Empty identifier at position 1" },
            Node.null, ascii "Empty identifier at position 1")) ∧
    (Serialize (fun _ => ascii "nan") {} (.array .Number [.number 1] : Node Nat) = ascii "[nan]" ∧
      Parse strtodDigits {}
          (Serialize (fun _ => ascii "nan") {} (.array .Number [.number 1] : Node Nat) ++ [0])
          Node.null []
        = .ret ({ m_bSuccess := false,
                  m_szMsg := ascii "Malformed object, unexpected 'n' at position 1" },
            Node.null, ascii "Malformed object, unexpected 'n' at position 1")) ∧
    (Parse strtodDigits {}
          (Serialize (fun _ => ascii "1x") {} (.array .Number [.number 1] : Node Nat) ++ [0])
          Node.null []
        = .ret ({ m_bSuccess := false, m_szMsg := ascii "Failed to parse literal at position 1" },
            Node.null, ascii "Failed to parse literal at position 1")) ∧
    (Parse strtodDigits {}
          (Serialize (fun _ => ascii "1,2") {} (.array .Number [.number 1] : Node Nat) ++ [0])
          Node.null []
        = .ret ({ m_bSuccess := true, m_szMsg := [] },
            .array .Number [.number 1, .number 2], []) ∧
      ¬ Node.StructEq (.array .Number [.number 1, .number 2] : Node Nat)
          (.array .Number [.number 1])) ∧
    (Parse strtodDigits {}
          (Serialize (fun _ => []) {} (.array .Number [.number 1] : Node Nat) ++ [0])
          Node.null []
        = .ret ({ m_bSuccess := true, m_szMsg := [] }, .array .Null [], []) ∧
      ¬ Node.StructEq (.array .Null [] : Node Nat) (.array .Number [.number 1])) ∧
    (Parse strtodDigits {}
          (Serialize (fun _ => ascii "2") {} (.array .Number [.number 1] : Node Nat) ++ [0])
          Node.null []
        = .ret ({ m_bSuccess := true, m_szMsg := [] }, .array .Number [.number 2], []) ∧
      ¬ Node.StructEq (.array .Number [.number 2] : Node Nat) (.array .Number [.number 1])) ∧
    (Serialize to_stringFixed {} (.array .Number [.number 1, .boolean true] : Node Nat)
        = ascii "[1,true]" ∧
      (Parse strtodDigits {}
          (Serialize to_stringFixed {} (.array .Number [.number 1, .boolean true] : Node Nat)
            ++ [0]) Node.null []).bind (fun _ => .ret ()) = .abort) :=
  ⟨⟨by decide, eq_of_returns (by decide!)⟩, ⟨by decide, eq_of_returns (by decide!)⟩,
    ⟨by decide, eq_of_returns (by decide!)⟩, ⟨by decide, eq_of_returns (by decide!)⟩,
    eq_of_returns (by decide!), eq_of_returns (by decide!), eq_of_returns (by decide!),
    ⟨by decide, eq_of_returns (by decide!)⟩, ⟨by decide, eq_of_returns (by decide!)⟩,
    eq_of_returns (by decide!),
    ⟨eq_of_returns (by decide!), by simp [Node.StructEq, Node.StructEqElements]⟩,
    ⟨eq_of_returns (by decide!), by simp [Node.StructEq, Node.StructEqElements]⟩,
    ⟨eq_of_returns (by decide!), by simp [Node.StructEq, Node.StructEqElements]⟩,
    ⟨by decide, by decide!⟩⟩

end RoundTrip
theorem stringText_ascii (s : List Nat) (h : ∀ c ∈ s, 1 ≤ c ∧ c < 0x80 ∧ c ≠ 0x22 ∧ c ≠ 0x5C) :
    stringText s :=
  ⟨s, (symEncode_ascii s (fun c hc => (h c hc).2.1)).symm, by
    rw [map_symCode_of_lt s (fun c hc => by have := (h c hc).2.1; omega)]
    exact Doc.quotable_of_plain s (fun c hc => (h c hc).2.2),
    fun c hc => Sym.of_valid ⟨(h c hc).1, by have := (h c hc).2.1; omega⟩⟩

/-- Witness of C3 as amended: the object with the members `a`, the number 1,
`b`, the array of `true` and `false`, and `c`, the string of the bytes
`61 5C 22 C1 A1`, that is `a`, an escaped quote and the overlong sequence that
`Read` decodes as `a`, serialized in the fancy layout, with the stand-ins
`strtodDigits` and `to_stringFixed`. -/
theorem C3_round_trip_witness :
    (Node.object [(ascii "a", .number 1),
        (ascii "b", .array .Boolean [.boolean true, .boolean false]),
        (ascii "c", .string [0x61, 0x5C, 0x22, 0xC1, 0xA1])] : Node Nat).portable
      strtodDigits to_stringFixed ∧
    ((Node.object [(ascii "a", .number 1),
        (ascii "b", .array .Boolean [.boolean true, .boolean false]),
        (ascii "c", .string [0x61, 0x5C, 0x22, 0xC1, 0xA1])] : Node Nat).GetType = .Object ∨
      (Node.object [(ascii "a", .number 1),
        (ascii "b", .array .Boolean [.boolean true, .boolean false]),
        (ascii "c", .string [0x61, 0x5C, 0x22, 0xC1, 0xA1])] : Node Nat).GetType = .Array) ∧
    (Node.object [(ascii "a", .number 1),
        (ascii "b", .array .Boolean [.boolean true, .boolean false]),
        (ascii "c", .string [0x61, 0x5C, 0x22, 0xC1, 0xA1])] : Node Nat).height
      ≤ ({} : ParserConfig).m_uMaxDepth ∧
    (Serialize to_stringFixed { m_bFancy := true } (Node.object [(ascii "a", .number 1),
        (ascii "b", .array .Boolean [.boolean true, .boolean false]),
        (ascii "c", .string [0x61, 0x5C, 0x22, 0xC1, 0xA1])] : Node Nat)).length
      < SIZE_MAX ∧
    ([0] : List Nat).headD 0 = 0 ∧ (∀ b ∈ ([0] : List Nat), b < 256) ∧
    ∃ n, Parse strtodDigits {}
        (Serialize to_stringFixed { m_bFancy := true } (Node.object [(ascii "a", .number 1),
        (ascii "b", .array .Boolean [.boolean true, .boolean false]),
        (ascii "c", .string [0x61, 0x5C, 0x22, 0xC1, 0xA1])] : Node Nat) ++ [0])
        Node.null []
        = .ret ({ m_bSuccess := true, m_szMsg := [] }, n, []) ∧
      Node.StructEq n (Node.object [(ascii "a", .number 1),
        (ascii "b", .array .Boolean [.boolean true, .boolean false]),
        (ascii "c", .string [0x61, 0x5C, 0x22, 0xC1, 0xA1])] : Node Nat) := by
  have e1 : SerializeNumber to_stringFixed 1 = [0x31] := by decide
  have hn : (Node.number 1 : Node Nat).portable strtodDigits to_stringFixed := by
    simp only [Node.portable, e1]
    exact ⟨⟨by decide, by decide, by decide, by decide, by decide, by decide, by decide,
      by decide, by decide⟩, by decide⟩
  have hs : stringText [0x61, 0x5C, 0x22, 0xC1, 0xA1] :=
    ⟨[0x61, 0x5C, 0x22, 0x200061], by decide, by unfold Doc.quotable; decide, by decide⟩
  have hv : (Node.object [(ascii "a", .number 1),
        (ascii "b", .array .Boolean [.boolean true, .boolean false]),
        (ascii "c", .string [0x61, 0x5C, 0x22, 0xC1, 0xA1])] : Node Nat).portable
      strtodDigits to_stringFixed := by
    refine ⟨by unfold sortedKeys; decide, by decide, stringText_ascii _ (by decide), hn,
      by decide, stringText_ascii _ (by decide), ?_, by decide, stringText_ascii _ (by decide),
      hs, trivial⟩
    exact ⟨trivial, rfl, trivial, rfl, trivial⟩
  have hl : (Serialize to_stringFixed { m_bFancy := true } (Node.object [(ascii "a", .number 1),
        (ascii "b", .array .Boolean [.boolean true, .boolean false]),
        (ascii "c", .string [0x61, 0x5C, 0x22, 0xC1, 0xA1])] : Node Nat)).length
      < SIZE_MAX := by decide
  exact ⟨hv, Or.inl rfl, by decide, hl, rfl, by decide,
    C3_round_trip strtodDigits to_stringFixed { m_bFancy := true } {} _ hv (Or.inl rfl)
      (by decide) hl [0] [] Node.null rfl (by decide)⟩

/-! ### Advance against Read -/

/-- C11, amended: on an iterator whose cache is sound, over a buffer of bytes,
`Advance` returns false exactly at the end of the buffer, at a byte that is no
lead of a sequence of one to four bytes, and at a sequence cut by the end of the
buffer; in each of these cases `Read` returns 0. -/
theorem C11_Advance_fails_iff (it : UTF8Iterator) (hb : ∀ b ∈ it.buf, b < 256)
    (hc : it.CacheOk) :
    (it.Advance.1 = false ↔
      it.endp ≤ it.units ∨ leadLen (it.unit 0) = 0 ∨ it.endp < it.units + leadLen (it.unit 0)) ∧
    (it.Advance.1 = false → it.Read.1 = 0) := by
  have hn : it.refresh.n = leadLen (it.unit 0) := by
    rw [UTF8Iterator.refresh_n it hc, UTF8Iterator.ReadCodepointBytes_eq_leadLen it hb]
  have hiff : it.Advance.1 = false ↔
      it.endp ≤ it.units ∨ leadLen (it.unit 0) = 0 ∨ it.endp < it.units + leadLen (it.unit 0) := by
    unfold UTF8Iterator.Advance
    by_cases h1 : it.units ≥ it.endp
    · simp [h1]
    · rw [if_neg h1]
      simp only [hn, UTF8Iterator.refresh_units, UTF8Iterator.refresh_endp]
      by_cases h2 : leadLen (it.unit 0) = 0
      · simp [h2]
      · rw [if_neg h2]
        by_cases h3 : it.units + leadLen (it.unit 0) > it.endp
        · simp [h3]
        · rw [if_neg h3]
          simp only [Bool.true_eq_false, false_iff, not_or, not_le, not_lt]
          omega
  refine ⟨hiff, fun h => ?_⟩
  rw [UTF8Iterator.Read_fst it hb hc, UTF8Iterator.readSpec_unit]
  rcases hiff.1 h with h1 | h2 | h3
  · rw [if_pos h1]
  · rw [if_pos h2, ite_self]
  · rw [if_pos h3, ite_self, ite_self]

/-- Witness of C11 as amended: the iterator that the constructor builds over the
byte `C3` alone, a sequence cut by the end of the buffer. -/
theorem C11_Advance_fails_iff_witness :
    (∀ b ∈ (UTF8Iterator.new [0xC3, 0]).buf, b < 256) ∧ (UTF8Iterator.new [0xC3, 0]).CacheOk ∧
    (((UTF8Iterator.new [0xC3, 0]).Advance.1 = false ↔
      (UTF8Iterator.new [0xC3, 0]).endp ≤ (UTF8Iterator.new [0xC3, 0]).units ∨
        leadLen ((UTF8Iterator.new [0xC3, 0]).unit 0) = 0 ∨
        (UTF8Iterator.new [0xC3, 0]).endp
          < (UTF8Iterator.new [0xC3, 0]).units + leadLen ((UTF8Iterator.new [0xC3, 0]).unit 0)) ∧
      ((UTF8Iterator.new [0xC3, 0]).Advance.1 = false → (UTF8Iterator.new [0xC3, 0]).Read.1 = 0)) :=
  ⟨by decide, UTF8Iterator.CacheOk_new _,
    C11_Advance_fails_iff (UTF8Iterator.new [0xC3, 0]) (by decide) (UTF8Iterator.CacheOk_new _)⟩

/-- C11: over the bytes `C3 28`, a lead byte of a sequence of two followed by a
byte that is no continuation byte, `Read` returns 0 and `Advance` returns true,
moving past both bytes. -/
theorem C11_Advance_skips_bad_continuation :
    (UTF8Iterator.new [0xC3, 0x28, 0]).Read.1 = 0 ∧
    (UTF8Iterator.new [0xC3, 0x28, 0]).Advance.1 = true ∧
    (UTF8Iterator.new [0xC3, 0x28, 0]).Advance.2.units = 2 ∧
    ¬ ((UTF8Iterator.new [0xC3, 0x28, 0]).Advance.1 = false ↔
      (UTF8Iterator.new [0xC3, 0x28, 0]).Read.1 = 0) := by
  decide
/-! ### UTF16Iterator -/

namespace UTF16Iterator

theorem high_bits (u : Nat) (h : isHighSurrogate u) :
    u >>> 11 = 0x1B ∧ u &&& (1 <<< 10) = 0 ∧ u &&& 0x3FF = u - 0xD800 := by
  obtain ⟨h1, h2⟩ := h
  refine ⟨?_, ?_, ?_⟩
  · rw [Nat.shiftRight_eq_div_pow]; omega
  · have := Nat.and_two_pow u 10
    rw [show (1 <<< 10 : Nat) = 2 ^ 10 by rfl, this, Nat.testBit_to_div_mod]
    simp
    omega
  · rw [show (0x3FF : Nat) = 2 ^ 10 - 1 by rfl, Nat.and_pow_two_sub_one_eq_mod]; omega

theorem low_bits (u : Nat) (h : isLowSurrogate u) :
    u >>> 11 = 0x1B ∧ u &&& (1 <<< 10) ≠ 0 ∧ u >>> 10 = 0x37 ∧ u &&& 0x3FF = u - 0xDC00 := by
  obtain ⟨h1, h2⟩ := h
  refine ⟨?_, ?_, ?_, ?_⟩
  · rw [Nat.shiftRight_eq_div_pow]; omega
  · have := Nat.and_two_pow u 10
    rw [show (1 <<< 10 : Nat) = 2 ^ 10 by rfl, this, Nat.testBit_to_div_mod]
    simp
    omega
  · rw [Nat.shiftRight_eq_div_pow]; omega
  · rw [show (0x3FF : Nat) = 2 ^ 10 - 1 by rfl, Nat.and_pow_two_sub_one_eq_mod]; omega

theorem low_iff (u : Nat) : u >>> 10 = 0x37 ↔ isLowSurrogate u := by
  unfold isLowSurrogate
  rw [Nat.shiftRight_eq_div_pow]; omega

/-- The body of `Advance` inside the buffer, over the units in the byte order of
the reader. -/
theorem Advance_inside (it : UTF16Iterator) (hin : it.units < it.endp) :
    it.Advance =
      if it.value 0 >>> 11 = 0x1B then
        if it.value 0 &&& (1 <<< 10) = 0 ∧ it.units + 1 < it.endp then
          if it.value 1 >>> 10 = 0x37 then
            (if (((it.value 0 &&& 0x3FF) <<< 10) ||| (it.value 1 &&& 0x3FF) ||| (1 <<< 16)) % 2 ^ 32
                ≤ 0x10FFFF
              then (((it.value 0 &&& 0x3FF) <<< 10) ||| (it.value 1 &&& 0x3FF) ||| (1 <<< 16)) % 2 ^ 32
              else 0, 2, { it with units := it.units + 2 })
          else
            (if it.value 0 &&& 0x3FF ≤ 0x10FFFF then it.value 0 &&& 0x3FF else 0, 1,
              { it with units := it.units + 1 })
        else
          (if it.value 0 &&& 0x3FF ≤ 0x10FFFF then it.value 0 &&& 0x3FF else 0, 1,
            { it with units := it.units + 1 })
      else
        (if it.value 0 ≤ 0x10FFFF then it.value 0 else 0, 1, { it with units := it.units + 1 }) := by
  unfold Advance value
  rw [if_neg (by omega)]
  simp only [decide_eq_true_eq]

/-- The branch of `Advance` on a surrogate pair, with `|` for the last step. -/
theorem Advance_pair (it : UTF16Iterator) (hin : it.units + 1 < it.endp)
    (hh : isHighSurrogate (it.value 0)) (hl : isLowSurrogate (it.value 1)) :
    it.Advance = ((((it.value 0 - 0xD800) * 2 ^ 10 + (it.value 1 - 0xDC00)) ||| 2 ^ 16), 2,
      { it with units := it.units + 2 }) := by
  obtain ⟨a1, a2, a3⟩ := high_bits _ hh
  obtain ⟨b1, b2, b3, b4⟩ := low_bits _ hl
  have hlt : it.value 0 - 0xD800 < 2 ^ 10 := by unfold isHighSurrogate at hh; omega
  have hlt2 : it.value 1 - 0xDC00 < 2 ^ 10 := by unfold isLowSurrogate at hl; omega
  have hor := or_low (it.value 0 - 0xD800) (it.value 1 - 0xDC00) 10 hlt2
  have hbound : ((it.value 0 - 0xD800) * 2 ^ 10 + (it.value 1 - 0xDC00)) ||| 2 ^ 16 < 2 ^ 20 := by
    apply Nat.or_lt_two_pow
    · omega
    · omega
  rw [Advance_inside it (by omega), if_pos a1, if_pos ⟨a2, hin⟩, if_pos b3, a3, b4,
    Nat.shiftLeft_eq, hor, show (1 <<< 16 : Nat) = 2 ^ 16 by rfl,
    Nat.mod_eq_of_lt (by omega), if_pos (by omega)]

/-- The branch of `Advance` on a surrogate that is not the first of a pair. -/
theorem Advance_lone (it : UTF16Iterator) (hin : it.units < it.endp)
    (h : (isHighSurrogate (it.value 0) ∧ ¬ (it.units + 1 < it.endp ∧ isLowSurrogate (it.value 1))) ∨
      isLowSurrogate (it.value 0)) :
    it.Advance = (it.value 0 &&& 0x3FF, 1, { it with units := it.units + 1 }) := by
  have hm : it.value 0 &&& 0x3FF ≤ 0x10FFFF := by
    have := Nat.and_le_right (n := it.value 0) (m := 0x3FF)
    omega
  rw [Advance_inside it hin]
  rcases h with ⟨hh, hn⟩ | hl
  · obtain ⟨a1, a2, a3⟩ := high_bits _ hh
    rw [if_pos a1, if_pos hm]
    by_cases h1 : it.units + 1 < it.endp
    · rw [if_pos ⟨a2, h1⟩, if_neg (fun hc => hn ⟨h1, (low_iff _).1 hc⟩)]
    · rw [if_neg (fun hc => h1 hc.2)]
  · obtain ⟨b1, b2, b3, b4⟩ := low_bits _ hl
    rw [if_pos b1, if_neg (fun hc => b2 hc.1), if_pos hm]

theorem or_bit16 (x : Nat) :
    x ||| 2 ^ 16 = x / 2 ^ 17 * 2 ^ 17 + 2 ^ 16 + x % 2 ^ 16 := by
  have hr : x % 2 ^ 16 < 2 ^ 16 := Nat.mod_lt _ (by omega)
  have hb : x / 2 ^ 16 % 2 = 0 ∨ x / 2 ^ 16 % 2 = 1 := by omega
  have hx : x = x / 2 ^ 17 * 2 ^ 17 + (x / 2 ^ 16 % 2 * 2 ^ 16 + x % 2 ^ 16) := by omega
  have s1 := or_low (x / 2 ^ 16 % 2) (x % 2 ^ 16) 16 hr
  have s2 := or_low (x / 2 ^ 17) (x / 2 ^ 16 % 2 * 2 ^ 16 + x % 2 ^ 16) 17 (by omega)
  have s3 : x / 2 ^ 16 % 2 * 2 ^ 16 ||| 2 ^ 16 = 1 * 2 ^ 16 := by
    rcases hb with h | h <;> rw [h] <;> rfl
  have s4 := or_low 1 (x % 2 ^ 16) 16 hr
  have s5 := or_low (x / 2 ^ 17) (1 * 2 ^ 16 + x % 2 ^ 16) 17 (by omega)
  have e : x ||| 2 ^ 16 =
      x / 2 ^ 17 * 2 ^ 17 ||| ((x / 2 ^ 16 % 2 * 2 ^ 16 ||| 2 ^ 16) ||| x % 2 ^ 16) := by
    conv_lhs => rw [hx, ← s2, ← s1]
    rw [Nat.or_assoc, Nat.or_assoc, Nat.or_comm (x % 2 ^ 16), ← Nat.or_assoc (x / 2 ^ 16 % 2 * 2 ^ 16)]
  rw [e, s3, s4, s5]
  omega

/-- The value that `Advance` returns on a surrogate pair: the one of the pair
where bit 6 of the high surrogate is clear, and `10000` less where it is set. -/
theorem Advance_pair_value (it : UTF16Iterator) (hin : it.units + 1 < it.endp)
    (hh : isHighSurrogate (it.value 0)) (hl : isLowSurrogate (it.value 1)) :
    it.Advance.1 =
      if it.value 0 / 64 % 2 = 0 then pairCodepoint (it.value 0) (it.value 1)
      else pairCodepoint (it.value 0) (it.value 1) - 0x10000 := by
  rw [Advance_pair it hin hh hl]
  unfold pairCodepoint
  obtain ⟨h1, h2⟩ := hh
  obtain ⟨l1, l2⟩ := hl
  generalize it.value 0 = h at *
  generalize it.value 1 = l at *
  simp only [Nat.shiftLeft_eq]
  rw [or_bit16]
  split_ifs <;> omega

end UTF16Iterator

/-- C12: over the units `FEFF D840 DC00`, once the constructor has stepped over
the first unit, `Advance` returns `10000` for the high surrogate `D840` followed
by the low surrogate `DC00`, a pair that stands for the codepoint `20000`. -/
theorem C12_pair_D840_DC00 :
    (UTF16Iterator.new [0xFEFF, 0xD840, 0xDC00, 0]).value 0 = 0xD840 ∧
    (UTF16Iterator.new [0xFEFF, 0xD840, 0xDC00, 0]).value 1 = 0xDC00 ∧
    isHighSurrogate 0xD840 ∧ isLowSurrogate 0xDC00 ∧
    (UTF16Iterator.new [0xFEFF, 0xD840, 0xDC00, 0]).Advance.1 = 0x10000 ∧
    pairCodepoint 0xD840 0xDC00 = 0x20000 :=
  ⟨by decide, by decide, by unfold isHighSurrogate; decide, by unfold isLowSurrogate; decide,
    by decide, by decide⟩

/-- C13: at a position inside the buffer, `Advance` on a high surrogate followed
inside the buffer by a low surrogate leaves 2 in the out-parameter, moves two
units on and returns a codepoint above `FFFF`; on a high surrogate that no low
surrogate follows, and on a low surrogate, it leaves 1 in the out-parameter,
moves one unit on and returns the unit masked to its low 10 bits. -/
theorem C13_surrogate_units (it : UTF16Iterator) (hin : it.units < it.endp) :
    (isHighSurrogate (it.value 0) → it.units + 1 < it.endp → isLowSurrogate (it.value 1) →
      it.Advance.2.1 = 2 ∧ it.Advance.2.2.units = it.units + 2 ∧ 0xFFFF < it.Advance.1) ∧
    ((isHighSurrogate (it.value 0) ∧ ¬ (it.units + 1 < it.endp ∧ isLowSurrogate (it.value 1))) ∨
        isLowSurrogate (it.value 0) →
      it.Advance.2.1 = 1 ∧ it.Advance.2.2.units = it.units + 1 ∧
        it.Advance.1 = it.value 0 &&& 0x3FF) := by
  refine ⟨fun hh h1 hl => ?_, fun h => ?_⟩
  · rw [UTF16Iterator.Advance_pair it h1 hh hl]
    refine ⟨rfl, rfl, ?_⟩
    show 0xFFFF < _ ||| 2 ^ 16
    rw [UTF16Iterator.or_bit16]
    omega
  · rw [UTF16Iterator.Advance_lone it hin h]
    exact ⟨rfl, rfl, rfl⟩

/-- Witness of C13: the pair `D83D DE00`, the high surrogate `D83D` before the
unit `0041`, and the low surrogate `DE00`, each after a first unit `FEFF`. -/
theorem C13_surrogate_units_witness :
    ((UTF16Iterator.new [0xFEFF, 0xD83D, 0xDE00, 0]).units
        < (UTF16Iterator.new [0xFEFF, 0xD83D, 0xDE00, 0]).endp ∧
      (UTF16Iterator.new [0xFEFF, 0xD83D, 0xDE00, 0]).Advance.2.1 = 2 ∧
      (UTF16Iterator.new [0xFEFF, 0xD83D, 0xDE00, 0]).Advance.2.2.units = 1 + 2 ∧
      0xFFFF < (UTF16Iterator.new [0xFEFF, 0xD83D, 0xDE00, 0]).Advance.1) ∧
    ((UTF16Iterator.new [0xFEFF, 0xD83D, 0x41, 0]).Advance.2.1 = 1 ∧
      (UTF16Iterator.new [0xFEFF, 0xD83D, 0x41, 0]).Advance.2.2.units = 1 + 1 ∧
      (UTF16Iterator.new [0xFEFF, 0xD83D, 0x41, 0]).Advance.1 = 0xD83D &&& 0x3FF) ∧
    ((UTF16Iterator.new [0xFEFF, 0xDE00, 0]).Advance.2.1 = 1 ∧
      (UTF16Iterator.new [0xFEFF, 0xDE00, 0]).Advance.2.2.units = 1 + 1 ∧
      (UTF16Iterator.new [0xFEFF, 0xDE00, 0]).Advance.1 = 0xDE00 &&& 0x3FF) :=
  ⟨⟨by decide,
      (C13_surrogate_units (UTF16Iterator.new [0xFEFF, 0xD83D, 0xDE00, 0]) (by decide)).1
        (show isHighSurrogate 0xD83D by unfold isHighSurrogate; decide) (by decide)
        (show isLowSurrogate 0xDE00 by unfold isLowSurrogate; decide)⟩,
    (C13_surrogate_units (UTF16Iterator.new [0xFEFF, 0xD83D, 0x41, 0]) (by decide)).2
      (Or.inl ⟨show isHighSurrogate 0xD83D by unfold isHighSurrogate; decide,
        fun h => absurd h.2 (show ¬ isLowSurrogate 0x41 by unfold isLowSurrogate; decide)⟩),
    (C13_surrogate_units (UTF16Iterator.new [0xFEFF, 0xDE00, 0]) (by decide)).2
      (Or.inr (show isLowSurrogate 0xDE00 by unfold isLowSurrogate; decide))⟩

/-! ### The accessors of Node -/

section Accessors

variable {D : Type}

/-- C15: on an object that holds the String `s` under the key `k`, the
string-returning `GetOrDefault` with the key `k` returns the fallback `d` and not
`s`; on an object that holds a Boolean under `k` it aborts. Both overloads test
the stored node for `Boolean` before they call `GetString`. -/
theorem C15_GetOrDefault_string_tests_Boolean (k s d : List Nat) (b : Bool) :
    (Node.Object : Node D).Set k (.string s) = .ret (.object [(k, .string s)]) ∧
    (Node.object [(k, .string s)] : Node D).GetOrDefaultString k d = .ret d ∧
    (Node.object [(k, .boolean b)] : Node D).GetOrDefaultString k d = .abort ∧
    (Node.object [(k, .string s)] : Node D).GetOrDefaultCStr k d = .ret (d.take (strlen d)) ∧
    (Node.object [(k, .boolean b)] : Node D).GetOrDefaultCStr k d = .abort := by
  refine ⟨?_, ?_, ?_, ?_, ?_⟩
  · simp [Node.Object, Node.Set, mapAssign, Node.copy]
  · simp [Node.GetOrDefaultString, Node.Get, Outcome.bind, Node.GetType]
  · simp [Node.GetOrDefaultString, Node.Get, Outcome.bind, Node.GetType, Node.GetString]
  · simp [Node.GetOrDefaultCStr, Node.Get, Outcome.bind, Node.GetType]
  · simp [Node.GetOrDefaultCStr, Node.Get, Outcome.bind, Node.GetType, Node.GetString]

/-- On an object, the overloads of `GetOrDefault` for `bool` and `double` return
the stored value of their type, and the fallback otherwise. -/
theorem Node.GetOrDefault_scalar (ms : List (List Nat × Node D)) (k : List Nat) (b : Bool)
    (x : D) :
    (Node.object ms).GetOrDefaultBool k b
      = .ret (match (ms.find? fun m => decide (m.1 = k)).map Prod.snd with
        | some (.boolean v) => v
        | _ => b) ∧
    (Node.object ms).GetOrDefaultNumber k x
      = .ret (match (ms.find? fun m => decide (m.1 = k)).map Prod.snd with
        | some (.number v) => v
        | _ => x) := by
  constructor
  · simp only [Node.GetOrDefaultBool, Node.Get, Outcome.ret_bind]
    cases h : (ms.find? fun m => decide (m.1 = k)).map Prod.snd with
    | none => rfl
    | some n => cases n <;> simp [Node.GetType, Node.GetBool]
  · simp only [Node.GetOrDefaultNumber, Node.Get, Outcome.ret_bind]
    cases h : (ms.find? fun m => decide (m.1 = k)).map Prod.snd with
    | none => rfl
    | some n => cases n <;> simp [Node.GetType, Node.GetNumber]

/-- The member `Append` keeps an array uniform. -/
theorem Node.Uniform_Append (self n r : Node D) (hs : self.Uniform) (h : self.Append n = .ret r) :
    r.Uniform := by
  cases self with
  | array et es =>
    simp only [Node.Append] at h
    by_cases hty : n.GetType ≠ (if es.isEmpty = true then n.GetType else et)
    · rw [if_pos hty] at h
      exact absurd h (by simp)
    · rw [if_neg hty] at h
      simp only [Outcome.ret.injEq] at h
      subst h
      cases es with
      | nil =>
        simp [Node.Uniform, Node.copy_GetType]
      | cons e es =>
        obtain ⟨h1, -⟩ := hs
        obtain ⟨hall, het⟩ := h1 (by simp)
        simp only [List.isEmpty_cons, Bool.false_eq_true, if_false, ne_eq, not_not] at hty
        simp only [List.headD_cons] at hall het
        refine ⟨fun _ => ⟨?_, ?_⟩, fun hc => by simp at hc⟩
        · intro x hx
          simp only [List.cons_append, List.headD_cons]
          simp only [List.cons_append, List.mem_cons, List.mem_append, List.mem_singleton,
            List.not_mem_nil, or_false] at hx
          rcases hx with rfl | hx | rfl
          · rfl
          · exact hall x (by simp [hx])
          · rw [Node.copy_GetType, hty, het]
        · simpa using het
  | null | boolean _ | number _ | string _ | object _ => simp [Node.Append] at h

/-- The member `Remove` keeps an array uniform. -/
theorem Node.Uniform_Remove (self r : Node D) (i : Nat) (hs : self.Uniform)
    (h : self.Remove i = .ret r) : r.Uniform := by
  cases self with
  | array et es =>
    simp only [Node.Remove] at h
    by_cases hi : i < es.length
    · rw [if_pos hi] at h
      simp only [Outcome.ret.injEq] at h
      subst h
      have hne : es ≠ [] := by
        intro hc
        rw [hc] at hi
        exact absurd hi (by simp)
      obtain ⟨hall, het⟩ := hs.1 hne
      have hsub : ∀ x ∈ es.eraseIdx i, x.GetType = et := fun x hx =>
        (hall x (List.mem_of_mem_eraseIdx hx)).trans het.symm
      cases hr : es.eraseIdx i with
      | nil => simp [Node.Uniform]
      | cons e es' =>
        rw [hr] at hsub
        refine ⟨fun _ => ⟨fun x hx => ?_, ?_⟩, fun hc => by simp at hc⟩
        · simp only [List.headD_cons]
          rw [hsub x hx, hsub e (by simp)]
        · simp only [List.isEmpty_cons, Bool.false_eq_true, if_false, List.headD_cons]
          exact (hsub e (by simp)).symm
    · rw [if_neg hi] at h
      exact absurd h (by simp)
  | null | boolean _ | number _ | string _ | object _ => simp [Node.Remove] at h

/-- The copy of a node has the `Type` of the node, and the copy of an array its
length; `m_eElementType` of the copy is `Null`. -/
theorem Node.copy_array (et : NodeType) (es : List (Node D)) :
    (Node.array et es).copy.GetType = .Array ∧
    (Node.array et es).copy.Length = .ret es.length ∧
    (Node.array et es).copy.GetElementType = .ret .Null := by
  refine ⟨by simp [Node.copy, Node.GetType], ?_, by simp [Node.copy, Node.GetElementType]⟩
  simp [Node.copy, Node.Length, Node.copyElements_length]

end Accessors

/-- C16: `Insert` of a Boolean at the front of the array that `Append` made of
one Number returns normally; the array then holds a Boolean before a Number and
`GetElementType` is `Number`. `Insert` into the empty array leaves
`GetElementType` at `Null` over one Number. -/
theorem C16_Insert_skips_type_check :
    ((Node.Array : Node Nat).Append (.number 1)).bind (fun a => a.Insert 0 (.boolean true))
      = .ret (.array .Number [.boolean true, .number 1]) ∧
    (Node.array .Number [.boolean true, .number 1] : Node Nat).GetElementType = .ret .Number ∧
    ((Node.array .Number [.boolean true, .number 1] : Node Nat).At 0).bind
        (fun e => .ret e.GetType) = .ret NodeType.Boolean ∧
    ((Node.array .Number [.boolean true, .number 1] : Node Nat).At 1).bind
        (fun e => .ret e.GetType) = .ret NodeType.Number ∧
    ¬ (Node.array .Number [.boolean true, .number 1] : Node Nat).Uniform ∧
    (Node.Array : Node Nat).Insert 0 (.number 1) = .ret (.array .Null [.number 1]) ∧
    (Node.array .Null [.number 1] : Node Nat).GetElementType = .ret .Null ∧
    ¬ (Node.array .Null [.number 1] : Node Nat).Uniform := by
  refine ⟨?_, ?_, ?_, ?_, ?_, ?_, ?_, ?_⟩
  · simp [Node.Array, Node.Append, Node.Insert, Outcome.bind, Node.GetType, Node.copy]
  · rfl
  · rfl
  · rfl
  · simp [Node.Uniform, Node.GetType]
  · simp [Node.Array, Node.Insert, Node.copy]
  · rfl
  · simp [Node.Uniform, Node.GetType]

/-- C17: the copy of the array that `Append` made of one Number answers `Null` to
`GetElementType` where the array answers `Number`, and aborts on the `Append` of
a second Number, which the array accepts. -/
theorem C17_copy_drops_element_type :
    (Node.Array : Node Nat).Append (.number 1) = .ret (.array .Number [.number 1]) ∧
    (Node.array .Number [.number 1] : Node Nat).GetElementType = .ret .Number ∧
    (Node.array .Number [.number 1] : Node Nat).copy.GetElementType = .ret .Null ∧
    (Node.array .Number [.number 1] : Node Nat).Append (.number 2)
      = .ret (.array .Number [.number 1, .number 2]) ∧
    (Node.array .Number [.number 1] : Node Nat).copy.Append (.number 2) = .abort := by
  refine ⟨?_, ?_, ?_, ?_, ?_⟩
  · simp [Node.Array, Node.Append, Node.GetType, Node.copy]
  · rfl
  · rfl
  · simp [Node.Append, Node.GetType, Node.copy]
  · simp [Node.Append, Node.GetType, Node.copy, Node.copyElements]

/-- C18: on a node whose type is not `Boolean`, `Number` or `String`, `GetBool`,
`GetNumber` and `GetString` abort; on a node that is no Object, `Get`, `Set`,
every overload of `GetOrDefault`, both forms of `ForEachMember` and
`GetNumMembers` abort; on a node that is no Array, `Length`, `At`, `Append`,
`Insert`, `Remove`, `GetElementType` and both forms of `ForEachElement` abort. -/
theorem C18_accessors_abort_on_mismatch {D σ : Type} (n x : Node D) (k d : List Nat) (b : Bool)
    (y : D) (i : Nat) (s : σ) (f : σ → List Nat → Node D → σ × Node D)
    (g : σ → List Nat → Node D → σ) (p : σ → Node D → σ × Node D) (q : σ → Node D → σ) :
    (n.GetType ≠ .Boolean → n.GetBool = .abort) ∧
    (n.GetType ≠ .Number → n.GetNumber = .abort) ∧
    (n.GetType ≠ .String → n.GetString = .abort) ∧
    (n.GetType ≠ .Object →
      n.Get k = .abort ∧ n.Set k x = .abort ∧ n.GetOrDefaultBool k b = .abort ∧
      n.GetOrDefaultNumber k y = .abort ∧ n.GetOrDefaultString k d = .abort ∧
      n.GetOrDefaultCStr k d = .abort ∧ n.ForEachMember f s = .abort ∧
      n.ForEachMemberConst g s = .abort ∧ n.GetNumMembers = .abort) ∧
    (n.GetType ≠ .Array →
      n.Length = .abort ∧ n.At i = .abort ∧ n.Append x = .abort ∧ n.Insert i x = .abort ∧
      n.Remove i = .abort ∧ n.GetElementType = .abort ∧ n.ForEachElement p s = .abort ∧
      n.ForEachElementConst q s = .abort) := by
  refine ⟨?_, ?_, ?_, ?_, ?_⟩
  · cases n <;> simp [Node.GetType, Node.GetBool]
  · cases n <;> simp [Node.GetType, Node.GetNumber]
  · cases n <;> simp [Node.GetType, Node.GetString]
  · cases n <;>
      simp [Node.GetType, Node.Get, Node.Set, Node.GetOrDefaultBool, Node.GetOrDefaultNumber,
        Node.GetOrDefaultString, Node.GetOrDefaultCStr, Node.ForEachMember,
        Node.ForEachMemberConst, Node.GetNumMembers, Outcome.bind]
  · cases n <;>
      simp [Node.GetType, Node.Length, Node.At, Node.Append, Node.Insert, Node.Remove,
        Node.GetElementType, Node.ForEachElement, Node.ForEachElementConst]

/-- Witness of C18: the Number 1, which is no Boolean, no String, no Object and
no Array. -/
theorem C18_accessors_abort_on_mismatch_witness :
    (Node.number 1 : Node Nat).GetType ≠ .Boolean ∧ (Node.number 1 : Node Nat).GetBool = .abort ∧
    (Node.number 1 : Node Nat).GetType ≠ .String ∧ (Node.number 1 : Node Nat).GetString = .abort ∧
    (Node.number 1 : Node Nat).GetType ≠ .Object ∧
    (Node.number 1 : Node Nat).GetOrDefaultBool [0x6B] true = .abort ∧
    (Node.number 1 : Node Nat).GetType ≠ .Array ∧
    (Node.number 1 : Node Nat).Insert 0 (.number 2) = .abort :=
  ⟨by decide,
    (C18_accessors_abort_on_mismatch (Node.number 1 : Node Nat) (.number 2) [0x6B] [] true 0 0 (0 : Nat)
      (fun s _ m => (s, m)) (fun s _ _ => s) (fun s m => (s, m)) (fun s _ => s)).1 (by decide),
    by decide,
    (C18_accessors_abort_on_mismatch (Node.number 1 : Node Nat) (.number 2) [0x6B] [] true 0 0 (0 : Nat)
      (fun s _ m => (s, m)) (fun s _ _ => s) (fun s m => (s, m)) (fun s _ => s)).2.2.1 (by decide),
    by decide,
    ((C18_accessors_abort_on_mismatch (Node.number 1 : Node Nat) (.number 2) [0x6B] [] true 0 0
      (0 : Nat) (fun s _ m => (s, m)) (fun s _ _ => s) (fun s m => (s, m))
      (fun s _ => s)).2.2.2.1 (by decide)).2.2.1,
    by decide,
    ((C18_accessors_abort_on_mismatch (Node.number 1 : Node Nat) (.number 2) [0x6B] [] true 0 0
      (0 : Nat) (fun s _ m => (s, m)) (fun s _ _ => s) (fun s m => (s, m))
      (fun s _ => s)).2.2.2.2 (by decide)).2.2.2.1⟩

/-! ### The fancy layout of an object -/

/-- C14: `Serialize` with `m_bFancy` set and two-space indentation, on the object
that `Set` makes of the label `a` and the number 1, yields the opening brace, a
space, a newline, two spaces, the member, a newline and the closing brace: a
space stands between the opening brace and the first newline. -/
theorem C14_fancy_object_output :
    (Node.Object : Node Nat).Set (ascii "a") (.number 1)
      = .ret (.object [(ascii "a", .number 1)]) ∧
    Serialize to_stringFixed { m_eIndentation := .TwoSpace, m_bFancy := true }
        (.object [(ascii "a", .number 1)] : Node Nat)
      = [0x7B, 0x20, 0x0A, 0x20, 0x20, 0x22, 0x61, 0x22, 0x3A, 0x20, 0x31, 0x0A, 0x7D] ∧
    Serialize to_stringFixed { m_eIndentation := .TwoSpace, m_bFancy := true }
        (.object [(ascii "a", .number 1)] : Node Nat)
      ≠ [0x7B, 0x0A, 0x20, 0x20, 0x22, 0x61, 0x22, 0x3A, 0x20, 0x31, 0x0A, 0x7D] := by
  have e : Serialize to_stringFixed { m_eIndentation := .TwoSpace, m_bFancy := true }
        (.object [(ascii "a", .number 1)] : Node Nat)
      = [0x7B, 0x20, 0x0A, 0x20, 0x20, 0x22, 0x61, 0x22, 0x3A, 0x20, 0x31, 0x0A, 0x7D] := by
    decide
  refine ⟨by simp [Node.Object, Node.Set, mapAssign, Node.copy], e, ?_⟩
  rw [e]
  decide

/-! ### The end of the input before and inside a scope -/

section Blank

variable {D : Type}

/-- C19: on an input of whitespace alone, one character or more, `Parse` succeeds
and leaves a Null node in `json`, for every configuration. -/
theorem C19_blank_input_succeeds (strtod : List Nat → D × Nat) (cfg : ParserConfig)
    (ws tail e : List Nat) (json : Node D) (hws : Doc.blank ws) (hne : ws ≠ [])
    (ht : tail.headD 0 = 0) (htb : ∀ b ∈ tail, b < 256) :
    Parse strtod cfg (ws ++ tail) json e
      = .ret ({ m_bSuccess := true, m_szMsg := [] }, Node.null, e) := by
  have hbom : ¬ utf8BOM <+: symEncode ws := by
    cases ws with
    | nil => exact absurd rfl hne
    | cons x ws => exact utf8BOM_not_prefix x _ (Doc.blank_range hws x (by simp)).2
  have hat := UTF8Iterator.At.new ws tail (validText_blank hws) ht htb hbom
  rw [symEncode_blank hws] at hat
  obtain ⟨it', hsk, hat'⟩ := SkipWhitespace_at ws [] [] (UTF8Iterator.new (ws ++ tail)) e hws
    (by decide) (by decide) (by simpa using hne) (by simpa using hat)
  have hrd := hat'.read_nil
  simp only [Parse, GenerateNodes, hsk, Outcome.ret_bind, Bool.true_eq_false, if_false, scopeLoop,
    hrd, if_true, scopeEnd]
  simp [Node.copy]

end Blank

/-- Witness of C19: the input of one space, ended by one NUL byte, with the
default configuration, the stand-in `strtodDigits` and a Boolean in `json` at the
call. -/
theorem C19_blank_input_succeeds_witness :
    Doc.blank [0x20] ∧ ([0x20] : List Nat) ≠ [] ∧ ([0] : List Nat).headD 0 = 0 ∧
    (∀ b ∈ ([0] : List Nat), b < 256) ∧
    Parse strtodDigits {} ([0x20] ++ [0]) (Node.boolean true) []
      = .ret ({ m_bSuccess := true, m_szMsg := [] }, Node.null, []) :=
  ⟨Doc.blank_space, by decide, rfl, by decide,
    C19_blank_input_succeeds strtodDigits {} [0x20] [0] [] (Node.boolean true) Doc.blank_space
      (by decide) rfl (by decide)⟩

section Dangling

variable {D : Type}

/-- The function `Parse` on an opening brace, whitespace and a label in quotes
that the end of the input follows: it fails with `Unexpected end of stream`. -/
theorem Parse_label_at_end (strtod : List Nat → D × Nat) (cfg : ParserConfig)
    (ws k tail e : List Nat) (json : Node D) (hws : Doc.blank ws) (hk : k ≠ [])
    (hp : Doc.plain (k.map symCode)) (hv : validText k) (ht : tail.headD 0 = 0)
    (htb : ∀ b ∈ tail, b < 256) :
    Parse strtod cfg (symEncode (0x7B :: ws ++ 0x22 :: k ++ [0x22]) ++ tail) json e
      = .ret ({ m_bSuccess := false, m_szMsg := ascii "Unexpected end of stream" }, Node.null,
          ascii "Unexpected end of stream") := by
  have hform : 0x7B :: ws ++ 0x22 :: k ++ [0x22] = 0x7B :: (ws ++ 0x22 :: (k ++ [0x22])) := by
    simp
  rw [hform]
  have hval : ∀ c ∈ 0x7B :: (ws ++ 0x22 :: (k ++ [0x22])), Sym c := by
    intro c hc
    simp only [List.mem_cons, List.mem_append, List.mem_singleton, List.not_mem_nil,
      or_false] at hc
    rcases hc with rfl | hc | rfl | hc | rfl
    · exact Sym.of_valid (by omega)
    · exact validText_blank hws c hc
    · exact Sym.of_valid (by omega)
    · exact hv c hc
    · exact Sym.of_valid (by omega)
  have hat := UTF8Iterator.At.new _ tail hval ht htb
    ( utf8BOM_not_prefix 0x7B (ws ++ 0x22 :: (k ++ [0x22])) (by omega))
  obtain ⟨s0, hat0, he0, hb0, hu0, hm0, hz0, hg⟩ := GenerateNodes_frame strtod cfg.m_uMaxDepth 0
    cfg.m_uMaxDepth _ [] [] (0x7B :: (ws ++ 0x22 :: (k ++ [0x22]))) e json Doc.blank_nil
    (show IsWhitespace 0x7B = false by decide) (by simp) (by simp) (by simpa using hat)
  have hfuel := hat0.bytesLeft
  simp only [List.length_append, List.length_cons] at hfuel
  obtain ⟨f, hf⟩ : ∃ f, s0.iter.GetNumBytesLeft = f + 1 + 1 :=
    ⟨s0.iter.GetNumBytesLeft - 2, by omega⟩
  obtain ⟨S, e1, hat1, he1, hn1, hb1, hu1, hm1, hz1⟩ := open_object
    (GenerateNodes strtod cfg.m_uMaxDepth) strtod 0 cfg.m_uMaxDepth (f + 1 + 1) s0 ([] ++ [])
    ws (k ++ [0x22]) 0x22 hws (show IsWhitespace 0x22 = false by decide) (by decide) hat0 he0
  obtain ⟨h2, hl⟩ := scopeLoop_step (GenerateNodes strtod cfg.m_uMaxDepth) strtod 0
    cfg.m_uMaxDepth (f + 1) S _ _ _ hat1 (by decide)
  obtain ⟨itL, hgl, hatL⟩ := GetNextLiteral_string_at k [] _ S.iter.Read.2 S.szError
    (Doc.quotable_of_plain _ hp)
    (by simpa using h2)
  have hrd := hatL.read_nil
  have hne : (symEncode k).isEmpty = false := by
    cases hu : symEncode k with
    | nil => exact absurd hu (symEncode_ne_nil hk hv)
    | cons _ _ => rfl
  simp only [Parse, hg, hf, e1, hl]
  rw [scopeBody_label _ strtod 0 cfg.m_uMaxDepth { S with iter := S.iter.Read.2, ch := 0x22 }
    (show (0x22 : Nat) < 0x7F by omega) (show (0x22 : Nat) ≠ 0x7D by omega) he1 (hb1.trans hb0)]
  unfold scopeLabel
  simp only [if_true, hgl, Outcome.ret_bind, Bool.true_eq_false, if_false, hne, SkipWhitespace,
    hrd, BuildSpanFail]
  simp only [Node.copy]
  refine congrArg Outcome.ret ?_
  refine Prod.ext ?_ (Prod.ext rfl ?_)
  · show Result.mk false _ = Result.mk false _
    congr 1
  · rfl

end Dangling

/-- C20: on the input of an opening brace and the label `a` in quotes `Parse`
fails with `Unexpected end of stream`; with a space or a colon after the label it
fails with `Expected an object member at position 4`. -/
theorem C20_dangling_label_at_end :
    Parse strtodDigits {} (ascii "\x7b\"a\"" ++ [0]) Node.null []
      = .ret ({ m_bSuccess := false, m_szMsg := ascii "Unexpected end of stream" }, Node.null,
          ascii "Unexpected end of stream") ∧
    Parse strtodDigits {} (ascii "\x7b\"a\" " ++ [0]) Node.null []
      = .ret ({ m_bSuccess := false, m_szMsg := ascii "Expected an object member at position 4" },
          Node.null, ascii "Expected an object member at position 4") ∧
    Parse strtodDigits {} (ascii "\x7b\"a\":" ++ [0]) Node.null []
      = .ret ({ m_bSuccess := false, m_szMsg := ascii "Expected an object member at position 4" },
          Node.null, ascii "Expected an object member at position 4") :=
  ⟨eq_of_returns (by decide!), eq_of_returns (by decide!), eq_of_returns (by decide!)⟩

/-! ### String literals with escapes -/

/-! ### Progress of the iterator -/

namespace UTF8Iterator

/-- `Advance` keeps the buffer and its end, and never moves the cursor back. -/
theorem Advance_frame (it : UTF8Iterator) :
    it.Advance.2.buf = it.buf ∧ it.Advance.2.endp = it.endp ∧ it.units ≤ it.Advance.2.units := by
  unfold Advance
  by_cases h1 : it.units ≥ it.endp
  · simp [h1]
  · by_cases h3 : it.refresh.n = 0
    · simp [h1, h3]
    · by_cases h4 : it.endp < it.units + it.refresh.n
      · simp [h1, h3, h4]
      · simp [h1, h3, h4]

/-- A successful `Advance` moves the cursor on, and not beyond the end. -/
theorem Advance_progress (it : UTF8Iterator) (h : it.Advance.1 = true) :
    it.units < it.Advance.2.units ∧ it.Advance.2.units ≤ it.endp := by
  unfold Advance at h ⊢
  by_cases h1 : it.units ≥ it.endp
  · simp [h1] at h
  · by_cases h3 : it.refresh.n = 0
    · simp [h1, h3] at h
    · by_cases h4 : it.endp < it.units + it.refresh.n
      · simp [h1, h3, h4] at h
      · simp only [h1, h3, h4, if_false, refresh_units, refresh_endp, gt_iff_lt]
        omega

/-- A successful `Advance` leaves fewer bytes. -/
theorem Advance_left (it : UTF8Iterator) (h : it.Advance.1 = true) :
    it.Advance.2.GetNumBytesLeft < it.GetNumBytesLeft := by
  have := Advance_progress it h
  have := (Advance_frame it).2.1
  unfold GetNumBytesLeft
  omega

/-- `Advance` leaves no more bytes than there were. -/
theorem Advance_left_le (it : UTF8Iterator) :
    it.Advance.2.GetNumBytesLeft ≤ it.GetNumBytesLeft := by
  have := Advance_frame it
  unfold GetNumBytesLeft
  omega

/-- `Read` leaves the bytes left as they are. -/
theorem Read_left (it : UTF8Iterator) : it.Read.2.GetNumBytesLeft = it.GetNumBytesLeft := by
  have := Read_frame it
  unfold GetNumBytesLeft
  omega

end UTF8Iterator

/-! ### The constructor of a String node from a C string -/

section CString

variable {D : Type}

/-- The loop of the constructor ends within its budget. -/
theorem Node.cstrLength_returns :
    ∀ (fuel : Nat) (iter : UTF8Iterator) (u : Nat), iter.GetNumBytesLeft < fuel →
      ∃ v, Node.cstrLength fuel iter u = .ret v := by
  intro fuel
  induction fuel with
  | zero => intro iter u h; omega
  | succ fuel ih =>
    intro iter u h
    unfold Node.cstrLength
    by_cases ha : iter.Advance.1 = false
    · exact ⟨u, by simp [ha]⟩
    · simp only [ha, if_false]
      apply ih
      have h1 := UTF8Iterator.Advance_left iter (by simpa using ha)
      have h2 := UTF8Iterator.Read_left iter.Advance.2
      have h3 := UTF8Iterator.Advance_left_le iter.Advance.2.Read.2
      omega

/-- The constructor returns or is undefined; it does not run out of budget. -/
theorem Node.ofCStr_returns (szValue : List Nat) :
    (∃ str, (Node.ofCStr szValue : Outcome (Node D)) = .ret (.string (str ++ [0]))) ∨
      (Node.ofCStr szValue : Outcome (Node D)) = .undefined := by
  obtain ⟨v, hv⟩ := Node.cstrLength_returns ((UTF8Iterator.new szValue).GetNumBytesLeft + 1)
    (UTF8Iterator.new szValue) 0 (by omega)
  unfold Node.ofCStr
  simp only [hv, Outcome.ret_bind]
  by_cases hle : v ≤ szValue.length
  · exact Or.inl ⟨szValue.take v, by simp [hle]⟩
  · exact Or.inr (by simp [hle])

/-- C22: whenever the constructor `Node(const utf8_t*)` returns a node, the
node is a String whose last byte is NUL, so that its bytes are not the bytes of
the C string `szValue`, which hold no NUL. -/
theorem C22_cstring_constructor_appends_NUL (szValue : List Nat) (n : Node D)
    (h : Node.ofCStr szValue = .ret n) :
    ∃ str, n = .string str ∧ n.GetString = .ret str ∧ str.getLast? = some 0 ∧
      str ≠ szValue.take (strlen szValue) := by
  rcases Node.ofCStr_returns (D := D) szValue with ⟨str, hs⟩ | hu
  · rw [hs] at h
    simp only [Outcome.ret.injEq] at h
    subst h
    refine ⟨str ++ [0], rfl, rfl, by simp, fun hc => ?_⟩
    have hmem : (0 : Nat) ∈ szValue.take (strlen szValue) := by
      rw [← hc]
      simp
    have : (0 : Nat) ∈ szValue.takeWhile (fun b => b != 0) := by
      have e : szValue.take (strlen szValue) = szValue.takeWhile (fun b => b != 0) := by
        unfold strlen
        exact (List.prefix_iff_eq_take.1 (List.takeWhile_prefix _)).symm
      rwa [e] at hmem
    have := List.mem_takeWhile_imp this
    simp at this
  · rw [hu] at h
    exact absurd h (by simp)

end CString

/-- Witness of C22: the C string `ab`, of which the constructor keeps the byte
`a` and a NUL. -/
theorem C22_cstring_constructor_appends_NUL_witness :
    (Node.ofCStr [0x61, 0x62, 0] : Outcome (Node Nat)) = .ret (.string [0x61, 0]) ∧
    ∃ str, (Node.string [0x61, 0] : Node Nat) = .string str ∧
      (Node.string [0x61, 0] : Node Nat).GetString = .ret str ∧ str.getLast? = some 0 ∧
      str ≠ ([0x61, 0x62, 0] : List Nat).take (strlen [0x61, 0x62, 0]) := by
  have hl : Node.cstrLength ((UTF8Iterator.new [0x61, 0x62, 0]).GetNumBytesLeft + 1)
      (UTF8Iterator.new [0x61, 0x62, 0]) 0 = .ret 1 := by decide!
  have e : (Node.ofCStr [0x61, 0x62, 0] : Outcome (Node Nat)) = .ret (.string [0x61, 0]) := by
    unfold Node.ofCStr
    simp only [hl, Outcome.ret_bind]
    simp
  exact ⟨e, C22_cstring_constructor_appends_NUL [0x61, 0x62, 0] (Node.string [0x61, 0]) e⟩

/-! ### Outcomes within the budget -/

theorem Outcome.Ends_bind' {α β : Type} {o : Outcome α} {f : α → Outcome β} {P : α → Prop}
    {Q : β → Prop} (h : o.Ends P) (hf : ∀ a, o = .ret a → P a → (f a).Ends Q) :
    (o.bind f).Ends Q := by
  cases o with
  | ret a => exact hf a rfl h
  | abort => trivial
  | undefined => exact h.elim
  | nofuel => exact h.elim

theorem Outcome.Ends_bind {α β : Type} {o : Outcome α} {f : α → Outcome β} {P : α → Prop}
    {Q : β → Prop} (h : o.Ends P) (hf : ∀ a, P a → (f a).Ends Q) : (o.bind f).Ends Q :=
  Outcome.Ends_bind' h (fun a _ => hf a)

theorem Outcome.Ends_mono {α : Type} {o : Outcome α} {P Q : α → Prop} (h : o.Ends P)
    (hpq : ∀ a, P a → Q a) : o.Ends Q := by
  cases o with
  | ret a => exact hpq a h
  | abort => trivial
  | undefined => exact h.elim
  | nofuel => exact h.elim

theorem Outcome.Ends_iff {α : Type} (o : Outcome α) :
    o.Ends (fun _ => True) ↔ (∃ a, o = .ret a) ∨ o = .abort := by
  cases o <;> simp [Outcome.Ends]

/-! ### Reading twice, and advancing after a read -/

namespace UTF8Iterator

theorem refresh_idem (it : UTF8Iterator) : it.refresh.refresh = it.refresh := by
  unfold refresh
  by_cases h : it.last_read ≠ some it.units
  · simp only [h, if_true, ne_eq, not_false_eq_true]
    simp [ReadCodepointBytes, unit]
  · simp [h]

theorem Read_ne_zero_lt (it : UTF8Iterator) (h : it.Read.1 ≠ 0) : it.units < it.endp := by
  by_contra hc
  apply h
  unfold Read
  rw [if_pos (by omega)]

/-- A second `Read` at the same place returns what the first returned. -/
theorem Read_idem (it : UTF8Iterator) : it.Read.2.Read = it.Read := by
  by_cases h1 : it.units ≥ it.endp
  · have e : it.Read = (0, it) := by unfold Read; rw [if_pos h1]
    rw [e]
    exact e
  · by_cases h2 : it.unit 0 &&& 0x80 = 0
    · have e : it.Read = (it.unit 0, { it with n := 1, last_read := some it.units }) := by
        unfold Read
        simp [h1, h2]
      rw [e]
      have hu : ({ it with n := 1, last_read := some it.units } : UTF8Iterator).unit 0 = it.unit 0 :=
        rfl
      show Read { it with n := 1, last_read := some it.units } = _
      unfold Read
      rw [if_neg h1, hu, if_neg (by simpa using h2)]
    · have hr := refresh_idem it
      by_cases h3 : it.refresh.n = 0
      · have e : it.Read = (0, it.refresh) := by
          unfold Read
          simp [h1, h2, h3]
        rw [e]
        show Read it.refresh = _
        unfold Read
        rw [if_neg (by simpa using h1), refresh_unit, if_pos h2, hr]
        simp [h3]
      · by_cases h4 : it.endp < it.units + it.refresh.n
        · have e : it.Read = (0, it.refresh) := by
            unfold Read
            simp [h1, h2, h3, h4]
          rw [e]
          show Read it.refresh = _
          unfold Read
          rw [if_neg (by simpa using h1), refresh_unit, if_pos h2, hr]
          simp [h3, h4]
        · cases hcs : it.refresh.contSwitch it.refresh.n
            (((it.unit 0 &&& leadMask it.refresh.n) <<< ((it.refresh.n - 1) * 6)) % 4294967296) with
          | none =>
            have e : it.Read = (0, it.refresh) := by
              unfold Read
              simp [h1, h2, h3, h4, hcs]
            rw [e]
            show Read it.refresh = _
            unfold Read
            rw [if_neg (by simpa using h1), refresh_unit, if_pos h2, hr]
            simp [h3, h4, hcs]
          | some c =>
            by_cases h5 : c > 0x10FFFF
            · have e : it.Read = (0, it.refresh) := by
                unfold Read
                simp [h1, h2, h3, h4, hcs, h5]
              rw [e]
              show Read it.refresh = _
              unfold Read
              rw [if_neg (by simpa using h1), refresh_unit, if_pos h2, hr]
              simp [h3, h4, hcs, h5]
            · have e : it.Read = (c, { it.refresh with last_read := some it.refresh.units }) := by
                unfold Read
                simp [h1, h2, h3, h4, hcs, h5]
              rw [e]
              have hf : ({ it.refresh with last_read := some it.refresh.units } : UTF8Iterator).refresh
                  = { it.refresh with last_read := some it.refresh.units } := by
                unfold refresh
                simp
              have hu : ∀ i, ({ it.refresh with last_read := some it.refresh.units }
                  : UTF8Iterator).unit i = it.unit i := fun i => by
                  simp [unit]
              have hcs2 : ({ it.refresh with last_read := some it.refresh.units }
                  : UTF8Iterator).contSwitch it.refresh.n
                    (((it.unit 0 &&& leadMask it.refresh.n) <<< ((it.refresh.n - 1) * 6)) % 4294967296)
                  = some c := by
                rw [← hcs]
                unfold contSwitch contArm
                simp only [hu, refresh_unit]
              show Read { it.refresh with last_read := some it.refresh.units } = _
              unfold Read
              simp only [hf, hu]
              simp only [refresh_units, refresh_buf, refresh_endp, refresh_pos] at hcs2
              simp [h1, h2, h3, h4, hcs2, h5]

theorem refresh_of_last_read (it : UTF8Iterator) (h : it.last_read = some it.units) :
    it.refresh = it := by
  unfold refresh
  simp [h]

theorem Advance_of_last_read (it : UTF8Iterator) (h : it.last_read = some it.units)
    (h1 : it.units < it.endp) (h3 : it.n ≠ 0) (h4 : it.units + it.n ≤ it.endp) :
    it.Advance.1 = true := by
  unfold Advance
  rw [if_neg (by omega), refresh_of_last_read it h]
  simp only [h3, if_false]
  rw [if_neg (by omega)]

/-- After a `Read` that returned a codepoint, `Advance` succeeds. -/
theorem Advance_after_Read (it : UTF8Iterator) (h : it.Read.1 ≠ 0) :
    it.Read.2.Advance.1 = true := by
  have h1 : ¬ it.units ≥ it.endp := by
    have := Read_ne_zero_lt it h
    omega
  by_cases h2 : it.unit 0 &&& 0x80 = 0
  · have e : it.Read = (it.unit 0, { it with n := 1, last_read := some it.units }) := by
      unfold Read
      simp [h1, h2]
    rw [e]
    exact Advance_of_last_read { it with n := 1, last_read := some it.units } rfl
      (show it.units < it.endp by omega) (show (1 : Nat) ≠ 0 by omega)
      (show it.units + 1 ≤ it.endp by omega)
  · by_cases h3 : it.refresh.n = 0
    · exact absurd (by unfold Read; simp [h1, h2, h3]) h
    · by_cases h4 : it.endp < it.units + it.refresh.n
      · exact absurd (by unfold Read; simp [h1, h2, h3, h4]) h
      · cases hcs : it.refresh.contSwitch it.refresh.n
            (((it.unit 0 &&& leadMask it.refresh.n) <<< ((it.refresh.n - 1) * 6)) % 4294967296) with
        | none => exact absurd (by unfold Read; simp [h1, h2, h3, h4, hcs]) h
        | some c =>
          by_cases h5 : c > 0x10FFFF
          · exact absurd (by unfold Read; simp [h1, h2, h3, h4, hcs, h5]) h
          · have e : it.Read = (c, { it.refresh with last_read := some it.refresh.units }) := by
              unfold Read
              simp [h1, h2, h3, h4, hcs, h5]
            rw [e]
            exact Advance_of_last_read { it.refresh with last_read := some it.refresh.units } rfl
              (show it.refresh.units < it.refresh.endp by simp; omega) h3
              (show it.refresh.units + it.refresh.n ≤ it.refresh.endp by simp; omega)

/-! ### Moving on over the buffer -/

theorem Reaches.refl (a : UTF8Iterator) : a.Reaches a := ⟨rfl, Nat.le_refl _⟩

theorem Reaches.trans {a b c : UTF8Iterator} (h1 : a.Reaches b) (h2 : b.Reaches c) :
    a.Reaches c := ⟨h2.1.trans h1.1, Nat.le_trans h1.2 h2.2⟩

theorem Passes.reaches {a b : UTF8Iterator} (h : a.Passes b) : a.Reaches b :=
  ⟨h.1, Nat.le_of_lt h.2.1⟩

theorem Reaches.passes {a b c : UTF8Iterator} (h1 : a.Reaches b) (h2 : b.Passes c) :
    a.Passes c := by
  obtain ⟨e1, l1⟩ := h1
  obtain ⟨e2, l2, l3⟩ := h2
  exact ⟨e2.trans e1, by omega, by omega⟩

theorem Passes.then {a b c : UTF8Iterator} (h1 : a.Passes b) (h2 : b.Reaches c) : a.Passes c := by
  obtain ⟨e1, l1, l3⟩ := h1
  obtain ⟨e2, l2⟩ := h2
  exact ⟨e2.trans e1, by omega, l3⟩

theorem Reaches.left_le {a b : UTF8Iterator} (h : a.Reaches b) :
    b.GetNumBytesLeft ≤ a.GetNumBytesLeft := by
  obtain ⟨h1, h2⟩ := h
  unfold GetNumBytesLeft
  omega

theorem Passes.left_lt {a b : UTF8Iterator} (h : a.Passes b) :
    b.GetNumBytesLeft < a.GetNumBytesLeft := by
  obtain ⟨h1, h2, h3⟩ := h
  unfold GetNumBytesLeft
  omega

theorem Reaches_Read (it : UTF8Iterator) : it.Reaches it.Read.2 := by
  obtain ⟨f1, -, -, f4⟩ := Read_frame it
  exact ⟨f4, by omega⟩

theorem Read_Reaches (it : UTF8Iterator) : it.Read.2.Reaches it := by
  obtain ⟨f1, -, -, f4⟩ := Read_frame it
  exact ⟨f4.symm, by omega⟩

theorem Reaches_Advance (it : UTF8Iterator) : it.Reaches it.Advance.2 := by
  obtain ⟨-, f2, f3⟩ := Advance_frame it
  exact ⟨f2, f3⟩

theorem Passes_Advance (it : UTF8Iterator) (h : it.Advance.1 = true) : it.Passes it.Advance.2 := by
  obtain ⟨-, f2, -⟩ := Advance_frame it
  obtain ⟨p1, p2⟩ := Advance_progress it h
  exact ⟨f2, p1, by omega⟩

/-- After a `Read` that returned a codepoint, `Advance` moves the cursor on. -/
theorem Passes_Read_Advance (it : UTF8Iterator) (h : it.Read.1 ≠ 0) :
    it.Passes it.Read.2.Advance.2 :=
  (Reaches_Read it).passes (Passes_Advance _ (Advance_after_Read it h))

end UTF8Iterator

/-! ### Every loop of the parser ends within its budget -/

section Termination

variable {D : Type}

theorem SkipWhitespace_loop_ends :
    ∀ (fuel h : Nat) (iter : UTF8Iterator), iter.Read = (h, iter) → iter.GetNumBytesLeft < fuel →
      ∃ it', SkipWhitespace.loop fuel h iter = .ret it' ∧ (it' = iter ∨ iter.Passes it') := by
  intro fuel
  induction fuel with
  | zero => intro h iter _ hl; omega
  | succ fuel ih =>
    intro h iter hfr hl
    unfold SkipWhitespace.loop
    by_cases hc : h ≠ 0 ∧ IsWhitespace h = true
    · rw [if_pos hc]
      have hadv : iter.Passes iter.Advance.2 := by
        have := UTF8Iterator.Passes_Read_Advance iter (by rw [hfr]; exact hc.1)
        rw [hfr] at this
        exact this
      have hp2 : iter.Passes iter.Advance.2.Read.2 := hadv.then (UTF8Iterator.Reaches_Read _)
      obtain ⟨it', h1, h2⟩ := ih iter.Advance.2.Read.1 iter.Advance.2.Read.2
        (UTF8Iterator.Read_idem _) (by have := hp2.left_lt; omega)
      refine ⟨it', h1, Or.inr ?_⟩
      rcases h2 with rfl | h2
      · exact hp2
      · exact hp2.then h2.reaches
    · rw [if_neg hc]
      exact ⟨iter, rfl, Or.inl rfl⟩

/-- `SkipWhitespace` returns; when it returns true the first `Read` gave a
codepoint, and the iterator is the one after that `Read` or one further on. -/
theorem SkipWhitespace_ends (it : UTF8Iterator) (e : List Nat) :
    ∃ w, SkipWhitespace it e = .ret w ∧ it.Reaches w.iter ∧
      (w.ok = true → it.Read.1 ≠ 0 ∧ (w.iter = it.Read.2 ∨ it.Passes w.iter)) := by
  unfold SkipWhitespace
  by_cases h0 : it.Read.1 = 0
  · simp only [h0, if_true]
    exact ⟨_, rfl, UTF8Iterator.Reaches_Read it, fun h => absurd h (by simp)⟩
  · simp only [h0, if_false]
    obtain ⟨it', h1, h2⟩ := SkipWhitespace_loop_ends (it.Read.2.GetNumBytesLeft + 1) it.Read.1
      it.Read.2 (UTF8Iterator.Read_idem it) (by omega)
    rw [h1]
    refine ⟨_, rfl, ?_, fun _ => ⟨h0, ?_⟩⟩
    · rcases h2 with h2 | h2
      · rw [h2]; exact UTF8Iterator.Reaches_Read it
      · exact (UTF8Iterator.Reaches_Read it).trans h2.reaches
    · rcases h2 with h2 | h2
      · exact Or.inl h2
      · exact Or.inr ((UTF8Iterator.Reaches_Read it).passes h2)

theorem GetNextString_loop_ends (start : Nat) (e : List Nat) :
    ∀ (fuel : Nat) (bEscape : Bool) (iter : UTF8Iterator), iter.GetNumBytesLeft < fuel →
      ∃ w, GetNextString.loop start e fuel bEscape iter = .ret w ∧ iter.Reaches w.iter := by
  intro fuel
  induction fuel with
  | zero => intro _ iter hl; omega
  | succ fuel ih =>
    intro bEscape iter hl
    unfold GetNextString.loop
    by_cases h0 : iter.Read.1 = 0
    · simp only [h0, if_true]
      exact ⟨_, rfl, UTF8Iterator.Reaches_Read iter⟩
    · have hp := UTF8Iterator.Passes_Read_Advance iter h0
      simp only [h0, if_false]
      by_cases h1 : iter.Read.1 = 0x5C ∧ bEscape = false
      · rw [if_pos h1]
        obtain ⟨w, hw, hr⟩ := ih true iter.Read.2.Advance.2 (by have := hp.left_lt; omega)
        exact ⟨w, hw, hp.reaches.trans hr⟩
      · rw [if_neg h1]
        by_cases h2 : iter.Read.1 = 0x22 ∧ bEscape = false
        · rw [if_pos h2]
          exact ⟨_, rfl, hp.reaches⟩
        · rw [if_neg h2]
          obtain ⟨w, hw, hr⟩ := ih false iter.Read.2.Advance.2 (by have := hp.left_lt; omega)
          exact ⟨w, hw, hp.reaches.trans hr⟩

/-- `GetNextString` returns; when it returns true the iterator has moved on. -/
theorem GetNextString_ends (it : UTF8Iterator) (e : List Nat) :
    ∃ w, GetNextString it e = .ret w ∧ it.Reaches w.iter ∧ (w.ok = true → it.Passes w.iter) := by
  obtain ⟨w0, hw0, hr0, -⟩ := SkipWhitespace_ends it e
  unfold GetNextString
  simp only [hw0, Outcome.ret_bind]
  by_cases hok : w0.ok = false
  · simp only [hok, if_true]
    exact ⟨_, rfl, hr0, fun h => absurd h (by simp [hok])⟩
  · simp only [hok, if_false]
    by_cases hq : w0.iter.Read.1 ≠ 0x22
    · rw [if_pos hq]
      exact ⟨_, rfl, hr0.trans (UTF8Iterator.Reaches_Read _), fun h => absurd h (by simp)⟩
    · rw [if_neg hq]
      have hq' : w0.iter.Read.1 = 0x22 := by simpa using hq
      have hp := UTF8Iterator.Passes_Read_Advance w0.iter (by rw [hq']; decide)
      obtain ⟨w, hw, hr⟩ := GetNextString_loop_ends w0.iter.Read.2.Advance.2.GetReadPtr w0.szError
        (w0.iter.Read.2.Advance.2.GetNumBytesLeft + 1) false w0.iter.Read.2.Advance.2 (by omega)
      exact ⟨w, hw, hr0.trans (hp.reaches.trans hr), fun _ => (hr0.passes hp).then hr⟩

theorem GetNextLiteral_loop_ends (start : Nat) (e : List Nat) :
    ∀ (fuel : Nat) (iter : UTF8Iterator), iter.GetNumBytesLeft < fuel →
      ∃ w, GetNextLiteral.loop start e fuel iter = .ret w ∧ iter.Reaches w.iter ∧
        (w.ok = true → w.iter.units ≠ start ∧ w.iter.units < w.iter.endp) := by
  intro fuel
  induction fuel with
  | zero => intro iter hl; omega
  | succ fuel ih =>
    intro iter hl
    unfold GetNextLiteral.loop
    by_cases h0 : iter.Read.1 = 0
    · simp only [h0, if_true]
      exact ⟨_, rfl, UTF8Iterator.Reaches_Read iter, fun h => absurd h (by simp)⟩
    · simp only [h0, if_false]
      by_cases h1 : iter.Read.1 ≥ 0x7F
      · rw [if_pos h1]
        exact ⟨_, rfl, UTF8Iterator.Reaches_Read iter, fun h => absurd h (by simp)⟩
      · rw [if_neg h1]
        by_cases h2 : IsLiteralTerminator iter.Read.1 = true ∨ IsWhitespace iter.Read.1 = true
        · rw [if_pos h2]
          by_cases h3 : iter.Read.2.GetReadPtr ≠ start
          · rw [if_pos h3]
            refine ⟨_, rfl, UTF8Iterator.Reaches_Read iter, fun _ => ⟨h3, ?_⟩⟩
            have := UTF8Iterator.Read_ne_zero_lt iter h0
            obtain ⟨f1, -, -, f4⟩ := UTF8Iterator.Read_frame iter
            show iter.Read.2.units < iter.Read.2.endp
            omega
          · rw [if_neg h3]
            exact ⟨_, rfl, UTF8Iterator.Reaches_Read iter, fun h => absurd h (by simp)⟩
        · rw [if_neg h2]
          have hp := UTF8Iterator.Passes_Read_Advance iter h0
          obtain ⟨w, hw, hr, hk⟩ := ih iter.Read.2.Advance.2 (by have := hp.left_lt; omega)
          exact ⟨w, hw, hp.reaches.trans hr, hk⟩

/-- `GetNextLiteral` returns; when it returns true the iterator has moved on. -/
theorem GetNextLiteral_ends (it : UTF8Iterator) (e : List Nat) :
    ∃ w, GetNextLiteral it e = .ret w ∧ it.Reaches w.iter ∧ (w.ok = true → it.Passes w.iter) := by
  obtain ⟨w0, hw0, hr0, -⟩ := SkipWhitespace_ends it e
  unfold GetNextLiteral
  simp only [hw0, Outcome.ret_bind]
  by_cases hok : w0.ok = false
  · simp only [hok, if_true]
    exact ⟨_, rfl, hr0, fun h => absurd h (by simp [hok])⟩
  · simp only [hok, if_false]
    have hrr := hr0.trans (UTF8Iterator.Reaches_Read w0.iter)
    by_cases hq : w0.iter.Read.1 = 0x22
    · rw [if_pos hq]
      obtain ⟨w, hw, hr, hp⟩ := GetNextString_ends w0.iter.Read.2 w0.szError
      exact ⟨w, hw, hrr.trans hr, fun h => hrr.passes (hp h)⟩
    · rw [if_neg hq]
      obtain ⟨w, hw, hr, hk⟩ := GetNextLiteral_loop_ends w0.iter.Read.2.GetReadPtr w0.szError
        (w0.iter.Read.2.GetNumBytesLeft + 1) w0.iter.Read.2 (by omega)
      refine ⟨w, hw, hrr.trans hr, fun h => hrr.passes ?_⟩
      obtain ⟨k1, k2⟩ := hk h
      obtain ⟨e1, l1⟩ := hr
      refine ⟨e1, ?_, ?_⟩
      · unfold UTF8Iterator.GetReadPtr at k1
        omega
      · omega

/-- The scope holds the iterator as a `Read` that returned `ch` left it. -/
theorem Scope.fresh_Read (s : Scope D) :
    ({ s with iter := s.iter.Read.2, ch := s.iter.Read.1 } : Scope D).iter.Read
      = (({ s with iter := s.iter.Read.2, ch := s.iter.Read.1 } : Scope D).ch,
        ({ s with iter := s.iter.Read.2, ch := s.iter.Read.1 } : Scope D).iter) :=
  UTF8Iterator.Read_idem s.iter

/-- `StringAdvance` after a `Read` that returned `ch` returns, the iterator
moved on. -/
theorem StringAdvance_ends (s : Scope D) (hf : s.iter.Read = (s.ch, s.iter)) (hc : s.ch ≠ 0) :
    ∃ r, StringAdvance s = .ret r ∧ s.iter.Passes r.2.iter := by
  have hadv : s.iter.Advance.1 = true := by
    have := UTF8Iterator.Advance_after_Read s.iter (by rw [hf]; exact hc)
    rw [hf] at this
    exact this
  have hp := UTF8Iterator.Passes_Advance s.iter hadv
  obtain ⟨w, hw, hr, -⟩ := SkipWhitespace_ends s.iter.Advance.2 s.szError
  unfold StringAdvance
  simp only [hadv, Bool.true_eq_false, if_false, hw, Outcome.ret_bind]
  by_cases hok : w.ok = false
  · simp only [hok, if_true]
    exact ⟨_, rfl, hp.then hr⟩
  · simp only [hok, if_false]
    exact ⟨_, rfl, hp.then (hr.trans (UTF8Iterator.Reaches_Read _))⟩

theorem Node.Set_ends (n v : Node D) (k : List Nat) : (n.Set k v).Ends fun _ => True := by
  cases n <;> simp [Node.Set, Outcome.Ends]

theorem Node.Append_ends (n v : Node D) : (n.Append v).Ends fun r => r.Filled := by
  cases n with
  | array et es =>
    simp only [Node.Append]
    by_cases h : v.GetType ≠ (if es.isEmpty = true then v.GetType else et)
    · rw [if_pos h]
      trivial
    · rw [if_neg h]
      simp [Outcome.Ends, Node.Filled]
  | null | boolean _ | number _ | string _ | object _ => simp [Node.Append, Outcome.Ends]

/-- `AddNode` does not touch the iterator; on an array it leaves an element. -/
theorem AddNode_ends (s : Scope D) (inner : Node D) :
    (AddNode s inner).Ends fun r =>
      r.2.iter = s.iter ∧ (r.1 = true → s.n.GetType = .Array → r.2.n.Filled) := by
  unfold AddNode
  split
  · rename_i hty
    split_ifs
    · exact ⟨rfl, fun h => absurd h (by simp)⟩
    · exact Outcome.Ends_bind (Node.Set_ends _ _ _)
        (fun _ _ => ⟨rfl, fun _ h => absurd (hty.symm.trans h) (by simp)⟩)
  · exact Outcome.Ends_bind (Node.Append_ends _ _) (fun _ hf => ⟨rfl, fun _ _ => hf⟩)
  · exact ⟨rfl, fun h => absurd h (by simp)⟩

/-- What termination asks of the calls of `GenerateNodes` at the next depth:
they end, and a successful call has moved the iterator on. -/
theorem BuildSpanInner_ends (gen : Generator D) (cd dmax : Nat) (s : Scope D)
    (hgen : cd + 1 < dmax → ∀ it e n,
      (gen it e (cd + 1) dmax n).Ends fun g => g.res.m_bSuccess = true → it.Passes g.iter) :
    (BuildSpanInner gen cd dmax s).Ends fun r =>
      r.1 = true → s.iter.Passes r.2.iter ∧ (s.n.GetType = .Array → r.2.n.Filled) := by
  unfold BuildSpanInner
  by_cases hd : cd + 1 ≥ dmax
  · simp only [hd, if_true]
    exact fun h => absurd h (by simp)
  · simp only [hd, if_false]
    refine Outcome.Ends_bind (hgen (by omega) s.iter s.szError .null) (fun g hg => ?_)
    by_cases hs : g.res.m_bSuccess = false
    · simp only [hs, if_true]
      exact fun h => absurd h (by simp)
    · simp only [hs, if_false]
      refine Outcome.Ends_mono (AddNode_ends _ g.n) (fun r hr hr1 => ?_)
      rw [hr.1]
      exact ⟨hg (by simpa using hs), hr.2 hr1⟩

theorem BuildSpanLiteral_ends (strtod : List Nat → D × Nat) (s : Scope D) :
    (BuildSpanLiteral strtod s).Ends fun r =>
      r.1 = true → s.iter.Passes r.2.iter ∧ (s.n.GetType = .Array → r.2.n.Filled) := by
  obtain ⟨l, hl, -, hp⟩ := GetNextLiteral_ends s.iter s.szError
  unfold BuildSpanLiteral
  simp only [hl, Outcome.ret_bind]
  by_cases hok : l.ok = false
  · simp only [hok, if_true]
    exact fun h => absurd h (by simp)
  · have hpass := hp (by simpa using hok)
    simp only [hok, if_false]
    have key : ∀ inner : Node D,
        (AddNode { s with iter := l.iter, szError := l.szError } inner).Ends
          fun r => r.1 = true → s.iter.Passes r.2.iter ∧ (s.n.GetType = .Array → r.2.n.Filled) :=
      fun inner => Outcome.Ends_mono (AddNode_ends _ inner)
        (fun r hr hr1 => ⟨by rw [hr.1]; exact hpass, hr.2 hr1⟩)
    by_cases h22 : s.ch = 0x22
    · rw [if_pos h22]
      exact key _
    · rw [if_neg h22]
      by_cases hw : s.ch = 0x74 ∨ s.ch = 0x66 ∨ s.ch = 0x6E
      · rw [if_pos hw]
        cases literalToken l.str with
        | none => exact fun h => absurd h (by simp)
        | some token =>
          simp only []
          by_cases t1 : token = 0x65757274
          · rw [if_pos t1]
            exact key _
          · rw [if_neg t1]
            by_cases t2 : token = 0x65736c6166
            · rw [if_pos t2]
              exact key _
            · rw [if_neg t2]
              by_cases t3 : token = 0x6c6c756e
              · rw [if_pos t3]
                exact key _
              · rw [if_neg t3]
                exact fun h => absurd h (by simp)
      · rw [if_neg hw]
        by_cases hn : (strtod l.str).2 ≠ l.str.length
        · rw [if_pos hn]
          exact fun h => absurd h (by simp)
        · rw [if_neg hn]
          exact key _

/-- `ParseMember` ends; when it returns true the iterator has moved on and is
as the `Read` that returned `ch` left it, and an array holds an element. -/
theorem ParseMember_ends (gen : Generator D) (strtod : List Nat → D × Nat) (cd dmax : Nat)
    (s : Scope D)
    (hgen : cd + 1 < dmax → ∀ it e n,
      (gen it e (cd + 1) dmax n).Ends fun g => g.res.m_bSuccess = true → it.Passes g.iter) :
    (ParseMember gen strtod cd dmax s).Ends fun r =>
      r.1 = true → s.iter.Passes r.2.iter ∧ r.2.iter.Read = (r.2.ch, r.2.iter) ∧
        (s.n.GetType = .Array → r.2.n.Filled) := by
  unfold ParseMember
  have hfirst : (if s.ch = 0x7B ∨ s.ch = 0x5B then BuildSpanInner gen cd dmax s
      else BuildSpanLiteral strtod s).Ends fun r =>
        r.1 = true → s.iter.Passes r.2.iter ∧ (s.n.GetType = .Array → r.2.n.Filled) := by
    split_ifs
    · exact BuildSpanInner_ends gen cd dmax s hgen
    · exact BuildSpanLiteral_ends strtod s
  refine Outcome.Ends_bind hfirst (fun b hb => ?_)
  by_cases hb1 : b.1 = false
  · simp only [hb1, if_true]
    exact fun h => absurd h (by simp)
  · simp only [hb1, if_false]
    obtain ⟨w, hw, hr, -⟩ := SkipWhitespace_ends b.2.iter b.2.szError
    simp only [hw, Outcome.ret_bind]
    by_cases hok : w.ok = false
    · simp only [hok, if_true]
      exact fun h => absurd h (by simp)
    · simp only [hok, if_false]
      obtain ⟨hp, hfill⟩ := hb (by simpa using hb1)
      exact fun _ => ⟨hp.then (hr.trans (UTF8Iterator.Reaches_Read _)),
        UTF8Iterator.Read_idem w.iter, hfill⟩

theorem CheckMemberTerminationAndAdvance_ends (s : Scope D)
    (hf : s.iter.Read = (s.ch, s.iter)) :
    ∃ r, CheckMemberTerminationAndAdvance s = .ret r ∧ s.iter.Reaches r.2.iter := by
  unfold CheckMemberTerminationAndAdvance
  by_cases ht : IsLiteralTerminator s.ch = false
  · rw [if_pos ht]
    exact ⟨_, rfl, UTF8Iterator.Reaches.refl _⟩
  · rw [if_neg ht]
    by_cases hc : s.ch = 0x2C
    · obtain ⟨r, hr, hp⟩ := StringAdvance_ends
        { s with bLabel := false, uLabelEnd := SIZE_MAX, uMemberStart := SIZE_MAX } hf
        (by show s.ch ≠ 0; omega)
      simp only []
      rw [if_pos hc, hr]
      exact ⟨_, rfl, hp.reaches⟩
    · simp only []
      rw [if_neg hc]
      exact ⟨_, rfl, UTF8Iterator.Reaches.refl _⟩

theorem scopeTerminator_ends (s : Scope D) (hf : s.iter.Read = (s.ch, s.iter)) :
    ∃ r, scopeTerminator s = .ret r ∧ s.iter.Reaches r.2.iter := by
  obtain ⟨c, hc, hr⟩ := CheckMemberTerminationAndAdvance_ends s hf
  unfold scopeTerminator
  simp only [hc, Outcome.ret_bind]
  split_ifs
  · exact ⟨_, rfl, hr⟩
  · exact ⟨_, rfl, hr⟩

theorem scopeTerminator_passes (s : Scope D) (it : UTF8Iterator) (hf : s.iter.Read = (s.ch, s.iter))
    (hp : it.Passes s.iter) :
    (scopeTerminator s).Ends fun r => r.1 = Ctl.next ∨ r.1 = Ctl.brk → it.Passes r.2.iter := by
  obtain ⟨r, hr, hre⟩ := scopeTerminator_ends s hf
  rw [hr]
  exact fun _ => hp.then hre

theorem scopeMember_ends (gen : Generator D) (strtod : List Nat → D × Nat) (cd dmax : Nat)
    (s : Scope D)
    (hgen : cd + 1 < dmax → ∀ it e n,
      (gen it e (cd + 1) dmax n).Ends fun g => g.res.m_bSuccess = true → it.Passes g.iter) :
    (scopeMember gen strtod cd dmax s).Ends
      fun r => r.1 = Ctl.next ∨ r.1 = Ctl.brk → s.iter.Passes r.2.iter := by
  unfold scopeMember
  refine Outcome.Ends_bind (ParseMember_ends gen strtod cd dmax s hgen) (fun m hm => ?_)
  by_cases hm1 : m.1 = false
  · rw [if_pos hm1]
    exact fun h => by rcases h with h | h <;> exact absurd h (by simp)
  · rw [if_neg hm1]
    obtain ⟨hp, hf, -⟩ := hm (by simpa using hm1)
    exact scopeTerminator_passes m.2 s.iter hf hp

/-- On an array that holds an element, `Length()` is not zero and `At(0)` and
`At(Length() - 1)` are elements. -/
theorem Node.Filled_At (n : Node D) (h : n.Filled) :
    ∃ len first last, n.Length = .ret len ∧ len ≠ 0 ∧ n.At 0 = .ret first ∧
      n.At (len - 1) = .ret last := by
  cases n with
  | array et es =>
    cases es with
    | nil => exact absurd rfl h
    | cons e es =>
      have hlast : (e :: es).get? ((e :: es).length - 1) = some ((e :: es).getLast (by simp)) := by
        rw [List.get?_eq_getElem?, List.getLast_eq_getElem, List.getElem?_eq_getElem]
      refine ⟨(e :: es).length, e, (e :: es).getLast (by simp), rfl, by simp, rfl, ?_⟩
      simp only [Node.At, hlast]
  | null | boolean _ | number _ | string _ | object _ => exact h.elim

theorem scopeElement_ends (gen : Generator D) (strtod : List Nat → D × Nat) (cd dmax : Nat)
    (s : Scope D) (hty : s.n.GetType = .Array)
    (hgen : cd + 1 < dmax → ∀ it e n,
      (gen it e (cd + 1) dmax n).Ends fun g => g.res.m_bSuccess = true → it.Passes g.iter) :
    (scopeElement gen strtod cd dmax s).Ends
      fun r => r.1 = Ctl.next ∨ r.1 = Ctl.brk → s.iter.Passes r.2.iter := by
  unfold scopeElement
  refine Outcome.Ends_bind (ParseMember_ends gen strtod cd dmax s hgen) (fun m hm => ?_)
  by_cases hm1 : m.1 = false
  · rw [if_pos hm1]
    exact fun h => by rcases h with h | h <;> exact absurd h (by simp)
  · rw [if_neg hm1]
    obtain ⟨hp, hf, hfill⟩ := hm (by simpa using hm1)
    obtain ⟨len, first, last, h1, h2, h3, h4⟩ := Node.Filled_At m.2.n (hfill hty)
    simp only [h1, h3, Outcome.ret_bind, h2, if_false, h4]
    by_cases hty : first.GetType ≠ last.GetType
    · rw [if_pos hty]
      exact fun h => by rcases h with h | h <;> exact absurd h (by simp)
    · rw [if_neg hty]
      exact scopeTerminator_passes m.2 s.iter hf hp

theorem advanceChar_ends (s : Scope D) (it : UTF8Iterator) (hi : s.iter = it)
    (hf : s.iter.Read = (s.ch, s.iter)) (hc : s.ch ≠ 0) :
    (advanceChar s).Ends fun r => r.1 = Ctl.next ∨ r.1 = Ctl.brk → it.Passes r.2.iter := by
  obtain ⟨r, hr, hp⟩ := StringAdvance_ends s hf hc
  unfold advanceChar
  rw [hr]
  exact fun _ => hi ▸ hp

theorem scopeStart_ends (s : Scope D) (hf : s.iter.Read = (s.ch, s.iter)) (hc : s.ch ≠ 0) :
    (scopeStart s).Ends fun r => r.1 = Ctl.next ∨ r.1 = Ctl.brk → s.iter.Passes r.2.iter := by
  unfold scopeStart
  by_cases h1 : s.ch = 0x7B
  · rw [if_pos h1]
    exact advanceChar_ends _ s.iter rfl hf hc
  · rw [if_neg h1]
    by_cases h2 : s.ch = 0x5B
    · rw [if_pos h2]
      exact advanceChar_ends _ s.iter rfl hf hc
    · rw [if_neg h2]
      exact fun h => by rcases h with h | h <;> exact absurd h (by simp)

theorem scopeColon_ends (s : Scope D) (hf : s.iter.Read = (s.ch, s.iter)) (hc : s.ch ≠ 0) :
    (scopeColon s).Ends fun r => r.1 = Ctl.next ∨ r.1 = Ctl.brk → s.iter.Passes r.2.iter := by
  unfold scopeColon
  by_cases h1 : s.ch = 0x3A
  · rw [if_pos h1]
    exact advanceChar_ends _ s.iter rfl hf hc
  · rw [if_neg h1]
    exact fun h => by rcases h with h | h <;> exact absurd h (by simp)

theorem scopeLabel_ends (s : Scope D) :
    (scopeLabel s).Ends fun r => r.1 = Ctl.next ∨ r.1 = Ctl.brk → s.iter.Passes r.2.iter := by
  unfold scopeLabel
  by_cases h1 : s.ch = 0x22
  · rw [if_pos h1]
    obtain ⟨l, hl, -, hp⟩ := GetNextLiteral_ends s.iter s.szError
    simp only [hl, Outcome.ret_bind]
    by_cases hok : l.ok = false
    · rw [if_pos hok]
      exact fun h => by rcases h with h | h <;> exact absurd h (by simp)
    · rw [if_neg hok]
      by_cases hem : l.str.isEmpty = true
      · rw [if_pos hem]
        exact fun h => by rcases h with h | h <;> exact absurd h (by simp)
      · rw [if_neg hem]
        obtain ⟨w, hw, hr, -⟩ := SkipWhitespace_ends l.iter l.szError
        rw [hw]
        exact fun _ => (hp (by simpa using hok)).then hr
  · rw [if_neg h1]
    exact fun h => by rcases h with h | h <;> exact absurd h (by simp)

/-- One round of the scope loop, entered after a `Read` that returned `ch`,
ends; unless it fails it has moved the iterator on. -/
theorem scopeBody_ends (gen : Generator D) (strtod : List Nat → D × Nat) (cd dmax : Nat)
    (s : Scope D) (hf : s.iter.Read = (s.ch, s.iter)) (hc : s.ch ≠ 0)
    (hty : s.eType = s.n.GetType)
    (hgen : cd + 1 < dmax → ∀ it e n,
      (gen it e (cd + 1) dmax n).Ends fun g => g.res.m_bSuccess = true → it.Passes g.iter) :
    (scopeBody gen strtod cd dmax s).Ends
      fun r => r.1 = Ctl.next ∨ r.1 = Ctl.brk → s.iter.Passes r.2.iter := by
  unfold scopeBody
  by_cases h1 : s.ch ≥ 0x7F
  · rw [if_pos h1]
    exact fun h => by rcases h with h | h <;> exact absurd h (by simp)
  · rw [if_neg h1]
    by_cases h2 : s.eType = .Null
    · rw [if_pos h2]
      exact scopeStart_ends s hf hc
    · rw [if_neg h2]
      by_cases h3 : (s.ch = 0x7D ∧ s.eType = .Object) ∨ (s.ch = 0x5D ∧ s.eType = .Array)
      · rw [if_pos h3]
        have hadv : s.iter.Advance.1 = true := by
          have := UTF8Iterator.Advance_after_Read s.iter (by rw [hf]; exact hc)
          rw [hf] at this
          exact this
        exact fun _ => UTF8Iterator.Passes_Advance s.iter hadv
      · rw [if_neg h3]
        by_cases h4 : s.eType = .Object
        · rw [if_pos h4]
          by_cases h5 : s.bLabel = false
          · rw [if_pos h5]
            exact scopeLabel_ends s
          · rw [if_neg h5]
            by_cases h6 : s.uMemberStart = SIZE_MAX
            · rw [if_pos h6]
              exact scopeColon_ends s hf hc
            · rw [if_neg h6]
              exact scopeMember_ends gen strtod cd dmax s hgen
        · rw [if_neg h4]
          by_cases h7 : s.eType = .Array
          · rw [if_pos h7]
            exact scopeElement_ends gen strtod cd dmax s (hty ▸ h7) hgen
          · rw [if_neg h7]
            exact fun h => by rcases h with h | h <;> exact absurd h (by simp)

/-- The scope loop ends within a budget above the bytes left; when it is left
without failure after a first `Read` that returned a codepoint, the iterator has
moved on. -/
theorem scopeLoop_ends (gen : Generator D) (hok : gen.Ok) (strtod : List Nat → D × Nat)
    (cd dmax : Nat)
    (hgen : cd + 1 < dmax → ∀ it e n,
      (gen it e (cd + 1) dmax n).Ends fun g => g.res.m_bSuccess = true → it.Passes g.iter) :
    ∀ (fuel : Nat) (s : Scope D), s.Inv → s.iter.GetNumBytesLeft < fuel →
      (scopeLoop gen strtod cd dmax fuel s).Ends
        fun r => r.1 = true →
          s.iter.Reaches r.2.iter ∧ (s.iter.Read.1 ≠ 0 → s.iter.Passes r.2.iter) := by
  intro fuel
  induction fuel with
  | zero => intro s _ hl; omega
  | succ fuel ih =>
    intro s hinv hl
    unfold scopeLoop
    by_cases h0 : s.iter.Read.1 = 0
    · simp only [h0, if_true]
      exact fun _ => ⟨UTF8Iterator.Reaches_Read s.iter, fun h => absurd rfl h⟩
    · simp only [h0, if_false]
      have hinv1 : ({ s with iter := s.iter.Read.2, ch := s.iter.Read.1 } : Scope D).Inv := hinv
      have hbody := scopeBody_ends gen strtod cd dmax
        { s with iter := s.iter.Read.2, ch := s.iter.Read.1 } (UTF8Iterator.Read_idem s.iter) h0
        hinv.2.1 hgen
      refine Outcome.Ends_bind' hbody (fun b hbe hb => ?_)
      have hb' : b.1 = Ctl.next ∨ b.1 = Ctl.brk → s.iter.Passes b.2.iter := fun h =>
        (UTF8Iterator.Reaches_Read s.iter).passes (hb h)
      have hstep := scopeBody_spec gen hok strtod cd dmax _ b.2 b.1 hbe hinv1 h0
      cases hctl : b.1 with
      | next =>
        have hp := hb' (Or.inl hctl)
        refine Outcome.Ends_mono (ih b.2 (hstep.1 hctl) (by have := hp.left_lt; omega))
          (fun r hr h1 => ?_)
        have hpass := hp.then (hr h1).1
        exact ⟨hpass.reaches, fun _ => hpass⟩
      | brk =>
        have hp := hb' (Or.inr hctl)
        exact fun _ => ⟨hp.reaches, fun _ => hp⟩
      | fail => exact fun h => absurd h (by simp)

/-- `GenerateNodes` ends when its budget of nested calls is above the depth that
is left; a successful call has moved the iterator on. -/
theorem GenerateNodes_ends (strtod : List Nat → D × Nat) (dmax : Nat) :
    ∀ (fuel cd : Nat) (it : UTF8Iterator) (e : List Nat) (n : Node D),
      dmax < cd + fuel → 0 < fuel →
      (GenerateNodes strtod fuel it e cd dmax n).Ends
        fun g => g.res.m_bSuccess = true → it.Passes g.iter := by
  intro fuel
  induction fuel with
  | zero => intro cd it e n _ h0; omega
  | succ fuel ih =>
    intro cd it e n hd _
    unfold GenerateNodes
    obtain ⟨w, hw, hr, hk⟩ := SkipWhitespace_ends it e
    simp only [hw, Outcome.ret_bind]
    by_cases hok : w.ok = false
    · rw [if_pos hok]
      exact fun h => absurd h (by simp [BuildSpanFail])
    · rw [if_neg hok]
      obtain ⟨hr0, hcase⟩ := hk (by simpa using hok)
      have hgen : cd + 1 < dmax → ∀ it e n,
          (GenerateNodes strtod fuel it e (cd + 1) dmax n).Ends
            fun g => g.res.m_bSuccess = true → it.Passes g.iter :=
        fun hlt it e n => ih (cd + 1) it e n (by omega) (by omega)
      refine Outcome.Ends_bind (scopeLoop_ends (GenerateNodes strtod fuel)
        (GenerateNodes_ok strtod fuel) strtod cd dmax hgen
        (w.iter.GetNumBytesLeft + 1) _ ⟨⟨rfl, trivial⟩, rfl, Or.inl rfl, fun h => absurd h (by simp)⟩
        (by show w.iter.GetNumBytesLeft < _; omega))
        (fun l hl => ?_)
      by_cases hl1 : l.1 = false
      · rw [if_pos hl1]
        exact fun h => absurd h (by simp [BuildSpanFail])
      · rw [if_neg hl1]
        obtain ⟨hre, hpa⟩ := hl (by simpa using hl1)
        intro _
        have hiter : (scopeEnd l.2).iter = l.2.iter := by
          unfold scopeEnd
          split_ifs <;> rfl
        rw [hiter]
        rcases hcase with hc | hc
        · have hrd : w.iter.Read.1 ≠ 0 := by
            rw [hc, UTF8Iterator.Read_idem]
            exact hr0
          exact hr.passes (hpa hrd)
        · exact hc.then hre

/-- C23: for every configuration, every input and every state of `json` and
`szError`, `Parse` ends, by a return or by `std::abort`: the budget of the model,
which gives every loop one round per byte that is left, plus one, and
`GenerateNodes` one nested call per level of depth below `m_uMaxDepth`, is not
used up, and no step is undefined. -/
theorem C23_Parse_terminates (strtod : List Nat → D × Nat) (cfg : ParserConfig)
    (szJson : List Nat) (json : Node D) (szError : List Nat) :
    (∃ r, Parse strtod cfg szJson json szError = .ret r) ∨
      Parse strtod cfg szJson json szError = .abort := by
  have h := GenerateNodes_ends strtod cfg.m_uMaxDepth (cfg.m_uMaxDepth + 1) 0
    (UTF8Iterator.new szJson) szError json (by omega) (by omega)
  have hp : (Parse strtod cfg szJson json szError).Ends fun _ => True := by
    unfold Parse
    exact Outcome.Ends_bind h (fun g _ => by split_ifs <;> trivial)
  exact (Outcome.Ends_iff _).1 hp

end Termination

/-! ### The callbacks of ForEachMember and ForEachElement -/

/-- C25: on an object, `ForEachMember` with a callback on `Node&` hands the
callback a copy of each member in turn and returns with the object as it was,
whatever the callback leaves in the node it was handed: `GetNumMembers` and
`Get` of every key answer as before. -/
theorem C25_ForEachMember_hands_copies {D σ : Type} (o : Node D) (ho : o.GetType = .Object)
    (callback : σ → List Nat → Node D → σ × Node D) (s : σ) :
    ∃ st, o.ForEachMember callback s = .ret (st, o) ∧
      ∀ o', o.ForEachMember callback s = .ret (st, o') →
        o'.GetNumMembers = o.GetNumMembers ∧ ∀ k, o'.Get k = o.Get k := by
  cases o with
  | object ms =>
    refine ⟨_, rfl, fun o' h => ?_⟩
    simp only [Node.ForEachMember, Outcome.ret.injEq, Prod.mk.injEq, true_and] at h
    subst h
    exact ⟨rfl, fun _ => rfl⟩
  | null | boolean _ | number _ | string _ | array _ _ => simp [Node.GetType] at ho

/-- Witness of C25: the object with the member `a`, the number 1, and a callback
that assigns `true` to the node it is handed and counts its calls. -/
theorem C25_ForEachMember_hands_copies_witness :
    (Node.object [([0x61], .number 1)] : Node Nat).GetType = .Object ∧
    (Node.object [([0x61], .number 1)] : Node Nat).ForEachMember
        (fun (c : Nat) _ _ => (c + 1, Node.boolean true)) 0
      = .ret (1, .object [([0x61], .number 1)]) ∧
    ∃ st, (Node.object [([0x61], .number 1)] : Node Nat).ForEachMember
        (fun (c : Nat) _ _ => (c + 1, Node.boolean true)) 0
      = .ret (st, .object [([0x61], .number 1)]) ∧
      ∀ o', (Node.object [([0x61], .number 1)] : Node Nat).ForEachMember
          (fun (c : Nat) _ _ => (c + 1, Node.boolean true)) 0 = .ret (st, o') →
        o'.GetNumMembers = (Node.object [([0x61], .number 1)] : Node Nat).GetNumMembers ∧
          ∀ k, o'.Get k = (Node.object [([0x61], .number 1)] : Node Nat).Get k :=
  ⟨rfl, rfl,
    C25_ForEachMember_hands_copies (Node.object [([0x61], .number 1)]) rfl
      (fun (c : Nat) _ _ => (c + 1, Node.boolean true)) 0⟩

/-- The member `ForEachElement` with a callback on `Node&` stores what the
callback leaves in each element: with a callback that assigns `x`, every element
of the array is `x` afterwards. -/
theorem Node.ForEachElement_assign {D σ : Type} (et : NodeType) (es : List (Node D)) (x : Node D)
    (s : σ) :
    (Node.array et es).ForEachElement (fun st _ => (st, x)) s
      = .ret (s, .array et (es.map fun _ => x)) := by
  have h : ∀ (l : List (Node D)) (t : σ),
      Node.ForEachElement.loop (fun (st : σ) (_ : Node D) => (st, x)) l t = (t, l.map fun _ => x) := by
    intro l
    induction l with
    | nil => intro t; rfl
    | cons e l ih => intro t; simp [Node.ForEachElement.loop, ih]
  simp [Node.ForEachElement, h]

/-! ### The first unit of a UTF-16 buffer -/

/-- C26: over a buffer whose first unit `u` is neither the terminator nor
`FFFE`, the constructor leaves the cursor on the second unit without swapping,
and the first `Advance` returns the codepoint and the unit count that `Advance`
returns on an iterator placed at the start of the units after `u`; it returns 0
with 0 units consumed when no unit follows `u`. -/
theorem C26_first_unit_is_skipped (u : Nat) (rest : List Nat) (hu : u ≠ 0) (hm : u ≠ 0xFFFE) :
    (UTF16Iterator.new (u :: rest)).units = 1 ∧
    (UTF16Iterator.new (u :: rest)).is_swapped = false ∧
    (UTF16Iterator.new (u :: rest)).Advance.1
      = (UTF16Iterator.Advance { buf := rest, units := 0, endp := strlen rest, is_swapped := false }).1 ∧
    (UTF16Iterator.new (u :: rest)).Advance.2.1
      = (UTF16Iterator.Advance { buf := rest, units := 0, endp := strlen rest, is_swapped := false }).2.1 ∧
    (rest.headD 0 = 0 →
      (UTF16Iterator.new (u :: rest)).Advance.1 = 0 ∧
      (UTF16Iterator.new (u :: rest)).Advance.2.1 = 0) := by
  have hlen : strlen (u :: rest) = strlen rest + 1 := by
    simp [strlen, List.takeWhile_cons, hu]
  have hnew : UTF16Iterator.new (u :: rest)
      = { buf := u :: rest, units := 1, endp := strlen rest + 1, is_swapped := false } := by
    simp [UTF16Iterator.new, hlen, hm]
  have hunit : ∀ i, UTF16Iterator.unit
      { buf := u :: rest, units := 1, endp := strlen rest + 1, is_swapped := false } i
      = UTF16Iterator.unit { buf := rest, units := 0, endp := strlen rest, is_swapped := false } i := by
    intro i
    simp [UTF16Iterator.unit, Nat.add_comm 1 i]
  have hval : ∀ i, UTF16Iterator.value
      { buf := u :: rest, units := 1, endp := strlen rest + 1, is_swapped := false } i
      = UTF16Iterator.value { buf := rest, units := 0, endp := strlen rest, is_swapped := false } i := by
    intro i
    simp only [UTF16Iterator.value, hunit]
  have hadv : (UTF16Iterator.Advance
        { buf := u :: rest, units := 1, endp := strlen rest + 1, is_swapped := false }).1
      = (UTF16Iterator.Advance { buf := rest, units := 0, endp := strlen rest, is_swapped := false }).1 ∧
      (UTF16Iterator.Advance
        { buf := u :: rest, units := 1, endp := strlen rest + 1, is_swapped := false }).2.1
      = (UTF16Iterator.Advance { buf := rest, units := 0, endp := strlen rest, is_swapped := false }).2.1 := by
    by_cases hz : strlen rest = 0
    · unfold UTF16Iterator.Advance
      simp [hz]
    · have hc : (1 + 1 < strlen rest + 1) = (0 + 1 < strlen rest) := by
        apply propext
        omega
      rw [UTF16Iterator.Advance_inside _ (show 1 < strlen rest + 1 by omega),
        UTF16Iterator.Advance_inside _ (show 0 < strlen rest by omega)]
      simp only [hval, hc]
      split_ifs <;> exact ⟨rfl, rfl⟩
  rw [hnew]
  refine ⟨rfl, rfl, hadv.1, hadv.2, ?_⟩
  intro h0
  have hz : strlen rest = 0 := by
    cases rest with
    | nil => rfl
    | cons r rest =>
      simp only [List.headD_cons] at h0
      simp [strlen, List.takeWhile_cons, h0]
  unfold UTF16Iterator.Advance
  simp [hz]

/-- Witness of C26: the buffer of the units `0041 0042`, where the first
`Advance` returns `0042`, and the buffer of the unit `0041` alone. -/
theorem C26_first_unit_is_skipped_witness :
    (0x41 : Nat) ≠ 0 ∧ (0x41 : Nat) ≠ 0xFFFE ∧
    (UTF16Iterator.new [0x41, 0x42, 0]).units = 1 ∧
    (UTF16Iterator.new [0x41, 0x42, 0]).Advance.1 = 0x42 ∧
    (UTF16Iterator.new [0x41, 0x42, 0]).Advance.2.1 = 1 ∧
    (UTF16Iterator.new [0x41, 0]).Advance.1 = 0 ∧
    (UTF16Iterator.new [0x41, 0]).Advance.2.1 = 0 :=
  ⟨by decide, by decide, (C26_first_unit_is_skipped 0x41 [0x42, 0] (by decide) (by decide)).1,
    by decide, by decide,
    ((C26_first_unit_is_skipped 0x41 [0] (by decide) (by decide)).2.2.2.2 rfl).1,
    ((C26_first_unit_is_skipped 0x41 [0] (by decide) (by decide)).2.2.2.2 rfl).2⟩

/-! ### Iterators over a buffer that goes on -/

namespace UTF8Iterator

theorem Read_ascii (it : UTF8Iterator) (h1 : it.units < it.endp) (h2 : it.unit 0 &&& 0x80 = 0) :
    it.Read = (it.unit 0, { it with n := 1, last_read := some it.units }) := by
  unfold Read
  rw [if_neg (by omega)]
  simp [h2]

theorem Read_multi (it : UTF8Iterator) (h1 : it.units < it.endp) (h2 : ¬ it.unit 0 &&& 0x80 = 0)
    (h3 : it.refresh.n ≠ 0) (h4 : ¬ it.endp < it.units + it.refresh.n) (c : Nat)
    (hcs : it.refresh.contSwitch it.refresh.n
      (((it.unit 0 &&& leadMask it.refresh.n) <<< ((it.refresh.n - 1) * 6)) % 4294967296) = some c)
    (h5 : ¬ c > 0x10FFFF) :
    it.Read = (c, { it.refresh with last_read := some it.refresh.units }) := by
  have h1' : ¬ it.units ≥ it.endp := by omega
  unfold Read
  simp [h1', h2, h3, h4, hcs, h5]

theorem Read_cases (it : UTF8Iterator) (h : it.Read.1 ≠ 0) :
    it.units < it.endp ∧ (it.unit 0 &&& 0x80 = 0 ∨
      (¬ it.unit 0 &&& 0x80 = 0 ∧ it.refresh.n ≠ 0 ∧ ¬ it.endp < it.units + it.refresh.n ∧
        ∃ c, it.refresh.contSwitch it.refresh.n
          (((it.unit 0 &&& leadMask it.refresh.n) <<< ((it.refresh.n - 1) * 6)) % 4294967296)
            = some c ∧ ¬ c > 0x10FFFF)) := by
  have h0 := Read_ne_zero_lt it h
  have h1 : ¬ it.units ≥ it.endp := by omega
  refine ⟨h0, ?_⟩
  by_cases h2 : it.unit 0 &&& 0x80 = 0
  · exact Or.inl h2
  · right
    by_cases h3 : it.refresh.n = 0
    · exact absurd (by unfold Read; simp [h1, h2, h3]) h
    · by_cases h4 : it.endp < it.units + it.refresh.n
      · exact absurd (by unfold Read; simp [h1, h2, h3, h4]) h
      · cases hcs : it.refresh.contSwitch it.refresh.n
            (((it.unit 0 &&& leadMask it.refresh.n) <<< ((it.refresh.n - 1) * 6)) % 4294967296) with
        | none => exact absurd (by unfold Read; simp [h1, h2, h3, h4, hcs]) h
        | some c =>
          by_cases h5 : c > 0x10FFFF
          · exact absurd (by unfold Read; simp [h1, h2, h3, h4, hcs, h5]) h
          · exact ⟨h2, h3, h4, c, rfl, h5⟩

theorem Advance_of (it : UTF8Iterator) (h1 : it.units < it.endp) (h3 : it.refresh.n ≠ 0)
    (h4 : ¬ it.endp < it.units + it.refresh.n) :
    it.Advance = (true, { it.refresh with units := it.refresh.units + it.refresh.n,
                                          pos := it.refresh.pos + 1 }) := by
  have h1' : ¬ it.units ≥ it.endp := by omega
  unfold Advance
  simp [h1', h3, h4]

theorem Advance_cases (it : UTF8Iterator) (h : it.Advance.1 = true) :
    it.units < it.endp ∧ it.refresh.n ≠ 0 ∧ ¬ it.endp < it.units + it.refresh.n := by
  unfold Advance at h
  by_cases h1 : it.units ≥ it.endp
  · simp [h1] at h
  · by_cases h3 : it.refresh.n = 0
    · simp [h1, h3] at h
    · by_cases h4 : it.endp < it.units + it.refresh.n
      · simp [h1, h3, h4] at h
      · exact ⟨by omega, h3, h4⟩

theorem Ext_getD {a b : UTF8Iterator} (h : a.Ext b) (i : Nat) (hi : i < a.endp) :
    b.buf.getD i 0 = a.buf.getD i 0 := by
  have e : ∀ l : List Nat, l.getD i 0 = (l.take a.endp).getD i 0 := by
    intro l
    simp [List.getD_eq_getElem?_getD, List.getElem?_take, hi]
  rw [e b.buf, e a.buf, h.2.2.2.2.2]

theorem Ext_unit {a b : UTF8Iterator} (h : a.Ext b) (i : Nat) (hi : a.units + i < a.endp) :
    b.unit i = a.unit i := by
  unfold unit
  rw [h.1]
  exact Ext_getD h _ hi

theorem Ext_refresh {a b : UTF8Iterator} (h : a.Ext b) (hu : a.units < a.endp) :
    a.refresh.Ext b.refresh := by
  have hn : b.ReadCodepointBytes = a.ReadCodepointBytes := by
    unfold ReadCodepointBytes
    rw [Ext_unit h 0 (by omega)]
  obtain ⟨h1, h2, h3, h4, h5, h6⟩ := h
  unfold refresh
  by_cases c : a.last_read ≠ some a.units
  · rw [if_pos c, if_pos (by rw [h4, h1]; exact c)]
    exact ⟨h1, h2, hn, h4, h5, h6⟩
  · rw [if_neg c, if_neg (by rw [h4, h1]; exact c)]
    exact ⟨h1, h2, h3, h4, h5, h6⟩

theorem Ext_contSwitch {a b : UTF8Iterator} (h : a.Ext b) (n c : Nat)
    (hn : a.units + n ≤ a.endp) : b.contSwitch n c = a.contSwitch n c := by
  have e : ∀ i, i < n → ∀ m c, b.contArm m i c = a.contArm m i c := by
    intro i hi m c
    unfold contArm
    rw [Ext_unit h i (by omega)]
  by_cases h4 : n = 4
  · subst h4
    simp only [contSwitch, e 3 (by omega), e 2 (by omega), e 1 (by omega)]
  · by_cases h3 : n = 3
    · subst h3
      simp only [contSwitch, e 2 (by omega), e 1 (by omega)]
    · by_cases h2 : n = 2
      · subst h2
        simp only [contSwitch, e 1 (by omega)]
      · have z : ∀ it : UTF8Iterator, it.contSwitch n c = none := by
          intro it
          unfold contSwitch
          split <;> first | rfl | omega
        rw [z a, z b]

theorem Ext_Read {a b : UTF8Iterator} (h : a.Ext b) (hr : a.Read.1 ≠ 0) :
    b.Read.1 = a.Read.1 ∧ a.Read.2.Ext b.Read.2 := by
  obtain ⟨h1, hc⟩ := Read_cases a hr
  have hu0 : b.unit 0 = a.unit 0 := Ext_unit h 0 (by omega)
  have h1' : b.units < b.endp := by
    have := h.1
    have := h.2.2.2.2.1
    omega
  rcases hc with h2 | ⟨h2, h3, h4, c, hcs, h5⟩
  · rw [Read_ascii a h1 h2, Read_ascii b h1' (by rw [hu0]; exact h2)]
    obtain ⟨x1, x2, x3, x4, x5, x6⟩ := h
    exact ⟨hu0, x1, x2, rfl, by show some b.units = some a.units; rw [x1], x5, x6⟩
  · have hx := Ext_refresh h h1
    have hn : b.refresh.n = a.refresh.n := hx.2.2.1
    have hcs' : b.refresh.contSwitch b.refresh.n
        (((b.unit 0 &&& leadMask b.refresh.n) <<< ((b.refresh.n - 1) * 6)) % 4294967296)
          = some c := by
      rw [hn, hu0, Ext_contSwitch hx _ _ (by simp only [refresh_units, refresh_endp]; omega)]
      exact hcs
    rw [Read_multi a h1 h2 h3 h4 c hcs h5,
      Read_multi b h1' (by rw [hu0]; exact h2) (by rw [hn]; exact h3)
        (by rw [hn, h.1]; have := h.2.2.2.2.1; omega) c hcs' h5]
    obtain ⟨x1, x2, x3, x4, x5, x6⟩ := hx
    exact ⟨rfl, x1, x2, x3, by show some b.refresh.units = some a.refresh.units; rw [x1], x5, x6⟩

theorem Ext_Advance {a b : UTF8Iterator} (h : a.Ext b) (ha : a.Advance.1 = true) :
    b.Advance.1 = true ∧ a.Advance.2.Ext b.Advance.2 := by
  obtain ⟨h1, h3, h4⟩ := Advance_cases a ha
  have hx := Ext_refresh h h1
  have hn : b.refresh.n = a.refresh.n := hx.2.2.1
  have h1' : b.units < b.endp := by
    have := h.1
    have := h.2.2.2.2.1
    omega
  rw [Advance_of a h1 h3 h4, Advance_of b h1' (by rw [hn]; exact h3)
    (by rw [hn, h.1]; have := h.2.2.2.2.1; omega)]
  obtain ⟨x1, x2, x3, x4, x5, x6⟩ := hx
  refine ⟨rfl, ?_, ?_, x3, x4, x5, x6⟩
  · show b.refresh.units + b.refresh.n = a.refresh.units + a.refresh.n
    rw [x1, x3]
  · show b.refresh.pos + 1 = a.refresh.pos + 1
    rw [x2]

theorem Ext_left {a b : UTF8Iterator} (h : a.Ext b) : a.GetNumBytesLeft ≤ b.GetNumBytesLeft := by
  have := h.1
  have := h.2.2.2.2.1
  unfold GetNumBytesLeft
  omega

theorem Ext_span {a b : UTF8Iterator} (h : a.Ext b) (start len : Nat)
    (hl : start + len ≤ a.endp) : span b start len = span a start len := by
  unfold span
  have e : ∀ l : List Nat, (l.drop start).take len = ((l.take a.endp).drop start).take len := by
    intro l
    rw [List.drop_take, List.take_take]
    congr 1
    omega
  rw [e b.buf, e a.buf, h.2.2.2.2.2]

theorem Ext_span_here {a b : UTF8Iterator} (h : a.Ext b) (start : Nat) (hu : a.units ≤ a.endp) :
    span b start (b.GetReadPtr - start) = span a start (a.GetReadPtr - start) := by
  unfold GetReadPtr
  rw [h.1]
  by_cases hs : start ≤ a.units
  · exact Ext_span h _ _ (by omega)
  · have z : a.units - start = 0 := by omega
    rw [z]
    simp [span]

end UTF8Iterator
/-! ### The scanners over a buffer that goes on -/

theorem SkipWhitespace_loop_ext :
    ∀ (f f' h : Nat) (iter iter' w : UTF8Iterator), f ≤ f' → iter.Read = (h, iter) →
      iter.Ext iter' → SkipWhitespace.loop f h iter = .ret w → w.Read.1 ≠ 0 →
      ∃ w', SkipWhitespace.loop f' h iter' = .ret w' ∧ w.Ext w' := by
  intro f
  induction f with
  | zero =>
    intro f' h iter iter' w _ _ _ hl
    simp [SkipWhitespace.loop] at hl
  | succ f ih =>
    intro f' h iter iter' w hf hfr hx hl hw
    obtain ⟨f'', rfl⟩ : ∃ k, f' = k + 1 := ⟨f' - 1, by omega⟩
    unfold SkipWhitespace.loop at hl ⊢
    by_cases c : h ≠ 0 ∧ IsWhitespace h = true
    · rw [if_pos c] at hl ⊢
      have ha : iter.Advance.1 = true := by
        have := UTF8Iterator.Advance_after_Read iter (by rw [hfr]; exact c.1)
        rw [hfr] at this
        exact this
      obtain ⟨-, hxa⟩ := UTF8Iterator.Ext_Advance hx ha
      have hr : iter.Advance.2.Read.1 ≠ 0 := by
        intro hz
        simp only [hz] at hl
        cases f with
        | zero => simp [SkipWhitespace.loop] at hl
        | succ f0 =>
          unfold SkipWhitespace.loop at hl
          rw [if_neg (by simp)] at hl
          injection hl with e
          subst e
          rw [UTF8Iterator.Read_idem] at hw
          exact hw hz
      obtain ⟨e1, hxr⟩ := UTF8Iterator.Ext_Read hxa hr
      simp only [e1]
      exact ih f'' _ _ _ w (by omega) (UTF8Iterator.Read_idem _) hxr hl hw
    · rw [if_neg c] at hl ⊢
      injection hl with e
      subst e
      exact ⟨iter', rfl, hx⟩

/-- A call of `SkipWhitespace` that returned true and left the iterator before a
codepoint does the same over a buffer that goes on. -/
theorem SkipWhitespace_ext (it : UTF8Iterator) (e : List Nat) (w : Scan)
    (h : SkipWhitespace it e = .ret w) (hok : w.ok = true) (hl : w.iter.Read.1 ≠ 0) :
    Scan.Follows (fun i => SkipWhitespace i e) it w := by
  intro it' hx
  show ∃ it1', SkipWhitespace it' e = .ret (w.withIter it1') ∧ w.iter.Ext it1'
  unfold SkipWhitespace at h ⊢
  by_cases h0 : it.Read.1 = 0
  · simp only [h0, if_true] at h
    injection h with e1
    subst e1
    simp at hok
  · obtain ⟨e1, hxr⟩ := UTF8Iterator.Ext_Read hx h0
    simp only [h0, if_false] at h
    have h0' : ¬ it'.Read.1 = 0 := by rw [e1]; exact h0
    simp only [h0', if_false]
    obtain ⟨x, hx1, hx2⟩ := Outcome.bind_eq_ret.1 h
    injection hx2 with e2
    subst e2
    obtain ⟨w', hw', hxw⟩ := SkipWhitespace_loop_ext (it.Read.2.GetNumBytesLeft + 1)
      (it'.Read.2.GetNumBytesLeft + 1) it.Read.1 it.Read.2 it'.Read.2 x (by have := UTF8Iterator.Ext_left hxr; omega) (UTF8Iterator.Read_idem it)
      hxr hx1 hl
    rw [e1, hw']
    exact ⟨w', rfl, hxw⟩

theorem GetNextString_loop_ext (start : Nat) (e : List Nat) :
    ∀ (f f' : Nat) (b : Bool) (iter iter' : UTF8Iterator) (w : Scan), f ≤ f' → iter.Ext iter' →
      GetNextString.loop start e f b iter = .ret w → w.ok = true →
      ∃ it1', GetNextString.loop start e f' b iter' = .ret (w.withIter it1') ∧
        w.iter.Ext it1' := by
  intro f
  induction f with
  | zero =>
    intro f' b iter iter' w _ _ hl
    simp [GetNextString.loop] at hl
  | succ f ih =>
    intro f' b iter iter' w hf hx hl hok
    obtain ⟨f'', rfl⟩ : ∃ k, f' = k + 1 := ⟨f' - 1, by omega⟩
    unfold GetNextString.loop at hl ⊢
    by_cases h0 : iter.Read.1 = 0
    · simp only [h0, if_true] at hl
      injection hl with e1
      subst e1
      simp at hok
    · obtain ⟨e1, hxr⟩ := UTF8Iterator.Ext_Read hx h0
      obtain ⟨ha', hxa⟩ := UTF8Iterator.Ext_Advance hxr (UTF8Iterator.Advance_after_Read iter h0)
      simp only [h0, if_false] at hl
      have h0' : ¬ iter'.Read.1 = 0 := by rw [e1]; exact h0
      simp only [h0', if_false]
      rw [e1]
      by_cases h1 : iter.Read.1 = 0x5C ∧ b = false
      · rw [if_pos h1] at hl ⊢
        exact ih f'' true _ _ w (by omega) hxa hl hok
      · rw [if_neg h1] at hl ⊢
        by_cases h2 : iter.Read.1 = 0x22 ∧ b = false
        · rw [if_pos h2] at hl ⊢
          injection hl with e2
          subst e2
          refine ⟨iter'.Read.2.Advance.2, ?_, hxa⟩
          have hlt := UTF8Iterator.Read_ne_zero_lt iter h0
          obtain ⟨f1, -, -, f4⟩ := UTF8Iterator.Read_frame iter
          rw [ha', UTF8Iterator.Advance_after_Read iter h0,
            UTF8Iterator.Ext_span_here hxr start (by omega)]
          rfl
        · rw [if_neg h2] at hl ⊢
          exact ih f'' false _ _ w (by omega) hxa hl hok

theorem GetNextString_of_skip (it : UTF8Iterator) (e : List Nat) (w0 : Scan)
    (h : SkipWhitespace it e = .ret w0) (hok : w0.ok = true) (hq : w0.iter.Read.1 = 0x22) :
    GetNextString it e = GetNextString.loop w0.iter.Read.2.Advance.2.GetReadPtr w0.szError
      (w0.iter.Read.2.Advance.2.GetNumBytesLeft + 1) false w0.iter.Read.2.Advance.2 := by
  unfold GetNextString
  rw [h]
  simp only [Outcome.ret_bind]
  rw [if_neg (by rw [hok]; decide), if_neg (by rw [hq]; decide)]

theorem GetNextString_ok_skip (it : UTF8Iterator) (e : List Nat) (w : Scan)
    (h : GetNextString it e = .ret w) (hok : w.ok = true) :
    ∃ w0, SkipWhitespace it e = .ret w0 ∧ w0.ok = true ∧ w0.iter.Read.1 = 0x22 := by
  unfold GetNextString at h
  obtain ⟨w0, hw0, h⟩ := Outcome.bind_eq_ret.1 h
  refine ⟨w0, hw0, ?_⟩
  by_cases hok0 : w0.ok = false
  · rw [if_pos hok0] at h
    injection h with e1
    subst e1
    exact absurd hok (by rw [show ({ w0 with str := [] } : Scan).ok = w0.ok from rfl, hok0]; decide)
  · rw [if_neg hok0] at h
    refine ⟨by simpa using hok0, ?_⟩
    by_cases hq : w0.iter.Read.1 ≠ 0x22
    · simp only [] at h
      rw [if_pos hq] at h
      injection h with e1
      subst e1
      simp at hok
    · simpa using hq

/-- A call of `GetNextString` that returned true does the same over a buffer
that goes on. -/
theorem GetNextString_ext (it : UTF8Iterator) (e : List Nat) (w : Scan)
    (h : GetNextString it e = .ret w) (hok : w.ok = true) :
    Scan.Follows (fun i => GetNextString i e) it w := by
  intro it' hx
  show ∃ it1', GetNextString it' e = .ret (w.withIter it1') ∧ w.iter.Ext it1'
  obtain ⟨w0, hw0, hok0, hq⟩ := GetNextString_ok_skip it e w h hok
  have hlive : w0.iter.Read.1 ≠ 0 := by rw [hq]; decide
  obtain ⟨i0, hi0, hx0⟩ := SkipWhitespace_ext it e w0 hw0 hok0 hlive it' hx
  obtain ⟨e1, hxr⟩ := UTF8Iterator.Ext_Read hx0 hlive
  obtain ⟨-, hxa⟩ := UTF8Iterator.Ext_Advance hxr (UTF8Iterator.Advance_after_Read w0.iter hlive)
  rw [GetNextString_of_skip it e w0 hw0 hok0 hq] at h
  rw [GetNextString_of_skip it' e (w0.withIter i0) hi0 hok0 (e1.trans hq)]
  have hu : i0.Read.2.Advance.2.GetReadPtr = w0.iter.Read.2.Advance.2.GetReadPtr := hxa.1
  show ∃ it1', GetNextString.loop i0.Read.2.Advance.2.GetReadPtr w0.szError
    (i0.Read.2.Advance.2.GetNumBytesLeft + 1) false i0.Read.2.Advance.2 = _ ∧ _
  rw [hu]
  exact GetNextString_loop_ext _ _ _ _ false _ _ w
    (by have := UTF8Iterator.Ext_left hxa; omega) hxa h hok

theorem GetNextLiteral_loop_ext (start : Nat) (e : List Nat) :
    ∀ (f f' : Nat) (iter iter' : UTF8Iterator) (w : Scan), f ≤ f' → iter.Ext iter' →
      GetNextLiteral.loop start e f iter = .ret w → w.ok = true →
      ∃ it1', GetNextLiteral.loop start e f' iter' = .ret (w.withIter it1') ∧
        w.iter.Ext it1' := by
  intro f
  induction f with
  | zero =>
    intro f' iter iter' w _ _ hl
    simp [GetNextLiteral.loop] at hl
  | succ f ih =>
    intro f' iter iter' w hf hx hl hok
    obtain ⟨f'', rfl⟩ : ∃ k, f' = k + 1 := ⟨f' - 1, by omega⟩
    unfold GetNextLiteral.loop at hl ⊢
    by_cases h0 : iter.Read.1 = 0
    · simp only [h0, if_true] at hl
      injection hl with e1
      subst e1
      simp at hok
    · obtain ⟨e1, hxr⟩ := UTF8Iterator.Ext_Read hx h0
      obtain ⟨-, hxa⟩ := UTF8Iterator.Ext_Advance hxr (UTF8Iterator.Advance_after_Read iter h0)
      simp only [h0, if_false] at hl
      have h0' : ¬ iter'.Read.1 = 0 := by rw [e1]; exact h0
      simp only [h0', if_false]
      rw [e1]
      by_cases h1 : iter.Read.1 ≥ 0x7F
      · rw [if_pos h1] at hl
        injection hl with e2
        subst e2
        simp at hok
      · rw [if_neg h1] at hl ⊢
        by_cases h2 : IsLiteralTerminator iter.Read.1 = true ∨ IsWhitespace iter.Read.1 = true
        · rw [if_pos h2] at hl ⊢
          have hu : iter'.Read.2.GetReadPtr = iter.Read.2.GetReadPtr := hxr.1
          by_cases h3 : iter.Read.2.GetReadPtr ≠ start
          · rw [if_pos h3] at hl
            rw [if_pos (by rw [hu]; exact h3)]
            injection hl with e2
            subst e2
            refine ⟨iter'.Read.2, ?_, hxr⟩
            have hlt := UTF8Iterator.Read_ne_zero_lt iter h0
            obtain ⟨f1, -, -, f4⟩ := UTF8Iterator.Read_frame iter
            rw [UTF8Iterator.Ext_span_here hxr start (by omega)]
            rfl
          · rw [if_neg h3] at hl
            injection hl with e2
            subst e2
            simp at hok
        · rw [if_neg h2] at hl ⊢
          exact ih f'' _ _ w (by omega) hxa hl hok

theorem GetNextLiteral_of_skip (it : UTF8Iterator) (e : List Nat) (w0 : Scan)
    (h : SkipWhitespace it e = .ret w0) (hok : w0.ok = true) :
    GetNextLiteral it e =
      if w0.iter.Read.1 = 0x22 then GetNextString w0.iter.Read.2 w0.szError
      else GetNextLiteral.loop w0.iter.Read.2.GetReadPtr w0.szError
        (w0.iter.Read.2.GetNumBytesLeft + 1) w0.iter.Read.2 := by
  unfold GetNextLiteral
  rw [h]
  simp only [Outcome.ret_bind]
  rw [if_neg (by rw [hok]; decide)]

theorem GetNextLiteral_ok_skip (it : UTF8Iterator) (e : List Nat) (w : Scan)
    (h : GetNextLiteral it e = .ret w) (hok : w.ok = true) :
    ∃ w0, SkipWhitespace it e = .ret w0 ∧ w0.ok = true := by
  unfold GetNextLiteral at h
  obtain ⟨w0, hw0, h⟩ := Outcome.bind_eq_ret.1 h
  refine ⟨w0, hw0, ?_⟩
  by_cases hok0 : w0.ok = false
  · rw [if_pos hok0] at h
    injection h with e1
    subst e1
    exact absurd hok (by rw [show ({ w0 with str := [] } : Scan).ok = w0.ok from rfl, hok0]; decide)
  · simpa using hok0

/-- A call of `GetNextLiteral` that returned true does the same over a buffer
that goes on. -/
theorem GetNextLiteral_ext (it : UTF8Iterator) (e : List Nat) (w : Scan)
    (h : GetNextLiteral it e = .ret w) (hok : w.ok = true) :
    Scan.Follows (fun i => GetNextLiteral i e) it w := by
  intro it' hx
  show ∃ it1', GetNextLiteral it' e = .ret (w.withIter it1') ∧ w.iter.Ext it1'
  obtain ⟨w0, hw0, hok0⟩ := GetNextLiteral_ok_skip it e w h hok
  rw [GetNextLiteral_of_skip it e w0 hw0 hok0] at h
  have hlive : w0.iter.Read.1 ≠ 0 := by
    intro hz
    rw [if_neg (by rw [hz]; decide)] at h
    unfold GetNextLiteral.loop at h
    rw [UTF8Iterator.Read_idem] at h
    simp only [hz, if_true] at h
    injection h with e1
    subst e1
    simp at hok
  obtain ⟨i0, hi0, hx0⟩ := SkipWhitespace_ext it e w0 hw0 hok0 hlive it' hx
  obtain ⟨e1, hxr⟩ := UTF8Iterator.Ext_Read hx0 hlive
  rw [GetNextLiteral_of_skip it' e (w0.withIter i0) hi0 hok0]
  show ∃ it1', (if i0.Read.1 = 0x22 then GetNextString i0.Read.2 w0.szError
      else GetNextLiteral.loop i0.Read.2.GetReadPtr w0.szError
        (i0.Read.2.GetNumBytesLeft + 1) i0.Read.2) = _ ∧ _
  rw [e1]
  by_cases hq : w0.iter.Read.1 = 0x22
  · rw [if_pos hq] at h ⊢
    exact GetNextString_ext _ _ w h hok _ hxr
  · rw [if_neg hq] at h ⊢
    have hu : i0.Read.2.GetReadPtr = w0.iter.Read.2.GetReadPtr := hxr.1
    rw [hu]
    exact GetNextLiteral_loop_ext _ _ _ _ _ _ w
      (by have := UTF8Iterator.Ext_left hxr; omega) hxr h hok
/-! ### The lambdas of `GenerateNodes` over a buffer that goes on -/

section Locality

variable {D : Type}

theorem SkipWhitespace_false_dead (it : UTF8Iterator) (e : List Nat) (w : Scan)
    (h : SkipWhitespace it e = .ret w) (hok : w.ok = false) : w.iter.Read.1 = 0 := by
  unfold SkipWhitespace at h
  by_cases h0 : it.Read.1 = 0
  · simp only [h0, if_true] at h
    injection h with e1
    subst e1
    show it.Read.2.Read.1 = 0
    rw [UTF8Iterator.Read_idem]
    exact h0
  · simp only [h0, if_false] at h
    obtain ⟨x, -, hx2⟩ := Outcome.bind_eq_ret.1 h
    injection hx2 with e2
    subst e2
    simp at hok

theorem StringAdvance_of_skip (s : Scope D) (ha : s.iter.Advance.1 = true) (w : Scan)
    (hw : SkipWhitespace s.iter.Advance.2 s.szError = .ret w) (hok : w.ok = true) :
    StringAdvance s = .ret (w.iter.Read.1 != 0,
      { s with iter := w.iter.Read.2, szError := w.szError, ch := w.iter.Read.1 }) := by
  unfold StringAdvance
  simp only [ha, Bool.true_eq_false, if_false, hw, Outcome.ret_bind, hok]

/-- A call of `StringAdvance` keeps `bTerminated` and `eType`; one that left the
iterator before a codepoint does the same over a buffer that goes on. -/
theorem StringAdvance_ext (s s1 : Scope D) (b : Bool) (h : StringAdvance s = .ret (b, s1))
    (hf : s.iter.Read = (s.ch, s.iter)) (hc : s.ch ≠ 0) :
    s1.bTerminated = s.bTerminated ∧ s1.eType = s.eType ∧
      (s1.iter.Read.1 ≠ 0 → Scope.Follows StringAdvance s b s1) := by
  have ha : s.iter.Advance.1 = true := by
    have := UTF8Iterator.Advance_after_Read s.iter (by rw [hf]; exact hc)
    rw [hf] at this
    exact this
  obtain ⟨w, hw, -, -⟩ := SkipWhitespace_ends s.iter.Advance.2 s.szError
  by_cases hok : w.ok = false
  · unfold StringAdvance at h
    simp only [ha, Bool.true_eq_false, if_false, hw, Outcome.ret_bind, hok, if_true] at h
    injection h with e1
    injection e1 with e2 e3
    subst e3
    exact ⟨rfl, rfl, fun hl => absurd (SkipWhitespace_false_dead _ _ _ hw hok) hl⟩
  · have hok' : w.ok = true := by simpa using hok
    rw [StringAdvance_of_skip s ha w hw hok'] at h
    injection h with e1
    injection e1 with e2 e3
    subst e3
    subst e2
    refine ⟨rfl, rfl, fun hl => ?_⟩
    have hlw : w.iter.Read.1 ≠ 0 := by
      intro hz
      apply hl
      show w.iter.Read.2.Read.1 = 0
      rw [UTF8Iterator.Read_idem]
      exact hz
    intro it' hx
    obtain ⟨ha', hxa⟩ := UTF8Iterator.Ext_Advance hx ha
    obtain ⟨i0, hi0, hx0⟩ := SkipWhitespace_ext _ _ w hw hok' hlw _ hxa
    obtain ⟨e1, hxr⟩ := UTF8Iterator.Ext_Read hx0 hlw
    refine ⟨i0.Read.2, ?_, hxr⟩
    have e1' : (w.withIter i0).iter.Read.1 = w.iter.Read.1 := e1
    rw [StringAdvance_of_skip (s.withIter it') ha' (w.withIter i0) hi0 hok', e1']
    rfl

theorem AddNode_ext (s s1 : Scope D) (inner : Node D) (b : Bool)
    (h : AddNode s inner = .ret (b, s1)) :
    s1.iter = s.iter ∧ s1.bTerminated = s.bTerminated ∧ s1.eType = s.eType ∧ s1.ch = s.ch ∧
      ∀ it', AddNode (s.withIter it') inner = .ret (b, s1.withIter it') := by
  unfold AddNode at h
  cases hty : s.n.GetType <;> simp only [hty] at h
  case Object =>
    by_cases he : s.szCurLabel.isEmpty = true
    · rw [if_pos he] at h
      injection h with e1
      injection e1 with e2 e3
      subst e2 e3
      refine ⟨rfl, rfl, rfl, rfl, fun it' => ?_⟩
      unfold AddNode
      simp only [Scope.withIter, hty]
      rw [if_pos he]
    · rw [if_neg he] at h
      obtain ⟨x, hx1, hx2⟩ := Outcome.bind_eq_ret.1 h
      injection hx2 with e1
      injection e1 with e2 e3
      subst e2 e3
      refine ⟨rfl, rfl, rfl, rfl, fun it' => ?_⟩
      unfold AddNode
      simp only [Scope.withIter, hty]
      rw [if_neg he, hx1]
      rfl
  case Array =>
    obtain ⟨x, hx1, hx2⟩ := Outcome.bind_eq_ret.1 h
    injection hx2 with e1
    injection e1 with e2 e3
    subst e2 e3
    refine ⟨rfl, rfl, rfl, rfl, fun it' => ?_⟩
    unfold AddNode
    simp only [Scope.withIter, hty]
    rw [hx1]
    rfl
  all_goals
    injection h with e1
    injection e1 with e2 e3
    subst e2 e3
    refine ⟨rfl, rfl, rfl, rfl, fun it' => ?_⟩
    unfold AddNode
    simp only [Scope.withIter, hty]

theorem Outcome.ret_false_ne {α : Type} {x y : α}
    (h : Outcome.ret (false, x) = Outcome.ret (true, y)) : False := by
  injection h with e1
  injection e1 with e2
  exact absurd e2 (by decide)

theorem SkipWhitespace_at_char (it : UTF8Iterator) (e : List Nat) (w : Scan) (c : Nat)
    (hf : it.Read = (c, it)) (hc : c ≠ 0) (hw : IsWhitespace c = false)
    (h : SkipWhitespace it e = .ret w) : w.iter = it := by
  unfold SkipWhitespace at h
  rw [hf] at h
  simp only [hc, if_false] at h
  unfold SkipWhitespace.loop at h
  rw [if_neg (by rw [hw]; simp)] at h
  simp only [Outcome.ret_bind] at h
  injection h with e1
  subst e1
  rfl

/-- A call of `BuildSpanInner` that returned true does the same over a buffer
that goes on, when the calls of `GenerateNodes` at the next depth do. -/
theorem BuildSpanInner_ext (gen : Generator D) (cd dmax : Nat) (s s1 : Scope D)
    (hgen : ∀ it e n g, gen it e (cd + 1) dmax n = .ret g → g.res.m_bSuccess = true →
      (∀ w, SkipWhitespace it e = .ret w → w.iter.Read.1 ≠ 0) →
      Generated.Follows (fun i => gen i e (cd + 1) dmax n) it g)
    (h : BuildSpanInner gen cd dmax s = .ret (true, s1))
    (hf : s.iter.Read = (s.ch, s.iter)) (hch : s.ch = 0x7B ∨ s.ch = 0x5B) :
    s1.bTerminated = s.bTerminated ∧ s1.eType = s.eType ∧
      Scope.Follows (BuildSpanInner gen cd dmax) s true s1 := by
  unfold BuildSpanInner at h
  by_cases hd : cd + 1 ≥ dmax
  · simp only [hd, if_true] at h
    exact absurd h (fun h => Outcome.ret_false_ne h)
  · simp only [hd, if_false] at h
    obtain ⟨g, hg, h⟩ := Outcome.bind_eq_ret.1 h
    by_cases hs : g.res.m_bSuccess = false
    · rw [if_pos hs] at h
      exact absurd h (fun h => Outcome.ret_false_ne h)
    · rw [if_neg hs] at h
      have hs' : g.res.m_bSuccess = true := by simpa using hs
      obtain ⟨a1, a2, a3, -, a5⟩ := AddNode_ext _ _ _ _ h
      have hlive : ∀ w, SkipWhitespace s.iter s.szError = .ret w → w.iter.Read.1 ≠ 0 := by
        intro w hw
        have hc0 : s.ch ≠ 0 := by rcases hch with c | c <;> rw [c] <;> decide
        have hws : IsWhitespace s.ch = false := by rcases hch with c | c <;> rw [c] <;> decide
        rw [SkipWhitespace_at_char s.iter s.szError w s.ch hf hc0 hws hw, hf]
        exact hc0
      refine ⟨a2, a3, ?_⟩
      intro it' hx
      obtain ⟨i1, hi1, hx1⟩ := hgen s.iter s.szError .null g hg hs' hlive it' hx
      refine ⟨i1, ?_, by rw [a1]; exact hx1⟩
      unfold BuildSpanInner
      simp only [hd, if_false]
      have hi1' : gen (s.withIter it').iter (s.withIter it').szError (cd + 1) dmax .null
          = .ret (g.withIter i1) := hi1
      rw [hi1']
      simp only [Outcome.ret_bind]
      rw [if_neg (show ¬ (g.withIter i1).res.m_bSuccess = false from hs)]
      exact a5 i1

/-- A call of `BuildSpanLiteral` that returned true does the same over a buffer
that goes on. -/
theorem BuildSpanLiteral_ext (strtod : List Nat → D × Nat) (s s1 : Scope D)
    (h : BuildSpanLiteral strtod s = .ret (true, s1)) :
    s1.bTerminated = s.bTerminated ∧ s1.eType = s.eType ∧
      Scope.Follows (BuildSpanLiteral strtod) s true s1 := by
  unfold BuildSpanLiteral at h
  obtain ⟨l, hl, h⟩ := Outcome.bind_eq_ret.1 h
  simp only [] at h
  by_cases hok : l.ok = false
  · rw [if_pos hok] at h
    exact absurd h (fun h => Outcome.ret_false_ne h)
  · rw [if_neg hok] at h
    have hok' : l.ok = true := by simpa using hok
    have hA : ∃ inner, AddNode { s with iter := l.iter, szError := l.szError } inner
          = .ret (true, s1) ∧
        ∀ (it' i1 : UTF8Iterator), it'.GetPosition = s.iter.GetPosition →
          GetNextLiteral it' s.szError = .ret (l.withIter i1) →
          BuildSpanLiteral strtod (s.withIter it')
            = AddNode (({ s with iter := l.iter, szError := l.szError } : Scope D).withIter i1)
                inner := by
      by_cases h22 : s.ch = 0x22
      · rw [if_pos h22] at h
        refine ⟨_, h, fun it' i1 hp hg => ?_⟩
        unfold BuildSpanLiteral
        rw [show GetNextLiteral (s.withIter it').iter (s.withIter it').szError = _ from hg]
        simp only [Outcome.ret_bind, Scope.withIter, Scan.withIter]
        rw [if_neg hok, if_pos h22]
      · rw [if_neg h22] at h
        by_cases hw : s.ch = 0x74 ∨ s.ch = 0x66 ∨ s.ch = 0x6E
        · rw [if_pos hw] at h
          cases htok : literalToken l.str with
          | none =>
            simp only [htok] at h
            exact absurd h (fun h => Outcome.ret_false_ne h)
          | some token =>
            simp only [htok] at h
            by_cases t1 : token = 0x65757274
            · rw [if_pos t1] at h
              refine ⟨_, h, fun it' i1 hp hg => ?_⟩
              unfold BuildSpanLiteral
              rw [show GetNextLiteral (s.withIter it').iter (s.withIter it').szError = _ from hg]
              simp only [Outcome.ret_bind, Scope.withIter, Scan.withIter, htok]
              rw [if_neg hok, if_neg h22, if_pos hw, if_pos t1]
            · rw [if_neg t1] at h
              by_cases t2 : token = 0x65736c6166
              · rw [if_pos t2] at h
                refine ⟨_, h, fun it' i1 hp hg => ?_⟩
                unfold BuildSpanLiteral
                rw [show GetNextLiteral (s.withIter it').iter (s.withIter it').szError = _ from hg]
                simp only [Outcome.ret_bind, Scope.withIter, Scan.withIter, htok]
                rw [if_neg hok, if_neg h22, if_pos hw, if_neg t1, if_pos t2]
              · rw [if_neg t2] at h
                by_cases t3 : token = 0x6c6c756e
                · rw [if_pos t3] at h
                  refine ⟨_, h, fun it' i1 hp hg => ?_⟩
                  unfold BuildSpanLiteral
                  rw [show GetNextLiteral (s.withIter it').iter (s.withIter it').szError = _
                    from hg]
                  simp only [Outcome.ret_bind, Scope.withIter, Scan.withIter, htok]
                  rw [if_neg hok, if_neg h22, if_pos hw, if_neg t1, if_neg t2, if_pos t3]
                · rw [if_neg t3] at h
                  exact absurd h (fun h => Outcome.ret_false_ne h)
        · rw [if_neg hw] at h
          by_cases hn : (strtod l.str).2 ≠ l.str.length
          · rw [if_pos hn] at h
            exact absurd h (fun h => Outcome.ret_false_ne h)
          · rw [if_neg hn] at h
            refine ⟨_, h, fun it' i1 hp hg => ?_⟩
            unfold BuildSpanLiteral
            rw [show GetNextLiteral (s.withIter it').iter (s.withIter it').szError = _ from hg]
            simp only [Outcome.ret_bind, Scope.withIter, Scan.withIter]
            rw [if_neg hok, if_neg h22, if_neg hw, if_neg hn]
    obtain ⟨inner, hadd, hrun⟩ := hA
    obtain ⟨a1, a2, a3, -, a5⟩ := AddNode_ext _ _ _ _ hadd
    refine ⟨a2, a3, ?_⟩
    intro it' hx
    obtain ⟨i1, hi1, hx1⟩ := GetNextLiteral_ext s.iter s.szError l hl hok' it' hx
    refine ⟨i1, ?_, by rw [a1]; exact hx1⟩
    rw [hrun it' i1 hx.2.1 hi1]
    exact a5 i1

theorem ParseMember_of (gen : Generator D) (strtod : List Nat → D × Nat) (cd dmax : Nat)
    (s b2 : Scope D) (w : Scan)
    (hfirst : (if s.ch = 0x7B ∨ s.ch = 0x5B then BuildSpanInner gen cd dmax s
      else BuildSpanLiteral strtod s) = .ret (true, b2))
    (hw : SkipWhitespace b2.iter b2.szError = .ret w) (hok : w.ok = true) :
    ParseMember gen strtod cd dmax s = .ret (true,
      { b2 with iter := w.iter.Read.2, szError := w.szError, ch := w.iter.Read.1 }) := by
  unfold ParseMember
  rw [hfirst]
  simp only [Outcome.ret_bind, Bool.true_eq_false, if_false, hw, hok]

/-- A call of `ParseMember` that returned true before a codepoint does the same
over a buffer that goes on. -/
theorem ParseMember_ext (gen : Generator D) (strtod : List Nat → D × Nat) (cd dmax : Nat)
    (s s1 : Scope D)
    (hgen : ∀ it e n g, gen it e (cd + 1) dmax n = .ret g → g.res.m_bSuccess = true →
      (∀ w, SkipWhitespace it e = .ret w → w.iter.Read.1 ≠ 0) →
      Generated.Follows (fun i => gen i e (cd + 1) dmax n) it g)
    (h : ParseMember gen strtod cd dmax s = .ret (true, s1))
    (hf : s.iter.Read = (s.ch, s.iter)) (hl : s1.ch ≠ 0) :
    s1.bTerminated = s.bTerminated ∧ s1.eType = s.eType ∧ s1.iter.Read = (s1.ch, s1.iter) ∧
      Scope.Follows (ParseMember gen strtod cd dmax) s true s1 := by
  have h0 := h
  unfold ParseMember at h
  obtain ⟨b, hb, h⟩ := Outcome.bind_eq_ret.1 h
  by_cases hb1 : b.1 = false
  · rw [if_pos hb1] at h
    exact absurd h (fun h => Outcome.ret_false_ne h)
  · rw [if_neg hb1] at h
    obtain ⟨w, hw, h⟩ := Outcome.bind_eq_ret.1 h
    by_cases hok : w.ok = false
    · rw [if_pos hok] at h
      exact absurd h (fun h => Outcome.ret_false_ne h)
    · rw [if_neg hok] at h
      have hok' : w.ok = true := by simpa using hok
      have hbb : b = (true, b.2) := by
        have : b.1 = true := by simpa using hb1
        rw [← this]
      rw [hbb] at hb
      injection h with e1
      injection e1 with e2 e3
      subst e3
      have hlw : w.iter.Read.1 ≠ 0 := hl
      have first : (b.2.bTerminated = s.bTerminated ∧ b.2.eType = s.eType) ∧
          ∀ it', s.iter.Ext it' → ∃ i1,
            (if (s.withIter it').ch = 0x7B ∨ (s.withIter it').ch = 0x5B
              then BuildSpanInner gen cd dmax (s.withIter it')
              else BuildSpanLiteral strtod (s.withIter it')) = .ret (true, b.2.withIter i1) ∧
            b.2.iter.Ext i1 := by
        by_cases hch : s.ch = 0x7B ∨ s.ch = 0x5B
        · rw [if_pos hch] at hb
          obtain ⟨f1, f2, f3⟩ := BuildSpanInner_ext gen cd dmax s b.2 hgen hb hf hch
          refine ⟨⟨f1, f2⟩, fun it' hx => ?_⟩
          rw [if_pos (show (s.withIter it').ch = 0x7B ∨ (s.withIter it').ch = 0x5B from hch)]
          exact f3 it' hx
        · rw [if_neg hch] at hb
          obtain ⟨f1, f2, f3⟩ := BuildSpanLiteral_ext strtod s b.2 hb
          refine ⟨⟨f1, f2⟩, fun it' hx => ?_⟩
          rw [if_neg (show ¬ ((s.withIter it').ch = 0x7B ∨ (s.withIter it').ch = 0x5B) from hch)]
          exact f3 it' hx
      refine ⟨first.1.1, first.1.2, UTF8Iterator.Read_idem w.iter, ?_⟩
      intro it' hx
      obtain ⟨i1, hi1, hx1⟩ := first.2 it' hx
      obtain ⟨i2, hi2, hx2⟩ := SkipWhitespace_ext b.2.iter b.2.szError w hw hok' hlw i1 hx1
      obtain ⟨e1, hxr⟩ := UTF8Iterator.Ext_Read hx2 hlw
      refine ⟨i2.Read.2, ?_, hxr⟩
      have e1' : (w.withIter i2).iter.Read.1 = w.iter.Read.1 := e1
      rw [ParseMember_of gen strtod cd dmax (s.withIter it') (b.2.withIter i1) (w.withIter i2)
        hi1 hi2 hok', e1']
      rfl

theorem Outcome.ret_pair {α β : Type} {a b : α} {x y : β}
    (h : Outcome.ret (a, x) = Outcome.ret (b, y)) : a = b ∧ x = y := by
  injection h with e1
  injection e1 with e2 e3
  exact ⟨e2, e3⟩

theorem scopeTerminator_comma_eq (s : Scope D) (hch : s.ch = 0x2C) :
    scopeTerminator s =
      (StringAdvance { s with bLabel := false, uLabelEnd := SIZE_MAX, uMemberStart := SIZE_MAX }).bind
        fun a => .ret (.next, a.2) := by
  have ht : ¬ IsLiteralTerminator s.ch = false := by rw [hch]; decide
  unfold scopeTerminator CheckMemberTerminationAndAdvance
  rw [if_neg ht]
  simp only []
  rw [if_pos hch]
  cases StringAdvance { s with bLabel := false, uLabelEnd := SIZE_MAX, uMemberStart := SIZE_MAX }
    <;> rfl

/-- A round of the scope loop that ends in `CheckMemberTerminationAndAdvance` was
entered at a terminator and keeps `bTerminated` and `eType`; one that left the
iterator before a codepoint does the same over a buffer that goes on. -/
theorem scopeTerminator_ext (s s1 : Scope D) (h : scopeTerminator s = .ret (.next, s1))
    (hf : s.iter.Read = (s.ch, s.iter)) :
    IsLiteralTerminator s.ch = true ∧ s1.bTerminated = s.bTerminated ∧ s1.eType = s.eType ∧
      (s1.iter.Read.1 ≠ 0 → Scope.Follows scopeTerminator s .next s1) := by
  by_cases ht : IsLiteralTerminator s.ch = true
  · refine ⟨ht, ?_⟩
    by_cases hch : s.ch = 0x2C
    · rw [scopeTerminator_comma_eq s hch] at h
      obtain ⟨a, ha, h⟩ := Outcome.bind_eq_ret.1 h
      obtain ⟨-, e3⟩ := Outcome.ret_pair h
      subst e3
      obtain ⟨f1, f2, f3⟩ := StringAdvance_ext
        { s with bLabel := false, uLabelEnd := SIZE_MAX, uMemberStart := SIZE_MAX } a.2 a.1 ha hf
        (by show s.ch ≠ 0; rw [hch]; decide)
      refine ⟨f1, f2, fun hl it' hx => ?_⟩
      obtain ⟨i1, hi1, hx1⟩ := f3 hl it' hx
      refine ⟨i1, ?_, hx1⟩
      rw [scopeTerminator_comma_eq (s.withIter it') hch]
      exact (Outcome.bind_eq_ret.2 ⟨(a.1, a.2.withIter i1), hi1, rfl⟩)
    · rw [scopeTerminator_close s ht hch] at h
      obtain ⟨-, e3⟩ := Outcome.ret_pair h
      subst e3
      refine ⟨rfl, rfl, fun _ it' hx => ⟨it', ?_, hx⟩⟩
      rw [scopeTerminator_close (s.withIter it') ht hch]
      rfl
  · exfalso
    unfold scopeTerminator CheckMemberTerminationAndAdvance at h
    rw [if_pos (by simpa using ht)] at h
    simp only [Outcome.ret_bind, if_true] at h
    exact absurd (Outcome.ret_pair h).1 (by decide)

theorem IsLiteralTerminator_ne_zero (c : Nat) (h : IsLiteralTerminator c = true) : c ≠ 0 := by
  intro hz
  rw [hz] at h
  exact absurd h (by decide)

/-- A round of the scope loop at a member of an object that went back to the
loop test before a codepoint does the same over a buffer that goes on. -/
theorem scopeMember_ext (gen : Generator D) (strtod : List Nat → D × Nat) (cd dmax : Nat)
    (s s1 : Scope D)
    (hgen : ∀ it e n g, gen it e (cd + 1) dmax n = .ret g → g.res.m_bSuccess = true →
      (∀ w, SkipWhitespace it e = .ret w → w.iter.Read.1 ≠ 0) →
      Generated.Follows (fun i => gen i e (cd + 1) dmax n) it g)
    (h : scopeMember gen strtod cd dmax s = .ret (.next, s1))
    (hf : s.iter.Read = (s.ch, s.iter)) :
    s1.bTerminated = s.bTerminated ∧ s1.eType = s.eType ∧
      (s1.iter.Read.1 ≠ 0 → Scope.Follows (scopeMember gen strtod cd dmax) s .next s1) := by
  unfold scopeMember at h
  obtain ⟨m, hm, h⟩ := Outcome.bind_eq_ret.1 h
  by_cases hm1 : m.1 = false
  · rw [if_pos hm1] at h
    exact absurd (Outcome.ret_pair h).1 (by decide)
  · rw [if_neg hm1] at h
    have hmm : m = (true, m.2) := by
      have : m.1 = true := by simpa using hm1
      rw [← this]
    rw [hmm] at hm
    have hterm0 := (scopeTerminator_ext m.2 s1 h (by
      unfold ParseMember at hm
      obtain ⟨b, -, hb⟩ := Outcome.bind_eq_ret.1 hm
      by_cases hb1 : b.1 = false
      · rw [if_pos hb1] at hb
        exact absurd hb (fun h => Outcome.ret_false_ne h)
      · rw [if_neg hb1] at hb
        obtain ⟨w, -, hw⟩ := Outcome.bind_eq_ret.1 hb
        by_cases hok : w.ok = false
        · rw [if_pos hok] at hw
          exact absurd hw (fun h => Outcome.ret_false_ne h)
        · rw [if_neg hok] at hw
          rw [← (Outcome.ret_pair hw).2]
          exact UTF8Iterator.Read_idem w.iter))
    obtain ⟨t0, t1, t2, t3⟩ := hterm0
    obtain ⟨p1, p2, p3, p4⟩ := ParseMember_ext gen strtod cd dmax s m.2 hgen hm hf
      (IsLiteralTerminator_ne_zero _ t0)
    refine ⟨t1.trans p1, t2.trans p2, fun hl it' hx => ?_⟩
    obtain ⟨i1, hi1, hx1⟩ := p4 it' hx
    obtain ⟨i2, hi2, hx2⟩ := t3 hl i1 hx1
    refine ⟨i2, ?_, hx2⟩
    unfold scopeMember
    rw [hi1]
    simp only [Outcome.ret_bind, Bool.true_eq_false, if_false]
    exact hi2

/-- A round of the scope loop at an element of an array that went back to the
loop test before a codepoint does the same over a buffer that goes on. -/
theorem scopeElement_ext (gen : Generator D) (strtod : List Nat → D × Nat) (cd dmax : Nat)
    (s s1 : Scope D)
    (hgen : ∀ it e n g, gen it e (cd + 1) dmax n = .ret g → g.res.m_bSuccess = true →
      (∀ w, SkipWhitespace it e = .ret w → w.iter.Read.1 ≠ 0) →
      Generated.Follows (fun i => gen i e (cd + 1) dmax n) it g)
    (h : scopeElement gen strtod cd dmax s = .ret (.next, s1))
    (hf : s.iter.Read = (s.ch, s.iter)) :
    s1.bTerminated = s.bTerminated ∧ s1.eType = s.eType ∧
      (s1.iter.Read.1 ≠ 0 → Scope.Follows (scopeElement gen strtod cd dmax) s .next s1) := by
  unfold scopeElement at h
  obtain ⟨m, hm, h⟩ := Outcome.bind_eq_ret.1 h
  by_cases hm1 : m.1 = false
  · rw [if_pos hm1] at h
    exact absurd (Outcome.ret_pair h).1 (by decide)
  · rw [if_neg hm1] at h
    have hmm : m = (true, m.2) := by
      have : m.1 = true := by simpa using hm1
      rw [← this]
    rw [hmm] at hm
    obtain ⟨len, hlen, h⟩ := Outcome.bind_eq_ret.1 h
    obtain ⟨first, hfirst, h⟩ := Outcome.bind_eq_ret.1 h
    obtain ⟨last, hlast, h⟩ := Outcome.bind_eq_ret.1 h
    by_cases hty : first.GetType ≠ last.GetType
    · rw [if_pos hty] at h
      exact absurd (Outcome.ret_pair h).1 (by decide)
    · rw [if_neg hty] at h
      have hterm0 := (scopeTerminator_ext m.2 s1 h (by
        unfold ParseMember at hm
        obtain ⟨b, -, hb⟩ := Outcome.bind_eq_ret.1 hm
        by_cases hb1 : b.1 = false
        · rw [if_pos hb1] at hb
          exact absurd hb (fun h => Outcome.ret_false_ne h)
        · rw [if_neg hb1] at hb
          obtain ⟨w, -, hw⟩ := Outcome.bind_eq_ret.1 hb
          by_cases hok : w.ok = false
          · rw [if_pos hok] at hw
            exact absurd hw (fun h => Outcome.ret_false_ne h)
          · rw [if_neg hok] at hw
            rw [← (Outcome.ret_pair hw).2]
            exact UTF8Iterator.Read_idem w.iter))
      obtain ⟨t0, t1, t2, t3⟩ := hterm0
      obtain ⟨p1, p2, p3, p4⟩ := ParseMember_ext gen strtod cd dmax s m.2 hgen hm hf
        (IsLiteralTerminator_ne_zero _ t0)
      refine ⟨t1.trans p1, t2.trans p2, fun hl it' hx => ?_⟩
      obtain ⟨i1, hi1, hx1⟩ := p4 it' hx
      obtain ⟨i2, hi2, hx2⟩ := t3 hl i1 hx1
      refine ⟨i2, ?_, hx2⟩
      unfold scopeElement
      rw [hi1]
      simp only [Outcome.ret_bind, Bool.true_eq_false, if_false]
      have hn : (m.2.withIter i1).n = m.2.n := rfl
      rw [hn, hlen]
      simp only [Outcome.ret_bind]
      rw [hfirst]
      simp only [Outcome.ret_bind]
      rw [hlast]
      simp only [Outcome.ret_bind]
      rw [if_neg hty]
      exact hi2

end Locality
/-! ### The scope loop over a buffer that goes on -/

section LocalityLoop

variable {D : Type}

theorem scopeTerminator_ctl (s s1 : Scope D) (ctl : Ctl) (h : scopeTerminator s = .ret (ctl, s1)) :
    ctl ≠ .brk := by
  unfold scopeTerminator at h
  obtain ⟨c, -, h⟩ := Outcome.bind_eq_ret.1 h
  by_cases hc : c.1 = false
  · rw [if_pos hc] at h
    rw [← (Outcome.ret_pair h).1]
    decide
  · rw [if_neg hc] at h
    rw [← (Outcome.ret_pair h).1]
    decide

theorem advanceChar_ctl (s s1 : Scope D) (ctl : Ctl) (h : advanceChar s = .ret (ctl, s1)) :
    ctl = .next := by
  unfold advanceChar at h
  obtain ⟨c, -, h⟩ := Outcome.bind_eq_ret.1 h
  exact (Outcome.ret_pair h).1.symm

theorem scopeStart_ctl (s s1 : Scope D) (ctl : Ctl) (h : scopeStart s = .ret (ctl, s1)) :
    ctl ≠ .brk := by
  unfold scopeStart at h
  by_cases h1 : s.ch = 0x7B
  · rw [if_pos h1] at h
    rw [advanceChar_ctl _ _ _ h]
    decide
  · rw [if_neg h1] at h
    by_cases h2 : s.ch = 0x5B
    · rw [if_pos h2] at h
      rw [advanceChar_ctl _ _ _ h]
      decide
    · rw [if_neg h2] at h
      rw [← (Outcome.ret_pair h).1]
      decide

theorem scopeColon_ctl (s s1 : Scope D) (ctl : Ctl) (h : scopeColon s = .ret (ctl, s1)) :
    ctl ≠ .brk := by
  unfold scopeColon at h
  by_cases h1 : s.ch = 0x3A
  · rw [if_pos h1] at h
    rw [advanceChar_ctl _ _ _ h]
    decide
  · rw [if_neg h1] at h
    rw [← (Outcome.ret_pair h).1]
    decide

theorem scopeLabel_of (s : Scope D) (l w : Scan) (hch : s.ch = 0x22)
    (hl : GetNextLiteral s.iter s.szError = .ret l) (hok : l.ok = true)
    (hne : l.str.isEmpty = false) (hw : SkipWhitespace l.iter l.szError = .ret w)
    (hokw : w.ok = true) :
    scopeLabel s = .ret (.next, { s with bLabel := true, szCurLabel := l.str, uLabelEnd := l.iter.GetPosition, iter := w.iter, szError := w.szError }) := by
  unfold scopeLabel
  rw [if_pos hch, hl]
  simp only [Outcome.ret_bind, hok, Bool.true_eq_false, Bool.false_eq_true, if_false, hne, hw,
    hokw]

theorem scopeLabel_next (s s1 : Scope D) (ctl : Ctl) (h : scopeLabel s = .ret (ctl, s1))
    (hctl : ctl ≠ .fail) :
    ∃ l w, s.ch = 0x22 ∧ GetNextLiteral s.iter s.szError = .ret l ∧ l.ok = true ∧
      l.str.isEmpty = false ∧ SkipWhitespace l.iter l.szError = .ret w ∧ w.ok = true := by
  unfold scopeLabel at h
  by_cases hch : s.ch = 0x22
  · rw [if_pos hch] at h
    obtain ⟨l, hl, h⟩ := Outcome.bind_eq_ret.1 h
    by_cases hok : l.ok = false
    · rw [if_pos hok] at h
      exact absurd (Outcome.ret_pair h).1.symm hctl
    · rw [if_neg hok] at h
      by_cases hne : l.str.isEmpty = true
      · rw [if_pos hne] at h
        exact absurd (Outcome.ret_pair h).1.symm hctl
      · rw [if_neg hne] at h
        obtain ⟨w, hw, h⟩ := Outcome.bind_eq_ret.1 h
        by_cases hokw : w.ok = false
        · rw [if_pos hokw] at h
          exact absurd (Outcome.ret_pair h).1.symm hctl
        · exact ⟨l, w, hch, hl, by simpa using hok, by simpa using hne, hw, by simpa using hokw⟩
  · rw [if_neg hch] at h
    exact absurd (Outcome.ret_pair h).1.symm hctl

theorem scopeMember_ctl (gen : Generator D) (strtod : List Nat → D × Nat) (cd dmax : Nat)
    (s s1 : Scope D) (ctl : Ctl) (h : scopeMember gen strtod cd dmax s = .ret (ctl, s1)) :
    ctl ≠ .brk := by
  unfold scopeMember at h
  obtain ⟨m, -, h⟩ := Outcome.bind_eq_ret.1 h
  by_cases hm1 : m.1 = false
  · rw [if_pos hm1] at h
    rw [← (Outcome.ret_pair h).1]
    decide
  · rw [if_neg hm1] at h
    exact scopeTerminator_ctl _ _ _ h

theorem scopeElement_ctl (gen : Generator D) (strtod : List Nat → D × Nat) (cd dmax : Nat)
    (s s1 : Scope D) (ctl : Ctl) (h : scopeElement gen strtod cd dmax s = .ret (ctl, s1)) :
    ctl ≠ .brk := by
  unfold scopeElement at h
  obtain ⟨m, -, h⟩ := Outcome.bind_eq_ret.1 h
  by_cases hm1 : m.1 = false
  · rw [if_pos hm1] at h
    rw [← (Outcome.ret_pair h).1]
    decide
  · rw [if_neg hm1] at h
    obtain ⟨len, -, h⟩ := Outcome.bind_eq_ret.1 h
    obtain ⟨first, -, h⟩ := Outcome.bind_eq_ret.1 h
    obtain ⟨last, -, h⟩ := Outcome.bind_eq_ret.1 h
    by_cases hty : first.GetType ≠ last.GetType
    · rw [if_pos hty] at h
      rw [← (Outcome.ret_pair h).1]
      decide
    · rw [if_neg hty] at h
      exact scopeTerminator_ctl _ _ _ h

theorem Ctl.eq_next (ctl : Ctl) (h1 : ctl ≠ .fail) (h2 : ctl ≠ .brk) : ctl = .next := by
  cases ctl
  · rfl
  · exact absurd rfl h2
  · exact absurd rfl h1

theorem advanceChar_ext (s s1 : Scope D) (h : advanceChar s = .ret (.next, s1))
    (hf : s.iter.Read = (s.ch, s.iter)) (hc : s.ch ≠ 0) :
    s1.bTerminated = s.bTerminated ∧ s1.eType = s.eType ∧
      (s1.iter.Read.1 ≠ 0 → Scope.Follows advanceChar s .next s1) := by
  unfold advanceChar at h
  obtain ⟨a, ha, h⟩ := Outcome.bind_eq_ret.1 h
  obtain ⟨-, e3⟩ := Outcome.ret_pair h
  subst e3
  obtain ⟨f1, f2, f3⟩ := StringAdvance_ext s a.2 a.1 ha hf hc
  refine ⟨f1, f2, fun hl it' hx => ?_⟩
  obtain ⟨i1, hi1, hx1⟩ := f3 hl it' hx
  refine ⟨i1, ?_, hx1⟩
  unfold advanceChar
  exact (Outcome.bind_eq_ret.2 ⟨(a.1, a.2.withIter i1), hi1, rfl⟩)

theorem scopeStart_ext (s s1 : Scope D) (h : scopeStart s = .ret (.next, s1))
    (hf : s.iter.Read = (s.ch, s.iter)) (hc : s.ch ≠ 0) :
    s1.bTerminated = s.bTerminated ∧ s1.eType ≠ .Null ∧
      (s1.iter.Read.1 ≠ 0 → Scope.Follows scopeStart s .next s1) := by
  unfold scopeStart at h
  by_cases h1 : s.ch = 0x7B
  · rw [if_pos h1] at h
    obtain ⟨f1, f2, f3⟩ := advanceChar_ext _ s1 h hf hc
    refine ⟨f1, by rw [f2]; exact fun c => NodeType.noConfusion c, fun hl it' hx => ?_⟩
    obtain ⟨i1, hi1, hx1⟩ := f3 hl it' hx
    refine ⟨i1, ?_, hx1⟩
    unfold scopeStart
    rw [if_pos (show (s.withIter it').ch = 0x7B from h1)]
    exact hi1
  · rw [if_neg h1] at h
    by_cases h2 : s.ch = 0x5B
    · rw [if_pos h2] at h
      obtain ⟨f1, f2, f3⟩ := advanceChar_ext _ s1 h hf hc
      refine ⟨f1, by rw [f2]; exact fun c => NodeType.noConfusion c, fun hl it' hx => ?_⟩
      obtain ⟨i1, hi1, hx1⟩ := f3 hl it' hx
      refine ⟨i1, ?_, hx1⟩
      unfold scopeStart
      rw [if_neg (show ¬ (s.withIter it').ch = 0x7B from h1),
        if_pos (show (s.withIter it').ch = 0x5B from h2)]
      exact hi1
    · rw [if_neg h2] at h
      exact absurd (Outcome.ret_pair h).1 (by decide)

theorem scopeColon_ext (s s1 : Scope D) (h : scopeColon s = .ret (.next, s1))
    (hf : s.iter.Read = (s.ch, s.iter)) (hc : s.ch ≠ 0) :
    s1.bTerminated = s.bTerminated ∧ s1.eType = s.eType ∧
      (s1.iter.Read.1 ≠ 0 → Scope.Follows scopeColon s .next s1) := by
  unfold scopeColon at h
  by_cases h1 : s.ch = 0x3A
  · rw [if_pos h1] at h
    obtain ⟨f1, f2, f3⟩ := advanceChar_ext _ s1 h hf hc
    refine ⟨f1, f2, fun hl it' hx => ?_⟩
    obtain ⟨i1, hi1, hx1⟩ := f3 hl it' hx
    refine ⟨i1, ?_, hx1⟩
    unfold scopeColon
    rw [if_pos (show (s.withIter it').ch = 0x3A from h1)]
    have hp : (s.withIter it').iter.GetPosition = s.iter.GetPosition := hx.2.1
    rw [hp]
    exact hi1
  · rw [if_neg h1] at h
    exact absurd (Outcome.ret_pair h).1 (by decide)

theorem scopeLabel_ext (s s1 : Scope D) (h : scopeLabel s = .ret (.next, s1)) :
    s1.bTerminated = s.bTerminated ∧ s1.eType = s.eType ∧
      (s1.iter.Read.1 ≠ 0 → Scope.Follows scopeLabel s .next s1) := by
  obtain ⟨l, w, hch, hl, hok, hne, hw, hokw⟩ := scopeLabel_next s s1 .next h (by decide)
  rw [scopeLabel_of s l w hch hl hok hne hw hokw] at h
  obtain ⟨-, e3⟩ := Outcome.ret_pair h
  subst e3
  refine ⟨rfl, rfl, fun hlive it' hx => ?_⟩
  obtain ⟨i1, hi1, hx1⟩ := GetNextLiteral_ext s.iter s.szError l hl hok it' hx
  obtain ⟨i2, hi2, hx2⟩ := SkipWhitespace_ext l.iter l.szError w hw hokw hlive i1 hx1
  refine ⟨i2, ?_, hx2⟩
  rw [scopeLabel_of (s.withIter it') (l.withIter i1) (w.withIter i2) hch hi1 hok hne hi2 hokw]
  have hp : (l.withIter i1).iter.GetPosition = l.iter.GetPosition := hx1.2.1
  rw [hp]
  rfl

end LocalityLoop
section LocalityParse

variable {D : Type}

/-- A round of the scope loop that did not fail keeps `bTerminated` and leaves a
scope that has a type when it goes back to the loop test; one that ended in
`break`, or went back to the loop test before a codepoint, does the same over a
buffer that goes on. -/
theorem scopeBody_ext (gen : Generator D) (strtod : List Nat → D × Nat) (cd dmax : Nat)
    (s s1 : Scope D) (ctl : Ctl)
    (hgen : ∀ it e n g, gen it e (cd + 1) dmax n = .ret g → g.res.m_bSuccess = true →
      (∀ w, SkipWhitespace it e = .ret w → w.iter.Read.1 ≠ 0) →
      Generated.Follows (fun i => gen i e (cd + 1) dmax n) it g)
    (h : scopeBody gen strtod cd dmax s = .ret (ctl, s1)) (hctl : ctl ≠ .fail)
    (hf : s.iter.Read = (s.ch, s.iter)) (hc : s.ch ≠ 0) :
    (ctl = .next → s1.bTerminated = s.bTerminated ∧ s1.eType ≠ .Null) ∧
      ((ctl = .next → s1.iter.Read.1 ≠ 0) →
        Scope.Follows (scopeBody gen strtod cd dmax) s ctl s1) := by
  unfold scopeBody at h
  by_cases h7 : s.ch ≥ 0x7F
  · rw [if_pos h7] at h
    exact absurd (Outcome.ret_pair h).1.symm hctl
  · rw [if_neg h7] at h
    have g7 : ∀ it', ¬ (s.withIter it').ch ≥ 0x7F := fun _ => h7
    by_cases hN : s.eType = .Null
    · rw [if_pos hN] at h
      have hnx := Ctl.eq_next ctl hctl (scopeStart_ctl _ _ _ h)
      subst hnx
      obtain ⟨f1, f2, f3⟩ := scopeStart_ext s s1 h hf hc
      refine ⟨fun _ => ⟨f1, f2⟩, fun hl it' hx => ?_⟩
      obtain ⟨i1, hi1, hx1⟩ := f3 (hl rfl) it' hx
      refine ⟨i1, ?_, hx1⟩
      unfold scopeBody
      rw [if_neg (g7 it'), if_pos (show (s.withIter it').eType = .Null from hN)]
      exact hi1
    · rw [if_neg hN] at h
      have gN : ∀ it', ¬ (s.withIter it').eType = .Null := fun _ => hN
      by_cases hcl : (s.ch = 0x7D ∧ s.eType = .Object) ∨ (s.ch = 0x5D ∧ s.eType = .Array)
      · rw [if_pos hcl] at h
        obtain ⟨e2, e3⟩ := Outcome.ret_pair h
        subst e2 e3
        refine ⟨fun c => absurd c (by decide), fun _ it' hx => ?_⟩
        have ha : s.iter.Advance.1 = true := by
          have := UTF8Iterator.Advance_after_Read s.iter (by rw [hf]; exact hc)
          rw [hf] at this
          exact this
        refine ⟨it'.Advance.2, ?_, (UTF8Iterator.Ext_Advance hx ha).2⟩
        unfold scopeBody
        rw [if_neg (g7 it'), if_neg (gN it'),
          if_pos (show ((s.withIter it').ch = 0x7D ∧ (s.withIter it').eType = .Object) ∨
            ((s.withIter it').ch = 0x5D ∧ (s.withIter it').eType = .Array) from hcl)]
        rfl
      · rw [if_neg hcl] at h
        have gcl : ∀ it', ¬ (((s.withIter it').ch = 0x7D ∧ (s.withIter it').eType = .Object) ∨
            ((s.withIter it').ch = 0x5D ∧ (s.withIter it').eType = .Array)) := fun _ => hcl
        by_cases hO : s.eType = .Object
        · rw [if_pos hO] at h
          have gO : ∀ it', (s.withIter it').eType = .Object := fun _ => hO
          by_cases hb : s.bLabel = false
          · rw [if_pos hb] at h
            have hnx : ctl = .next := by
              obtain ⟨l, w, hch, hl, hok, hne, hw, hokw⟩ := scopeLabel_next s s1 ctl h hctl
              rw [scopeLabel_of s l w hch hl hok hne hw hokw] at h
              exact (Outcome.ret_pair h).1.symm
            subst hnx
            obtain ⟨f1, f2, f3⟩ := scopeLabel_ext s s1 h
            refine ⟨fun _ => ⟨f1, by rw [f2]; exact hN⟩, fun hl it' hx => ?_⟩
            obtain ⟨i1, hi1, hx1⟩ := f3 (hl rfl) it' hx
            refine ⟨i1, ?_, hx1⟩
            unfold scopeBody
            rw [if_neg (g7 it'), if_neg (gN it'), if_neg (gcl it'), if_pos (gO it'),
              if_pos (show (s.withIter it').bLabel = false from hb)]
            exact hi1
          · rw [if_neg hb] at h
            by_cases hm : s.uMemberStart = SIZE_MAX
            · rw [if_pos hm] at h
              have hnx := Ctl.eq_next ctl hctl (scopeColon_ctl _ _ _ h)
              subst hnx
              obtain ⟨f1, f2, f3⟩ := scopeColon_ext s s1 h hf hc
              refine ⟨fun _ => ⟨f1, by rw [f2]; exact hN⟩, fun hl it' hx => ?_⟩
              obtain ⟨i1, hi1, hx1⟩ := f3 (hl rfl) it' hx
              refine ⟨i1, ?_, hx1⟩
              unfold scopeBody
              rw [if_neg (g7 it'), if_neg (gN it'), if_neg (gcl it'), if_pos (gO it'),
                if_neg (show ¬ (s.withIter it').bLabel = false from hb),
                if_pos (show (s.withIter it').uMemberStart = SIZE_MAX from hm)]
              exact hi1
            · rw [if_neg hm] at h
              have hnx := Ctl.eq_next ctl hctl (scopeMember_ctl _ _ _ _ _ _ _ h)
              subst hnx
              obtain ⟨f1, f2, f3⟩ := scopeMember_ext gen strtod cd dmax s s1 hgen h hf
              refine ⟨fun _ => ⟨f1, by rw [f2]; exact hN⟩, fun hl it' hx => ?_⟩
              obtain ⟨i1, hi1, hx1⟩ := f3 (hl rfl) it' hx
              refine ⟨i1, ?_, hx1⟩
              unfold scopeBody
              rw [if_neg (g7 it'), if_neg (gN it'), if_neg (gcl it'), if_pos (gO it'),
                if_neg (show ¬ (s.withIter it').bLabel = false from hb),
                if_neg (show ¬ (s.withIter it').uMemberStart = SIZE_MAX from hm)]
              exact hi1
        · rw [if_neg hO] at h
          have gO : ∀ it', ¬ (s.withIter it').eType = .Object := fun _ => hO
          by_cases hA : s.eType = .Array
          · rw [if_pos hA] at h
            have hnx := Ctl.eq_next ctl hctl (scopeElement_ctl _ _ _ _ _ _ _ h)
            subst hnx
            obtain ⟨f1, f2, f3⟩ := scopeElement_ext gen strtod cd dmax s s1 hgen h hf
            refine ⟨fun _ => ⟨f1, by rw [f2]; exact hN⟩, fun hl it' hx => ?_⟩
            obtain ⟨i1, hi1, hx1⟩ := f3 (hl rfl) it' hx
            refine ⟨i1, ?_, hx1⟩
            unfold scopeBody
            rw [if_neg (g7 it'), if_neg (gN it'), if_neg (gcl it'), if_neg (gO it'),
              if_pos (show (s.withIter it').eType = .Array from hA)]
            exact hi1
          · rw [if_neg hA] at h
            exact absurd (Outcome.ret_pair h).1.symm hctl

theorem scopeLoop_live (gen : Generator D) (strtod : List Nat → D × Nat) (cd dmax fuel : Nat)
    (s : Scope D) (hl : s.iter.Read.1 ≠ 0) :
    scopeLoop gen strtod cd dmax (fuel + 1) s
      = (scopeBody gen strtod cd dmax { s with iter := s.iter.Read.2, ch := s.iter.Read.1 }).bind
          fun b =>
            match b.1 with
            | .next => scopeLoop gen strtod cd dmax fuel b.2
            | .brk => .ret (true, b.2)
            | .fail => .ret (false, b.2) := by
  simp only [scopeLoop, hl, if_false]

theorem scopeLoop_dead (gen : Generator D) (strtod : List Nat → D × Nat) (cd dmax fuel : Nat)
    (s : Scope D) (hz : s.iter.Read.1 = 0) :
    scopeLoop gen strtod cd dmax (fuel + 1) s
      = .ret (true, { s with iter := s.iter.Read.2, ch := s.iter.Read.1 }) := by
  simp only [scopeLoop, hz, if_true]

/-- A run of the scope loop that was left by `break` does the same over a buffer
that goes on, on a budget that is no smaller. -/
theorem scopeLoop_ext (gen : Generator D) (strtod : List Nat → D × Nat) (cd dmax : Nat)
    (hgen : ∀ it e n g, gen it e (cd + 1) dmax n = .ret g → g.res.m_bSuccess = true →
      (∀ w, SkipWhitespace it e = .ret w → w.iter.Read.1 ≠ 0) →
      Generated.Follows (fun i => gen i e (cd + 1) dmax n) it g) :
    ∀ (f f' : Nat) (s s1 : Scope D), f ≤ f' → s.bTerminated = false →
      scopeLoop gen strtod cd dmax f s = .ret (true, s1) →
      (s1.eType = .Null ∨ s1.bTerminated = true) → s.iter.Read.1 ≠ 0 →
      Scope.Follows (scopeLoop gen strtod cd dmax f') s true s1 := by
  intro f
  induction f with
  | zero =>
    intro f' s s1 _ _ h
    simp [scopeLoop] at h
  | succ f ih =>
    intro f' s s1 hff hbt h hend hlive it' hx
    obtain ⟨f'', rfl⟩ : ∃ k, f' = k + 1 := ⟨f' - 1, by omega⟩
    rw [scopeLoop_live gen strtod cd dmax f s hlive] at h
    obtain ⟨b, hb, h⟩ := Outcome.bind_eq_ret.1 h
    obtain ⟨e1, hxr⟩ := UTF8Iterator.Ext_Read hx hlive
    have hlive' : (s.withIter it').iter.Read.1 ≠ 0 := by
      show it'.Read.1 ≠ 0
      rw [e1]
      exact hlive
    have e1' : (s.withIter it').iter.Read.1 = s.iter.Read.1 := e1
    rw [scopeLoop_live gen strtod cd dmax f'' (s.withIter it') hlive', e1']
    have hfresh := Scope.fresh_Read s
    cases hctl : b.1 with
    | fail =>
      rw [hctl] at h
      exact absurd h (fun h => Outcome.ret_false_ne h)
    | brk =>
      rw [hctl] at h
      obtain ⟨-, e3⟩ := Outcome.ret_pair h
      subst e3
      obtain ⟨-, fol⟩ := scopeBody_ext gen strtod cd dmax _ b.2 .brk hgen
        (by rw [hb, ← hctl]) (by decide) hfresh hlive
      obtain ⟨i1, hi1, hx1⟩ := fol (fun c => absurd c (by decide)) it'.Read.2 hxr
      exact ⟨i1, Outcome.bind_eq_ret.2 ⟨(.brk, b.2.withIter i1), hi1, rfl⟩, hx1⟩
    | next =>
      rw [hctl] at h
      obtain ⟨fr, fol⟩ := scopeBody_ext gen strtod cd dmax _ b.2 .next hgen
        (by rw [hb, ← hctl]) (by decide) hfresh hlive
      obtain ⟨fr1, fr2⟩ := fr rfl
      have hbt2 : b.2.bTerminated = false := fr1.trans hbt
      have hl2 : b.2.iter.Read.1 ≠ 0 := by
        intro hz
        cases f with
        | zero => simp [scopeLoop] at h
        | succ f0 =>
          rw [scopeLoop_dead gen strtod cd dmax f0 b.2 hz] at h
          obtain ⟨-, e3⟩ := Outcome.ret_pair h
          subst e3
          rcases hend with c | c
          · exact fr2 c
          · rw [show ({ b.2 with iter := b.2.iter.Read.2, ch := b.2.iter.Read.1 }
              : Scope D).bTerminated = b.2.bTerminated from rfl, hbt2] at c
            exact absurd c (by decide)
      obtain ⟨i1, hi1, hx1⟩ := fol (fun _ => hl2) it'.Read.2 hxr
      obtain ⟨i2, hi2, hx2⟩ := ih f'' b.2 s1 (by omega) hbt2 h hend hl2 i1 hx1
      exact ⟨i2, Outcome.bind_eq_ret.2 ⟨(.next, b.2.withIter i1), hi1, hi2⟩, hx2⟩

theorem scopeEnd_withIter (s : Scope D) (i : UTF8Iterator) :
    scopeEnd (s.withIter i) = (scopeEnd s).withIter i := by
  unfold scopeEnd
  by_cases c1 : s.eType = .Object ∧ s.uLabelEnd ≠ SIZE_MAX
  · rw [if_pos c1, if_pos (show (s.withIter i).eType = .Object ∧
      (s.withIter i).uLabelEnd ≠ SIZE_MAX from c1)]
    rfl
  · rw [if_neg c1, if_neg (show ¬ ((s.withIter i).eType = .Object ∧
      (s.withIter i).uLabelEnd ≠ SIZE_MAX) from c1)]
    by_cases c2 : s.eType ≠ .Null ∧ s.bTerminated = false
    · rw [if_pos c2, if_pos (show (s.withIter i).eType ≠ .Null ∧
        (s.withIter i).bTerminated = false from c2)]
      rfl
    · rw [if_neg c2, if_neg (show ¬ ((s.withIter i).eType ≠ .Null ∧
        (s.withIter i).bTerminated = false) from c2)]
      rfl

theorem scopeEnd_success (s : Scope D) (h : (scopeEnd s).res.m_bSuccess = true) :
    (s.eType = .Null ∨ s.bTerminated = true) ∧ (scopeEnd s).iter = s.iter ∧
      (scopeEnd s).n = s.n := by
  unfold scopeEnd at h ⊢
  by_cases c1 : s.eType = .Object ∧ s.uLabelEnd ≠ SIZE_MAX
  · rw [if_pos c1] at h
    exact absurd h (by simp [BuildSpanFail])
  · rw [if_neg c1] at h ⊢
    by_cases c2 : s.eType ≠ .Null ∧ s.bTerminated = false
    · rw [if_pos c2] at h
      exact absurd h (by simp [BuildSpanFail])
    · rw [if_neg c2]
      refine ⟨?_, rfl, rfl⟩
      by_cases c3 : s.eType = .Null
      · exact Or.inl c3
      · right
        cases hb : s.bTerminated
        · exact absurd ⟨c3, hb⟩ c2
        · rfl

theorem GenerateNodes_of_skip (strtod : List Nat → D × Nat) (fuel cd dmax : Nat)
    (it : UTF8Iterator) (e : List Nat) (n : Node D) (w : Scan)
    (hw : SkipWhitespace it e = .ret w) (hok : w.ok = true) :
    GenerateNodes strtod (fuel + 1) it e cd dmax n
      = (scopeLoop (GenerateNodes strtod fuel) strtod cd dmax (w.iter.GetNumBytesLeft + 1) { iter := w.iter, n := (Node.null : Node D).copy, eType := .Null, bLabel := false, bTerminated := false, uScopeStart := it.GetPosition, uLabelEnd := SIZE_MAX, uMemberStart := SIZE_MAX, ch := 0, szCurLabel := [], szError := w.szError }).bind
          fun l => if l.1 = false then .ret (BuildSpanFail l.2) else .ret (scopeEnd l.2) := by
  simp only [GenerateNodes, hw, Outcome.ret_bind, hok, Bool.true_eq_false, if_false]

/-- A call of `GenerateNodes` that succeeded after its scope loop ran a round does
the same over a buffer that goes on. -/
theorem GenerateNodes_ext (strtod : List Nat → D × Nat) :
    ∀ (fuel cd dmax : Nat) (it : UTF8Iterator) (e : List Nat) (n : Node D) (g : Generated D),
      GenerateNodes strtod fuel it e cd dmax n = .ret g → g.res.m_bSuccess = true →
      (∀ w, SkipWhitespace it e = .ret w → w.iter.Read.1 ≠ 0) →
      Generated.Follows (fun i => GenerateNodes strtod fuel i e cd dmax n) it g := by
  intro fuel
  induction fuel with
  | zero =>
    intro cd dmax it e n g h
    simp [GenerateNodes] at h
  | succ fuel ih =>
    intro cd dmax it e n g h hs hlive it' hx
    show ∃ it1', GenerateNodes strtod (fuel + 1) it' e cd dmax n = .ret (g.withIter it1') ∧
      g.iter.Ext it1'
    obtain ⟨w, hw, -, -⟩ := SkipWhitespace_ends it e
    by_cases hok : w.ok = false
    · exfalso
      simp only [GenerateNodes, hw, Outcome.ret_bind, hok, if_true] at h
      injection h with e1
      subst e1
      simp [BuildSpanFail] at hs
    · have hok' : w.ok = true := by simpa using hok
      rw [GenerateNodes_of_skip strtod fuel cd dmax it e n w hw hok'] at h
      obtain ⟨l, hl, h⟩ := Outcome.bind_eq_ret.1 h
      by_cases hl1 : l.1 = false
      · exfalso
        rw [if_pos hl1] at h
        injection h with e1
        subst e1
        simp [BuildSpanFail] at hs
      · rw [if_neg hl1] at h
        injection h with e1
        subst e1
        obtain ⟨hend, hit, -⟩ := scopeEnd_success l.2 hs
        have hll : l = (true, l.2) := by
          have : l.1 = true := by simpa using hl1
          rw [← this]
        rw [hll] at hl
        have hwl := hlive w hw
        obtain ⟨i0, hi0, hx0⟩ := SkipWhitespace_ext it e w hw hok' hwl it' hx
        obtain ⟨i1, hi1, hx1⟩ := scopeLoop_ext (GenerateNodes strtod fuel) strtod cd dmax
          (fun it e n g a b c => ih (cd + 1) dmax it e n g a b c)
          (w.iter.GetNumBytesLeft + 1) (i0.GetNumBytesLeft + 1) _ l.2
          (by have := UTF8Iterator.Ext_left hx0; omega) rfl hl hend hwl i0 hx0
        refine ⟨i1, ?_, by rw [hit]; exact hx1⟩
        rw [GenerateNodes_of_skip strtod fuel cd dmax it' e n (w.withIter i0) hi0 hok']
        have hp : it'.GetPosition = it.GetPosition := hx.2.1
        rw [hp]
        refine Outcome.bind_eq_ret.2 ⟨(true, l.2.withIter i1), hi1, ?_⟩
        rw [if_neg (by simp), scopeEnd_withIter]

end LocalityParse
section LocalityTop

variable {D : Type}

theorem getD_append_of_lt (s r : List Nat) (i : Nat) (h : i < s.length) :
    (s ++ r).getD i 0 = s.getD i 0 := by
  simp [List.getD_eq_getElem?_getD, List.getElem?_append_left h]

theorem UTF8Iterator.new_units (A : List Nat) :
    (UTF8Iterator.new A).units =
      if 3 ≤ strlen A ∧ A.getD 0 0 = 0xEF ∧ A.getD 1 0 = 0xBB ∧ A.getD 2 0 = 0xBF then 3 else 0 :=
  rfl

theorem UTF8Iterator.new_Read_short (A : List Nat) (h0 : A.getD 0 0 = 0xEF)
    (hs : strlen A < 3) : (UTF8Iterator.new A).Read.1 = 0 := by
  have hnew : UTF8Iterator.new A
      = { buf := A, units := 0, endp := strlen A, last_read := none, pos := 0, n := 0 } := by
    unfold UTF8Iterator.new
    simp only []
    rw [if_neg (by omega)]
  rw [hnew]
  by_contra hr
  obtain ⟨h1, hc⟩ := UTF8Iterator.Read_cases _ hr
  have hu : ({ buf := A, units := 0, endp := strlen A, last_read := none, pos := 0, n := 0 }
      : UTF8Iterator).unit 0 = 0xEF := by
    simp only [UTF8Iterator.unit]
    exact h0
  have hn : ({ buf := A, units := 0, endp := strlen A, last_read := none, pos := 0, n := 0 }
      : UTF8Iterator).refresh.n = 3 := by
    unfold UTF8Iterator.refresh
    rw [if_pos (by simp)]
    simp only [UTF8Iterator.ReadCodepointBytes, hu]
    decide
  rw [hu, hn] at hc
  rcases hc with c | ⟨-, -, c, -⟩
  · exact absurd c (by decide)
  · simp only [] at c
    omega

/-- The iterator over a buffer that goes on starts where the iterator over the
buffer starts, when the first `Read` over the buffer returns a codepoint. -/
theorem UTF8Iterator.new_ext (s t tail tail2 : List Nat) (hs : ∀ b ∈ s, b ≠ 0)
    (ht : ∀ b ∈ t, b ≠ 0) (hl : (UTF8Iterator.new (s ++ 0 :: tail)).Read.1 ≠ 0) :
    (UTF8Iterator.new (s ++ 0 :: tail)).Ext (UTF8Iterator.new (s ++ t ++ 0 :: tail2)) := by
  have lenA : strlen (s ++ 0 :: tail) = s.length := strlen_append s (0 :: tail) hs rfl
  have lenB : strlen (s ++ t ++ 0 :: tail2) = s.length + t.length := by
    rw [strlen_append (s ++ t) (0 :: tail2) (by
      intro b hb
      rcases List.mem_append.1 hb with c | c
      · exact hs b c
      · exact ht b c) rfl, List.length_append]
  have hpos : 0 < s.length := by
    by_contra hz
    apply hl
    have hle := UTF8Iterator.Read_ne_zero_lt _ hl
    have hu := UTF8Iterator.new_units (s ++ 0 :: tail)
    have he : (UTF8Iterator.new (s ++ 0 :: tail)).endp = s.length := lenA
    rw [he] at hle
    omega
  have hB : ∀ i, i < s.length → (s ++ t ++ 0 :: tail2).getD i 0 = (s ++ 0 :: tail).getD i 0 := by
    intro i hi
    rw [List.append_assoc, getD_append_of_lt s _ i hi, getD_append_of_lt s _ i hi]
  have hunits : (UTF8Iterator.new (s ++ t ++ 0 :: tail2)).units
      = (UTF8Iterator.new (s ++ 0 :: tail)).units := by
    rw [UTF8Iterator.new_units, UTF8Iterator.new_units, lenA, lenB]
    by_cases h3 : 3 ≤ s.length
    · rw [hB 0 (by omega), hB 1 (by omega), hB 2 (by omega)]
      by_cases c : (s ++ 0 :: tail).getD 0 0 = 0xEF ∧ (s ++ 0 :: tail).getD 1 0 = 0xBB ∧
          (s ++ 0 :: tail).getD 2 0 = 0xBF
      · rw [if_pos ⟨by omega, c⟩, if_pos ⟨h3, c⟩]
      · rw [if_neg (fun x => c x.2), if_neg (fun x => c x.2)]
    · have hA0 : (if 3 ≤ s.length ∧ (s ++ 0 :: tail).getD 0 0 = 0xEF ∧
          (s ++ 0 :: tail).getD 1 0 = 0xBB ∧ (s ++ 0 :: tail).getD 2 0 = 0xBF then 3 else 0)
            = 0 := if_neg (fun x => h3 x.1)
      rw [hA0]
      by_cases c : 3 ≤ s.length + t.length ∧ (s ++ t ++ 0 :: tail2).getD 0 0 = 0xEF ∧
          (s ++ t ++ 0 :: tail2).getD 1 0 = 0xBB ∧ (s ++ t ++ 0 :: tail2).getD 2 0 = 0xBF
      · exfalso
        apply hl
        apply UTF8Iterator.new_Read_short
        · rw [← hB 0 hpos]
          exact c.2.1
        · rw [lenA]
          omega
      · rw [if_neg c]
  refine ⟨hunits, rfl, rfl, rfl, ?_, ?_⟩
  · show strlen (s ++ 0 :: tail) ≤ strlen (s ++ t ++ 0 :: tail2)
    rw [lenA, lenB]
    omega
  · show (s ++ t ++ 0 :: tail2).take (strlen (s ++ 0 :: tail))
      = (s ++ 0 :: tail).take (strlen (s ++ 0 :: tail))
    rw [lenA, List.append_assoc, List.take_left, List.take_left]

/-- C24: trailing content is ignored. When `Parse` succeeds with an object or an
array on the C string `s` (the bytes `s`, none of them NUL, then a NUL, then
whatever memory follows), then for every byte string `t` without NUL it succeeds
on the C string `s` followed by `t`, with the same node and the same content of
`szError`, whatever the node passed as `json` held. -/
theorem C24_trailing_content_ignored (strtod : List Nat → D × Nat) (cfg : ParserConfig)
    (s t tail tail2 : List Nat) (json json2 n : Node D) (e e1 : List Nat)
    (hs : ∀ b ∈ s, b ≠ 0) (ht : ∀ b ∈ t, b ≠ 0)
    (h : Parse strtod cfg (s ++ 0 :: tail) json e
      = .ret ({ m_bSuccess := true, m_szMsg := [] }, n, e1))
    (hn : n.GetType = .Object ∨ n.GetType = .Array) :
    Parse strtod cfg (s ++ t ++ 0 :: tail2) json2 e
      = .ret ({ m_bSuccess := true, m_szMsg := [] }, n, e1) := by
  unfold Parse at h ⊢
  obtain ⟨g, hg, h⟩ := Outcome.bind_eq_ret.1 h
  by_cases hsucc : g.res.m_bSuccess = false
  · exfalso
    rw [if_pos hsucc] at h
    injection h with e2
    injection e2 with e3 e4
    rw [e3] at hsucc
    exact absurd hsucc (by decide)
  · rw [if_neg hsucc] at h
    injection h with e2
    injection e2 with e3 e4
    injection e4 with e5 e6
    subst e5 e6
    have hs' : g.res.m_bSuccess = true := by simpa using hsucc
    have hlive : ∀ w, SkipWhitespace (UTF8Iterator.new (s ++ 0 :: tail)) e = .ret w →
        w.iter.Read.1 ≠ 0 := by
      intro w hw hz
      by_cases hok : w.ok = false
      · simp only [GenerateNodes, hw, Outcome.ret_bind, hok, if_true] at hg
        injection hg with e7
        subst e7
        simp [BuildSpanFail] at hs'
      · have hok' : w.ok = true := by simpa using hok
        rw [GenerateNodes_of_skip strtod _ _ _ _ e json w hw hok',
          scopeLoop_dead _ strtod _ _ _ _ hz] at hg
        simp only [Outcome.ret_bind, Bool.true_eq_false, if_false] at hg
        injection hg with e7
        subst e7
        rcases hn with c | c <;> simp [scopeEnd, Node.copy, Node.GetType] at c
    have hread : (UTF8Iterator.new (s ++ 0 :: tail)).Read.1 ≠ 0 := by
      obtain ⟨w, hw, -, hk⟩ := SkipWhitespace_ends (UTF8Iterator.new (s ++ 0 :: tail)) e
      by_cases hok : w.ok = false
      · exact absurd (SkipWhitespace_false_dead _ _ _ hw hok) (hlive w hw)
      · exact (hk (by simpa using hok)).1
    obtain ⟨i1, hi1, -⟩ := GenerateNodes_ext strtod (cfg.m_uMaxDepth + 1) 0 cfg.m_uMaxDepth
      (UTF8Iterator.new (s ++ 0 :: tail)) e json g hg hs' hlive
      (UTF8Iterator.new (s ++ t ++ 0 :: tail2)) (UTF8Iterator.new_ext s t tail tail2 hs ht hread)
    have hi1' : GenerateNodes strtod (cfg.m_uMaxDepth + 1)
        (UTF8Iterator.new (s ++ t ++ 0 :: tail2)) e 0 cfg.m_uMaxDepth json2
          = .ret (g.withIter i1) := hi1
    exact Outcome.bind_eq_ret.2 ⟨g.withIter i1, hi1',
      by rw [if_neg (show ¬ (g.withIter i1).res.m_bSuccess = false from hsucc)]; rfl⟩

end LocalityTop

/-- Witness of C24: the input `[1]`, then the same input followed by `x}`, with
the default configuration and the stand-in `strtodDigits`. -/
theorem C24_trailing_content_ignored_witness :
    (∀ b ∈ ([0x5B, 0x31, 0x5D] : List Nat), b ≠ 0) ∧ (∀ b ∈ ([0x78, 0x7D] : List Nat), b ≠ 0) ∧
    Parse strtodDigits {} ([0x5B, 0x31, 0x5D] ++ 0 :: []) Node.null []
      = .ret ({ m_bSuccess := true, m_szMsg := [] }, .array .Number [.number 1], []) ∧
    ((Node.array .Number [.number 1] : Node Nat).GetType = .Object ∨
      (Node.array .Number [.number 1] : Node Nat).GetType = .Array) ∧
    Parse strtodDigits {} ([0x5B, 0x31, 0x5D] ++ [0x78, 0x7D] ++ 0 :: []) (Node.boolean true) []
      = .ret ({ m_bSuccess := true, m_szMsg := [] }, .array .Number [.number 1], []) :=
  ⟨by decide, by decide, eq_of_returns (by decide!), Or.inr rfl,
    C24_trailing_content_ignored strtodDigits {} [0x5B, 0x31, 0x5D] [0x78, 0x7D] [] []
      Node.null (Node.boolean true) (.array .Number [.number 1]) [] [] (by decide) (by decide)
      (eq_of_returns (by decide!)) (Or.inr rfl)⟩

/-! ### String literals as `Read` decodes them -/

theorem escapedAfter_eq_from (p : List Nat) : escapedAfter p = escapedFrom false p := rfl

theorem escapedFrom_cons (b : Bool) (c : Nat) (p : List Nat) :
    escapedFrom b (c :: p) = escapedFrom (decide (c = 0x5C) && !b) p := rfl

namespace UTF8Iterator

theorem step_Read (it : UTF8Iterator) : it.Read.2.step = it.step := by
  unfold step
  rw [Read_idem]

theorem reads_Read (k : Nat) (it : UTF8Iterator) : reads k it.Read.2 = reads k it := by
  cases k with
  | zero => rfl
  | succ k => simp only [reads, Read_idem, step_Read]

theorem steps_Read (a : Nat) (it : UTF8Iterator) :
    (steps a it.Read.2).Read.2 = (steps a it).Read.2 := by
  cases a with
  | zero => simp only [steps, Read_idem]
  | succ a => simp only [steps, step_Read]

theorem steps_succ_step (k : Nat) : ∀ it : UTF8Iterator, steps (k + 1) it = (steps k it).step := by
  induction k with
  | zero => intro it; rfl
  | succ k ih =>
    intro it
    show steps (k + 1) it.step = (steps k it.step).step
    exact ih it.step

theorem step_frame (it : UTF8Iterator) : it.step.buf = it.buf ∧ it.step.endp = it.endp := by
  unfold step
  obtain ⟨-, -, f3, f4⟩ := Read_frame it
  obtain ⟨a1, a2, -⟩ := Advance_frame it.Read.2
  exact ⟨a1.trans f3, a2.trans f4⟩

theorem steps_buf (k : Nat) : ∀ it : UTF8Iterator, (steps k it).buf = it.buf := by
  induction k with
  | zero => intro it; rfl
  | succ k ih =>
    intro it
    show (steps k it.step).buf = it.buf
    rw [ih it.step, (step_frame it).1]

theorem step_left (it : UTF8Iterator) (h : it.Read.1 ≠ 0) :
    it.step.GetNumBytesLeft < it.GetNumBytesLeft :=
  (Passes_Read_Advance it h).left_lt

/-- After a `Read` that returned a codepoint, `Advance` moves the cursor by the
bytes of that codepoint and the position by one. -/
theorem step_units (it : UTF8Iterator) (h : it.Read.1 ≠ 0) :
    it.step.units = it.units + it.Read.2.GetCodepointBytes ∧ it.step.pos = it.pos + 1 := by
  obtain ⟨h1, h3, h4⟩ := Advance_cases it.Read.2 (Advance_after_Read it h)
  have hr : it.Read.2.refresh = it.Read.2 := by
    have e := Read_idem it
    obtain ⟨g1, hc⟩ := Read_cases it h
    rcases hc with c | ⟨c2, c3, c4, c, hcs, c5⟩
    · rw [Read_ascii it g1 c]
      exact refresh_of_last_read _ rfl
    · rw [Read_multi it g1 c2 c3 c4 c hcs c5]
      exact refresh_of_last_read _ (by simp)
  obtain ⟨f1, f2, -, -⟩ := Read_frame it
  unfold step
  rw [Advance_of it.Read.2 h1 h3 h4, hr]
  exact ⟨by show it.Read.2.units + it.Read.2.n = _; rw [f1]; rfl,
    by show it.Read.2.pos + 1 = _; rw [f2]⟩

end UTF8Iterator

theorem span_buf (a b : UTF8Iterator) (h : a.buf = b.buf) (start len : Nat) :
    span a start len = span b start len := by
  unfold span
  rw [h]

/-- The loop of `SkipWhitespace` passes a run of whitespace and stops where the
next `Read` returns no whitespace. -/
theorem SkipWhitespace_loop_reads :
    ∀ (f h : Nat) (iter w : UTF8Iterator), iter.Read = (h, iter) →
      SkipWhitespace.loop f h iter = .ret w →
      ∃ a, Doc.blank (iter.reads a) ∧ w = (iter.steps a).Read.2 := by
  intro f
  induction f with
  | zero =>
    intro h iter w _ hl
    simp [SkipWhitespace.loop] at hl
  | succ f ih =>
    intro h iter w hfr hl
    unfold SkipWhitespace.loop at hl
    have hit : iter.Read.2 = iter := by rw [hfr]
    have hh : iter.Read.1 = h := by rw [hfr]
    by_cases c : h ≠ 0 ∧ IsWhitespace h = true
    · rw [if_pos c] at hl
      obtain ⟨a, ha, hw⟩ := ih _ _ w (UTF8Iterator.Read_idem _) hl
      have hs : iter.step = iter.Advance.2 := by
        unfold UTF8Iterator.step
        rw [hit]
      refine ⟨a + 1, ?_, ?_⟩
      · intro x hx
        simp only [UTF8Iterator.reads, List.mem_cons] at hx
        rcases hx with rfl | hx
        · rw [hh]
          exact c.2
        · rw [hs] at hx
          rw [UTF8Iterator.reads_Read] at ha
          exact ha x hx
      · rw [hw, UTF8Iterator.steps_Read]
        show _ = (UTF8Iterator.steps a iter.step).Read.2
        rw [hs]
    · rw [if_neg c] at hl
      injection hl with e1
      subst e1
      exact ⟨0, fun x hx => absurd hx (by simp [UTF8Iterator.reads]), hit.symm⟩

theorem SkipWhitespace_loop_of_reads :
    ∀ (a f h : Nat) (iter : UTF8Iterator), iter.Read = (h, iter) → iter.GetNumBytesLeft < f →
      Doc.blank (iter.reads a) → (iter.steps a).Read.1 ≠ 0 →
      IsWhitespace (iter.steps a).Read.1 = false →
      SkipWhitespace.loop f h iter = .ret (iter.steps a).Read.2 := by
  intro a
  induction a with
  | zero =>
    intro f h iter hfr hf _ _ hws
    obtain ⟨f', rfl⟩ : ∃ k, f = k + 1 := ⟨f - 1, by omega⟩
    have hit : iter.Read.2 = iter := by rw [hfr]
    have hh : iter.Read.1 = h := by rw [hfr]
    unfold SkipWhitespace.loop
    rw [if_neg (by
      rintro ⟨-, c⟩
      rw [← hh] at c
      have : IsWhitespace (UTF8Iterator.steps 0 iter).Read.1 = true := c
      rw [hws] at this
      exact absurd this (by decide))]
    show Outcome.ret iter = .ret iter.Read.2
    rw [hit]
  | succ a ih =>
    intro f h iter hfr hf hb hnz hws
    obtain ⟨f', rfl⟩ : ∃ k, f = k + 1 := ⟨f - 1, by omega⟩
    have hit : iter.Read.2 = iter := by rw [hfr]
    have hh : iter.Read.1 = h := by rw [hfr]
    have hs : iter.step = iter.Advance.2 := by
      unfold UTF8Iterator.step
      rw [hit]
    have hw0 : IsWhitespace h = true := by
      rw [← hh]
      exact hb _ (by simp [UTF8Iterator.reads])
    have h0 : h ≠ 0 := by
      intro hz
      rw [hz] at hw0
      exact absurd hw0 (by decide)
    unfold SkipWhitespace.loop
    rw [if_pos ⟨h0, hw0⟩]
    have hleft := UTF8Iterator.step_left iter (by rw [hh]; exact h0)
    rw [hs] at hleft
    have key := ih f' iter.Advance.2.Read.1 iter.Advance.2.Read.2 (UTF8Iterator.Read_idem _)
      (by rw [UTF8Iterator.Read_left]; omega)
      (by
        rw [UTF8Iterator.reads_Read, ← hs]
        intro x hx
        exact hb x (by simp [UTF8Iterator.reads, hx]))
      (by
        have e := UTF8Iterator.steps_Read a iter.Advance.2
        have e2 : (UTF8Iterator.steps a iter.Advance.2.Read.2).Read
            = (UTF8Iterator.steps a iter.Advance.2).Read := by
          rw [← UTF8Iterator.Read_idem (UTF8Iterator.steps a iter.Advance.2.Read.2), e,
            UTF8Iterator.Read_idem]
        rw [e2, ← hs]
        exact hnz)
      (by
        have e := UTF8Iterator.steps_Read a iter.Advance.2
        have e2 : (UTF8Iterator.steps a iter.Advance.2.Read.2).Read
            = (UTF8Iterator.steps a iter.Advance.2).Read := by
          rw [← UTF8Iterator.Read_idem (UTF8Iterator.steps a iter.Advance.2.Read.2), e,
            UTF8Iterator.Read_idem]
        rw [e2, ← hs]
        exact hws)
    simp only [key]
    rw [UTF8Iterator.steps_Read, ← hs]
    rfl

/-- A call of `SkipWhitespace` that returns true has passed a run of whitespace
and left the iterator as the `Read` after it leaves it. -/
theorem SkipWhitespace_reads (it : UTF8Iterator) (e : List Nat) (w : Scan)
    (h : SkipWhitespace it e = .ret w) (hok : w.ok = true) :
    ∃ a, Doc.blank (it.reads a) ∧
      w = { ok := true, iter := (it.steps a).Read.2, str := [], szError := e } := by
  unfold SkipWhitespace at h
  by_cases h0 : it.Read.1 = 0
  · simp only [h0, if_true] at h
    injection h with e1
    subst e1
    simp at hok
  · simp only [h0, if_false] at h
    obtain ⟨x, hx1, hx2⟩ := Outcome.bind_eq_ret.1 h
    injection hx2 with e2
    subst e2
    obtain ⟨a, ha, hw⟩ := SkipWhitespace_loop_reads _ _ _ x (UTF8Iterator.Read_idem it) hx1
    refine ⟨a, ?_, ?_⟩
    · rw [UTF8Iterator.reads_Read] at ha
      exact ha
    · rw [hw, UTF8Iterator.steps_Read]

theorem SkipWhitespace_of_reads (it : UTF8Iterator) (e : List Nat) (a : Nat)
    (hb : Doc.blank (it.reads a)) (hnz : (it.steps a).Read.1 ≠ 0)
    (hws : IsWhitespace (it.steps a).Read.1 = false) :
    SkipWhitespace it e
      = .ret { ok := true, iter := (it.steps a).Read.2, str := [], szError := e } := by
  have h0 : it.Read.1 ≠ 0 := by
    cases a with
    | zero => exact hnz
    | succ a =>
      intro hz
      have := hb it.Read.1 (by simp [UTF8Iterator.reads])
      rw [hz] at this
      exact absurd this (by decide)
  have e2 : ∀ x : UTF8Iterator, x.Read.2.Read = x.Read := UTF8Iterator.Read_idem
  have e3 : (UTF8Iterator.steps a it.Read.2).Read = (UTF8Iterator.steps a it).Read := by
    rw [← e2 (UTF8Iterator.steps a it.Read.2), UTF8Iterator.steps_Read, e2]
  have key := SkipWhitespace_loop_of_reads a (it.Read.2.GetNumBytesLeft + 1) it.Read.1 it.Read.2
    (UTF8Iterator.Read_idem it) (by omega) (by rw [UTF8Iterator.reads_Read]; exact hb)
    (by rw [e3]; exact hnz) (by rw [e3]; exact hws)
  unfold SkipWhitespace
  simp only [h0, if_false, key, Outcome.ret_bind, UTF8Iterator.steps_Read]

/-- The loop of `GetNextString`, when it returns true, has passed codepoints up
to the first quote that is not escaped. -/
theorem GetNextString_loop_reads (start : Nat) (e : List Nat) :
    ∀ (f : Nat) (b : Bool) (iter : UTF8Iterator) (w : Scan),
      GetNextString.loop start e f b iter = .ret w → w.ok = true →
      ∃ i, (∀ j < i, (iter.steps j).Read.1 ≠ 0) ∧
        (∀ j < i, (iter.steps j).Read.1 = 0x22 → escapedFrom b (iter.reads j) = true) ∧
        (iter.steps i).Read.1 = 0x22 ∧ escapedFrom b (iter.reads i) = false ∧
        w = { ok := true, iter := (iter.steps i).step, str := span iter start ((iter.steps i).units - start), szError := e } := by
  intro f
  induction f with
  | zero =>
    intro b iter w hl
    simp [GetNextString.loop] at hl
  | succ f ih =>
    intro b iter w hl hok
    unfold GetNextString.loop at hl
    by_cases h0 : iter.Read.1 = 0
    · simp only [h0, if_true] at hl
      injection hl with e1
      subst e1
      simp at hok
    · simp only [h0, if_false] at hl
      have shift : ∀ (b2 : Bool), (decide (iter.Read.1 = 0x5C) && !b) = b2 →
          (iter.Read.1 = 0x22 → b = true) →
          GetNextString.loop start e f b2 iter.Read.2.Advance.2 = .ret w →
          ∃ i, (∀ j < i, (iter.steps j).Read.1 ≠ 0) ∧
            (∀ j < i, (iter.steps j).Read.1 = 0x22 → escapedFrom b (iter.reads j) = true) ∧
            (iter.steps i).Read.1 = 0x22 ∧ escapedFrom b (iter.reads i) = false ∧
            w = { ok := true, iter := (iter.steps i).step, str := span iter start ((iter.steps i).units - start), szError := e } := by
        intro b2 hb2 hq hl2
        obtain ⟨i, c1, c2, c3, c4, c5⟩ := ih b2 iter.step w hl2 hok
        refine ⟨i + 1, ?_, ?_, c3, ?_, ?_⟩
        · intro j hj
          cases j with
          | zero => exact h0
          | succ j => exact c1 j (by omega)
        · intro j hj hg
          cases j with
          | zero => exact hq hg
          | succ j =>
            show escapedFrom b (iter.Read.1 :: iter.step.reads j) = true
            rw [escapedFrom_cons, hb2]
            exact c2 j (by omega) hg
        · show escapedFrom b (iter.Read.1 :: iter.step.reads i) = false
          rw [escapedFrom_cons, hb2]
          exact c4
        · rw [c5]
          show _ = ({ ok := true, iter := (UTF8Iterator.steps i iter.step).step, str := span iter start ((UTF8Iterator.steps i iter.step).units - start), szError := e } : Scan)
          rw [span_buf iter.step iter (UTF8Iterator.step_frame iter).1]
      by_cases h1 : iter.Read.1 = 0x5C ∧ b = false
      · rw [if_pos h1] at hl
        exact shift true (by simp [h1.1, h1.2]) (fun hg => by rw [h1.1] at hg; omega) hl
      · rw [if_neg h1] at hl
        by_cases h2 : iter.Read.1 = 0x22 ∧ b = false
        · rw [if_pos h2] at hl
          injection hl with e1
          subst e1
          refine ⟨0, fun j hj => absurd hj (by omega), fun j hj => absurd hj (by omega), h2.1,
            h2.2, ?_⟩
          rw [UTF8Iterator.Advance_after_Read iter h0]
          show _ = ({ ok := true, iter := iter.step, str := span iter start (iter.units - start), szError := e } : Scan)
          rw [span_buf iter.Read.2 iter (UTF8Iterator.Read_frame iter).2.2.1]
          unfold UTF8Iterator.GetReadPtr
          rw [(UTF8Iterator.Read_frame iter).1]
          rfl
        · rw [if_neg h2] at hl
          refine shift false ?_ ?_ hl
          · cases hb : b
            · have : ¬ iter.Read.1 = 0x5C := fun c => h1 ⟨c, hb⟩
              simp [this]
            · simp
          · intro hg
            cases hb : b
            · exact absurd ⟨hg, hb⟩ h2
            · rfl

theorem GetNextString_loop_of_reads (start : Nat) (e : List Nat) :
    ∀ (i f : Nat) (b : Bool) (iter : UTF8Iterator), iter.GetNumBytesLeft < f →
      (∀ j < i, (iter.steps j).Read.1 ≠ 0) →
      (∀ j < i, (iter.steps j).Read.1 = 0x22 → escapedFrom b (iter.reads j) = true) →
      (iter.steps i).Read.1 = 0x22 → escapedFrom b (iter.reads i) = false →
      GetNextString.loop start e f b iter
        = .ret { ok := true, iter := (iter.steps i).step, str := span iter start ((iter.steps i).units - start), szError := e } := by
  intro i
  induction i with
  | zero =>
    intro f b iter hf _ _ hq hb
    obtain ⟨f', rfl⟩ : ∃ k, f = k + 1 := ⟨f - 1, by omega⟩
    have hq' : iter.Read.1 = 0x22 := hq
    have hb' : b = false := hb
    have h0 : iter.Read.1 ≠ 0 := by rw [hq']; decide
    unfold GetNextString.loop
    simp only [h0, if_false]
    rw [if_neg (by rw [hq']; rintro ⟨c, -⟩; omega), if_pos ⟨hq', hb'⟩,
      UTF8Iterator.Advance_after_Read iter h0,
      span_buf iter.Read.2 iter (UTF8Iterator.Read_frame iter).2.2.1]
    unfold UTF8Iterator.GetReadPtr
    rw [(UTF8Iterator.Read_frame iter).1]
    rfl
  | succ i ih =>
    intro f b iter hf c1 c2 c3 c4
    obtain ⟨f', rfl⟩ : ∃ k, f = k + 1 := ⟨f - 1, by omega⟩
    have h0 : iter.Read.1 ≠ 0 := c1 0 (by omega)
    have hleft := UTF8Iterator.step_left iter h0
    have key := ih f' (decide (iter.Read.1 = 0x5C) && !b) iter.step (by omega)
      (fun j hj => c1 (j + 1) (by omega))
      (fun j hj hg => by
        have := c2 (j + 1) (by omega) hg
        exact this)
      c3 c4
    have hsp : span iter.step start ((UTF8Iterator.steps i iter.step).units - start)
        = span iter start ((UTF8Iterator.steps (i + 1) iter).units - start) := by
      rw [span_buf iter.step iter (UTF8Iterator.step_frame iter).1]
      rfl
    rw [hsp] at key
    unfold GetNextString.loop
    simp only [h0, if_false]
    by_cases h1 : iter.Read.1 = 0x5C ∧ b = false
    · rw [if_pos h1]
      have hb2 : (decide (iter.Read.1 = 0x5C) && !b) = true := by simp [h1.1, h1.2]
      rw [hb2] at key
      exact key
    · rw [if_neg h1]
      have hnq : ¬ (iter.Read.1 = 0x22 ∧ b = false) := by
        rintro ⟨hg, hb⟩
        have := c2 0 (by omega) hg
        have e0 : escapedFrom b (UTF8Iterator.reads 0 iter) = b := rfl
        rw [e0, hb] at this
        exact absurd this (by decide)
      rw [if_neg hnq]
      have hb2 : (decide (iter.Read.1 = 0x5C) && !b) = false := by
        cases hb : b
        · have : ¬ iter.Read.1 = 0x5C := fun c => h1 ⟨c, hb⟩
          simp [this]
        · simp
      rw [hb2] at key
      exact key

/-- The function `GetNextString` returns true exactly on whitespace, a quote,
codepoints up to the first quote that is not escaped, and that quote; the string
is the bytes between the two quotes. -/
theorem GetNextString_iff_reads (it : UTF8Iterator) (e : List Nat) (w : Scan) :
    (GetNextString it e = .ret w ∧ w.ok = true) ↔
      ∃ (a i : Nat) (A Z : UTF8Iterator),
        Doc.blank (it.reads a) ∧ (it.steps a).Read.1 = 0x22 ∧ A = (it.steps a).step ∧
        (∀ j < i, (A.steps j).Read.1 ≠ 0) ∧
        (∀ j < i, (A.steps j).Read.1 = 0x22 → escapedAfter (A.reads j) = true) ∧
        Z = A.steps i ∧ Z.Read.1 = 0x22 ∧ escapedAfter (A.reads i) = false ∧
        w = { ok := true, iter := Z.step, str := span it A.units (Z.units - A.units), szError := e } := by
  have hA : ∀ a, ((it.steps a).Read.2).Read.2.Advance.2 = (it.steps a).step := by
    intro a
    rw [UTF8Iterator.Read_idem]
    rfl
  have hbuf : ∀ a, ((it.steps a).step).buf = it.buf := by
    intro a
    rw [(UTF8Iterator.step_frame _).1, UTF8Iterator.steps_buf]
  constructor
  · rintro ⟨h, hok⟩
    obtain ⟨w0, hw0, hok0, hq⟩ := GetNextString_ok_skip it e w h hok
    obtain ⟨a, hb, hw0eq⟩ := SkipWhitespace_reads it e w0 hw0 hok0
    rw [GetNextString_of_skip it e w0 hw0 hok0 hq] at h
    subst hw0eq
    simp only [hA a] at h
    have hq' : (it.steps a).Read.1 = 0x22 := by
      have : ((it.steps a).Read.2).Read.1 = 0x22 := hq
      rw [UTF8Iterator.Read_idem] at this
      exact this
    obtain ⟨i, c1, c2, c3, c4, c5⟩ := GetNextString_loop_reads _ _ _ _ _ w h hok
    refine ⟨a, i, (it.steps a).step, ((it.steps a).step).steps i, hb, hq', rfl, c1, c2, rfl, c3,
      c4, ?_⟩
    rw [c5, span_buf _ it (hbuf a)]
    rfl
  · rintro ⟨a, i, A, Z, hb, hq, rfl, c1, c2, rfl, c3, c4, rfl⟩
    have hw0 := SkipWhitespace_of_reads it e a hb (by rw [hq]; decide) (by rw [hq]; decide)
    have hq' : ((it.steps a).Read.2).Read.1 = 0x22 := by
      rw [UTF8Iterator.Read_idem]
      exact hq
    refine ⟨?_, rfl⟩
    rw [GetNextString_of_skip it e _ hw0 rfl hq']
    simp only [hA a]
    rw [GetNextString_loop_of_reads _ _ i _ false _ (by omega) c1 c2 c3 c4,
      span_buf _ it (hbuf a)]
    rfl

/-- C21, amended: `GetNextString` returns true exactly when, from the iterator
on, `Read` returns `a` whitespace characters, a quote (`A` is the iterator once
this quote is read and passed), `i` codepoints none of which is 0 and among
which every quote is escaped, and a quote that is not escaped (`Z` is the
iterator that reads it); the string is then the bytes of the buffer from the
cursor of `A` to the cursor of `Z`, backslashes kept, `szError` is untouched and
the iterator is `Z` once the closing quote is read and passed. The quotes and
backslashes are the codepoints that `Read` decodes, whatever bytes encode them.
`GetNextLiteral`, which the parser calls for labels and values, returns the same. -/
theorem C21_string_literal_as_decoded (it : UTF8Iterator) (e : List Nat) (w : Scan) :
    ((GetNextString it e = .ret w ∧ w.ok = true) ↔
      ∃ (a i : Nat) (A Z : UTF8Iterator),
        Doc.blank (it.reads a) ∧ (it.steps a).Read.1 = 0x22 ∧ A = (it.steps a).step ∧
        (∀ j < i, (A.steps j).Read.1 ≠ 0) ∧
        (∀ j < i, (A.steps j).Read.1 = 0x22 → escapedAfter (A.reads j) = true) ∧
        Z = A.steps i ∧ Z.Read.1 = 0x22 ∧ escapedAfter (A.reads i) = false ∧
        w = { ok := true, iter := Z.step, str := span it A.units (Z.units - A.units), szError := e }) ∧
    (GetNextString it e = .ret w → w.ok = true → GetNextLiteral it e = .ret w) := by
  refine ⟨GetNextString_iff_reads it e w, fun h hok => ?_⟩
  obtain ⟨a, i, A, Z, hb, hq, hA, c1, c2, hZ, c3, c4, hw⟩ :=
    (GetNextString_iff_reads it e w).1 ⟨h, hok⟩
  have hw0 := SkipWhitespace_of_reads it e a hb (by rw [hq]; decide) (by rw [hq]; decide)
  have hq' : ((it.steps a).Read.2).Read.1 = 0x22 := by
    rw [UTF8Iterator.Read_idem]
    exact hq
  rw [GetNextLiteral_of_skip it e _ hw0 rfl]
  simp only []
  rw [if_pos hq', UTF8Iterator.Read_idem]
  refine ((GetNextString_iff_reads (it.steps a).Read.2 e w).2
    ⟨0, i, A, Z, fun x hx => absurd hx (by simp [UTF8Iterator.reads]), hq', ?_, c1, c2, hZ, c3,
      c4, ?_⟩).1
  · rw [hA]
    exact (UTF8Iterator.step_Read _).symm
  · rw [hw, span_buf (it.steps a).Read.2 it
      ((UTF8Iterator.Read_frame _).2.2.1.trans (UTF8Iterator.steps_buf a it))]

/-- C21: the bytes `C0 A2` and `C1 9C` are overlong forms that `Read` decodes as
a quote and as a backslash. In the literal `"a`, `C0 A2`, `b"` the string ends
before `C0 A2`: it is `a`, and the iterator is left at offset 4, while the first
later byte `"` stands at offset 5. In the literal `"`, `C1 9C`, `"a"` the bytes
`C1 9C` escape the quote at offset 3: the string is `C1 9C "a` and the iterator
is left at offset 6. -/
theorem C21_overlong_quote_closes :
    (GetNextString (UTF8Iterator.new [0x22, 0x61, 0xC0, 0xA2, 0x62, 0x22, 0]) []).bind
        (fun w => .ret (w.ok, w.str, w.iter.units)) = .ret (true, [0x61], 4) ∧
    ([0x61, 0xC0, 0xA2, 0x62, 0x22, 0] : List Nat).takeWhile (fun b => b != 0x22)
      = [0x61, 0xC0, 0xA2, 0x62] ∧
    (GetNextString (UTF8Iterator.new [0x22, 0xC1, 0x9C, 0x22, 0x61, 0x22, 0]) []).bind
        (fun w => .ret (w.ok, w.str, w.iter.units)) = .ret (true, [0xC1, 0x9C, 0x22, 0x61], 6) ∧
    ([0xC1, 0x9C, 0x22, 0x61, 0x22, 0] : List Nat).takeWhile (fun b => b != 0x22)
      = [0xC1, 0x9C] :=
  ⟨by decide!, by decide, by decide!, by decide⟩

/-- Witness of C21 as amended: a space, then the literal of the bytes `C1 9C`,
`"`, `a` between quotes, where `C1 9C` is decoded as a backslash and escapes the
quote that follows. -/
theorem C21_string_literal_as_decoded_witness :
    GetNextString (UTF8Iterator.new [0x20, 0x22, 0xC1, 0x9C, 0x22, 0x61, 0x22, 0]) []
      = .ret { ok := true, iter := { buf := [0x20, 0x22, 0xC1, 0x9C, 0x22, 0x61, 0x22, 0], units := 7, endp := 7, last_read := some 6, pos := 6, n := 1 }, str := [0xC1, 0x9C, 0x22, 0x61], szError := [] } ∧
    GetNextLiteral (UTF8Iterator.new [0x20, 0x22, 0xC1, 0x9C, 0x22, 0x61, 0x22, 0]) []
      = .ret { ok := true, iter := { buf := [0x20, 0x22, 0xC1, 0x9C, 0x22, 0x61, 0x22, 0], units := 7, endp := 7, last_read := some 6, pos := 6, n := 1 }, str := [0xC1, 0x9C, 0x22, 0x61], szError := [] } ∧
    ∃ (a i : Nat) (A Z : UTF8Iterator),
      Doc.blank ((UTF8Iterator.new [0x20, 0x22, 0xC1, 0x9C, 0x22, 0x61, 0x22, 0]).reads a) ∧
      ((UTF8Iterator.new [0x20, 0x22, 0xC1, 0x9C, 0x22, 0x61, 0x22, 0]).steps a).Read.1 = 0x22 ∧
      A = ((UTF8Iterator.new [0x20, 0x22, 0xC1, 0x9C, 0x22, 0x61, 0x22, 0]).steps a).step ∧
      (∀ j < i, (A.steps j).Read.1 ≠ 0) ∧
      (∀ j < i, (A.steps j).Read.1 = 0x22 → escapedAfter (A.reads j) = true) ∧
      Z = A.steps i ∧ Z.Read.1 = 0x22 ∧ escapedAfter (A.reads i) = false ∧
      ({ ok := true, iter := { buf := [0x20, 0x22, 0xC1, 0x9C, 0x22, 0x61, 0x22, 0], units := 7, endp := 7, last_read := some 6, pos := 6, n := 1 }, str := [0xC1, 0x9C, 0x22, 0x61], szError := [] } : Scan)
        = { ok := true, iter := Z.step, str := span (UTF8Iterator.new [0x20, 0x22, 0xC1, 0x9C, 0x22, 0x61, 0x22, 0]) A.units (Z.units - A.units), szError := [] } := by
  have h : GetNextString (UTF8Iterator.new [0x20, 0x22, 0xC1, 0x9C, 0x22, 0x61, 0x22, 0]) []
      = .ret { ok := true, iter := { buf := [0x20, 0x22, 0xC1, 0x9C, 0x22, 0x61, 0x22, 0], units := 7, endp := 7, last_read := some 6, pos := 6, n := 1 }, str := [0xC1, 0x9C, 0x22, 0x61], szError := [] } := by
    decide!
  exact ⟨h, (C21_string_literal_as_decoded _ [] _).2 h rfl,
    (C21_string_literal_as_decoded _ [] _).1.1 ⟨h, rfl⟩⟩

/-! ### The position that a failure message names -/

namespace UTF8Iterator

end UTF8Iterator

section Position

variable {D : Type}

end Position

/-! ### The failure message as `std::string` -/

end n2ajl
